import Mathlib

/-! # rocPRIM device primitives: reduce-by-key, partition, scan, segmented radix sort

Shallow embedding of the device kernels and host drivers of

* `rocprim/device/detail/device_reduce_by_key.hpp`
* `rocprim/device/detail/device_partition.hpp`
* `rocprim/device/device_scan_hc.hpp`
* `rocprim/device/device_segmented_radix_sort_hc.hpp`

Conventions.

* `unsigned int` values are naturals below `2^32`; every `unsigned int`
  operation of the kernels is written with `wrap32` / `sub32`.
* An iterator is a function `Nat → α` (random access by index).
* The registers of one block are a function of the item index
  `j = flat_id * ItemsPerThread + i` (blocked arrangement, which is what
  `block_load_transpose` produces): thread `flat_id` holds the items
  `flat_id * ItemsPerThread + i`, `i < ItemsPerThread`.
* Registers and shared memory that the code leaves uninitialised take their
  value from an arbitrary `uninit` function.
* A kernel returns the list of global stores it performs, `(index, value)`.
* `size_t` values are naturals; the `size_t` operations of the host functions are
  written with `wrap64` / `sub64`.
* A host function whose loop or recursion is not bounded by its text takes a `fuel`
  and returns `none` when the fuel does not suffice.
-/

namespace RocPrim

/-! ## Machine arithmetic and memory -/

/-- Truncation of a natural number to `unsigned int`. -/
def wrap32 (n : Nat) : Nat := n % 4294967296

/-- Subtraction of `unsigned int` values, `a - b` modulo `2^32`. -/
def sub32 (a b : Nat) : Nat := (a + (4294967296 - b % 4294967296)) % 4294967296

/-- Truncation of a natural number to `size_t` (64 bits). -/
def wrap64 (n : Nat) : Nat := n % 18446744073709551616

/-- Subtraction of `size_t` values, `a - b` modulo `2^64`. -/
def sub64 (a b : Nat) : Nat :=
  (a + (18446744073709551616 - b % 18446744073709551616)) % 18446744073709551616

/-- Global memory after a list of stores, the first store of the list first. -/
def apply_writes {α : Type} (mem : Nat → α) : List (Nat × α) → Nat → α
  | [] => mem
  | w :: ws => apply_writes (Function.update mem w.1 w.2) ws

/-! ## Block and warp primitives (external to the kernels) -/

/-- Modelled from the spec: `block_load` (§2 "block-cooperative load with
transpose") of a full tile; item `j` of the block receives `src[block_offset + j]`. -/
def block_load {α : Type} (src : Nat → α) (block_offset : Nat) : Nat → α :=
  fun j => src (block_offset + j)

/-- Modelled from the spec: `block_load` of a partial tile ("possibly partial for
the last block"); only the first `valid` items are read, the other registers keep
their uninitialised content. -/
def block_load_valid {α : Type} (src : Nat → α) (block_offset valid : Nat)
    (uninit : Nat → α) : Nat → α :=
  fun j => if j < valid then src (block_offset + j) else uninit j

/-- Modelled from the spec: `block_load` of a partial tile with a default value
for the items at or after `valid`. -/
def block_load_default {α : Type} (src : Nat → α) (block_offset valid : Nat)
    (dflt : α) : Nat → α :=
  fun j => if j < valid then src (block_offset + j) else dflt

/-- Modelled from the spec: head flags of `block_discontinuity::flag_heads_and_tails`
without tile predecessor ("the first item is always a head"); item `j > 0` is
flagged when `flag_op (previous item) (item) j` holds, `j` being the index of the
second argument in the block. -/
def flag_heads {K : Type} (flag_op : K → K → Nat → Bool) (keys : Nat → K) : Nat → Bool :=
  fun j => if j = 0 then true else flag_op (keys (j - 1)) (keys j) j

/-- Modelled from the spec: tail flags of `block_discontinuity` with a tile
successor; item `j` is flagged when `flag_op (item) (next item) (j + 1)` holds, the
next item of the last item of the block being `tile_successor_item`. -/
def flag_tails {K : Type} (items_per_block : Nat) (flag_op : K → K → Nat → Bool)
    (tile_successor_item : K) (keys : Nat → K) : Nat → Bool :=
  fun j => flag_op (keys j)
    (if j + 1 < items_per_block then keys (j + 1) else tile_successor_item) (j + 1)

/-- Modelled from the spec: `block_scan::inclusive_scan` ("block exclusive/inclusive
scan"), the left-to-right inclusive scan of the items of the block. -/
def block_inclusive_scan {α : Type} (op : α → α → α) (xs : Nat → α) : Nat → α
  | 0 => xs 0
  | j + 1 => op (block_inclusive_scan op xs j) (xs (j + 1))

/-- Modelled from the spec: `bit_count(ballot(pred))` evaluated in warp `warp_id`
("warp ballot/bit-count"): the number of lanes of the warp whose thread exists in
the block and has a true predicate. -/
def ballot_bit_count (warp_size BlockSize : Nat) (pred : Nat → Bool) (warp_id : Nat) : Nat :=
  ((List.range warp_size).filter
    (fun lane => decide (warp_id * warp_size + lane < BlockSize)
      && pred (warp_id * warp_size + lane))).length

/-! ## `device_reduce_by_key.hpp` -/

/-- The `carry_out` record of `device_reduce_by_key.hpp`. -/
structure carry_out (K V : Type) where
  key : K
  value : V
  destination : Nat
  is_final_aggregate : Nat

/-- The `scan_by_key_pair` record of `device_reduce_by_key.hpp`. -/
structure scan_by_key_pair (V : Type) where
  key : Nat
  value : V

/-- The call operator of `scan_by_key_op`. -/
def scan_by_key_op {V : Type} (reduce_op : V → V → V)
    (a b : scan_by_key_pair V) : scan_by_key_pair V :=
  { key := wrap32 (a.key + b.key)
    value := if b.key != 0 then b.value else reduce_op a.value b.value }

/-- The call operator of `key_flag_op`. -/
def key_flag_op {K : Type} (key_compare_op : K → K → Bool) (a b : K) : Bool :=
  !key_compare_op a b

/-- The call operator of `guarded_key_flag_op`. -/
def guarded_key_flag_op {K : Type} (key_compare_op : K → K → Bool) (valid_count : Nat)
    (a b : K) (b_index : Nat) : Bool :=
  (decide (b_index < valid_count) && !key_compare_op a b) || decide (b_index = valid_count)

/-- The batch geometry computed at the top of `fill_unique_counts` and of
`reduce_by_key`: the pair `(block_id, blocks_per_batch)` of batch `batch_id`. -/
def batch_geometry (blocks_per_full_batch full_batches batch_id : Nat) : Nat × Nat :=
  if batch_id < full_batches then
    (wrap32 (batch_id * blocks_per_full_batch), blocks_per_full_batch)
  else
    (wrap32 (batch_id * sub32 blocks_per_full_batch 1 + full_batches),
      sub32 blocks_per_full_batch 1)

/-- The `valid_count` of a block of `fill_unique_counts` / `reduce_by_key`. -/
def block_valid_count (items_per_block size block_offset : Nat) : Nat :=
  if wrap32 (block_offset + items_per_block) ≤ size then items_per_block
  else sub32 size block_offset

/-- The keys loaded by a block of `fill_unique_counts` / `reduce_by_key`. -/
def block_keys {K : Type} (items_per_block size : Nat) (keys_input uninit : Nat → K)
    (block_offset : Nat) : Nat → K :=
  if wrap32 (block_offset + items_per_block) ≤ size then block_load keys_input block_offset
  else block_load_valid keys_input block_offset (sub32 size block_offset) uninit

/-- The item `ItemsPerThread - 1` of the thread `BlockSize - 1`. -/
def last_item (BlockSize ItemsPerThread : Nat) : Nat :=
  (BlockSize - 1) * ItemsPerThread + (ItemsPerThread - 1)

/-- The tail flags of a block of `fill_unique_counts` / `reduce_by_key`: the guarded
predicate in the last block (successor `keys[ItemsPerThread - 1]`), `key_flag_op`
with the first key of the next block as successor elsewhere. -/
def block_tail_flags {K : Type} (BlockSize ItemsPerThread size blocks : Nat)
    (keys_input uninit : Nat → K) (key_compare_op : K → K → Bool)
    (block_id : Nat) : Nat → Bool :=
  let items_per_block := wrap32 (BlockSize * ItemsPerThread)
  let block_offset := wrap32 (block_id * items_per_block)
  let keys := block_keys items_per_block size keys_input uninit block_offset
  let valid_count := block_valid_count items_per_block size block_offset
  if block_id = sub32 blocks 1 then
    flag_tails items_per_block (guarded_key_flag_op key_compare_op valid_count)
      (keys (last_item BlockSize ItemsPerThread)) keys
  else
    flag_tails items_per_block (fun a b _ => key_flag_op key_compare_op a b)
      (keys_input (block_offset + items_per_block)) keys

/-- The head flags `flag_heads_and_tails` gives a block of `reduce_by_key`, with the
same flag operators as the tail flags. -/
def block_head_flags {K : Type} (BlockSize ItemsPerThread size blocks : Nat)
    (keys_input uninit : Nat → K) (key_compare_op : K → K → Bool)
    (block_id : Nat) : Nat → Bool :=
  let items_per_block := wrap32 (BlockSize * ItemsPerThread)
  let block_offset := wrap32 (block_id * items_per_block)
  let keys := block_keys items_per_block size keys_input uninit block_offset
  let valid_count := block_valid_count items_per_block size block_offset
  if block_id = sub32 blocks 1 then
    flag_heads (guarded_key_flag_op key_compare_op valid_count) keys
  else
    flag_heads (fun a b _ => key_flag_op key_compare_op a b) keys

/-- One iteration of the block loop of `fill_unique_counts`; the loop state is
`block_id` and the `warp_unique_count` of every warp. -/
def fill_unique_counts_block {K : Type} (BlockSize ItemsPerThread warp_size : Nat)
    (keys_input uninit : Nat → K) (size : Nat) (key_compare_op : K → K → Bool)
    (blocks : Nat) (st : Nat × (Nat → Nat)) (_bi : Nat) : Nat × (Nat → Nat) :=
  let block_id := st.1
  let tail_flags := block_tail_flags BlockSize ItemsPerThread size blocks keys_input
    uninit key_compare_op block_id
  (wrap32 (block_id + 1),
    fun warp_id => (List.range ItemsPerThread).foldl
      (fun (warp_unique_count : Nat) (i : Nat) =>
        wrap32 (warp_unique_count + ballot_bit_count warp_size BlockSize
          (fun flat_id => tail_flags (flat_id * ItemsPerThread + i)) warp_id))
      (st.2 warp_id))

/-- The kernel `fill_unique_counts` run by the block `batch_id`; the result is
the value stored to `unique_counts[batch_id]`. -/
def fill_unique_counts {K : Type} (BlockSize ItemsPerThread warp_size : Nat)
    (keys_input uninit : Nat → K) (size : Nat) (key_compare_op : K → K → Bool)
    (blocks_per_full_batch full_batches blocks batch_id : Nat) : Nat :=
  let warps_no := BlockSize / warp_size
  let geometry := batch_geometry blocks_per_full_batch full_batches batch_id
  let final := (List.range geometry.2).foldl
    (fill_unique_counts_block BlockSize ItemsPerThread warp_size keys_input uninit size
      key_compare_op blocks)
    (geometry.1, fun _ => 0)
  (List.range warps_no).foldl
    (fun (batch_unique_count : Nat) (w : Nat) => wrap32 (batch_unique_count + final.2 w)) 0

/-- Modelled from the spec: `block_scan::exclusive_scan` with an initial value,
the left-to-right exclusive scan of the items of the block. -/
def block_exclusive_scan {α : Type} (op : α → α → α) (init : α) (xs : Nat → α) : Nat → α
  | 0 => init
  | j + 1 => op (block_exclusive_scan op init xs j) (xs j)

/-- The operator `rocprim::plus<unsigned int>`. -/
def plus32 (a b : Nat) : Nat := wrap32 (a + b)

/-- The kernel `scan_unique_counts` (one block): the new content of `unique_counts`
and the value stored to `*unique_count_output`. -/
def scan_unique_counts (BlockSize ItemsPerThread : Nat) (unique_counts : Nat → Nat)
    (batches : Nat) : (Nat → Nat) × Nat :=
  let items_per_block := wrap32 (BlockSize * ItemsPerThread)
  let values := block_load_default unique_counts 0 batches 0
  let scanned := block_exclusive_scan plus32 0 values
  let unique_count := block_inclusive_scan plus32 values (last_item BlockSize ItemsPerThread)
  (fun j => if j < batches ∧ j < items_per_block then scanned j else unique_counts j,
    unique_count)

/-- The loop state of `reduce_by_key`: `block_id`, `block_start`, the shared
`storage.has_carry_out` and `storage.carry_out`, and the global stores made so far
to `unique_output`, `aggregates_output` and `carry_outs[batch_id]`. -/
structure reduce_by_key_state (K V : Type) where
  block_id : Nat
  block_start : Nat
  storage_has_carry_out : Bool
  storage_carry_out : V
  unique_stores : List (Nat × K)
  aggregate_stores : List (Nat × V)
  carry_outs_store : Option (carry_out K V)

/-- One iteration `bi` of the block loop of `reduce_by_key`. -/
def reduce_by_key_block {K V : Type} (BlockSize ItemsPerThread : Nat)
    (keys_input uninitK : Nat → K) (values_input uninitV : Nat → V) (size : Nat)
    (key_compare_op : K → K → Bool) (reduce_op : V → V → V)
    (blocks blocks_per_batch : Nat)
    (st : reduce_by_key_state K V) (bi : Nat) : reduce_by_key_state K V :=
  let items_per_block := wrap32 (BlockSize * ItemsPerThread)
  let block_id := st.block_id
  let block_start := st.block_start
  let block_offset := wrap32 (block_id * items_per_block)
  let keys := block_keys items_per_block size keys_input uninitK block_offset
  let valid_count := block_valid_count items_per_block size block_offset
  let head_flags := block_head_flags BlockSize ItemsPerThread size blocks keys_input
    uninitK key_compare_op block_id
  let tail_flags := block_tail_flags BlockSize ItemsPerThread size blocks keys_input
    uninitK key_compare_op block_id
  let values :=
    if wrap32 (block_offset + items_per_block) ≤ size then block_load values_input block_offset
    else block_load_valid values_input block_offset valid_count uninitV
  let pairs := block_inclusive_scan (scan_by_key_op reduce_op)
    (fun j => { key := if head_flags j then 1 else 0, value := values j })
  let ranks := fun j => sub32 (pairs j).key 1
  let last := last_item BlockSize ItemsPerThread
  let unique_count := wrap32 (ranks last + (if tail_flags last then 1 else 0))
  let values := fun j =>
    if 0 < bi ∧ st.storage_has_carry_out = true ∧ ranks j = 0 then
      reduce_op st.storage_carry_out (pairs j).value
    else (pairs j).value
  let head_flags := fun j => if j = 0 then !st.storage_has_carry_out else head_flags j
  let head_flags := fun j =>
    if block_id = sub32 blocks 1 ∧ unique_count ≤ ranks j then false else head_flags j
  let save_batch := decide (bi = sub32 blocks_per_batch 1)
  { block_id := wrap32 (block_id + 1)
    block_start := wrap32 (block_start + unique_count)
    storage_has_carry_out := if save_batch then st.storage_has_carry_out else !tail_flags last
    storage_carry_out := if save_batch then st.storage_carry_out else values last
    unique_stores := st.unique_stores ++ (List.range items_per_block).filterMap
      (fun j => if head_flags j then some (wrap32 (block_start + ranks j), keys j) else none)
    aggregate_stores := st.aggregate_stores ++ (List.range items_per_block).filterMap
      (fun j => if tail_flags j then some (wrap32 (block_start + ranks j), values j) else none)
    carry_outs_store :=
      if save_batch then
        some { key := keys last, value := values last
               destination := wrap32 (block_start + ranks last)
               is_final_aggregate := if tail_flags last then 1 else 0 }
      else st.carry_outs_store }

/-- The kernel `reduce_by_key` run by the block `batch_id`, `unique_starts` being the
scanned `unique_counts`. -/
def reduce_by_key {K V : Type} (BlockSize ItemsPerThread : Nat)
    (keys_input uninitK : Nat → K) (values_input uninitV : Nat → V) (size : Nat)
    (unique_starts : Nat → Nat)
    (key_compare_op : K → K → Bool) (reduce_op : V → V → V)
    (blocks_per_full_batch full_batches blocks batch_id : Nat) : reduce_by_key_state K V :=
  let items_per_block := wrap32 (BlockSize * ItemsPerThread)
  let geometry := batch_geometry blocks_per_full_batch full_batches batch_id
  let block_id := geometry.1
  let blocks_per_batch := geometry.2
  let has_carry_out :=
    (decide (0 < block_id) && decide (0 < blocks_per_batch)) &&
      key_compare_op (keys_input (sub32 (wrap32 (block_id * items_per_block)) 1))
        (keys_input (wrap32 (block_id * items_per_block)))
  (List.range blocks_per_batch).foldl
    (reduce_by_key_block BlockSize ItemsPerThread keys_input uninitK values_input uninitV
      size key_compare_op reduce_op blocks blocks_per_batch)
    { block_id := block_id
      block_start := unique_starts batch_id
      storage_has_carry_out := has_carry_out
      storage_carry_out := uninitV 0
      unique_stores := []
      aggregate_stores := []
      carry_outs_store := none }

/-- The kernel `scan_and_scatter_carry_outs` (one block): the content of
`aggregates_output` after the kernel. -/
def scan_and_scatter_carry_outs {K V : Type} (BlockSize ItemsPerThread : Nat)
    (carry_outs uninit : Nat → carry_out K V) (aggregates_output : Nat → V)
    (key_compare_op : K → K → Bool) (reduce_op : V → V → V) (batches : Nat) : Nat → V :=
  let items_per_block := wrap32 (BlockSize * ItemsPerThread)
  let cs := block_load_valid carry_outs 0 (sub32 batches 1) uninit
  let keys := fun j => (cs j).key
  let values := fun j => (cs j).value
  let successor_key := keys (last_item BlockSize ItemsPerThread)
  let flag_op := guarded_key_flag_op key_compare_op (sub32 batches 1)
  let head_flags := flag_heads flag_op keys
  let tail_flags := flag_tails items_per_block flag_op successor_key keys
  let pairs := block_inclusive_scan (scan_by_key_op reduce_op)
    (fun j => { key := if head_flags j then 1 else 0, value := values j })
  (List.range items_per_block).foldl
    (fun (aggregates_output : Nat → V) (j : Nat) =>
      if tail_flags j then
        let dst := (cs j).destination
        let aggregate := (pairs j).value
        if (cs j).is_final_aggregate ≠ 0 then
          Function.update aggregates_output dst aggregate
        else
          Function.update aggregates_output dst (reduce_op aggregate (aggregates_output dst))
      else aggregates_output)
    aggregates_output

/-- The four kernels in launch order: `fill_unique_counts` and `reduce_by_key` over
the grid of `batches` blocks (the blocks of `reduce_by_key` in the order `schedule`),
`scan_unique_counts` and `scan_and_scatter_carry_outs` with one block of
`ScanBlockSize * ScanItemsPerThread` items. -/
structure reduce_by_key_result (K V : Type) where
  unique_counts : Nat → Nat
  unique_count_output : Nat
  unique_output : Nat → K
  partial_aggregates : Nat → V
  aggregates_output : Nat → V

/-- The content of `unique_counts` after the kernel `fill_unique_counts`. -/
def fill_unique_counts_grid {K : Type} (BlockSize ItemsPerThread warp_size : Nat)
    (keys_input uninitK : Nat → K) (size : Nat) (key_compare_op : K → K → Bool)
    (blocks_per_full_batch full_batches blocks batches : Nat)
    (unique_counts : Nat → Nat) : Nat → Nat :=
  fun b => if b < batches then
      fill_unique_counts BlockSize ItemsPerThread warp_size keys_input uninitK size
        key_compare_op blocks_per_full_batch full_batches blocks b
    else unique_counts b

/-- The launch sequence of the device-level reduce-by-key. -/
def reduce_by_key_launch {K V : Type}
    (BlockSize ItemsPerThread warp_size ScanBlockSize ScanItemsPerThread : Nat)
    (keys_input uninitK : Nat → K) (values_input uninitV : Nat → V) (size : Nat)
    (key_compare_op : K → K → Bool) (reduce_op : V → V → V)
    (blocks_per_full_batch full_batches blocks batches : Nat) (schedule : List Nat)
    (unique_counts0 : Nat → Nat) (unique_output0 : Nat → K) (aggregates_output0 : Nat → V)
    (uninitC : Nat → carry_out K V) : reduce_by_key_result K V :=
  let counts := fill_unique_counts_grid BlockSize ItemsPerThread warp_size keys_input uninitK
    size key_compare_op blocks_per_full_batch full_batches blocks batches unique_counts0
  let scanned := scan_unique_counts ScanBlockSize ScanItemsPerThread counts batches
  let run := fun b => reduce_by_key BlockSize ItemsPerThread keys_input uninitK values_input
    uninitV size scanned.1 key_compare_op reduce_op blocks_per_full_batch full_batches blocks b
  let carry_outs := fun b =>
    match (run b).carry_outs_store with
    | some c => c
    | none => uninitC b
  let aggregates := apply_writes aggregates_output0
    (schedule.flatMap (fun b => (run b).aggregate_stores))
  { unique_counts := scanned.1
    unique_count_output := scanned.2
    unique_output := apply_writes unique_output0
      (schedule.flatMap (fun b => (run b).unique_stores))
    partial_aggregates := aggregates
    aggregates_output := scan_and_scatter_carry_outs ScanBlockSize ScanItemsPerThread
      carry_outs uninitC aggregates key_compare_op reduce_op batches }


/-! ## Specification vocabulary -/

/-- Position `i` is the first item of a maximal run of eq-adjacent keys. -/
def is_run_start {K : Type} (eq : K → K → Bool) (keys : Nat → K) (i : Nat) : Bool :=
  decide (i = 0) || !eq (keys (i - 1)) (keys i)

/-- Position `i` of an input of `N` keys is the last item of a maximal run. -/
def is_run_end {K : Type} (eq : K → K → Bool) (keys : Nat → K) (N i : Nat) : Bool :=
  decide (i < N) && (decide (i + 1 = N) || !eq (keys i) (keys (i + 1)))

/-- The first block of batch `b` (exact value of `block_id` at the top of the kernels). -/
def first_block (blocks_per_full_batch full_batches b : Nat) : Nat :=
  if b < full_batches then b * blocks_per_full_batch
  else b * (blocks_per_full_batch - 1) + full_batches

/-- The number of blocks of batch `b` (exact value of `blocks_per_batch`). -/
def batch_blocks (blocks_per_full_batch full_batches b : Nat) : Nat :=
  if b < full_batches then blocks_per_full_batch else blocks_per_full_batch - 1


/-- A launch of the reduce-by-key kernels: the template parameters are positive,
the block is made of whole warps (`warps_no = BlockSize / warp_size` covers every
thread), `blocks` tiles are needed for `size` items and every item index of the grid
fits `unsigned int`, the batches tile the blocks as the kernels compute it from
`batch_id`, and the single block of the two scan kernels holds one item per batch. -/
structure launch_ok (BlockSize ItemsPerThread warp_size ScanBlockSize ScanItemsPerThread
    size blocks_per_full_batch full_batches blocks batches : Nat) : Prop where
  size_pos : 0 < size
  block_pos : 0 < BlockSize
  items_pos : 0 < ItemsPerThread
  warp_pos : 0 < warp_size
  warps : warp_size ∣ BlockSize
  blocks_lo : (blocks - 1) * (BlockSize * ItemsPerThread) < size
  blocks_hi : size ≤ blocks * (BlockSize * ItemsPerThread)
  fits : blocks * (BlockSize * ItemsPerThread) < 4294967296
  full_le : full_batches ≤ batches
  per_batch : 1 ≤ blocks_per_full_batch
  per_batch_lt : blocks_per_full_batch < 4294967296
  tiling : blocks = full_batches * blocks_per_full_batch
    + (batches - full_batches) * (blocks_per_full_batch - 1)
  scan_fits : batches ≤ ScanBlockSize * ScanItemsPerThread
  scan_items : ScanBlockSize * ScanItemsPerThread < 4294967296

/-- The first positions of the maximal runs of eq-adjacent keys of an input of `N`
keys, in increasing order: `s_0, s_1, …`. -/
def run_starts {K : Type} (eq : K → K → Bool) (keys : Nat → K) (N : Nat) : List Nat :=
  (List.range N).filter (is_run_start eq keys)

/-- The store of `unique_output` that position `p` of the input causes, if any: the key
of a run start, at the number of runs that end before it. -/
def key_store {K : Type} (eq : K → K → Bool) (keys : Nat → K) (N p : Nat) :
    Option (Nat × K) :=
  if p < N ∧ is_run_start eq keys p = true then
    some (Nat.count (fun q => is_run_end eq keys N q = true) p, keys p)
  else none

/-- The keys of the reduce-by-key scenario of the spec, `[1,1,1,2,3,3,4,4]`. -/
def scenario_keys : Nat → Nat := fun i => [1, 1, 1, 2, 3, 3, 4, 4].getD i 0

/-- The values of the reduce-by-key scenario of the spec, `[2,0,1,4,2,3,1,5]`. -/
def scenario_values : Nat → Nat := fun i => [2, 0, 1, 4, 2, 3, 1, 5].getD i 0

/-- Keys in which the key `2` recurs in a later run: `[1,1,1,2, 3,3,3,2, 4,4,4,4]`. -/
def recurring_keys : Nat → Nat := fun i => [1, 1, 1, 2, 3, 3, 3, 2, 4, 4, 4, 4].getD i 0

/-- Values `[1,2,…,12]` for `recurring_keys`. -/
def recurring_values : Nat → Nat :=
  fun i => [1, 2, 3, 4, 5, 6, 7, 8, 9, 10, 11, 12].getD i 0

/-! ## `device_partition.hpp` -/

/-- The result of one block of `partition_flag_kernel_impl`: its stores to `output`,
its store to `selected_count_output[0]` if it makes one, and the block reduction
`selected_in_block` it publishes in the look-back scan state. -/
structure partition_block_result (α : Type) where
  output_stores : List (Nat × α)
  selected_count_store : Option Nat
  selected_in_block : Nat

/-- The `valid_in_last_block` of `partition_flag_kernel_impl` (a `size_t`; the product
is an `unsigned int` product). -/
def valid_in_last_block (BlockSize ItemsPerThread size number_of_blocks : Nat) : Nat :=
  sub64 size (wrap32 (wrap32 (BlockSize * ItemsPerThread) * sub32 number_of_blocks 1))

/-- The selection flags `is_selected` a block of `partition_flag_kernel_impl` loads:
in the last block the items at or after `valid_in_last_block` are loaded as `false`. -/
def partition_is_selected (BlockSize ItemsPerThread : Nat) (flags : Nat → Bool)
    (size number_of_blocks flat_block_id : Nat) : Nat → Bool :=
  let items_per_block := wrap32 (BlockSize * ItemsPerThread)
  let block_offset := wrap32 (flat_block_id * items_per_block)
  if flat_block_id = sub32 number_of_blocks 1 then
    block_load_default flags block_offset
      (valid_in_last_block BlockSize ItemsPerThread size number_of_blocks) false
  else block_load flags block_offset

/-- The block reduction of the 0/1 flags that the block scan of
`partition_flag_kernel_impl` computes (`selected_in_block`, `prefix_op.get_reduction()`);
`offset_type` is `unsigned int`. -/
def partition_selected_in_block (BlockSize ItemsPerThread : Nat) (flags : Nat → Bool)
    (size number_of_blocks flat_block_id : Nat) : Nat :=
  block_inclusive_scan plus32
    (fun j => if partition_is_selected BlockSize ItemsPerThread flags size number_of_blocks
      flat_block_id j then 1 else 0)
    (last_item BlockSize ItemsPerThread)

/-- Modelled from the spec: the exclusive prefix the decoupled look-back (§4.1) gives
block `block_id`, the `offset_type` sum of the reductions published by the blocks
`0, …, block_id - 1`. -/
def lookback_exclusive_prefix_sum (reduction : Nat → Nat) (block_id : Nat) : Nat :=
  (List.range block_id).foldl (fun acc b => plus32 acc (reduction b)) 0

/-- The first scatter loop of `partition_flag_kernel_impl`: the shared-memory index
`scatter_index` of the item `i` of thread `flat_block_thread_id`. -/
def partition_scatter_index (ItemsPerThread : Nat) (is_selected : Nat → Bool)
    (output_indices : Nat → Nat) (selected_prefix_sum selected_in_block : Nat)
    (flat_block_thread_id i : Nat) : Nat :=
  let item_index := wrap32 (wrap32 (flat_block_thread_id * ItemsPerThread) + i)
  let selected_item_index :=
    sub32 (output_indices (flat_block_thread_id * ItemsPerThread + i)) selected_prefix_sum
  let rejected_item_index := wrap32 (sub32 item_index selected_item_index + selected_in_block)
  if is_selected (flat_block_thread_id * ItemsPerThread + i) then selected_item_index
  else rejected_item_index

/-- The second scatter loop of `partition_flag_kernel_impl`: the destination
`scatter_index` in `output` of the item `scatter_storage[item_index]`
(`size_t` arithmetic in the rejected branch, truncated to `offset_type`). -/
def partition_output_index (size items_per_block flat_block_id selected_prefix_sum
    selected_in_block item_index : Nat) : Nat :=
  let selected_item_index := item_index
  let rejected_item_index := sub32 item_index selected_in_block
  let rejected_prefix_sum := sub32 (wrap32 (flat_block_id * items_per_block)) selected_prefix_sum
  if item_index < selected_in_block then wrap32 (wrap32 (selected_prefix_sum + selected_item_index))
  else wrap32 (sub64 size (wrap32 (wrap32 (rejected_prefix_sum + rejected_item_index) + 1)))

/-- The kernel `partition_flag_kernel_impl` run by the block that holds the ticket
`flat_block_id`; `lookback` is the exclusive prefix the look-back returns to a block
other than block 0, `uninit` the content of the registers a partial load leaves
untouched, `shared` the content of the exchange storage before the first scatter. -/
def partition_flag_kernel_impl {α : Type} (BlockSize ItemsPerThread : Nat)
    (input : Nat → α) (flags : Nat → Bool) (uninit shared : Nat → α)
    (size number_of_blocks lookback flat_block_id : Nat) : partition_block_result α :=
  let items_per_block := wrap32 (BlockSize * ItemsPerThread)
  let block_offset := wrap32 (flat_block_id * items_per_block)
  let valid := valid_in_last_block BlockSize ItemsPerThread size number_of_blocks
  let values :=
    if flat_block_id = sub32 number_of_blocks 1 then
      block_load_valid input block_offset valid uninit
    else block_load input block_offset
  let is_selected := partition_is_selected BlockSize ItemsPerThread flags size
    number_of_blocks flat_block_id
  let selected_in_block := partition_selected_in_block BlockSize ItemsPerThread flags size
    number_of_blocks flat_block_id
  let selected_prefix_sum := if flat_block_id = 0 then 0 else lookback
  let output_indices := block_exclusive_scan plus32 selected_prefix_sum
    (fun j => if is_selected j then 1 else 0)
  let scatter_storage := apply_writes shared
    ((List.range BlockSize).flatMap (fun flat_block_thread_id =>
      (List.range ItemsPerThread).map (fun i =>
        (partition_scatter_index ItemsPerThread is_selected output_indices selected_prefix_sum
            selected_in_block flat_block_thread_id i,
          values (flat_block_thread_id * ItemsPerThread + i)))))
  { output_stores :=
      (List.range BlockSize).flatMap (fun flat_block_thread_id =>
        (List.range ItemsPerThread).filterMap (fun i =>
          let item_index := wrap32 (wrap32 (i * BlockSize) + flat_block_thread_id)
          if flat_block_id ≠ sub32 number_of_blocks 1 ∨ item_index < valid then
            some (partition_output_index size items_per_block flat_block_id selected_prefix_sum
              selected_in_block item_index, scatter_storage item_index)
          else none))
    selected_count_store :=
      if flat_block_id = sub32 number_of_blocks 1 then
        some (wrap32 (selected_prefix_sum + selected_in_block))
      else none
    selected_in_block := selected_in_block }

/-- The exclusive prefix the look-back gives block `flat_block_id` in a launch of
`partition_flag_kernel_impl` over `number_of_blocks` blocks. -/
def partition_lookback (BlockSize ItemsPerThread : Nat) (flags : Nat → Bool)
    (size number_of_blocks flat_block_id : Nat) : Nat :=
  lookback_exclusive_prefix_sum
    (partition_selected_in_block BlockSize ItemsPerThread flags size number_of_blocks)
    flat_block_id

/-- The stores to `output` of a launch of `partition_flag_kernel_impl`, the blocks
finishing in the order `schedule` of their tickets. -/
def partition_stores {α : Type} (BlockSize ItemsPerThread : Nat)
    (input : Nat → α) (flags : Nat → Bool) (uninit shared : Nat → α)
    (size number_of_blocks : Nat) (schedule : List Nat) : List (Nat × α) :=
  schedule.flatMap (fun b =>
    (partition_flag_kernel_impl BlockSize ItemsPerThread input flags uninit shared size
      number_of_blocks (partition_lookback BlockSize ItemsPerThread flags size
        number_of_blocks b) b).output_stores)

/-- The content of `output` after a launch of `partition_flag_kernel_impl`. -/
def partition_output {α : Type} (BlockSize ItemsPerThread : Nat)
    (input : Nat → α) (flags : Nat → Bool) (uninit shared : Nat → α)
    (size number_of_blocks : Nat) (schedule : List Nat) (output0 : Nat → α) : Nat → α :=
  apply_writes output0
    (partition_stores BlockSize ItemsPerThread input flags uninit shared size
      number_of_blocks schedule)

/-- The value stored to `selected_count_output[0]` by a launch of
`partition_flag_kernel_impl` (the store of the block with the last ticket). -/
def partition_selected_count (BlockSize ItemsPerThread : Nat) (flags : Nat → Bool)
    (size number_of_blocks : Nat) : Option Nat :=
  (partition_flag_kernel_impl BlockSize ItemsPerThread (fun _ => ()) flags (fun _ => ())
    (fun _ => ()) size number_of_blocks
    (partition_lookback BlockSize ItemsPerThread flags size number_of_blocks
      (sub32 number_of_blocks 1))
    (sub32 number_of_blocks 1)).selected_count_store

/-- A launch of `partition_flag_kernel_impl` on `size` items: positive template
parameters and one block per tile of the input. -/
structure partition_launch (BlockSize ItemsPerThread size number_of_blocks : Nat) : Prop where
  size_pos : 0 < size
  block_pos : 0 < BlockSize
  items_pos : 0 < ItemsPerThread
  blocks_lo : (number_of_blocks - 1) * (BlockSize * ItemsPerThread) < size
  blocks_hi : size ≤ number_of_blocks * (BlockSize * ItemsPerThread)

/-- The destination of the input item `g` in the partitioned output of `N` items: its
rank among the selected items, or the mirror of its rank among the rejected items. -/
def partition_destination (flags : Nat → Bool) (N g : Nat) : Nat :=
  if flags g then Nat.count (fun q => flags q = true) g
  else N - 1 - Nat.count (fun q => flags q = false) g

/-- The flag of position `q` as a block of `partition_flag_kernel_impl` sees it: the
flag of the input inside the input, `false` after it. -/
def valid_flag (flags : Nat → Bool) (N q : Nat) : Bool :=
  decide (q < N) && flags q

/-- The exact position of item `j` of a tile in the exchange storage after the first
scatter: the selected items first, in order, then the rejected items, in order;
`S` is the number of selected items of the tile. -/
def tile_position (sel : Nat → Bool) (S j : Nat) : Nat :=
  if sel j then Nat.count (fun q => sel q = true) j
  else S + (j - Nat.count (fun q => sel q = true) j)

/-- The store to `output` that the input item `g` causes in a partition of `N` items:
the item, at its partition destination. -/
def partition_store {α : Type} (input : Nat → α) (flags : Nat → Bool) (N g : Nat) :
    Option (Nat × α) :=
  if g < N then some (partition_destination flags N g, input g) else none

/-- The input of the partition scenario of the spec, `[1,2,3,4,5,6]`. -/
def partition_scenario_input : Nat → Nat := fun i => [1, 2, 3, 4, 5, 6].getD i 0

/-- The flags of the partition scenario of the spec, `[0,1,0,1,0,1]`. -/
def partition_scenario_flags : Nat → Bool :=
  fun i => [false, true, false, true, false, true].getD i false

/-! ## `device_scan_hc.hpp` -/

/-- Modelled from the spec: the kernel `block_reduce_kernel_impl` of the
reduce-then-scan variant (§4.3; `detail/device_scan_reduce_then_scan.hpp`). Block
`flat_block_id` loads its full tile and stores the tile aggregate to
`block_prefixes[flat_block_id]`: the store of the block. -/
def block_reduce_kernel_impl {α : Type} (BlockSize ItemsPerThread : Nat) (input : Nat → α)
    (scan_op : α → α → α) (flat_block_id : Nat) : Nat × α :=
  let items_per_block := BlockSize * ItemsPerThread
  let block_offset := flat_block_id * items_per_block
  let values := block_load input block_offset
  (flat_block_id, block_inclusive_scan scan_op values (items_per_block - 1))

/-- Modelled from the spec: the block scan of one tile in the scan kernels (§4.3 steps 3
and 5). Without a predecessor tile the inclusive scan is the block-local scan and the
exclusive scan starts from `initial_value`; with the predecessor value `tile_predecessor`
every item of the inclusive scan has the exclusive prefix applied on the left, and the
exclusive scan starts from `initial_value ⊕ tile_predecessor`. -/
def scan_block_scan {α : Type} (Exclusive : Bool) (scan_op : α → α → α) (initial_value : α)
    (tile_predecessor : Option α) (values : Nat → α) : Nat → α :=
  match Exclusive, tile_predecessor with
  | true, none => block_exclusive_scan scan_op initial_value values
  | true, some p => block_exclusive_scan scan_op (scan_op initial_value p) values
  | false, none => block_inclusive_scan scan_op values
  | false, some p => fun j => scan_op p (block_inclusive_scan scan_op values j)

/-- Modelled from the spec: the kernel `single_scan_kernel_impl` (one block; "possibly
partial" tile). The block loads the first `size` items, scans them and stores the first
`size` results: the stores of the block. -/
def single_scan_kernel_impl {α : Type} (BlockSize ItemsPerThread : Nat) (Exclusive : Bool)
    (input uninit : Nat → α) (size : Nat) (initial_value : α)
    (scan_op : α → α → α) : List (Nat × α) :=
  let items_per_block := BlockSize * ItemsPerThread
  let values := block_load_valid input 0 size uninit
  let scanned := scan_block_scan Exclusive scan_op initial_value none values
  (List.range items_per_block).filterMap
    (fun j => if j < size then some (j, scanned j) else none)

/-- Modelled from the spec: the kernel `final_scan_kernel_impl` in a grid of
`number_of_blocks` blocks. Block `flat_block_id` loads its tile (the last block only its
valid items), scans it with the scanned aggregate of the tiles before it,
`block_prefixes[flat_block_id - 1]`, as predecessor value (block 0 has none) and stores
the results of its valid items: the stores of the block. -/
def final_scan_kernel_impl {α : Type} (BlockSize ItemsPerThread : Nat) (Exclusive : Bool)
    (input uninit : Nat → α) (size : Nat) (initial_value : α) (scan_op : α → α → α)
    (block_prefixes : Nat → α) (number_of_blocks flat_block_id : Nat) : List (Nat × α) :=
  let items_per_block := BlockSize * ItemsPerThread
  let block_offset := flat_block_id * items_per_block
  let valid :=
    if flat_block_id = number_of_blocks - 1 then
      size - items_per_block * (number_of_blocks - 1)
    else items_per_block
  let values := block_load_valid input block_offset valid uninit
  let tile_predecessor :=
    if flat_block_id = 0 then none else some (block_prefixes (flat_block_id - 1))
  let scanned := scan_block_scan Exclusive scan_op initial_value tile_predecessor values
  (List.range items_per_block).filterMap
    (fun j => if j < valid then some (block_offset + j, scanned j) else none)

/-- The host function `scan_impl` with a non-null `temporary_storage`; the result is the
content of `output` after the call, `none` when the recursion is deeper than `fuel`.
`temporary_storage` is the content of the scratch buffer before the call, indexed in
units of `result_type`; `dflt` is the value `result_type()`. `items_per_block` is an
`unsigned int` product, `number_of_blocks` and `grid_size` are `size_t` values. The
blocks of one kernel read memory as it is at the launch: a block stores only to
positions that no other block of the launch reads or stores (also in the nested call,
where `input` and `output` both are `block_prefixes`). -/
def scan_impl {α : Type} (fuel : Nat) (BlockSize ItemsPerThread : Nat) (Exclusive : Bool)
    (temporary_storage input output : Nat → α) (initial_value dflt : α) (size : Nat)
    (scan_op : α → α → α) (uninit : Nat → α) : Option (Nat → α) :=
  match fuel with
  | 0 => none
  | fuel + 1 =>
    let items_per_block := wrap32 (BlockSize * ItemsPerThread)
    let number_of_blocks := sub64 (wrap64 (size + items_per_block)) 1 / items_per_block
    if 1 < number_of_blocks then
      let block_prefixes := temporary_storage
      let grid_size := wrap64 ((number_of_blocks - 1) * BlockSize)
      let block_prefixes := apply_writes block_prefixes
        ((List.range (grid_size / BlockSize)).map
          (block_reduce_kernel_impl BlockSize ItemsPerThread input scan_op))
      let nested_temp_storage := fun i => temporary_storage (number_of_blocks + i)
      match scan_impl fuel BlockSize ItemsPerThread false nested_temp_storage
          block_prefixes block_prefixes dflt dflt number_of_blocks scan_op uninit with
      | none => none
      | some block_prefixes =>
        let grid_size := wrap64 (number_of_blocks * BlockSize)
        some (apply_writes output
          ((List.range (grid_size / BlockSize)).flatMap
            (final_scan_kernel_impl BlockSize ItemsPerThread Exclusive input uninit size
              initial_value scan_op block_prefixes (grid_size / BlockSize))))
    else
      some (apply_writes output
        (single_scan_kernel_impl BlockSize ItemsPerThread Exclusive input uninit size
          initial_value scan_op))

/-- The public `inclusive_scan` (`block_size = 256`, `items_per_thread = 4`, the dummy
initial value `result_type()`). -/
def inclusive_scan {α : Type} (fuel : Nat) (temporary_storage input output : Nat → α)
    (dflt : α) (size : Nat) (scan_op : α → α → α) (uninit : Nat → α) : Option (Nat → α) :=
  scan_impl fuel 256 4 false temporary_storage input output dflt dflt size scan_op uninit

/-- The public `exclusive_scan` (`block_size = 256`, `items_per_thread = 4`). -/
def exclusive_scan {α : Type} (fuel : Nat) (temporary_storage input output : Nat → α)
    (initial_value dflt : α) (size : Nat) (scan_op : α → α → α) (uninit : Nat → α) :
    Option (Nat → α) :=
  scan_impl fuel 256 4 true temporary_storage input output initial_value dflt size scan_op
    uninit

/-! ### Specification vocabulary of the scans -/

/-- The value `in[0] ⊕ in[1] ⊕ … ⊕ in[i]`, combined from the left. -/
def scan_inclusive_reference {α : Type} (op : α → α → α) (xs : Nat → α) : Nat → α
  | 0 => xs 0
  | i + 1 => op (scan_inclusive_reference op xs i) (xs (i + 1))

/-- The value `e ⊕ in[0] ⊕ … ⊕ in[i-1]`, combined from the left (`e` for `i = 0`). -/
def scan_exclusive_reference {α : Type} (op : α → α → α) (e : α) (xs : Nat → α) : Nat → α
  | 0 => e
  | i + 1 => op (scan_exclusive_reference op e xs i) (xs i)

/-- The input of the inclusive-sum scenario, `[1,2,3,4,5,6,7,8]`. -/
def inclusive_sum_input : Nat → Nat := fun i => [1, 2, 3, 4, 5, 6, 7, 8].getD i 0

/-- The input of the exclusive-min scenario, `[4,7,6,2,5,1,3,8]`. -/
def exclusive_min_input : Nat → Nat := fun i => [4, 7, 6, 2, 5, 1, 3, 8].getD i 0

/-- Concatenation of words, an associative operation that does not commute. -/
def word_append (a b : List Nat) : List Nat := a ++ b

/-- An input of eleven one-letter words. -/
def word_input : Nat → List Nat := fun i => [i]

/-! ## `device_segmented_radix_sort_hc.hpp`

A pointer is a natural number, `0` being `nullptr`; device memory maps a pointer to the
array that starts there. Key arrays and value arrays live in separate maps, so the
keys part and the values part of the scratch buffer are both addressed by the pointer
`temporary_storage`. -/

/-- Device memory seen by the sort: the key arrays and the value arrays, by pointer. -/
structure radix_memory (K V : Type) where
  keys : Nat → Nat → K
  values : Nat → Nat → V

/-- Modelled from the spec: `ceiling_div` of `detail/various.hpp`, the `unsigned int`
quotient rounded up ("radix bits at the end may be narrower than r"). -/
def ceiling_div (a b : Nat) : Nat := sub32 (wrap32 (a + b)) 1 / b

/-- Modelled from the spec: the digit of `current_radix_bits` bits at position `bit` of
the bit pattern of a key, as the digit pass of §4.6 ranks it; the descending sort ranks
a key by the complement of its digit. -/
def radix_digit (Descending : Bool) (bit current_radix_bits encoded_key : Nat) : Nat :=
  let digit := (encoded_key / 2 ^ bit) % 2 ^ current_radix_bits
  if Descending then 2 ^ current_radix_bits - 1 - digit else digit

/-- Modelled from the spec: one digit pass over a list ("histogram digit occurrences …
scatter each key (and value) into its offset"): the items of digit `0` in their order,
then the items of digit `1`, and so on; a stable order by the digit. -/
def radix_sort_by_digit {α : Type} (radix : Nat) (digit : α → Nat) (items : List α) : List α :=
  (List.range radix).flatMap (fun d => items.filter (fun x => decide (digit x = d)))

/-- Modelled from the spec: the kernel `segmented_sort` for the block of segment
`segment_id` ("one block per segment per digit pass; the block loads its segment,
performs a block-cooperative radix sort on it, and writes back"). `encode` is the bit
pattern of a key. The result is the list of stores of the block, `(index, (key, value))`,
each pair going to the keys and the values destination at the same index. -/
def segmented_sort {K V : Type} (Descending : Bool) (encode : K → Nat)
    (keys_input : Nat → K) (values_input : Nat → V) (begin_offsets end_offsets : Nat → Nat)
    (bit current_radix_bits segment_id : Nat) : List (Nat × (K × V)) :=
  let begin_offset := begin_offsets segment_id
  let end_offset := end_offsets segment_id
  let items := (List.range (end_offset - begin_offset)).map
    (fun j => (keys_input (begin_offset + j), values_input (begin_offset + j)))
  let sorted := radix_sort_by_digit (2 ^ current_radix_bits)
    (fun kv => radix_digit Descending bit current_radix_bits (encode kv.1)) items
  sorted.enum.map (fun p => (begin_offset + p.1, p.2))

/-- One `hc::parallel_for_each` launch of `segmented_sort` in a grid of
`segments * block_size` threads (an `unsigned int` product) in tiles of `block_size`:
the memory after the launch. Every block reads the source arrays as they are at the
launch. -/
def segmented_sort_launch {K V : Type} (Descending : Bool) (encode : K → Nat)
    (block_size : Nat) (mem : radix_memory K V)
    (keys_input keys_output values_input values_output segments : Nat)
    (begin_offsets end_offsets : Nat → Nat) (bit current_radix_bits : Nat) :
    radix_memory K V :=
  let stores := (List.range (wrap32 (segments * block_size) / block_size)).flatMap
    (segmented_sort Descending encode (mem.keys keys_input) (mem.values values_input)
      begin_offsets end_offsets bit current_radix_bits)
  { keys := Function.update mem.keys keys_output
      (apply_writes (mem.keys keys_output) (stores.map (fun w => (w.1, w.2.1))))
    values := Function.update mem.values values_output
      (apply_writes (mem.values values_output) (stores.map (fun w => (w.1, w.2.2)))) }

/-- The record of one digit pass: the pointers it reads and writes and its digit. -/
structure radix_pass where
  keys_input : Nat
  keys_output : Nat
  values_input : Nat
  values_output : Nat
  bit : Nat
  current_radix_bits : Nat
deriving DecidableEq

/-- The state of the loop of `segmented_radix_sort_impl`: device memory, the variable
`to_output`, the caller's `is_result_in_output` and the passes launched so far. -/
structure radix_sort_state (K V : Type) where
  memory : radix_memory K V
  to_output : Bool
  is_result_in_output : Bool
  passes : List radix_pass

/-- The launch that the body of the loop of `segmented_radix_sort_impl` makes at the
value `bit` of its counter: the arguments of `segmented_sort` in the branch selected by
`is_first_iteration` and `to_output`. -/
def radix_loop_pass (keys_input keys_tmp keys_output values_input values_tmp values_output
    begin_bit bit current_radix_bits : Nat) (to_output : Bool) : radix_pass :=
  let is_first_iteration := decide (bit = begin_bit)
  if is_first_iteration then
    if to_output then
      ⟨keys_input, keys_output, values_input, values_output, bit, current_radix_bits⟩
    else
      ⟨keys_input, keys_tmp, values_input, values_tmp, bit, current_radix_bits⟩
  else
    if to_output then
      ⟨keys_tmp, keys_output, values_tmp, values_output, bit, current_radix_bits⟩
    else
      ⟨keys_output, keys_tmp, values_output, values_tmp, bit, current_radix_bits⟩

/-- The `for` loop of `segmented_radix_sort_impl` from the value `bit` of its counter
(`bit += radix_bits` is an `unsigned int` sum); `none` when more than `fuel` iterations
are needed. -/
def segmented_radix_sort_loop {K V : Type} (Descending : Bool) (encode : K → Nat)
    (keys_input keys_tmp keys_output values_input values_tmp values_output segments : Nat)
    (begin_offsets end_offsets : Nat → Nat) (begin_bit end_bit : Nat) :
    Nat → Nat → radix_sort_state K V → Option (radix_sort_state K V)
  | fuel, bit, st =>
    if bit < end_bit then
      match fuel with
      | 0 => none
      | fuel + 1 =>
        let radix_bits := 8
        let block_size := 256
        let current_radix_bits := min radix_bits (sub32 end_bit bit)
        let pass := radix_loop_pass keys_input keys_tmp keys_output values_input
          values_tmp values_output begin_bit bit current_radix_bits st.to_output
        segmented_radix_sort_loop Descending encode keys_input keys_tmp keys_output
          values_input values_tmp values_output segments begin_offsets end_offsets
          begin_bit end_bit fuel (wrap32 (bit + radix_bits))
          { memory := segmented_sort_launch Descending encode block_size st.memory
              pass.keys_input pass.keys_output pass.values_input pass.values_output
              segments begin_offsets end_offsets pass.bit pass.current_radix_bits
            to_output := !st.to_output
            is_result_in_output := st.to_output
            passes := st.passes ++ [pass] }
    else some st

/-- The host function `segmented_radix_sort_impl` with a non-null `temporary_storage`:
the final state of its loop. `with_values` is the constant of that name (the value type
is not `empty_type`); `is_result_in_output` is the content of the caller's variable
before the call. -/
def segmented_radix_sort_impl {K V : Type} (fuel : Nat) (Descending with_values : Bool)
    (encode : K → Nat) (mem : radix_memory K V) (temporary_storage : Nat)
    (keys_input keys_tmp keys_output values_input values_tmp values_output : Nat)
    (_size : Nat) (is_result_in_output : Bool) (segments : Nat)
    (begin_offsets end_offsets : Nat → Nat) (begin_bit end_bit : Nat) :
    Option (radix_sort_state K V) :=
  let radix_bits := 8
  let iterations := ceiling_div (sub32 end_bit begin_bit) radix_bits
  let with_double_buffer := decide (keys_tmp ≠ 0)
  let keys_tmp := if with_double_buffer then keys_tmp else temporary_storage
  let values_tmp :=
    if with_double_buffer then values_tmp
    else if with_values then temporary_storage else 0
  let to_output := with_double_buffer || decide (sub32 iterations 1 % 2 = 0)
  segmented_radix_sort_loop Descending encode keys_input keys_tmp keys_output
    values_input values_tmp values_output segments begin_offsets end_offsets
    begin_bit end_bit fuel begin_bit
    { memory := mem, to_output := to_output, is_result_in_output := is_result_in_output
      passes := [] }

/-- The pointer-pair overload of `segmented_radix_sort_pairs` (work call): the memory
after the call; the sorted pairs are read at `keys_output` and `values_output`. -/
def segmented_radix_sort_pairs {K V : Type} (fuel : Nat) (encode : K → Nat)
    (mem : radix_memory K V) (temporary_storage keys_input keys_output values_input
      values_output size : Nat) (ignored : Bool) (segments : Nat)
    (begin_offsets end_offsets : Nat → Nat) (begin_bit end_bit : Nat) :
    Option (radix_memory K V) :=
  (segmented_radix_sort_impl fuel false true encode mem temporary_storage keys_input 0
    keys_output values_input 0 values_output size ignored segments begin_offsets
    end_offsets begin_bit end_bit).map (fun st => st.memory)

/-- The pointer-pair overload of `segmented_radix_sort_pairs_desc` (work call). -/
def segmented_radix_sort_pairs_desc {K V : Type} (fuel : Nat) (encode : K → Nat)
    (mem : radix_memory K V) (temporary_storage keys_input keys_output values_input
      values_output size : Nat) (ignored : Bool) (segments : Nat)
    (begin_offsets end_offsets : Nat → Nat) (begin_bit end_bit : Nat) :
    Option (radix_memory K V) :=
  (segmented_radix_sort_impl fuel true true encode mem temporary_storage keys_input 0
    keys_output values_input 0 values_output size ignored segments begin_offsets
    end_offsets begin_bit end_bit).map (fun st => st.memory)

/-- Modelled from the spec: `double_buffer` ("the caller's two buffers" and a selector,
§4.6). `current` is the selected buffer, `alternate` the other one. -/
structure double_buffer where
  current : Nat
  alternate : Nat
deriving DecidableEq

/-- Modelled from the spec: `double_buffer::swap` ("swaps the selector"). -/
def double_buffer.swap (b : double_buffer) : double_buffer :=
  { current := b.alternate, alternate := b.current }

/-- The result of a `double_buffer` overload: the memory and the two double buffers
after the call. -/
structure double_buffer_result (K V : Type) where
  memory : radix_memory K V
  keys : double_buffer
  values : double_buffer

/-- The `double_buffer` overload of `segmented_radix_sort_pairs` (work call): it runs
`segmented_radix_sort_impl<false>` on `(current, current, alternate)` and swaps both
double buffers when `is_result_in_output` is set; `uninit` is the content of the local
variable `is_result_in_output` before the call. -/
def segmented_radix_sort_pairs_double_buffer {K V : Type} (fuel : Nat)
    (encode : K → Nat) (mem : radix_memory K V) (temporary_storage : Nat)
    (keys values : double_buffer) (size : Nat) (uninit : Bool) (segments : Nat)
    (begin_offsets end_offsets : Nat → Nat) (begin_bit end_bit : Nat) :
    Option (double_buffer_result K V) :=
  (segmented_radix_sort_impl fuel false true encode mem temporary_storage
    keys.current keys.current keys.alternate values.current values.current
    values.alternate size uninit segments begin_offsets end_offsets begin_bit
    end_bit).map
    (fun st =>
      if st.is_result_in_output then
        { memory := st.memory, keys := keys.swap, values := values.swap }
      else { memory := st.memory, keys := keys, values := values })

/-- The `double_buffer` overload of `segmented_radix_sort_pairs_desc` (work call). -/
def segmented_radix_sort_pairs_desc_double_buffer {K V : Type} (fuel : Nat)
    (encode : K → Nat) (mem : radix_memory K V) (temporary_storage : Nat)
    (keys values : double_buffer) (size : Nat) (uninit : Bool) (segments : Nat)
    (begin_offsets end_offsets : Nat → Nat) (begin_bit end_bit : Nat) :
    Option (double_buffer_result K V) :=
  (segmented_radix_sort_impl fuel true true encode mem temporary_storage
    keys.current keys.current keys.alternate values.current values.current
    values.alternate size uninit segments begin_offsets end_offsets begin_bit
    end_bit).map
    (fun st =>
      if st.is_result_in_output then
        { memory := st.memory, keys := keys.swap, values := values.swap }
      else { memory := st.memory, keys := keys, values := values })

/-! ### Specification vocabulary of the sort -/

/-- The bits `[begin_bit, end_bit)` of a bit pattern, as a number. -/
def key_bits (begin_bit end_bit encoded_key : Nat) : Nat :=
  (encoded_key / 2 ^ begin_bit) % 2 ^ (end_bit - begin_bit)

/-- The pairs `(key, value)` at the positions `[begin_offset, end_offset)` of a key
array and a value array. -/
def segment_items {K V : Type} (keys : Nat → K) (values : Nat → V)
    (begin_offset end_offset : Nat) : List (K × V) :=
  (List.range (end_offset - begin_offset)).map
    (fun j => (keys (begin_offset + j), values (begin_offset + j)))

/-- The list `sorted` is the stable sort of `items` by `rank`, ascending or descending:
a permutation of `items`, ordered by rank, in which the items of every rank keep the
order they have in `items`. -/
def is_stable_sort {α : Type} (Descending : Bool) (rank : α → Nat)
    (items sorted : List α) : Prop :=
  sorted.Perm items
  ∧ sorted.Pairwise (fun a b => if Descending = true then rank b ≤ rank a else rank a ≤ rank b)
  ∧ ∀ d, sorted.filter (fun x => decide (rank x = d))
      = items.filter (fun x => decide (rank x = d))

/-- Every segment of the arrays `keys`, `values` holds the stable sort by the key bits
`[begin_bit, end_bit)` of the pairs the arrays `keys0`, `values0` hold in the segment. -/
def segments_sorted {K V : Type} (Descending : Bool) (encode : K → Nat)
    (begin_bit end_bit : Nat) (keys0 : Nat → K) (values0 : Nat → V) (keys : Nat → K)
    (values : Nat → V) (segments : Nat) (begin_offsets end_offsets : Nat → Nat) : Prop :=
  ∀ s, s < segments →
    is_stable_sort Descending (fun kv => key_bits begin_bit end_bit (encode kv.1))
      (segment_items keys0 values0 (begin_offsets s) (end_offsets s))
      (segment_items keys values (begin_offsets s) (end_offsets s))

/-- The segments `[begin_offsets[s], end_offsets[s])`, `s < segments`, are pairwise
disjoint. -/
def segments_disjoint (segments : Nat) (begin_offsets end_offsets : Nat → Nat) : Prop :=
  ∀ s, s < segments → ∀ t, t < segments → s ≠ t →
    end_offsets s ≤ begin_offsets t ∨ end_offsets t ≤ begin_offsets s

/-- The memory of the documented example: keys `[6,3,5,4,1,8,1,7]` at key pointer `1`,
values `[-5,2,-4,3,-1,-8,-2,7]` at value pointer `1`, every other array filled with the
key `99` and the value `0`. -/
def sort_example_memory : radix_memory Nat Int where
  keys := fun p i => if p = 1 then [6, 3, 5, 4, 1, 8, 1, 7].getD i 99 else 99
  values := fun p i => if p = 1 then [-5, 2, -4, 3, -1, -8, -2, 7].getD i 0 else 0

/-- The offsets `[0, 2, 3, 8]` of the documented example. -/
def sort_example_offsets : Nat → Nat := fun s => [0, 2, 3, 8].getD s 8

/-- A memory with `2^24 + 1` segments of two keys: the input keys `1, 0, 1, 0, …` at key
pointer `1`, every other key array filled with the key `7`, every value `0`. -/
def many_segments_memory : radix_memory Nat Nat where
  keys := fun p i => if p = 1 then 1 - i % 2 else 7
  values := fun _ _ => 0

/-! ## Complete calls: sizing call and work call

The two-call protocol: a call with `temporary_storage == nullptr` only assigns
`storage_size`; a call with a scratch buffer does the work. -/

/-- The memory after a list of digit passes, each one a launch of `segmented_sort` with
the pointers and the digit of its record, in the order of the list. -/
def run_passes {K V : Type} (Descending : Bool) (encode : K → Nat) (segments : Nat)
    (begin_offsets end_offsets : Nat → Nat) (passes : List radix_pass)
    (mem : radix_memory K V) : radix_memory K V :=
  passes.foldl
    (fun m p => segmented_sort_launch Descending encode 256 m p.keys_input p.keys_output
      p.values_input p.values_output segments begin_offsets end_offsets p.bit
      p.current_radix_bits)
    mem

/-- The digit passes of the loop of `segmented_radix_sort_impl` from the counter value
`bit` and the value `to_output`, in closed form: `ceil((end_bit - bit) / 8)` passes, pass
`k` at the counter value `bit + 8 * k` on `min(8, end_bit - (bit + 8 * k))` bits, with
`to_output` flipped `k` times. -/
def radix_pass_list (keys_input keys_tmp keys_output values_input values_tmp values_output
    begin_bit end_bit bit : Nat) (to_output : Bool) : List radix_pass :=
  (List.range ((end_bit - bit + 7) / 8)).map
    (fun k => radix_loop_pass keys_input keys_tmp keys_output values_input values_tmp
      values_output begin_bit (bit + 8 * k) (min 8 (end_bit - (bit + 8 * k)))
      (xor to_output (decide (k % 2 = 1))))

/-- What a call of `segmented_radix_sort_impl` leaves behind: the caller's
`storage_size`, the device memory, the caller's `is_result_in_output` and the digit
passes it launched. -/
structure radix_sort_outcome (K V : Type) where
  storage_size : Nat
  memory : radix_memory K V
  is_result_in_output : Bool
  passes : List radix_pass

/-- The host function `segmented_radix_sort_impl`, sizing call and work call.
`align_size` is the function of that name of `detail/various.hpp`, `sizeof_key` and
`sizeof_value` are `sizeof(key_type)` and `sizeof(value_type)`; `storage_size` and
`is_result_in_output` are the contents of the caller's variables before the call. The
byte counts are `size_t` values. -/
def segmented_radix_sort_impl_full {K V : Type} (fuel : Nat) (Descending with_values : Bool)
    (encode : K → Nat) (align_size : Nat → Nat) (sizeof_key sizeof_value : Nat)
    (mem : radix_memory K V) (temporary_storage storage_size : Nat)
    (keys_input keys_tmp keys_output values_input values_tmp values_output : Nat)
    (size : Nat) (is_result_in_output : Bool) (segments : Nat)
    (begin_offsets end_offsets : Nat → Nat) (begin_bit end_bit : Nat) :
    Option (radix_sort_outcome K V) :=
  let with_double_buffer := decide (keys_tmp ≠ 0)
  let keys_bytes := align_size (wrap64 (size * sizeof_key))
  let values_bytes := if with_values then align_size (wrap64 (size * sizeof_value)) else 0
  if temporary_storage = 0 then
    some
      { storage_size := if !with_double_buffer then wrap64 (keys_bytes + values_bytes) else 4
        memory := mem
        is_result_in_output := is_result_in_output
        passes := [] }
  else
    (segmented_radix_sort_impl fuel Descending with_values encode mem temporary_storage
      keys_input keys_tmp keys_output values_input values_tmp values_output size
      is_result_in_output segments begin_offsets end_offsets begin_bit end_bit).map
      (fun st =>
        { storage_size := storage_size
          memory := st.memory
          is_result_in_output := st.is_result_in_output
          passes := st.passes })

/-- The pointer-pair overload of `segmented_radix_sort_keys`: the outcome of its call of
`segmented_radix_sort_impl<false>`. The value type is `empty_type` (here `Unit`), the
value pointers are `nullptr`, `ignored` is the content of the local variable of that
name. -/
def segmented_radix_sort_keys {K : Type} (fuel : Nat) (encode : K → Nat)
    (align_size : Nat → Nat) (sizeof_key : Nat) (mem : radix_memory K Unit)
    (temporary_storage storage_size keys_input keys_output size : Nat) (ignored : Bool)
    (segments : Nat) (begin_offsets end_offsets : Nat → Nat) (begin_bit end_bit : Nat) :
    Option (radix_sort_outcome K Unit) :=
  segmented_radix_sort_impl_full fuel false false encode align_size sizeof_key 1 mem
    temporary_storage storage_size keys_input 0 keys_output 0 0 0 size ignored segments
    begin_offsets end_offsets begin_bit end_bit

/-- The pointer-pair overload of `segmented_radix_sort_keys_desc`. -/
def segmented_radix_sort_keys_desc {K : Type} (fuel : Nat) (encode : K → Nat)
    (align_size : Nat → Nat) (sizeof_key : Nat) (mem : radix_memory K Unit)
    (temporary_storage storage_size keys_input keys_output size : Nat) (ignored : Bool)
    (segments : Nat) (begin_offsets end_offsets : Nat → Nat) (begin_bit end_bit : Nat) :
    Option (radix_sort_outcome K Unit) :=
  segmented_radix_sort_impl_full fuel true false encode align_size sizeof_key 1 mem
    temporary_storage storage_size keys_input 0 keys_output 0 0 0 size ignored segments
    begin_offsets end_offsets begin_bit end_bit

/-- The result of a `double_buffer` overload for keys: the outcome of the inner call
and the double buffer after the call. -/
structure keys_double_buffer_outcome (K : Type) where
  outcome : radix_sort_outcome K Unit
  keys : double_buffer

/-- The `double_buffer` overload of `segmented_radix_sort_keys`: the inner call on
`(current, current, alternate)`, then the swap under the condition
`temporary_storage != nullptr && is_result_in_output`; `uninit` is the content of the
local variable `is_result_in_output` before the inner call. -/
def segmented_radix_sort_keys_double_buffer {K : Type} (fuel : Nat) (encode : K → Nat)
    (align_size : Nat → Nat) (sizeof_key : Nat) (mem : radix_memory K Unit)
    (temporary_storage storage_size : Nat) (keys : double_buffer) (size : Nat)
    (uninit : Bool) (segments : Nat) (begin_offsets end_offsets : Nat → Nat)
    (begin_bit end_bit : Nat) : Option (keys_double_buffer_outcome K) :=
  (segmented_radix_sort_impl_full fuel false false encode align_size sizeof_key 1 mem
    temporary_storage storage_size keys.current keys.current keys.alternate 0 0 0 size
    uninit segments begin_offsets end_offsets begin_bit end_bit).map
    (fun o =>
      if temporary_storage ≠ 0 ∧ o.is_result_in_output = true then
        { outcome := o, keys := keys.swap }
      else { outcome := o, keys := keys })

/-- The `double_buffer` overload of `segmented_radix_sort_keys_desc`. -/
def segmented_radix_sort_keys_desc_double_buffer {K : Type} (fuel : Nat)
    (encode : K → Nat) (align_size : Nat → Nat) (sizeof_key : Nat)
    (mem : radix_memory K Unit) (temporary_storage storage_size : Nat)
    (keys : double_buffer) (size : Nat) (uninit : Bool) (segments : Nat)
    (begin_offsets end_offsets : Nat → Nat) (begin_bit end_bit : Nat) :
    Option (keys_double_buffer_outcome K) :=
  (segmented_radix_sort_impl_full fuel true false encode align_size sizeof_key 1 mem
    temporary_storage storage_size keys.current keys.current keys.alternate 0 0 0 size
    uninit segments begin_offsets end_offsets begin_bit end_bit).map
    (fun o =>
      if temporary_storage ≠ 0 ∧ o.is_result_in_output = true then
        { outcome := o, keys := keys.swap }
      else { outcome := o, keys := keys })

/-- The result of a `double_buffer` overload for pairs: the outcome of the inner call
and the two double buffers after the call. -/
structure pairs_double_buffer_outcome (K V : Type) where
  outcome : radix_sort_outcome K V
  keys : double_buffer
  values : double_buffer

/-- The `double_buffer` overload of `segmented_radix_sort_pairs`, sizing call and work
call: the inner call on `(current, current, alternate)` for the keys and for the values,
then the swap of both double buffers under the condition
`temporary_storage != nullptr && is_result_in_output`. -/
def segmented_radix_sort_pairs_double_buffer_full {K V : Type} (fuel : Nat)
    (encode : K → Nat) (align_size : Nat → Nat) (sizeof_key sizeof_value : Nat)
    (mem : radix_memory K V) (temporary_storage storage_size : Nat)
    (keys values : double_buffer) (size : Nat) (uninit : Bool) (segments : Nat)
    (begin_offsets end_offsets : Nat → Nat) (begin_bit end_bit : Nat) :
    Option (pairs_double_buffer_outcome K V) :=
  (segmented_radix_sort_impl_full fuel false true encode align_size sizeof_key
    sizeof_value mem temporary_storage storage_size keys.current keys.current
    keys.alternate values.current values.current values.alternate size uninit segments
    begin_offsets end_offsets begin_bit end_bit).map
    (fun o =>
      if temporary_storage ≠ 0 ∧ o.is_result_in_output = true then
        { outcome := o, keys := keys.swap, values := values.swap }
      else { outcome := o, keys := keys, values := values })

/-- The `double_buffer` overload of `segmented_radix_sort_pairs_desc`, sizing call and
work call. -/
def segmented_radix_sort_pairs_desc_double_buffer_full {K V : Type} (fuel : Nat)
    (encode : K → Nat) (align_size : Nat → Nat) (sizeof_key sizeof_value : Nat)
    (mem : radix_memory K V) (temporary_storage storage_size : Nat)
    (keys values : double_buffer) (size : Nat) (uninit : Bool) (segments : Nat)
    (begin_offsets end_offsets : Nat → Nat) (begin_bit end_bit : Nat) :
    Option (pairs_double_buffer_outcome K V) :=
  (segmented_radix_sort_impl_full fuel true true encode align_size sizeof_key
    sizeof_value mem temporary_storage storage_size keys.current keys.current
    keys.alternate values.current values.current values.alternate size uninit segments
    begin_offsets end_offsets begin_bit end_bit).map
    (fun o =>
      if temporary_storage ≠ 0 ∧ o.is_result_in_output = true then
        { outcome := o, keys := keys.swap, values := values.swap }
      else { outcome := o, keys := keys, values := values })

/-- What a call of `scan_impl` leaves behind: the caller's `storage_size`, the content
of `output`, and the number of kernels it launched (nested calls included). -/
structure scan_outcome (α : Type) where
  storage_size : Nat
  output : Nat → α
  kernels : Nat

/-- The host function `scan_impl`, sizing call (`temporary_storage` is `none`, the null
pointer) and work call (`temporary_storage` is the content of the scratch buffer, in
units of `result_type`). `scan_get_temporary_storage_bytes` is the function of that name
for `result_type` (`detail/device_scan_reduce_then_scan.hpp`), `sizeof_result` is
`sizeof(result_type)`; `storage_size` is the content of the caller's variable before
the call, and the nested call receives
`storage_size - number_of_blocks * sizeof(result_type)` (a `size_t` difference) and the
scratch buffer from entry `number_of_blocks` on. The work call is `none` when the
recursion is deeper than `fuel`. -/
def scan_impl_full {α : Type} (scan_get_temporary_storage_bytes : Nat → Nat → Nat)
    (sizeof_result BlockSize ItemsPerThread : Nat) (scan_op : α → α → α) (dflt : α)
    (uninit : Nat → α) :
    Nat → Bool → Option (Nat → α) → Nat → (Nat → α) → (Nat → α) → α → Nat →
      Option (scan_outcome α)
  | fuel, Exclusive, temporary_storage, storage_size, input, output, initial_value, size =>
    let items_per_block := wrap32 (BlockSize * ItemsPerThread)
    match temporary_storage with
    | none =>
      let storage_size := scan_get_temporary_storage_bytes size items_per_block
      some { storage_size := if storage_size = 0 then 4 else storage_size
             output := output
             kernels := 0 }
    | some temporary_storage =>
      match fuel with
      | 0 => none
      | fuel + 1 =>
        let number_of_blocks := sub64 (wrap64 (size + items_per_block)) 1 / items_per_block
        if 1 < number_of_blocks then
          let block_prefixes := temporary_storage
          let grid_size := wrap64 ((number_of_blocks - 1) * BlockSize)
          let block_prefixes := apply_writes block_prefixes
            ((List.range (grid_size / BlockSize)).map
              (block_reduce_kernel_impl BlockSize ItemsPerThread input scan_op))
          let nested_temp_storage : Option (Nat → α) :=
            some (fun i => temporary_storage (number_of_blocks + i))
          let nested_temp_storage_size :=
            sub64 storage_size (wrap64 (number_of_blocks * sizeof_result))
          match scan_impl_full scan_get_temporary_storage_bytes sizeof_result BlockSize
              ItemsPerThread scan_op dflt uninit fuel false nested_temp_storage
              nested_temp_storage_size block_prefixes block_prefixes dflt
              number_of_blocks with
          | none => none
          | some nested =>
            let block_prefixes := nested.output
            let grid_size := wrap64 (number_of_blocks * BlockSize)
            some { storage_size := storage_size
                   output := apply_writes output
                     ((List.range (grid_size / BlockSize)).flatMap
                       (final_scan_kernel_impl BlockSize ItemsPerThread Exclusive input
                         uninit size initial_value scan_op block_prefixes
                         (grid_size / BlockSize)))
                   kernels := nested.kernels + 2 }
        else
          some { storage_size := storage_size
                 output := apply_writes output
                   (single_scan_kernel_impl BlockSize ItemsPerThread Exclusive input
                     uninit size initial_value scan_op)
                 kernels := 1 }

/-- The public `inclusive_scan`, sizing call and work call. -/
def inclusive_scan_full {α : Type} (scan_get_temporary_storage_bytes : Nat → Nat → Nat)
    (sizeof_result fuel : Nat) (temporary_storage : Option (Nat → α)) (storage_size : Nat)
    (input output : Nat → α) (dflt : α) (size : Nat) (scan_op : α → α → α)
    (uninit : Nat → α) : Option (scan_outcome α) :=
  scan_impl_full scan_get_temporary_storage_bytes sizeof_result 256 4 scan_op dflt uninit
    fuel false temporary_storage storage_size input output dflt size

/-- The public `exclusive_scan`, sizing call and work call. -/
def exclusive_scan_full {α : Type} (scan_get_temporary_storage_bytes : Nat → Nat → Nat)
    (sizeof_result fuel : Nat) (temporary_storage : Option (Nat → α)) (storage_size : Nat)
    (input output : Nat → α) (initial_value dflt : α) (size : Nat) (scan_op : α → α → α)
    (uninit : Nat → α) : Option (scan_outcome α) :=
  scan_impl_full scan_get_temporary_storage_bytes sizeof_result 256 4 scan_op dflt uninit
    fuel true temporary_storage storage_size input output initial_value size

/-! ### The reference of the radix sort test -/

/-- The comparator `key_comparator<Key, Descending, StartBit, EndBit>` of the radix
sort test for an unsigned `Key` of `sizeof_key` bytes: the specialisation for the whole
key (`StartBit = 0`, `EndBit = sizeof(Key) * 8`) compares the keys, the primary template
compares the masked bits in `unsigned long long` arithmetic. -/
def key_comparator (Descending : Bool) (sizeof_key StartBit EndBit lhs rhs : Nat) : Bool :=
  if StartBit = 0 ∧ EndBit = sizeof_key * 8 then
    if Descending then decide (rhs < lhs) else decide (lhs < rhs)
  else
    let mask := sub64 (wrap64 (1 <<< sub32 EndBit StartBit)) 1
    let l := (wrap64 lhs >>> StartBit) &&& mask
    let r := (wrap64 rhs >>> StartBit) &&& mask
    if Descending then decide (r < l) else decide (l < r)

/-- The comparator `key_value_comparator` of the radix sort test: `key_comparator` on
the keys of two pairs. -/
def key_value_comparator {V : Type} (Descending : Bool) (sizeof_key StartBit EndBit : Nat)
    (lhs rhs : Nat × V) : Bool :=
  key_comparator Descending sizeof_key StartBit EndBit lhs.1 rhs.1

/-- Insertion of `a` in front of a list ordered by `comp`: `a` goes before the first
item that is not less than `a`. -/
def stable_insert {α : Type} (comp : α → α → Bool) (a : α) : List α → List α
  | [] => [a]
  | b :: l => if comp b a then b :: stable_insert comp a l else a :: b :: l

/-- The result of `std::stable_sort(first, last, comp)`, the reference of the test: the
items ordered by `comp`, the items that `comp` does not order keeping their order. -/
def stable_sort {α : Type} (comp : α → α → Bool) : List α → List α
  | [] => []
  | a :: l => stable_insert comp a (stable_sort comp l)

/-- A memory with `2^24 + 1` segments of two pairs: the input keys `3, 1, 3, 1, …` at
key pointer `1`, every other key array filled with the key `0`; the value at index `i`
of the input is `i`, every other value is `0`. -/
def many_pairs_memory : radix_memory Nat Nat where
  keys := fun p i => if p = 1 then 3 - 2 * (i % 2) else 0
  values := fun p i => if p = 1 then i else 0

/-- The keys of the documented example without values: keys `[6,3,5,4,1,8,1,7]` at key
pointer `1`, every other key array filled with the key `99`. -/
def keys_example_memory : radix_memory Nat Unit where
  keys := fun p i => if p = 1 then [6, 3, 5, 4, 1, 8, 1, 7].getD i 99 else 99
  values := fun _ _ => ()

/-- A possible `align_size`: the byte count rounded up to a multiple of `256`. -/
def align_size_256 (size : Nat) : Nat := (size + 255) / 256 * 256

/-- Every segment of the arrays `keys`, `values` holds what the reference of the test
gives for the segment of the arrays `keys0`, `values0`: the `std::stable_sort` with
`key_value_comparator`; and the pairs with equal key bits `[begin_bit, end_bit)` are in
the order they have in `keys0`, `values0`. -/
def segments_reference_sorted {V : Type} (Descending : Bool)
    (sizeof_key begin_bit end_bit : Nat) (keys0 : Nat → Nat) (values0 : Nat → V)
    (keys : Nat → Nat) (values : Nat → V) (segments : Nat)
    (begin_offsets end_offsets : Nat → Nat) : Prop :=
  ∀ s, s < segments →
    segment_items keys values (begin_offsets s) (end_offsets s)
      = stable_sort (key_value_comparator Descending sizeof_key begin_bit end_bit)
          (segment_items keys0 values0 (begin_offsets s) (end_offsets s))
    ∧ ∀ d, (segment_items keys values (begin_offsets s) (end_offsets s)).filter
          (fun kv => decide (key_bits begin_bit end_bit kv.1 = d))
        = (segment_items keys0 values0 (begin_offsets s) (end_offsets s)).filter
          (fun kv => decide (key_bits begin_bit end_bit kv.1 = d))

/-! ## The look-back scan state of `partition_flag_kernel_impl`

The class `lookback_scan_state` and the base class `lookback_scan_prefix_op` are
external to the kernel (`lookback_scan_state.hpp`); the kernel calls `set_complete` in
block `0` and goes through `offset_lookback_scan_prefix_op` in every other block. An
execution of the grid is a sequence of steps, each one made by one block. -/

/-- Modelled from the spec: the status tag of a look-back cell (§3 "a status tag in
{EMPTY, PARTIAL, INCLUSIVE}"). -/
inductive lookback_status where
  | EMPTY
  | PARTIAL
  | INCLUSIVE
deriving DecidableEq

/-- Modelled from the spec: a look-back cell, a status tag and a payload (§3); the
payload type of the partition kernel is `offset_type`, an `unsigned int`. -/
structure lookback_cell where
  status : lookback_status
  value : Nat
deriving DecidableEq

/-- Modelled from the spec: `set_partial(block_index, value)` "publishes
(PARTIAL, value)" (§4.1). -/
def set_partial (cells : Nat → lookback_cell) (block_index value : Nat) :
    Nat → lookback_cell :=
  Function.update cells block_index ⟨lookback_status.PARTIAL, value⟩

/-- Modelled from the spec: `set_complete(block_index, prefix)` "publishes
(INCLUSIVE, prefix)" (§4.1). -/
def set_complete (cells : Nat → lookback_cell) (block_index value : Nat) :
    Nat → lookback_cell :=
  Function.update cells block_index ⟨lookback_status.INCLUSIVE, value⟩

/-- Where a block stands in its use of the scan state: before its first publication;
walking the predecessors, about to read the cell `predecessor` with the running
aggregate `aggregate`; with its exclusive value resolved, about to publish; and after
its last publication. -/
inductive lookback_phase where
  | start
  | look_back (predecessor aggregate : Nat)
  | resolved (exclusive : Nat)
  | done (exclusive : Nat)
deriving DecidableEq

/-- The scan state of a grid in execution: the cells and the phase of every block. -/
structure lookback_grid where
  cells : Nat → lookback_cell
  phase : Nat → lookback_phase

/-- The scan state before the kernel: "Initial value EMPTY for all cells" (§3). -/
def lookback_init : lookback_grid where
  cells := fun _ => ⟨lookback_status.EMPTY, 0⟩
  phase := fun _ => lookback_phase.start

/-- One step of the block with the ticket `flat_block_id`, whose block reduction
(`selected_in_block`) is `reduction flat_block_id`. Block `0` calls `set_complete` with
its reduction, as the kernel has it. Modelled from the spec (§4.1 "decoupled look-back
prefix resolution for a block k>0"): another block publishes (PARTIAL, R_k), walks the
predecessors `k-1, k-2, …` (an EMPTY cell is read again, a PARTIAL cell is accumulated
and the walk continues, an INCLUSIVE cell is accumulated and ends the walk) and
publishes (INCLUSIVE, prefix + R_k); the sums are `offset_type` sums. -/
def lookback_step (reduction : Nat → Nat) (flat_block_id : Nat) (st : lookback_grid) :
    lookback_grid :=
  match st.phase flat_block_id with
  | lookback_phase.start =>
    if flat_block_id = 0 then
      { cells := set_complete st.cells flat_block_id (reduction flat_block_id)
        phase := Function.update st.phase flat_block_id (lookback_phase.done 0) }
    else
      { cells := set_partial st.cells flat_block_id (reduction flat_block_id)
        phase := Function.update st.phase flat_block_id
          (lookback_phase.look_back (flat_block_id - 1) 0) }
  | lookback_phase.look_back predecessor aggregate =>
    match (st.cells predecessor).status with
    | lookback_status.EMPTY => st
    | lookback_status.PARTIAL =>
      { cells := st.cells
        phase := Function.update st.phase flat_block_id
          (lookback_phase.look_back (predecessor - 1)
            (plus32 (st.cells predecessor).value aggregate)) }
    | lookback_status.INCLUSIVE =>
      { cells := st.cells
        phase := Function.update st.phase flat_block_id
          (lookback_phase.resolved (plus32 (st.cells predecessor).value aggregate)) }
  | lookback_phase.resolved exclusive =>
    { cells := set_complete st.cells flat_block_id
        (plus32 exclusive (reduction flat_block_id))
      phase := Function.update st.phase flat_block_id (lookback_phase.done exclusive) }
  | lookback_phase.done _ => st

/-- An execution of the grid: the steps of the blocks in the order `schedule`, from the
state `st`. -/
def lookback_run (reduction : Nat → Nat) (schedule : List Nat) (st : lookback_grid) :
    lookback_grid :=
  schedule.foldl (fun s b => lookback_step reduction b s) st

/-- The protocol state of the cells: the cell of a block that has not published is
EMPTY, the cell of a block between its two publications is PARTIAL (and the block is
not block `0`), the cell of a block that has finished is INCLUSIVE. -/
def lookback_consistent (st : lookback_grid) : Prop :=
  ∀ c, match st.phase c with
    | lookback_phase.start => (st.cells c).status = lookback_status.EMPTY
    | lookback_phase.look_back _ _ => (st.cells c).status = lookback_status.PARTIAL ∧ c ≠ 0
    | lookback_phase.resolved _ => (st.cells c).status = lookback_status.PARTIAL ∧ c ≠ 0
    | lookback_phase.done _ => (st.cells c).status = lookback_status.INCLUSIVE

/-! ## Specification vocabulary: segments and their reductions -/

/-- The last head position at or before `i` (position `0` when there is none). -/
def last_head (heads : Nat → Bool) : Nat → Nat
  | 0 => 0
  | i + 1 => if heads (i + 1) then i + 1 else last_head heads i

/-- The left-to-right reduction `v_s ⊕ v_(s+1) ⊕ … ⊕ v_(s+k)`. -/
def range_reduce {V : Type} (op : V → V → V) (values : Nat → V) (s : Nat) : Nat → V
  | 0 => values s
  | k + 1 => op (range_reduce op values s k) (values (s + k + 1))

/-- The first position of the run of position `p`: the last run start at or before
`p`. -/
def run_start_of {K : Type} (eq : K → K → Bool) (keys : Nat → K) (p : Nat) : Nat :=
  last_head (is_run_start eq keys) p

/-- The left-to-right reduction of the values of the run of position `p` from the run
start, or from the position `lo` when the run starts before `lo`, up to `p`. -/
def segment_reduce {K V : Type} (eq : K → K → Bool) (keys : Nat → K) (op : V → V → V)
    (values : Nat → V) (lo p : Nat) : V :=
  range_reduce op values (max lo (run_start_of eq keys p))
    (p - max lo (run_start_of eq keys p))

/-- The store to `aggregates_output` that position `p` of the input causes, if any, in a
batch whose first item is `lo`: at the last item of a run, at the number of runs that
end before it, the reduction of the part of the run that lies in the batch. -/
def aggregate_store {K V : Type} (eq : K → K → Bool) (keys : Nat → K) (N : Nat)
    (op : V → V → V) (values : Nat → V) (lo p : Nat) : Option (Nat × V) :=
  if is_run_end eq keys N p = true then
    some (Nat.count (fun q => is_run_end eq keys N q = true) p,
      segment_reduce eq keys op values lo p)
  else none

/-- The last positions of the maximal runs of eq-adjacent keys of an input of `N` keys,
in increasing order: `e_0, e_1, …`. -/
def run_ends {K : Type} (eq : K → K → Bool) (keys : Nat → K) (N : Nat) : List Nat :=
  (List.range N).filter (is_run_end eq keys N)

/-! ### Data of the documented examples -/

/-- The custom operator `min_op` of the documented `exclusive_scan` example,
`a < b ? a : b` on `int`. -/
def min_op (a b : Int) : Int := if a < b then a else b

/-- The input `[4, 7, 6, 2, 5, 1, 3, 8]` of the documented `exclusive_scan` example
(`short` values, scanned into `int`). -/
def documented_scan_input : Nat → Int := fun i => [4, 7, 6, 2, 5, 1, 3, 8].getD i 0

/-- Sorted keys whose runs span blocks and batches of `2 * 2` items:
`[1,1,1,2, 2,2,3,3, 3,3,3,5]`. -/
def spanning_keys : Nat → Nat := fun i => [1, 1, 1, 2, 2, 2, 3, 3, 3, 3, 3, 5].getD i 0

/-- Sorted keys with five runs, `[1,1,1,2, 3,3,3,4, 5,5,5,5]`. -/
def sorted_keys : Nat → Nat := fun i => [1, 1, 1, 2, 3, 3, 3, 4, 5, 5, 5, 5].getD i 0

/-! ## The registers of `scan_and_scatter_carry_outs` -/

/-- The array `cs` of `scan_and_scatter_carry_outs`: the block loads the first
`batches - 1` carry-outs, the other registers keep their uninitialised content. -/
def loaded_carry_outs {K V : Type} (carry_outs uninit : Nat → carry_out K V)
    (batches : Nat) : Nat → carry_out K V :=
  block_load_valid carry_outs 0 (sub32 batches 1) uninit

/-- The array `tail_flags` of `scan_and_scatter_carry_outs`: the keys of the loaded
carry-outs flagged with `guarded_key_flag_op(key_compare_op, batches - 1)` and the tile
successor `keys[ItemsPerThread - 1]`. -/
def carry_out_tail_flags {K V : Type} (BlockSize ItemsPerThread : Nat)
    (carry_outs uninit : Nat → carry_out K V) (key_compare_op : K → K → Bool)
    (batches : Nat) : Nat → Bool :=
  let items_per_block := wrap32 (BlockSize * ItemsPerThread)
  let cs := loaded_carry_outs carry_outs uninit batches
  let keys := fun j => (cs j).key
  let successor_key := keys (last_item BlockSize ItemsPerThread)
  flag_tails items_per_block (guarded_key_flag_op key_compare_op (sub32 batches 1))
    successor_key keys

/-- The array `pairs` of `scan_and_scatter_carry_outs` after the block scan: the
inclusive scan under `scan_by_key_op` of the pairs (head flag, carry-out value). -/
def carry_out_pairs {K V : Type} (carry_outs uninit : Nat → carry_out K V)
    (key_compare_op : K → K → Bool) (reduce_op : V → V → V) (batches : Nat) :
    Nat → scan_by_key_pair V :=
  let cs := loaded_carry_outs carry_outs uninit batches
  let keys := fun j => (cs j).key
  let values := fun j => (cs j).value
  let head_flags := flag_heads (guarded_key_flag_op key_compare_op (sub32 batches 1)) keys
  block_inclusive_scan (scan_by_key_op reduce_op)
    (fun j => { key := if head_flags j then 1 else 0, value := values j })

/-- Two carry-outs with the keys `1` and `2`: batch `0` ends inside a run (value `10`,
destination `0`, no final aggregate), batch `1` ends with a run (value `20`, destination
`1`, final aggregate). -/
def fixup_carry_outs : Nat → carry_out Nat Nat :=
  fun j => if j = 0 then ⟨1, 10, 0, 0⟩ else ⟨2, 20, 1, 1⟩

/-- Aggregates `100, 101, 102, …` before the fix-up. -/
def fixup_aggregates : Nat → Nat := fun r => 100 + r

/-- The content of `carry_outs` after the kernel `reduce_by_key`: entry `b` is the
carry-out stored by batch `b`, an entry that no batch stores keeps its content. -/
def reduce_by_key_carry_outs {K V : Type} (BlockSize ItemsPerThread : Nat)
    (keys_input uninitK : Nat → K) (values_input uninitV : Nat → V) (size : Nat)
    (unique_starts : Nat → Nat)
    (key_compare_op : K → K → Bool) (reduce_op : V → V → V)
    (blocks_per_full_batch full_batches blocks : Nat)
    (carry_outs : Nat → carry_out K V) : Nat → carry_out K V :=
  fun b =>
    match (reduce_by_key BlockSize ItemsPerThread keys_input uninitK values_input uninitV
        size unique_starts key_compare_op reduce_op blocks_per_full_batch full_batches
        blocks b).carry_outs_store with
    | some c => c
    | none => carry_outs b

/-! ### Example states of the later claims -/

/-- The result of `scan_unique_counts` for the first seven keys of `scenario_keys` in
two batches of one block of `2 * 2` items: the scanned `unique_counts` and the value
stored to `unique_count_output`. -/
def scenario_scanned_counts : (Nat → Nat) × Nat :=
  scan_unique_counts 2 2
    (fill_unique_counts_grid 2 2 2 scenario_keys (fun _ => 0) 7 (fun a b => a == b)
      1 2 2 2 (fun _ => 0)) 2

/-- The content of `carry_outs` after `reduce_by_key` in the same launch. -/
def scenario_carry_outs : Nat → carry_out Nat Nat :=
  reduce_by_key_carry_outs 2 2 scenario_keys (fun _ => 0) scenario_values (fun _ => 0) 7
    scenario_scanned_counts.1 (fun a b => a == b) (fun a b => a + b) 1 2 2
    (fun _ => ⟨0, 0, 0, 0⟩)

/-- The result of `scan_unique_counts` for the same seven keys and two blocks when the
grid has three batches, the third one without a block (`blocks_per_full_batch = 1`,
`full_batches = 2`). -/
def trailing_scanned_counts : (Nat → Nat) × Nat :=
  scan_unique_counts 2 2
    (fill_unique_counts_grid 2 2 2 scenario_keys (fun _ => 0) 7 (fun a b => a == b)
      1 2 2 3 (fun _ => 0)) 3

/-- The content of `carry_outs` after `reduce_by_key` in the launch with three batches,
the registers of the items after the input holding the value `5`. -/
def trailing_carry_outs : Nat → carry_out Nat Nat :=
  reduce_by_key_carry_outs 2 2 scenario_keys (fun _ => 0) scenario_values (fun _ => 5) 7
    trailing_scanned_counts.1 (fun a b => a == b) (fun a b => a + b) 1 2 2
    (fun _ => ⟨0, 0, 0, 0⟩)

/-- The scanned `output_indices` of block `1` of the partition scenario in two blocks of
`2 * 2` items: the exclusive scan of the flags of the tile from the selected prefix `2`. -/
def scenario_output_indices : Nat → Nat :=
  block_exclusive_scan plus32 2
    (fun j => if partition_is_selected 2 2 partition_scenario_flags 6 2 1 j then 1 else 0)

/-! ### Named values of the second scatter loop of `partition_flag_kernel_impl` -/

/-- The `rejected_item_index` of the second scatter loop of `partition_flag_kernel_impl`,
the `unsigned int` difference `item_index - selected_in_block`; the loop computes it for
every item. -/
def partition_rejected_item_index (item_index selected_in_block : Nat) : Nat :=
  sub32 item_index selected_in_block

/-- The `rejected_prefix` of the second scatter loop of `partition_flag_kernel_impl`,
the `unsigned int` difference `flat_block_id * items_per_block - selected_prefix`. -/
def partition_rejected_prefix_sum (items_per_block flat_block_id selected_prefix_sum : Nat) :
    Nat :=
  sub32 (wrap32 (flat_block_id * items_per_block)) selected_prefix_sum

/-! ### Launches beyond the capacity of the scan block or of `unsigned int` -/

/-- The result of `scan_unique_counts` run as a block of `1 * 2` items on the counts of
`sorted_keys` in three batches of one block of `2 * 2` items. -/
def narrow_scanned_counts : (Nat → Nat) × Nat :=
  scan_unique_counts 1 2
    (fill_unique_counts_grid 2 2 2 sorted_keys (fun _ => 0) 12 (fun a b => a == b)
      1 3 3 3 (fun _ => 0)) 3

/-- Keys of which eight are equal and four start a run each in the last of three blocks of
`2 * 2` items: `[1,1,1,1, 1,1,1,1, 2,3,4,5]`. -/
def late_runs_keys : Nat → Nat := fun i => [1, 1, 1, 1, 1, 1, 1, 1, 2, 3, 4, 5].getD i 0

/-- The result of `scan_unique_counts` run as a block of `1 * 2` items on the counts of
`late_runs_keys` in three batches of one block of `2 * 2` items. -/
def late_scanned_counts : (Nat → Nat) × Nat :=
  scan_unique_counts 1 2
    (fill_unique_counts_grid 2 2 2 late_runs_keys (fun _ => 0) 12 (fun a b => a == b)
      1 3 3 3 (fun _ => 0)) 3

/-- The kernel `reduce_by_key` run by the last batch of a grid of `2^30` batches of one
block of `2 * 2` items on `2^32 - 1` pairwise distinct keys `keys_input[i] = i` with the
values `values_input[i] = i`, the batch starting at `unique_starts[batch_id] = block_start`. -/
def wrapped_last_batch (block_start : Nat) : reduce_by_key_state Nat Nat :=
  reduce_by_key 2 2 (fun i => i) (fun _ => 0) (fun i => i) (fun _ => 0) 4294967295
    (fun _ => block_start) (fun a b => a == b) (fun a b => a + b) 2 0 1073741824 1073741823
/-! # Theorems -/

theorem wrap32_of_lt {n : Nat} (h : n < 4294967296) : wrap32 n = n :=
  Nat.mod_eq_of_lt h

theorem wrap32_idem (n : Nat) : wrap32 (wrap32 n) = wrap32 n :=
  Nat.mod_mod _ _

theorem wrap32_lt (n : Nat) : wrap32 n < 4294967296 :=
  Nat.mod_lt _ (by decide)

theorem sub32_of_le {a b : Nat} (hb : b ≤ a) (ha : a < 4294967296) : sub32 a b = a - b := by
  unfold sub32
  have hb' : b % 4294967296 = b := Nat.mod_eq_of_lt (by omega)
  rw [hb']
  have : a + (4294967296 - b) = (a - b) + 4294967296 := by omega
  rw [this, Nat.add_mod_right]
  exact Nat.mod_eq_of_lt (by omega)

theorem first_block_zero (p f : Nat) : first_block p f 0 = 0 := by
  unfold first_block; split <;> simp_all

theorem first_block_succ (p f b : Nat) (hp : 1 ≤ p) :
    first_block p f (b + 1) = first_block p f b + batch_blocks p f b := by
  unfold first_block batch_blocks
  obtain ⟨q, rfl⟩ : ∃ q, p = q + 1 := ⟨p - 1, by omega⟩
  by_cases h1 : b + 1 < f
  · have h2 : b < f := by omega
    simp only [h1, h2, if_true]; ring
  · by_cases h2 : b < f
    · have h3 : f = b + 1 := by omega
      subst h3
      simp only [h1, h2, if_true, if_false, Nat.add_sub_cancel]; ring
    · simp only [h1, h2, if_false, Nat.add_sub_cancel]; ring

theorem first_block_batches (p f n : Nat) (hp : 1 ≤ p) (hf : f ≤ n) :
    first_block p f n = f * p + (n - f) * (p - 1) := by
  unfold first_block
  obtain ⟨q, rfl⟩ : ∃ q, p = q + 1 := ⟨p - 1, by omega⟩
  obtain ⟨d, rfl⟩ : ∃ d, n = f + d := ⟨n - f, by omega⟩
  by_cases h : f + d < f
  · omega
  · simp only [h, if_false, Nat.add_sub_cancel, Nat.add_sub_cancel_left]; ring

theorem first_block_mono (p f : Nat) (hp : 1 ≤ p) {a b : Nat} (h : a ≤ b) :
    first_block p f a ≤ first_block p f b := by
  induction b with
  | zero => have : a = 0 := by omega
            subst this; exact le_refl _
  | succ n ih =>
    rcases Nat.lt_or_ge a (n + 1) with h1 | h1
    · have := ih (by omega)
      rw [first_block_succ p f n hp]; omega
    · have : a = n + 1 := by omega
      subst this; exact le_refl _


/-! ## Reduce-by-key: flags of one block -/

section rbk_flags

variable {BlockSize ItemsPerThread warp_size ScanBlockSize ScanItemsPerThread
  size blocks_per_full_batch full_batches blocks batches : Nat}

theorem launch_ok.blocks_pos
    (h : launch_ok BlockSize ItemsPerThread warp_size ScanBlockSize ScanItemsPerThread
      size blocks_per_full_batch full_batches blocks batches) : 0 < blocks := by
  rcases Nat.eq_zero_or_pos blocks with h0 | h0
  · have := h.blocks_hi
    have := h.size_pos
    rw [h0] at *
    simp at *
    omega
  · exact h0

theorem launch_ok.ipb_pos
    (h : launch_ok BlockSize ItemsPerThread warp_size ScanBlockSize ScanItemsPerThread
      size blocks_per_full_batch full_batches blocks batches) :
    0 < BlockSize * ItemsPerThread :=
  Nat.mul_pos h.block_pos h.items_pos

theorem launch_ok.ipb_lt
    (h : launch_ok BlockSize ItemsPerThread warp_size ScanBlockSize ScanItemsPerThread
      size blocks_per_full_batch full_batches blocks batches) :
    BlockSize * ItemsPerThread < 4294967296 := by
  have h1 := h.fits
  have h2 := h.blocks_pos
  have : 1 * (BlockSize * ItemsPerThread) ≤ blocks * (BlockSize * ItemsPerThread) :=
    Nat.mul_le_mul_right _ h2
  omega

theorem launch_ok.size_lt
    (h : launch_ok BlockSize ItemsPerThread warp_size ScanBlockSize ScanItemsPerThread
      size blocks_per_full_batch full_batches blocks batches) : size < 4294967296 :=
  lt_of_le_of_lt h.blocks_hi h.fits

theorem launch_ok.block_offset_le
    (_ : launch_ok BlockSize ItemsPerThread warp_size ScanBlockSize ScanItemsPerThread
      size blocks_per_full_batch full_batches blocks batches)
    {block_id : Nat} (hb : block_id < blocks) :
    block_id * (BlockSize * ItemsPerThread) + BlockSize * ItemsPerThread
      ≤ blocks * (BlockSize * ItemsPerThread) := by
  have : (block_id + 1) * (BlockSize * ItemsPerThread)
      ≤ blocks * (BlockSize * ItemsPerThread) := Nat.mul_le_mul_right _ hb
  rw [Nat.succ_mul] at this
  exact this

theorem launch_ok.inner_block_le
    (h : launch_ok BlockSize ItemsPerThread warp_size ScanBlockSize ScanItemsPerThread
      size blocks_per_full_batch full_batches blocks batches)
    {block_id : Nat} (hb : block_id + 1 < blocks) :
    block_id * (BlockSize * ItemsPerThread) + BlockSize * ItemsPerThread < size := by
  have : (block_id + 1) * (BlockSize * ItemsPerThread)
      ≤ (blocks - 1) * (BlockSize * ItemsPerThread) := Nat.mul_le_mul_right _ (by omega)
  rw [Nat.succ_mul] at this
  have := h.blocks_lo
  omega

theorem launch_ok.offset_lt
    (h : launch_ok BlockSize ItemsPerThread warp_size ScanBlockSize ScanItemsPerThread
      size blocks_per_full_batch full_batches blocks batches)
    {block_id : Nat} (hb : block_id < blocks) :
    block_id * (BlockSize * ItemsPerThread) + BlockSize * ItemsPerThread < 4294967296 :=
  lt_of_le_of_lt (h.block_offset_le hb) h.fits

theorem launch_ok.wrap_offset
    (h : launch_ok BlockSize ItemsPerThread warp_size ScanBlockSize ScanItemsPerThread
      size blocks_per_full_batch full_batches blocks batches)
    {block_id : Nat} (hb : block_id < blocks) :
    wrap32 (block_id * wrap32 (BlockSize * ItemsPerThread))
      = block_id * (BlockSize * ItemsPerThread) := by
  have := h.offset_lt hb
  rw [wrap32_of_lt h.ipb_lt, wrap32_of_lt (by omega)]

theorem last_item_eq {BlockSize ItemsPerThread : Nat}
    (hB : 0 < BlockSize) (hI : 0 < ItemsPerThread) :
    last_item BlockSize ItemsPerThread = BlockSize * ItemsPerThread - 1 := by
  unfold last_item
  obtain ⟨b, rfl⟩ : ∃ b, BlockSize = b + 1 := ⟨BlockSize - 1, by omega⟩
  obtain ⟨i, rfl⟩ : ∃ i, ItemsPerThread = i + 1 := ⟨ItemsPerThread - 1, by omega⟩
  simp only [Nat.add_sub_cancel]
  have : (b + 1) * (i + 1) = b * (i + 1) + i + 1 := by ring
  omega

/-- The valid count of a block: the whole tile, except in a partially filled last
block. -/
theorem block_valid_count_eq
    (h : launch_ok BlockSize ItemsPerThread warp_size ScanBlockSize ScanItemsPerThread
      size blocks_per_full_batch full_batches blocks batches)
    {block_id : Nat} (hb : block_id < blocks) :
    block_valid_count (wrap32 (BlockSize * ItemsPerThread)) size
        (wrap32 (block_id * wrap32 (BlockSize * ItemsPerThread)))
      = min (BlockSize * ItemsPerThread) (size - block_id * (BlockSize * ItemsPerThread)) := by
  have hI := h.ipb_lt
  have hle := h.block_offset_le hb
  have hfit := h.fits
  have hlo := h.blocks_lo
  have hoff : block_id * (BlockSize * ItemsPerThread) ≤ (blocks - 1) * (BlockSize * ItemsPerThread) :=
    Nat.mul_le_mul_right _ (by omega)
  have hsz := h.size_lt
  have hB := h.offset_lt hb
  unfold block_valid_count
  rw [h.wrap_offset hb, wrap32_of_lt hI, wrap32_of_lt hB]
  split
  · omega
  · rw [sub32_of_le (by omega) hsz]; omega

/-- The keys a block holds in its valid items are the input keys. -/
theorem block_keys_eq {K : Type}
    (h : launch_ok BlockSize ItemsPerThread warp_size ScanBlockSize ScanItemsPerThread
      size blocks_per_full_batch full_batches blocks batches)
    (keys_input uninit : Nat → K)
    {block_id j : Nat} (hb : block_id < blocks)
    (hj : block_id * (BlockSize * ItemsPerThread) + j < size) :
    block_keys (wrap32 (BlockSize * ItemsPerThread)) size keys_input uninit
        (wrap32 (block_id * wrap32 (BlockSize * ItemsPerThread))) j
      = keys_input (block_id * (BlockSize * ItemsPerThread) + j) := by
  have hI := h.ipb_lt
  have hle := h.block_offset_le hb
  have hfit := h.fits
  have hsz := h.size_lt
  have hB := h.offset_lt hb
  unfold block_keys
  rw [h.wrap_offset hb, wrap32_of_lt hI, wrap32_of_lt hB]
  split
  · rfl
  · unfold block_load_valid
    rw [sub32_of_le (by omega) hsz, if_pos (by omega)]

/-- The tail flags of a block are the run ends of the input. -/
theorem block_tail_flags_eq {K : Type}
    (h : launch_ok BlockSize ItemsPerThread warp_size ScanBlockSize ScanItemsPerThread
      size blocks_per_full_batch full_batches blocks batches)
    (keys_input uninit : Nat → K) (key_compare_op : K → K → Bool)
    {block_id j : Nat} (hb : block_id < blocks) (hj : j < BlockSize * ItemsPerThread) :
    block_tail_flags BlockSize ItemsPerThread size blocks keys_input uninit key_compare_op
        block_id j
      = is_run_end key_compare_op keys_input size
          (block_id * (BlockSize * ItemsPerThread) + j) := by
  have hI := h.ipb_lt
  have hle := h.block_offset_le hb
  have hfit := h.fits
  have hsz := h.size_lt
  have hbl := h.blocks_pos
  have hv := block_valid_count_eq h hb
  have hlo := h.blocks_lo
  have hhi := h.blocks_hi
  have hB := h.offset_lt hb
  have hw := h.wrap_offset hb
  have hs1 : sub32 blocks 1 = blocks - 1 := sub32_of_le (by omega) (by
    have : blocks * 1 ≤ blocks * (BlockSize * ItemsPerThread) :=
      Nat.mul_le_mul_left _ h.ipb_pos
    omega)
  have hk : ∀ j', block_id * (BlockSize * ItemsPerThread) + j' < size →
      block_keys (wrap32 (BlockSize * ItemsPerThread)) size keys_input uninit
        (wrap32 (block_id * wrap32 (BlockSize * ItemsPerThread))) j'
      = keys_input (block_id * (BlockSize * ItemsPerThread) + j') :=
    fun j' hj' => block_keys_eq h keys_input uninit hb hj'
  unfold block_tail_flags
  rw [hv, hs1]
  generalize block_keys (wrap32 (BlockSize * ItemsPerThread)) size keys_input uninit
        (wrap32 (block_id * wrap32 (BlockSize * ItemsPerThread))) = keys at hk ⊢
  rw [hw, wrap32_of_lt hI]
  by_cases hlast : block_id = blocks - 1
  · rw [if_pos hlast]
    unfold flag_tails guarded_key_flag_op is_run_end
    have hmul : block_id * (BlockSize * ItemsPerThread) + BlockSize * ItemsPerThread
        = blocks * (BlockSize * ItemsPerThread) := by
      have : blocks = block_id + 1 := by omega
      rw [this, Nat.succ_mul]
    have hoff : block_id * (BlockSize * ItemsPerThread) < size := by
      rw [hlast]; exact hlo
    by_cases h1 : j + 1 < min (BlockSize * ItemsPerThread)
        (size - block_id * (BlockSize * ItemsPerThread))
    · have hk1 := hk j (by omega)
      have hk2 := hk (j + 1) (by omega)
      rw [if_pos (by omega), hk1, hk2]
      have e1 : decide (j + 1 < min (BlockSize * ItemsPerThread)
        (size - block_id * (BlockSize * ItemsPerThread))) = true := by simpa using h1
      have e2 : decide (j + 1 = min (BlockSize * ItemsPerThread)
        (size - block_id * (BlockSize * ItemsPerThread))) = false := by
        simp; omega
      have e3 : decide (block_id * (BlockSize * ItemsPerThread) + j < size) = true := by
        simp; omega
      have e4 : decide (block_id * (BlockSize * ItemsPerThread) + j + 1 = size) = false := by
        simp; omega
      rw [e1, e2, e3, e4]
      simp [Nat.add_assoc]
    · by_cases h2 : j + 1 = min (BlockSize * ItemsPerThread)
          (size - block_id * (BlockSize * ItemsPerThread))
      · have e1 : decide (j + 1 < min (BlockSize * ItemsPerThread)
          (size - block_id * (BlockSize * ItemsPerThread))) = false := by simpa using h1
        have e2 : decide (j + 1 = min (BlockSize * ItemsPerThread)
          (size - block_id * (BlockSize * ItemsPerThread))) = true := by simpa using h2
        have e3 : decide (block_id * (BlockSize * ItemsPerThread) + j < size) = true := by
          simp; omega
        have e4 : decide (block_id * (BlockSize * ItemsPerThread) + j + 1 = size) = true := by
          simp; omega
        rw [e1, e2, e3, e4]
        simp
      · have e1 : decide (j + 1 < min (BlockSize * ItemsPerThread)
          (size - block_id * (BlockSize * ItemsPerThread))) = false := by simpa using h1
        have e2 : decide (j + 1 = min (BlockSize * ItemsPerThread)
          (size - block_id * (BlockSize * ItemsPerThread))) = false := by simpa using h2
        have e3 : decide (block_id * (BlockSize * ItemsPerThread) + j < size) = false := by
          simp; omega
        rw [e1, e2, e3]
        simp
  · rw [if_neg hlast]
    have hin : block_id * (BlockSize * ItemsPerThread) + BlockSize * ItemsPerThread < size :=
      h.inner_block_le (by omega)
    unfold flag_tails key_flag_op is_run_end
    have hk1 := hk j (by omega)
    rw [hk1]
    have e3 : decide (block_id * (BlockSize * ItemsPerThread) + j < size) = true := by
      simp; omega
    have e4 : decide (block_id * (BlockSize * ItemsPerThread) + j + 1 = size) = false := by
      simp; omega
    rw [e3, e4]
    by_cases h1 : j + 1 < BlockSize * ItemsPerThread
    · have hk2 := hk (j + 1) (by omega)
      rw [if_pos h1, hk2]
      simp [Nat.add_assoc]
    · rw [if_neg h1]
      have : j + 1 = BlockSize * ItemsPerThread := by omega
      simp [Nat.add_assoc, this]

end rbk_flags

/-! ## Counting with wrapped accumulators -/

section counting

open Finset

/-- Number of `i < n` with `f i`, as a sum of indicators. -/
theorem count_eq_sum (f : Nat → Bool) (n : Nat) :
    Nat.count (fun i => f i = true) n = ∑ i ∈ range n, (if f i then 1 else 0) := by
  induction n with
  | zero => simp
  | succ n ih => rw [Nat.count_succ, sum_range_succ, ih]

/-- A sum over `[0, n * m)` read as `n` rows of `m` items. -/
theorem sum_range_mul_rows (f : Nat → Nat) (n m : Nat) :
    ∑ j ∈ range (n * m), f j = ∑ t ∈ range n, ∑ i ∈ range m, f (t * m + i) := by
  induction n with
  | zero => simp
  | succ n ih =>
    rw [Nat.succ_mul, sum_range_add, ih, sum_range_succ]

/-- A wrapped accumulation loop is the exact sum as long as the sum fits. -/
theorem foldl_wrap32_add (f : Nat → Nat) (n a : Nat)
    (h : a + ∑ i ∈ range n, f i < 4294967296) :
    (List.range n).foldl (fun acc i => wrap32 (acc + f i)) a = a + ∑ i ∈ range n, f i := by
  induction n with
  | zero => simp
  | succ n ih =>
    rw [sum_range_succ] at h
    rw [List.range_succ, List.foldl_append, ih (by omega), sum_range_succ]
    simp only [List.foldl_cons, List.foldl_nil]
    rw [wrap32_of_lt (by omega)]
    omega

theorem ballot_bit_count_eq (warp_size BlockSize : Nat) (pred : Nat → Bool) (w : Nat) :
    ballot_bit_count warp_size BlockSize pred w
      = ∑ l ∈ range warp_size,
          (if (decide (w * warp_size + l < BlockSize) && pred (w * warp_size + l)) then 1 else 0) := by
  unfold ballot_bit_count
  rw [← count_eq_sum, Nat.count, List.countP_eq_length_filter]
  congr 1
  apply List.filter_congr
  intro x _
  simp

theorem ballot_bit_count_le (warp_size BlockSize : Nat) (pred : Nat → Bool) (w : Nat) :
    ballot_bit_count warp_size BlockSize pred w ≤ warp_size := by
  unfold ballot_bit_count
  calc _ ≤ (List.range warp_size).length := List.length_filter_le _ _
    _ = warp_size := List.length_range _

/-- The ballots of all warps over all item slots count every flagged item of the block
once. -/
theorem sum_ballots_eq (warp_size BlockSize ItemsPerThread : Nat) (flags : Nat → Bool)
    (hw : warp_size ∣ BlockSize) :
    ∑ w ∈ range (BlockSize / warp_size), ∑ i ∈ range ItemsPerThread,
        ballot_bit_count warp_size BlockSize
          (fun flat_id => flags (flat_id * ItemsPerThread + i)) w
      = Nat.count (fun j => flags j = true) (BlockSize * ItemsPerThread) := by
  have hBS : BlockSize / warp_size * warp_size = BlockSize := Nat.div_mul_cancel hw
  have e1 : Nat.count (fun j => flags j = true) (BlockSize * ItemsPerThread)
      = ∑ i ∈ range ItemsPerThread, ∑ t ∈ range BlockSize,
          (if flags (t * ItemsPerThread + i) then 1 else 0) := by
    rw [count_eq_sum, sum_range_mul_rows, sum_comm]
  have e2 : ∀ i, ∑ t ∈ range BlockSize, (if flags (t * ItemsPerThread + i) then 1 else 0)
      = ∑ w ∈ range (BlockSize / warp_size), ∑ l ∈ range warp_size,
          (if flags ((w * warp_size + l) * ItemsPerThread + i) then 1 else 0) := by
    intro i
    rw [← sum_range_mul_rows (fun t => if flags (t * ItemsPerThread + i) then 1 else 0), hBS]
  rw [e1, sum_comm]
  apply sum_congr rfl
  intro i _
  rw [e2 i]
  apply sum_congr rfl
  intro w hwr
  rw [ballot_bit_count_eq]
  apply sum_congr rfl
  intro l hl
  have hlt : w * warp_size + l < BlockSize := by
    rw [mem_range] at hwr hl
    have : (w + 1) * warp_size ≤ BlockSize / warp_size * warp_size :=
      Nat.mul_le_mul_right _ hwr
    rw [Nat.succ_mul] at this
    omega
  simp [hlt]

end counting

/-! ## Reduce-by-key: `fill_unique_counts` -/

section rbk_fill

open Finset

variable {BlockSize ItemsPerThread warp_size ScanBlockSize ScanItemsPerThread
  size blocks_per_full_batch full_batches blocks batches : Nat}

theorem launch_ok.blocks_lt
    (h : launch_ok BlockSize ItemsPerThread warp_size ScanBlockSize ScanItemsPerThread
      size blocks_per_full_batch full_batches blocks batches) : blocks < 4294967296 := by
  have : blocks * 1 ≤ blocks * (BlockSize * ItemsPerThread) :=
    Nat.mul_le_mul_left _ h.ipb_pos
  have := h.fits
  omega

theorem launch_ok.first_block_total
    (h : launch_ok BlockSize ItemsPerThread warp_size ScanBlockSize ScanItemsPerThread
      size blocks_per_full_batch full_batches blocks batches) :
    first_block blocks_per_full_batch full_batches batches = blocks := by
  rw [RocPrim.first_block_batches _ _ _ h.per_batch h.full_le, h.tiling]

theorem launch_ok.first_block_le
    (h : launch_ok BlockSize ItemsPerThread warp_size ScanBlockSize ScanItemsPerThread
      size blocks_per_full_batch full_batches blocks batches)
    {b : Nat} (hb : b ≤ batches) :
    first_block blocks_per_full_batch full_batches b ≤ blocks := by
  rw [← h.first_block_total]
  exact first_block_mono _ _ h.per_batch hb

/-- The geometry a batch computes from `batch_id` is the exact tiling. -/
theorem batch_geometry_eq
    (h : launch_ok BlockSize ItemsPerThread warp_size ScanBlockSize ScanItemsPerThread
      size blocks_per_full_batch full_batches blocks batches)
    {b : Nat} (hb : b < batches) :
    batch_geometry blocks_per_full_batch full_batches b
      = (first_block blocks_per_full_batch full_batches b,
          batch_blocks blocks_per_full_batch full_batches b) := by
  have h1 := h.first_block_le (le_of_lt hb)
  have h2 := h.blocks_lt
  have h3 : sub32 blocks_per_full_batch 1 = blocks_per_full_batch - 1 :=
    sub32_of_le h.per_batch h.per_batch_lt
  unfold batch_geometry
  unfold first_block batch_blocks at *
  rw [h3]
  split
  · rename_i hlt
    rw [if_pos hlt] at h1
    rw [wrap32_of_lt (by omega)]
  · rename_i hlt
    rw [if_neg hlt] at h1
    rw [wrap32_of_lt (by omega)]

theorem launch_ok.warp_le
    (h : launch_ok BlockSize ItemsPerThread warp_size ScanBlockSize ScanItemsPerThread
      size blocks_per_full_batch full_batches blocks batches) : warp_size ≤ BlockSize :=
  Nat.le_of_dvd h.block_pos h.warps

/-- The exact number of flagged items that warp `w` counts in one block. -/
theorem warp_count_le (warp_size BlockSize ItemsPerThread : Nat) (flags : Nat → Nat → Bool)
    (w n : Nat) :
    ∑ bi ∈ range n, ∑ i ∈ range ItemsPerThread,
        ballot_bit_count warp_size BlockSize
          (fun flat_id => flags bi (flat_id * ItemsPerThread + i)) w
      ≤ n * (ItemsPerThread * warp_size) := by
  calc _ ≤ ∑ _bi ∈ range n, ∑ _i ∈ range ItemsPerThread, warp_size := by
        apply sum_le_sum; intro bi _
        apply sum_le_sum; intro i _
        exact ballot_bit_count_le _ _ _ _
    _ = n * (ItemsPerThread * warp_size) := by simp

/-- The state of the block loop of `fill_unique_counts` after `n` iterations. -/
theorem fill_unique_counts_loop {K : Type}
    (h : launch_ok BlockSize ItemsPerThread warp_size ScanBlockSize ScanItemsPerThread
      size blocks_per_full_batch full_batches blocks batches)
    (keys_input uninit : Nat → K) (key_compare_op : K → K → Bool)
    (first n : Nat) (hn : first + n ≤ blocks) :
    (List.range n).foldl
        (fill_unique_counts_block BlockSize ItemsPerThread warp_size keys_input uninit size
          key_compare_op blocks)
        (first, fun _ => 0)
      = (first + n, fun w => ∑ bi ∈ range n, ∑ i ∈ range ItemsPerThread,
          ballot_bit_count warp_size BlockSize
            (fun flat_id => block_tail_flags BlockSize ItemsPerThread size blocks keys_input
              uninit key_compare_op (first + bi) (flat_id * ItemsPerThread + i)) w) := by
  induction n with
  | zero => simp
  | succ n ih =>
    rw [List.range_succ, List.foldl_append, ih (by omega)]
    simp only [List.foldl_cons, List.foldl_nil]
    unfold fill_unique_counts_block
    have hbl := h.blocks_lt
    have hfit := h.fits
    have hws := h.warp_le
    have hbound : (n + 1) * (ItemsPerThread * warp_size) < 4294967296 := by
      have e1 : ItemsPerThread * warp_size ≤ BlockSize * ItemsPerThread := by
        rw [Nat.mul_comm BlockSize]; exact Nat.mul_le_mul_left _ hws
      have e2 : (n + 1) * (ItemsPerThread * warp_size)
          ≤ blocks * (BlockSize * ItemsPerThread) :=
        Nat.mul_le_mul (by omega) e1
      omega
    refine Prod.ext ?_ ?_
    · simp only
      rw [wrap32_of_lt (by omega)]; omega
    · simp only
      funext w
      have hle := warp_count_le warp_size BlockSize ItemsPerThread
        (fun bi => block_tail_flags BlockSize ItemsPerThread size blocks keys_input
              uninit key_compare_op (first + bi)) w (n + 1)
      rw [sum_range_succ] at hle
      rw [foldl_wrap32_add _ _ _ (by omega), sum_range_succ]

/-- The flagged items of the blocks `first, …, first + n - 1`. -/
theorem sum_block_counts {K : Type}
    (h : launch_ok BlockSize ItemsPerThread warp_size ScanBlockSize ScanItemsPerThread
      size blocks_per_full_batch full_batches blocks batches)
    (keys_input uninit : Nat → K) (key_compare_op : K → K → Bool)
    (first n : Nat) (hn : first + n ≤ blocks) :
    ∑ bi ∈ range n, Nat.count
        (fun j => block_tail_flags BlockSize ItemsPerThread size blocks keys_input uninit
          key_compare_op (first + bi) j = true) (BlockSize * ItemsPerThread)
      + Nat.count (fun p => is_run_end key_compare_op keys_input size p = true)
          (first * (BlockSize * ItemsPerThread))
      = Nat.count (fun p => is_run_end key_compare_op keys_input size p = true)
          ((first + n) * (BlockSize * ItemsPerThread)) := by
  induction n with
  | zero => simp
  | succ n ih =>
    have e : (first + (n + 1)) * (BlockSize * ItemsPerThread)
        = (first + n) * (BlockSize * ItemsPerThread) + BlockSize * ItemsPerThread := by ring
    rw [sum_range_succ, e, Nat.count_add, ← ih (by omega)]
    have e2 : Nat.count (fun j => block_tail_flags BlockSize ItemsPerThread size blocks
          keys_input uninit key_compare_op (first + n) j = true) (BlockSize * ItemsPerThread)
        = Nat.count (fun k => is_run_end key_compare_op keys_input size
            ((first + n) * (BlockSize * ItemsPerThread) + k) = true)
            (BlockSize * ItemsPerThread) := by
      rw [count_eq_sum, count_eq_sum]
      apply sum_congr rfl
      intro j hj
      rw [mem_range] at hj
      rw [block_tail_flags_eq h keys_input uninit key_compare_op (by omega) hj]
    rw [e2]
    omega

/-- The value `fill_unique_counts` stores for batch `b`: the number of runs that end in
the blocks of the batch. -/
theorem fill_unique_counts_eq {K : Type}
    (h : launch_ok BlockSize ItemsPerThread warp_size ScanBlockSize ScanItemsPerThread
      size blocks_per_full_batch full_batches blocks batches)
    (keys_input uninit : Nat → K) (key_compare_op : K → K → Bool)
    {b : Nat} (hb : b < batches) :
    fill_unique_counts BlockSize ItemsPerThread warp_size keys_input uninit size
        key_compare_op blocks_per_full_batch full_batches blocks b
      + Nat.count (fun p => is_run_end key_compare_op keys_input size p = true)
          (first_block blocks_per_full_batch full_batches b * (BlockSize * ItemsPerThread))
      = Nat.count (fun p => is_run_end key_compare_op keys_input size p = true)
          (first_block blocks_per_full_batch full_batches (b + 1)
            * (BlockSize * ItemsPerThread)) := by
  have hsucc := first_block_succ blocks_per_full_batch full_batches b h.per_batch
  have hle := h.first_block_le (b := b + 1) (by omega)
  rw [hsucc] at hle
  unfold fill_unique_counts
  rw [batch_geometry_eq h hb]
  simp only
  rw [fill_unique_counts_loop h keys_input uninit key_compare_op _ _ hle]
  simp only
  have hsum : ∑ w ∈ range (BlockSize / warp_size), ∑ bi ∈ range
        (batch_blocks blocks_per_full_batch full_batches b), ∑ i ∈ range ItemsPerThread,
        ballot_bit_count warp_size BlockSize
          (fun flat_id => block_tail_flags BlockSize ItemsPerThread size blocks keys_input
            uninit key_compare_op (first_block blocks_per_full_batch full_batches b + bi)
            (flat_id * ItemsPerThread + i)) w
      = ∑ bi ∈ range (batch_blocks blocks_per_full_batch full_batches b), Nat.count
        (fun j => block_tail_flags BlockSize ItemsPerThread size blocks keys_input uninit
          key_compare_op (first_block blocks_per_full_batch full_batches b + bi) j = true)
          (BlockSize * ItemsPerThread) := by
    rw [sum_comm]
    apply sum_congr rfl
    intro bi _
    exact sum_ballots_eq warp_size BlockSize ItemsPerThread _ h.warps
  have htot := sum_block_counts h keys_input uninit key_compare_op _ _ hle
  have hcnt : Nat.count (fun p => is_run_end key_compare_op keys_input size p = true)
      ((first_block blocks_per_full_batch full_batches b
        + batch_blocks blocks_per_full_batch full_batches b) * (BlockSize * ItemsPerThread))
      ≤ blocks * (BlockSize * ItemsPerThread) :=
    le_trans (Nat.count_le _) (Nat.mul_le_mul_right _ hle)
  have hfit := h.fits
  rw [foldl_wrap32_add _ _ _ (by rw [hsum]; omega), hsum, hsucc]
  omega

end rbk_fill

/-! ## Reduce-by-key: runs, and `scan_unique_counts` -/

section rbk_scan

open Finset

variable {BlockSize ItemsPerThread warp_size ScanBlockSize ScanItemsPerThread
  size blocks_per_full_batch full_batches blocks batches : Nat}

theorem is_run_end_of_ge {K : Type} (eq : K → K → Bool) (keys : Nat → K) {N p : Nat}
    (h : N ≤ p) : is_run_end eq keys N p = false := by
  unfold is_run_end
  have : decide (p < N) = false := by simp; omega
  rw [this]; rfl

theorem is_run_end_eq_start {K : Type} (eq : K → K → Bool) (keys : Nat → K) {N p : Nat}
    (h : p + 1 < N) : is_run_end eq keys N p = is_run_start eq keys (p + 1) := by
  unfold is_run_end is_run_start
  have e1 : decide (p < N) = true := by simp; omega
  have e2 : decide (p + 1 = N) = false := by simp; omega
  have e3 : decide (p + 1 = 0) = false := by simp
  rw [e1, e2, e3]
  simp

theorem is_run_end_last {K : Type} (eq : K → K → Bool) (keys : Nat → K) {N : Nat}
    (h : 0 < N) : is_run_end eq keys N (N - 1) = true := by
  unfold is_run_end
  have e1 : decide (N - 1 < N) = true := by simp; omega
  have e2 : decide (N - 1 + 1 = N) = true := by simp; omega
  rw [e1, e2]; rfl

/-- The runs that end before `p` are the runs that start at or before `p`, less the run
of `p` itself. -/
theorem count_run_end_lt {K : Type} (eq : K → K → Bool) (keys : Nat → K) {N p : Nat}
    (h : p < N) :
    Nat.count (fun q => is_run_end eq keys N q = true) p + 1
      = Nat.count (fun q => is_run_start eq keys q = true) (p + 1) := by
  rw [Nat.count_succ' (fun q => is_run_start eq keys q = true)]
  have e0 : is_run_start eq keys 0 = true := by unfold is_run_start; simp
  rw [if_pos e0]
  congr 1
  rw [count_eq_sum, count_eq_sum]
  apply sum_congr rfl
  intro q hq
  rw [mem_range] at hq
  rw [is_run_end_eq_start eq keys (by omega)]

/-- As many runs end in the input as start in it. -/
theorem count_run_end_size {K : Type} (eq : K → K → Bool) (keys : Nat → K) {N : Nat}
    (h : 0 < N) :
    Nat.count (fun q => is_run_end eq keys N q = true) N
      = Nat.count (fun q => is_run_start eq keys q = true) N := by
  obtain ⟨n, rfl⟩ : ∃ n, N = n + 1 := ⟨N - 1, by omega⟩
  rw [← count_run_end_lt eq keys (N := n + 1) (p := n) (by omega), Nat.count_succ]
  have := is_run_end_last eq keys (N := n + 1) (by omega)
  simp only [Nat.add_sub_cancel] at this
  rw [if_pos this]

/-- No run ends at or after `size`. -/
theorem count_run_end_ge {K : Type} (eq : K → K → Bool) (keys : Nat → K) {N n : Nat}
    (h : N ≤ n) :
    Nat.count (fun q => is_run_end eq keys N q = true) n
      = Nat.count (fun q => is_run_end eq keys N q = true) N := by
  obtain ⟨d, rfl⟩ : ∃ d, n = N + d := ⟨n - N, by omega⟩
  rw [Nat.count_add]
  have : Nat.count (fun k => is_run_end eq keys N (N + k) = true) d = 0 := by
    rw [Nat.count_iff_forall_not]
    intro m _
    rw [is_run_end_of_ge eq keys (by omega)]
    simp
  omega

theorem block_exclusive_scan_plus32 (values : Nat → Nat) (j : Nat)
    (h : ∑ i ∈ range j, values i < 4294967296) :
    block_exclusive_scan plus32 0 values j = ∑ i ∈ range j, values i := by
  induction j with
  | zero => simp [block_exclusive_scan]
  | succ j ih =>
    rw [sum_range_succ] at h
    rw [block_exclusive_scan, ih (by omega), sum_range_succ]
    unfold plus32
    exact wrap32_of_lt h

theorem block_inclusive_scan_plus32 (values : Nat → Nat) (j : Nat)
    (h : ∑ i ∈ range (j + 1), values i < 4294967296) :
    block_inclusive_scan plus32 values j = ∑ i ∈ range (j + 1), values i := by
  induction j with
  | zero =>
    simp [block_inclusive_scan]
  | succ j ih =>
    rw [sum_range_succ] at h
    rw [block_inclusive_scan, ih (by omega), sum_range_succ (n := j + 1)]
    unfold plus32
    exact wrap32_of_lt h

/-- The counts of the batches before `b` add up to the runs that end before the first
item of batch `b`. -/
theorem sum_fill_unique_counts {K : Type}
    (h : launch_ok BlockSize ItemsPerThread warp_size ScanBlockSize ScanItemsPerThread
      size blocks_per_full_batch full_batches blocks batches)
    (keys_input uninit : Nat → K) (key_compare_op : K → K → Bool)
    {b : Nat} (hb : b ≤ batches) :
    ∑ b' ∈ range b, fill_unique_counts BlockSize ItemsPerThread warp_size keys_input uninit
        size key_compare_op blocks_per_full_batch full_batches blocks b'
      = Nat.count (fun p => is_run_end key_compare_op keys_input size p = true)
          (first_block blocks_per_full_batch full_batches b * (BlockSize * ItemsPerThread)) := by
  induction b with
  | zero => simp [first_block_zero]
  | succ b ih =>
    have := fill_unique_counts_eq h keys_input uninit key_compare_op (b := b) (by omega)
    rw [sum_range_succ, ih (by omega)]
    omega

/-- The number of runs that end before item `n` is at most the number of runs. -/
theorem count_run_end_le_size {K : Type} (eq : K → K → Bool) (keys : Nat → K) (N n : Nat) :
    Nat.count (fun q => is_run_end eq keys N q = true) n ≤ N := by
  rcases Nat.le_total n N with h | h
  · exact le_trans (Nat.count_le _) h
  · rw [count_run_end_ge eq keys h]; exact Nat.count_le _

/-- The items the single block of `scan_unique_counts` loads: the batch counts, then
zeros. -/
theorem sum_loaded_counts (counts : Nat → Nat) (batches j : Nat) :
    ∑ i ∈ range j, block_load_default counts 0 batches 0 i
      = ∑ i ∈ range (min j batches), counts i := by
  induction j with
  | zero => simp
  | succ j ih =>
    rw [sum_range_succ, ih]
    unfold block_load_default
    by_cases hj : j < batches
    · rw [if_pos hj, Nat.min_eq_left (by omega), Nat.min_eq_left (by omega), sum_range_succ]
      simp
    · rw [if_neg hj, Nat.min_eq_right (by omega), Nat.min_eq_right (by omega)]
      simp

/-- What `scan_unique_counts` leaves in `unique_counts` and in `*unique_count_output`
after `fill_unique_counts`. -/
theorem scan_unique_counts_eq {K : Type}
    (h : launch_ok BlockSize ItemsPerThread warp_size ScanBlockSize ScanItemsPerThread
      size blocks_per_full_batch full_batches blocks batches)
    (keys_input uninit : Nat → K) (key_compare_op : K → K → Bool)
    (unique_counts0 : Nat → Nat) :
    (scan_unique_counts ScanBlockSize ScanItemsPerThread
        (fill_unique_counts_grid BlockSize ItemsPerThread warp_size keys_input uninit size
          key_compare_op blocks_per_full_batch full_batches blocks batches unique_counts0)
        batches).2
      = Nat.count (fun i => is_run_start key_compare_op keys_input i = true) size
    ∧ ∀ b, b < batches →
      (scan_unique_counts ScanBlockSize ScanItemsPerThread
        (fill_unique_counts_grid BlockSize ItemsPerThread warp_size keys_input uninit size
          key_compare_op blocks_per_full_batch full_batches blocks batches unique_counts0)
        batches).1 b
      = Nat.count (fun p => is_run_end key_compare_op keys_input size p = true)
          (first_block blocks_per_full_batch full_batches b * (BlockSize * ItemsPerThread)) := by
  have hgrid : ∀ n, n ≤ batches →
      ∑ i ∈ range n, fill_unique_counts_grid BlockSize ItemsPerThread warp_size keys_input
          uninit size key_compare_op blocks_per_full_batch full_batches blocks batches
          unique_counts0 i
        = Nat.count (fun p => is_run_end key_compare_op keys_input size p = true)
          (first_block blocks_per_full_batch full_batches n * (BlockSize * ItemsPerThread)) := by
    intro n hn
    rw [← sum_fill_unique_counts h keys_input uninit key_compare_op hn]
    apply sum_congr rfl
    intro i hi
    rw [mem_range] at hi
    unfold fill_unique_counts_grid
    rw [if_pos (by omega)]
  have hbatches : 0 < batches := by
    rcases Nat.eq_zero_or_pos batches with h0 | h0
    · have h1 := h.first_block_total
      rw [h0, first_block_zero] at h1
      have := h.blocks_pos
      omega
    · exact h0
  have hsz := h.size_lt
  have hscan := h.scan_fits
  have hSB : 0 < ScanBlockSize := by
    rcases Nat.eq_zero_or_pos ScanBlockSize with h0 | h0
    · rw [h0] at hscan; simp at hscan; omega
    · exact h0
  have hSI : 0 < ScanItemsPerThread := by
    rcases Nat.eq_zero_or_pos ScanItemsPerThread with h0 | h0
    · rw [h0] at hscan; simp at hscan; omega
    · exact h0
  have hpre : ∀ j, ∑ i ∈ range j, block_load_default
        (fill_unique_counts_grid BlockSize ItemsPerThread warp_size keys_input uninit size
          key_compare_op blocks_per_full_batch full_batches blocks batches unique_counts0)
        0 batches 0 i
      = Nat.count (fun p => is_run_end key_compare_op keys_input size p = true)
          (first_block blocks_per_full_batch full_batches (min j batches)
            * (BlockSize * ItemsPerThread)) := by
    intro j
    rw [sum_loaded_counts, hgrid _ (Nat.min_le_right _ _)]
  unfold scan_unique_counts
  constructor
  · simp only
    rw [last_item_eq hSB hSI, block_inclusive_scan_plus32]
    · have e : ScanBlockSize * ScanItemsPerThread - 1 + 1 = ScanBlockSize * ScanItemsPerThread := by
        have := Nat.mul_pos hSB hSI
        omega
      rw [e, hpre, Nat.min_eq_right hscan, h.first_block_total,
        count_run_end_ge _ _ h.blocks_hi, count_run_end_size _ _ h.size_pos]
    · rw [hpre]
      have := count_run_end_le_size key_compare_op keys_input size
        (first_block blocks_per_full_batch full_batches
          (min (ScanBlockSize * ScanItemsPerThread - 1 + 1) batches)
            * (BlockSize * ItemsPerThread))
      omega
  · intro b hb
    simp only
    rw [wrap32_of_lt h.scan_items, if_pos ⟨hb, by omega⟩, block_exclusive_scan_plus32]
    · rw [hpre, Nat.min_eq_left (le_of_lt hb)]
    · rw [hpre]
      have := count_run_end_le_size key_compare_op keys_input size
        (first_block blocks_per_full_batch full_batches (min b batches)
            * (BlockSize * ItemsPerThread))
      omega

end rbk_scan

/-! ## Reduce-by-key: ranks and key stores of one block -/

section rbk_keys

open Finset

variable {BlockSize ItemsPerThread warp_size ScanBlockSize ScanItemsPerThread
  size blocks_per_full_batch full_batches blocks batches : Nat}

theorem scan_by_key_key {V : Type} (reduce_op : V → V → V)
    (xs : Nat → scan_by_key_pair V) (j : Nat)
    (h : ∑ i ∈ range (j + 1), (xs i).key < 4294967296) :
    (block_inclusive_scan (scan_by_key_op reduce_op) xs j).key
      = ∑ i ∈ range (j + 1), (xs i).key := by
  induction j with
  | zero => simp [block_inclusive_scan]
  | succ j ih =>
    rw [sum_range_succ] at h
    rw [block_inclusive_scan, sum_range_succ (n := j + 1)]
    show wrap32 ((block_inclusive_scan (scan_by_key_op reduce_op) xs j).key
      + (xs (j + 1)).key) = _
    rw [ih (by omega)]
    exact wrap32_of_lt h

theorem block_head_flags_zero {K : Type} (keys_input uninit : Nat → K)
    (key_compare_op : K → K → Bool) (block_id : Nat) :
    block_head_flags BlockSize ItemsPerThread size blocks keys_input uninit key_compare_op
      block_id 0 = true := by
  unfold block_head_flags flag_heads
  split <;> simp

/-- The head flag of an item is the tail flag of the item before it. -/
theorem block_head_flags_succ {K : Type}
    (h : launch_ok BlockSize ItemsPerThread warp_size ScanBlockSize ScanItemsPerThread
      size blocks_per_full_batch full_batches blocks batches)
    (keys_input uninit : Nat → K) (key_compare_op : K → K → Bool) (block_id : Nat) {j : Nat}
    (hj : j + 1 < BlockSize * ItemsPerThread) :
    block_head_flags BlockSize ItemsPerThread size blocks keys_input uninit key_compare_op
        block_id (j + 1)
      = block_tail_flags BlockSize ItemsPerThread size blocks keys_input uninit
          key_compare_op block_id j := by
  unfold block_head_flags block_tail_flags flag_heads flag_tails
  simp only [wrap32_of_lt h.ipb_lt]
  split <;> simp [hj]

/-- The keys of the scanned pairs count the heads, and `ranks` the tails before the
item. -/
theorem block_ranks_eq {K V : Type}
    (h : launch_ok BlockSize ItemsPerThread warp_size ScanBlockSize ScanItemsPerThread
      size blocks_per_full_batch full_batches blocks batches)
    (keys_input uninit : Nat → K) (key_compare_op : K → K → Bool)
    (reduce_op : V → V → V) (values : Nat → V)
    {block_id j : Nat} (hb : block_id < blocks) (hj : j < BlockSize * ItemsPerThread) :
    sub32 (block_inclusive_scan (scan_by_key_op reduce_op)
        (fun j => { key := if block_head_flags BlockSize ItemsPerThread size blocks keys_input
                      uninit key_compare_op block_id j then 1 else 0,
                    value := values j }) j).key 1
      = Nat.count (fun i => is_run_end key_compare_op keys_input size
          (block_id * (BlockSize * ItemsPerThread) + i) = true) j := by
  have hI := h.ipb_lt
  have hsum : ∑ i ∈ range (j + 1),
      (if block_head_flags BlockSize ItemsPerThread size blocks keys_input
          uninit key_compare_op block_id i then 1 else 0)
      = 1 + Nat.count (fun i => is_run_end key_compare_op keys_input size
          (block_id * (BlockSize * ItemsPerThread) + i) = true) j := by
    rw [sum_range_succ', block_head_flags_zero, count_eq_sum, if_pos rfl, Nat.add_comm]
    congr 1
    apply sum_congr rfl
    intro i hi
    rw [mem_range] at hi
    rw [block_head_flags_succ h keys_input uninit key_compare_op block_id (by omega),
      block_tail_flags_eq h keys_input uninit key_compare_op hb (by omega)]
  have hle : Nat.count (fun i => is_run_end key_compare_op keys_input size
          (block_id * (BlockSize * ItemsPerThread) + i) = true) j ≤ j := Nat.count_le _
  rw [scan_by_key_key]
  · simp only
    rw [hsum, sub32_of_le (by omega) (by omega)]
    omega
  · simp only
    rw [hsum]; omega

/-- Run ends counted inside a block, as a difference of global counts. -/
theorem count_run_end_block {K : Type} (eq : K → K → Bool) (keys : Nat → K) (N off j : Nat) :
    Nat.count (fun q => is_run_end eq keys N q = true) off
      + Nat.count (fun i => is_run_end eq keys N (off + i) = true) j
      = Nat.count (fun q => is_run_end eq keys N q = true) (off + j) := by
  rw [Nat.count_add]

end rbk_keys

/-! ## Reduce-by-key: one iteration of the block loop of `reduce_by_key` -/

section rbk_step

open Finset

variable {BlockSize ItemsPerThread warp_size ScanBlockSize ScanItemsPerThread
  size blocks_per_full_batch full_batches blocks batches : Nat}

/-- No run ends in the part of the last tile that lies after the input. -/
theorem count_run_end_block_ge {K : Type} (eq : K → K → Bool) (keys : Nat → K)
    {N off j n : Nat} (h1 : N ≤ off + j) (h2 : j ≤ n) :
    Nat.count (fun i => is_run_end eq keys N (off + i) = true) n
      = Nat.count (fun i => is_run_end eq keys N (off + i) = true) j := by
  obtain ⟨d, rfl⟩ : ∃ d, n = j + d := ⟨n - j, by omega⟩
  rw [Nat.count_add]
  have : Nat.count (fun k => is_run_end eq keys N (off + (j + k)) = true) d = 0 := by
    rw [Nat.count_iff_forall_not]
    intro m _
    rw [is_run_end_of_ge eq keys (by omega)]
    simp
  omega

/-- A valid item of a block has fewer run ends before it than the block up to the end
of the input. -/
theorem count_run_end_block_lt {K : Type} (eq : K → K → Bool) (keys : Nat → K)
    {N off j n : Nat} (h1 : off + j < N) (h2 : N ≤ off + n) :
    Nat.count (fun i => is_run_end eq keys N (off + i) = true) j
      < Nat.count (fun i => is_run_end eq keys N (off + i) = true) n := by
  have hlast : is_run_end eq keys N (off + (N - 1 - off)) = true := by
    have : off + (N - 1 - off) = N - 1 := by omega
    rw [this]; exact is_run_end_last eq keys (by omega)
  have hm := Nat.count_monotone (fun i => is_run_end eq keys N (off + i) = true)
    (show j ≤ N - 1 - off by omega)
  have hs := Nat.count_strict_mono (p := fun i => is_run_end eq keys N (off + i) = true)
    (m := N - 1 - off) (n := n) hlast (by omega)
  omega

/-- The effect of one iteration of the block loop of `reduce_by_key` on `block_id`,
`block_start`, `storage.has_carry_out` and the stores to `unique_output`. -/
theorem reduce_by_key_block_keys {K V : Type}
    (h : launch_ok BlockSize ItemsPerThread warp_size ScanBlockSize ScanItemsPerThread
      size blocks_per_full_batch full_batches blocks batches)
    (keys_input uninitK : Nat → K) (values_input uninitV : Nat → V)
    (key_compare_op : K → K → Bool) (reduce_op : V → V → V)
    (st : reduce_by_key_state K V) (bi bpb : Nat)
    (hb : st.block_id < blocks)
    (hstart : st.block_start
      = Nat.count (fun q => is_run_end key_compare_op keys_input size q = true)
          (st.block_id * (BlockSize * ItemsPerThread)))
    (hcarry : st.storage_has_carry_out
      = !is_run_start key_compare_op keys_input (st.block_id * (BlockSize * ItemsPerThread))) :
    (reduce_by_key_block BlockSize ItemsPerThread keys_input uninitK values_input uninitV
        size key_compare_op reduce_op blocks bpb st bi).block_id = st.block_id + 1
    ∧ (reduce_by_key_block BlockSize ItemsPerThread keys_input uninitK values_input uninitV
        size key_compare_op reduce_op blocks bpb st bi).block_start
      = Nat.count (fun q => is_run_end key_compare_op keys_input size q = true)
          ((st.block_id + 1) * (BlockSize * ItemsPerThread))
    ∧ (bi ≠ sub32 bpb 1 → st.block_id + 1 < blocks →
        (reduce_by_key_block BlockSize ItemsPerThread keys_input uninitK values_input uninitV
          size key_compare_op reduce_op blocks bpb st bi).storage_has_carry_out
        = !is_run_start key_compare_op keys_input
            ((st.block_id + 1) * (BlockSize * ItemsPerThread)))
    ∧ (reduce_by_key_block BlockSize ItemsPerThread keys_input uninitK values_input uninitV
        size key_compare_op reduce_op blocks bpb st bi).unique_stores
      = st.unique_stores ++ (List.range (BlockSize * ItemsPerThread)).filterMap
          (fun j => key_store key_compare_op keys_input size
            (st.block_id * (BlockSize * ItemsPerThread) + j)) := by
  have hI := h.ipb_lt
  have hIpos := h.ipb_pos
  have hbl := h.blocks_lt
  have hsz := h.size_lt
  have hlo := h.blocks_lo
  have hhi := h.blocks_hi
  have hlast := last_item_eq h.block_pos h.items_pos
  have hs1 : sub32 blocks 1 = blocks - 1 := sub32_of_le h.blocks_pos hbl
  have hoffle := h.block_offset_le hb
  have hoff : st.block_id * (BlockSize * ItemsPerThread) < size := by
    have : st.block_id * (BlockSize * ItemsPerThread)
        ≤ (blocks - 1) * (BlockSize * ItemsPerThread) := Nat.mul_le_mul_right _ (by omega)
    omega
  have hsucc : (st.block_id + 1) * (BlockSize * ItemsPerThread)
      = st.block_id * (BlockSize * ItemsPerThread) + BlockSize * ItemsPerThread := by ring
  -- ranks and unique_count of the block
  have hrank : ∀ j, j < BlockSize * ItemsPerThread →
      sub32 (block_inclusive_scan (scan_by_key_op reduce_op)
        (fun j => { key := if block_head_flags BlockSize ItemsPerThread size blocks keys_input
                      uninitK key_compare_op st.block_id j then 1 else 0,
                    value := (if wrap32 (wrap32 (st.block_id * wrap32 (BlockSize * ItemsPerThread))
                          + wrap32 (BlockSize * ItemsPerThread)) ≤ size then
                        block_load values_input
                          (wrap32 (st.block_id * wrap32 (BlockSize * ItemsPerThread)))
                      else block_load_valid values_input
                          (wrap32 (st.block_id * wrap32 (BlockSize * ItemsPerThread)))
                          (block_valid_count (wrap32 (BlockSize * ItemsPerThread)) size
                            (wrap32 (st.block_id * wrap32 (BlockSize * ItemsPerThread))))
                          uninitV) j }) j).key 1
      = Nat.count (fun i => is_run_end key_compare_op keys_input size
          (st.block_id * (BlockSize * ItemsPerThread) + i) = true) j :=
    fun j hj => block_ranks_eq h keys_input uninitK key_compare_op reduce_op _ hb hj
  have hcount : wrap32 (Nat.count (fun i => is_run_end key_compare_op keys_input size
          (st.block_id * (BlockSize * ItemsPerThread) + i) = true)
            (BlockSize * ItemsPerThread - 1)
        + (if block_tail_flags BlockSize ItemsPerThread size blocks keys_input uninitK
            key_compare_op st.block_id (BlockSize * ItemsPerThread - 1) = true then 1 else 0))
      = Nat.count (fun i => is_run_end key_compare_op keys_input size
          (st.block_id * (BlockSize * ItemsPerThread) + i) = true)
            (BlockSize * ItemsPerThread) := by
    rw [block_tail_flags_eq h keys_input uninitK key_compare_op hb (by omega)]
    have e := Nat.count_succ (fun i => is_run_end key_compare_op keys_input size
          (st.block_id * (BlockSize * ItemsPerThread) + i) = true)
            (BlockSize * ItemsPerThread - 1)
    rw [Nat.sub_add_cancel hIpos] at e
    rw [e]
    apply wrap32_of_lt
    have := Nat.count_le (p := fun i => is_run_end key_compare_op keys_input size
          (st.block_id * (BlockSize * ItemsPerThread) + i) = true)
            (n := BlockSize * ItemsPerThread - 1)
    split <;> omega
  have hglob := count_run_end_block key_compare_op keys_input size
    (st.block_id * (BlockSize * ItemsPerThread))
  have hbound := count_run_end_le_size key_compare_op keys_input size
  refine ⟨?_, ?_, ?_, ?_⟩
  · unfold reduce_by_key_block
    dsimp only
    exact wrap32_of_lt (by omega)
  · unfold reduce_by_key_block
    dsimp only
    rw [hlast, hrank _ (by omega), hcount, hstart, hglob, hsucc]
    exact wrap32_of_lt (lt_of_le_of_lt (hbound _) hsz)
  · intro hne hnext
    unfold reduce_by_key_block
    dsimp only
    rw [hlast, if_neg (by simpa using hne),
      block_tail_flags_eq h keys_input uninitK key_compare_op hb (by omega)]
    have hin := h.inner_block_le hnext
    have e : st.block_id * (BlockSize * ItemsPerThread) + (BlockSize * ItemsPerThread - 1) + 1
        = (st.block_id + 1) * (BlockSize * ItemsPerThread) := by rw [hsucc]; omega
    rw [is_run_end_eq_start key_compare_op keys_input (by omega), e]
  · unfold reduce_by_key_block
    dsimp only
    refine congrArg (fun l => st.unique_stores ++ l) ?_
    rw [show List.range (wrap32 (BlockSize * ItemsPerThread))
      = List.range (BlockSize * ItemsPerThread) from by rw [wrap32_of_lt hI]]
    apply List.filterMap_congr
    intro j hj
    rw [List.mem_range] at hj
    rw [hlast, hrank _ hj, hrank _ (by omega), hcount, hs1, hstart, hglob]
    rw [wrap32_of_lt (lt_of_le_of_lt (hbound _) hsz)]
    unfold key_store
    by_cases hval : st.block_id * (BlockSize * ItemsPerThread) + j < size
    · have hnot : ¬ (st.block_id = blocks - 1 ∧
          Nat.count (fun i => is_run_end key_compare_op keys_input size
            (st.block_id * (BlockSize * ItemsPerThread) + i) = true)
              (BlockSize * ItemsPerThread)
          ≤ Nat.count (fun i => is_run_end key_compare_op keys_input size
            (st.block_id * (BlockSize * ItemsPerThread) + i) = true) j) := by
        rintro ⟨h1, h2⟩
        have hlt := count_run_end_block_lt key_compare_op keys_input hval
          (n := BlockSize * ItemsPerThread) (by
            have : st.block_id + 1 = blocks := by omega
            rw [← hsucc, this]; exact hhi)
        omega
      have hk := block_keys_eq h keys_input uninitK hb hval
      rw [if_neg hnot, hk]
      rcases Nat.eq_zero_or_pos j with hj0 | hj0
      · subst hj0
        simp only [if_true, Nat.add_zero]
        rw [hcarry]
        simp [hoff]
      · obtain ⟨j', rfl⟩ : ∃ j', j = j' + 1 := ⟨j - 1, by omega⟩
        rw [if_neg (show ¬ (j' + 1 = 0) by omega),
          block_head_flags_succ h keys_input uninitK key_compare_op _ hj,
          block_tail_flags_eq h keys_input uninitK key_compare_op hb (by omega),
          is_run_end_eq_start key_compare_op keys_input (by omega)]
        simp [hval, Nat.add_assoc]
    · have hge : Nat.count (fun i => is_run_end key_compare_op keys_input size
            (st.block_id * (BlockSize * ItemsPerThread) + i) = true)
              (BlockSize * ItemsPerThread)
          = Nat.count (fun i => is_run_end key_compare_op keys_input size
            (st.block_id * (BlockSize * ItemsPerThread) + i) = true) j :=
        count_run_end_block_ge key_compare_op keys_input (by omega) (by omega)
      have hlastblock : st.block_id = blocks - 1 := by
        rcases Nat.lt_or_ge (st.block_id + 1) blocks with h1 | h1
        · have := h.inner_block_le h1; omega
        · omega
      have hclear : st.block_id = blocks - 1 ∧
          Nat.count (fun i => is_run_end key_compare_op keys_input size
            (st.block_id * (BlockSize * ItemsPerThread) + i) = true)
              (BlockSize * ItemsPerThread)
          ≤ Nat.count (fun i => is_run_end key_compare_op keys_input size
            (st.block_id * (BlockSize * ItemsPerThread) + i) = true) j :=
        ⟨hlastblock, by omega⟩
      rw [if_pos hclear]
      simp [hval]

end rbk_step

/-! ## Reduce-by-key: the key stores of a batch and of the grid -/

section rbk_batch

open Finset

variable {BlockSize ItemsPerThread warp_size ScanBlockSize ScanItemsPerThread
  size blocks_per_full_batch full_batches blocks batches : Nat}

theorem filterMap_range_add {α : Type} (f : Nat → Option α) (a b : Nat) :
    (List.range (a + b)).filterMap f
      = (List.range a).filterMap f ++ (List.range b).filterMap (fun k => f (a + k)) := by
  rw [List.range_add, List.filterMap_append, List.filterMap_map]
  rfl

/-- The state of the block loop of `reduce_by_key` in batch `b` after `n` iterations. -/
theorem reduce_by_key_loop {K V : Type}
    (h : launch_ok BlockSize ItemsPerThread warp_size ScanBlockSize ScanItemsPerThread
      size blocks_per_full_batch full_batches blocks batches)
    (keys_input uninitK : Nat → K) (values_input uninitV : Nat → V)
    (key_compare_op : K → K → Bool) (reduce_op : V → V → V)
    (first bpb : Nat) (hfb : first + bpb ≤ blocks) (hbpb : bpb < 4294967296)
    (init : reduce_by_key_state K V)
    (hid : init.block_id = first)
    (hstart : init.block_start
      = Nat.count (fun q => is_run_end key_compare_op keys_input size q = true)
          (first * (BlockSize * ItemsPerThread)))
    (hcarry : 0 < bpb → init.storage_has_carry_out
      = !is_run_start key_compare_op keys_input (first * (BlockSize * ItemsPerThread)))
    (hstores : init.unique_stores = [])
    (n : Nat) (hn : n ≤ bpb) :
    ((List.range n).foldl
        (reduce_by_key_block BlockSize ItemsPerThread keys_input uninitK values_input
          uninitV size key_compare_op reduce_op blocks bpb) init).block_id = first + n
    ∧ ((List.range n).foldl
        (reduce_by_key_block BlockSize ItemsPerThread keys_input uninitK values_input
          uninitV size key_compare_op reduce_op blocks bpb) init).block_start
      = Nat.count (fun q => is_run_end key_compare_op keys_input size q = true)
          ((first + n) * (BlockSize * ItemsPerThread))
    ∧ (n < bpb → ((List.range n).foldl
        (reduce_by_key_block BlockSize ItemsPerThread keys_input uninitK values_input
          uninitV size key_compare_op reduce_op blocks bpb) init).storage_has_carry_out
      = !is_run_start key_compare_op keys_input
          ((first + n) * (BlockSize * ItemsPerThread)))
    ∧ ((List.range n).foldl
        (reduce_by_key_block BlockSize ItemsPerThread keys_input uninitK values_input
          uninitV size key_compare_op reduce_op blocks bpb) init).unique_stores
      = (List.range (n * (BlockSize * ItemsPerThread))).filterMap
          (fun k => key_store key_compare_op keys_input size
            (first * (BlockSize * ItemsPerThread) + k)) := by
  induction n with
  | zero =>
    simp only [List.range_zero, List.foldl_nil, Nat.add_zero, Nat.zero_mul,
      List.filterMap_nil]
    exact ⟨hid, hstart, hcarry, hstores⟩
  | succ n ih =>
    obtain ⟨i1, i2, i3, i4⟩ := ih (by omega)
    rw [List.range_succ, List.foldl_append]
    simp only [List.foldl_cons, List.foldl_nil]
    have hstep := reduce_by_key_block_keys h keys_input uninitK values_input uninitV
      key_compare_op reduce_op _ n bpb (by rw [i1]; omega) (by rw [i1]; exact i2)
      (by rw [i1]; exact i3 (by omega))
    obtain ⟨s1, s2, s3, s4⟩ := hstep
    rw [i1] at s1 s2 s3 s4
    refine ⟨by rw [s1]; ring, ?_, ?_, ?_⟩
    · rw [s2, Nat.add_assoc]
    · intro hlt
      have hsub : sub32 bpb 1 = bpb - 1 := sub32_of_le (by omega) hbpb
      rw [s3 (by rw [hsub]; omega) (by omega), Nat.add_assoc]
    · rw [s4, i4, Nat.succ_mul, filterMap_range_add]
      simp only [Nat.add_mul, Nat.add_assoc]

/-- The stores to `unique_output` of the block `b` of the kernel `reduce_by_key`. -/
theorem reduce_by_key_unique_stores {K V : Type}
    (h : launch_ok BlockSize ItemsPerThread warp_size ScanBlockSize ScanItemsPerThread
      size blocks_per_full_batch full_batches blocks batches)
    (keys_input uninitK : Nat → K) (values_input uninitV : Nat → V)
    (key_compare_op : K → K → Bool) (reduce_op : V → V → V)
    (unique_starts : Nat → Nat) {b : Nat} (hb : b < batches)
    (hus : unique_starts b
      = Nat.count (fun q => is_run_end key_compare_op keys_input size q = true)
          (first_block blocks_per_full_batch full_batches b * (BlockSize * ItemsPerThread))) :
    (reduce_by_key BlockSize ItemsPerThread keys_input uninitK values_input uninitV size
        unique_starts key_compare_op reduce_op blocks_per_full_batch full_batches blocks
        b).unique_stores
      = (List.range (batch_blocks blocks_per_full_batch full_batches b
            * (BlockSize * ItemsPerThread))).filterMap
          (fun k => key_store key_compare_op keys_input size
            (first_block blocks_per_full_batch full_batches b
              * (BlockSize * ItemsPerThread) + k)) := by
  have hsucc := first_block_succ blocks_per_full_batch full_batches b h.per_batch
  have hle := h.first_block_le (b := b + 1) (by omega)
  rw [hsucc] at hle
  have hbl := h.blocks_lt
  unfold reduce_by_key
  rw [batch_geometry_eq h hb]
  dsimp only
  refine (reduce_by_key_loop h keys_input uninitK values_input uninitV key_compare_op
    reduce_op (first_block blocks_per_full_batch full_batches b)
    (batch_blocks blocks_per_full_batch full_batches b) hle (by omega) _ rfl hus ?_ rfl
    _ (le_refl _)).2.2.2
  intro hpos
  dsimp only
  have hfirst : first_block blocks_per_full_batch full_batches b < blocks := by omega
  rw [h.wrap_offset hfirst]
  rcases Nat.eq_zero_or_pos (first_block blocks_per_full_batch full_batches b) with h0 | h0
  · rw [h0]
    simp [is_run_start]
  · have hoffpos : 0 < first_block blocks_per_full_batch full_batches b
        * (BlockSize * ItemsPerThread) := Nat.mul_pos h0 h.ipb_pos
    have := h.offset_lt hfirst
    rw [sub32_of_le (by omega) (by omega)]
    unfold is_run_start
    have e : decide (first_block blocks_per_full_batch full_batches b
        * (BlockSize * ItemsPerThread) = 0) = false := decide_eq_false (by omega)
    rw [e]
    simp [h0, hpos]

/-- In launch order the key stores of the grid are the key stores of the positions
`0, 1, …, size - 1`. -/
theorem reduce_by_key_grid_stores {K V : Type}
    (h : launch_ok BlockSize ItemsPerThread warp_size ScanBlockSize ScanItemsPerThread
      size blocks_per_full_batch full_batches blocks batches)
    (keys_input uninitK : Nat → K) (values_input uninitV : Nat → V)
    (key_compare_op : K → K → Bool) (reduce_op : V → V → V)
    (unique_starts : Nat → Nat)
    (hus : ∀ b, b < batches → unique_starts b
      = Nat.count (fun q => is_run_end key_compare_op keys_input size q = true)
          (first_block blocks_per_full_batch full_batches b * (BlockSize * ItemsPerThread))) :
    (List.range batches).flatMap (fun b =>
        (reduce_by_key BlockSize ItemsPerThread keys_input uninitK values_input uninitV size
          unique_starts key_compare_op reduce_op blocks_per_full_batch full_batches blocks
          b).unique_stores)
      = (List.range size).filterMap (key_store key_compare_op keys_input size) := by
  have hpre : ∀ n, n ≤ batches →
      (List.range n).flatMap (fun b =>
        (reduce_by_key BlockSize ItemsPerThread keys_input uninitK values_input uninitV size
          unique_starts key_compare_op reduce_op blocks_per_full_batch full_batches blocks
          b).unique_stores)
      = (List.range (first_block blocks_per_full_batch full_batches n
          * (BlockSize * ItemsPerThread))).filterMap
            (key_store key_compare_op keys_input size) := by
    intro n hn
    induction n with
    | zero => simp [first_block_zero]
    | succ n ih =>
      rw [List.range_succ, List.flatMap_append, ih (by omega)]
      simp only [List.flatMap_cons, List.flatMap_nil, List.append_nil]
      rw [reduce_by_key_unique_stores h keys_input uninitK values_input uninitV
        key_compare_op reduce_op unique_starts (by omega) (hus n (by omega)),
        first_block_succ _ _ _ h.per_batch, Nat.add_mul, filterMap_range_add]
  rw [hpre batches (le_refl _), h.first_block_total]
  obtain ⟨d, hd⟩ : ∃ d, blocks * (BlockSize * ItemsPerThread) = size + d :=
    ⟨blocks * (BlockSize * ItemsPerThread) - size, by have := h.blocks_hi; omega⟩
  rw [hd, filterMap_range_add]
  have : (List.range d).filterMap
      (fun k => key_store key_compare_op keys_input size (size + k)) = [] := by
    rw [List.filterMap_eq_nil_iff]
    intro k _
    unfold key_store
    rw [if_neg (by omega)]
  rw [this, List.append_nil]

end rbk_batch

/-! ## Reduce-by-key: unique count and unique keys -/

section rbk_claims

open Finset

variable {BlockSize ItemsPerThread warp_size ScanBlockSize ScanItemsPerThread
  size blocks_per_full_batch full_batches blocks batches : Nat}

/-- The content of a cell after a list of stores: untouched, or the value of one of the
stores to the cell. -/
theorem apply_writes_cases {α : Type} (ws : List (Nat × α)) (mem : Nat → α) (j : Nat) :
    ((∀ w ∈ ws, w.1 ≠ j) ∧ apply_writes mem ws j = mem j)
      ∨ ∃ w ∈ ws, w.1 = j ∧ apply_writes mem ws j = w.2 := by
  induction ws generalizing mem with
  | nil => left; exact ⟨by simp, rfl⟩
  | cons w ws ih =>
    rw [apply_writes]
    rcases ih (Function.update mem w.1 w.2) with ⟨h1, h2⟩ | ⟨w', hw', h1, h2⟩
    · by_cases hw : w.1 = j
      · right
        refine ⟨w, List.mem_cons_self _ _, hw, ?_⟩
        rw [h2, ← hw, Function.update_same]
      · left
        refine ⟨?_, ?_⟩
        · intro x hx
          rcases List.mem_cons.mp hx with rfl | hx
          · exact hw
          · exact h1 x hx
        · rw [h2, Function.update_noteq (Ne.symm hw)]
    · right
      exact ⟨w', List.mem_cons_of_mem _ hw', h1, h2⟩

/-- A cell that is stored to, always with the same value, holds that value. -/
theorem apply_writes_of_unique {α : Type} (ws : List (Nat × α)) (mem : Nat → α) (j : Nat)
    (x : α) (hex : ∃ w ∈ ws, w.1 = j) (hall : ∀ w ∈ ws, w.1 = j → w.2 = x) :
    apply_writes mem ws j = x := by
  rcases apply_writes_cases ws mem j with ⟨h1, _⟩ | ⟨w, hw, h1, h2⟩
  · obtain ⟨w, hw, hj⟩ := hex
    exact absurd hj (h1 w hw)
  · rw [h2]; exact hall w hw h1

/-- A cell that no store addresses keeps its content. -/
theorem apply_writes_of_not_mem {α : Type} (ws : List (Nat × α)) (mem : Nat → α) (j : Nat)
    (h : ∀ w ∈ ws, w.1 ≠ j) : apply_writes mem ws j = mem j := by
  rcases apply_writes_cases ws mem j with ⟨_, h2⟩ | ⟨w, hw, h1, _⟩
  · exact h2
  · exact absurd h1 (h w hw)

/-- The `j`-th element of the positions below `N` that satisfy `f` is the position
that has `j` such positions before it. -/
theorem getElem?_filter_range (f : Nat → Bool) (N j p : Nat)
    (h : ((List.range N).filter f)[j]? = some p) :
    p < N ∧ f p = true ∧ Nat.count (fun i => f i = true) p = j := by
  induction N with
  | zero => simp at h
  | succ N ih =>
    rw [List.range_succ, List.filter_append] at h
    have hlen : ((List.range N).filter f).length = Nat.count (fun i => f i = true) N := by
      rw [Nat.count, List.countP_eq_length_filter]
      congr 1
      apply List.filter_congr
      intro x _
      simp
    rcases Nat.lt_or_ge j ((List.range N).filter f).length with hj | hj
    · rw [List.getElem?_append_left hj] at h
      obtain ⟨h1, h2, h3⟩ := ih h
      exact ⟨by omega, h2, h3⟩
    · rw [List.getElem?_append_right hj] at h
      by_cases hf : f N = true
      · simp only [List.filter_cons, hf, if_true, List.filter_nil] at h
        rcases Nat.eq_zero_or_pos (j - ((List.range N).filter f).length) with h0 | h0
        · rw [h0] at h
          simp at h
          subst h
          exact ⟨by omega, hf, by omega⟩
        · obtain ⟨m, hm⟩ : ∃ m, j - ((List.range N).filter f).length = m + 1 :=
            ⟨j - ((List.range N).filter f).length - 1, by omega⟩
          rw [hm] at h
          simp at h
      · simp [List.filter_cons, hf] at h

/-- A run start has as many run ends as run starts before it. -/
theorem count_run_end_start {K : Type} (eq : K → K → Bool) (keys : Nat → K) {N p : Nat}
    (h : p < N) (hs : is_run_start eq keys p = true) :
    Nat.count (fun q => is_run_end eq keys N q = true) p
      = Nat.count (fun q => is_run_start eq keys q = true) p := by
  have h1 := count_run_end_lt eq keys h
  rw [Nat.count_succ, if_pos hs] at h1
  omega

theorem mem_key_stores {K : Type} (eq : K → K → Bool) (keys : Nat → K) (N : Nat)
    (w : Nat × K) :
    w ∈ (List.range N).filterMap (key_store eq keys N)
      ↔ ∃ q, q < N ∧ is_run_start eq keys q = true
          ∧ w = (Nat.count (fun i => is_run_start eq keys i = true) q, keys q) := by
  rw [List.mem_filterMap]
  constructor
  · rintro ⟨q, hq, hw⟩
    unfold key_store at hw
    split at hw
    · rename_i hc
      simp only [Option.some.injEq] at hw
      exact ⟨q, hc.1, hc.2, by rw [← hw, count_run_end_start eq keys hc.1 hc.2]⟩
    · simp at hw
  · rintro ⟨q, hq, hs, rfl⟩
    refine ⟨q, List.mem_range.mpr hq, ?_⟩
    unfold key_store
    rw [if_pos ⟨hq, hs⟩, count_run_end_start eq keys hq hs]

/-- The indices of the key stores of the positions below `n` are `0, 1, 2, …`. -/
theorem key_stores_indices {K : Type} (eq : K → K → Bool) (keys : Nat → K) (N n : Nat)
    (hn : n ≤ N) :
    ((List.range n).filterMap (key_store eq keys N)).map Prod.fst
      = List.range (Nat.count (fun i => is_run_start eq keys i = true) n) := by
  induction n with
  | zero => simp
  | succ n ih =>
    rw [List.range_succ, List.filterMap_append, List.map_append, ih (by omega),
      Nat.count_succ]
    by_cases hs : is_run_start eq keys n = true
    · rw [if_pos hs, List.range_succ]
      simp only [List.filterMap_cons, List.filterMap_nil]
      unfold key_store
      rw [if_pos ⟨by omega, hs⟩, count_run_end_start eq keys (by omega) hs]
      rfl
    · rw [if_neg hs]
      simp only [List.filterMap_cons, List.filterMap_nil]
      unfold key_store
      rw [if_neg (fun hc => hs hc.2)]
      simp

theorem run_starts_length {K : Type} (eq : K → K → Bool) (keys : Nat → K) (N : Nat) :
    (run_starts eq keys N).length
      = Nat.count (fun i => is_run_start eq keys i = true) N := by
  unfold run_starts
  rw [Nat.count, List.countP_eq_length_filter]
  congr 1
  apply List.filter_congr
  intro x _
  simp

end rbk_claims

/-! ## Partition: one block of `partition_flag_kernel_impl` -/

section partition_block

open Finset

variable {BlockSize ItemsPerThread size number_of_blocks : Nat}

theorem wrap64_of_lt {n : Nat} (h : n < 18446744073709551616) : wrap64 n = n :=
  Nat.mod_eq_of_lt h

theorem sub64_of_le {a b : Nat} (hb : b ≤ a) (ha : a < 18446744073709551616) :
    sub64 a b = a - b := by
  unfold sub64
  have hb' : b % 18446744073709551616 = b := Nat.mod_eq_of_lt (by omega)
  rw [hb']
  have : a + (18446744073709551616 - b) = (a - b) + 18446744073709551616 := by omega
  rw [this, Nat.add_mod_right]
  exact Nat.mod_eq_of_lt (by omega)

theorem partition_launch.tile_pos
    (h : partition_launch BlockSize ItemsPerThread size number_of_blocks) :
    0 < BlockSize * ItemsPerThread :=
  Nat.mul_pos h.block_pos h.items_pos

theorem partition_launch.grid_pos
    (h : partition_launch BlockSize ItemsPerThread size number_of_blocks) :
    0 < number_of_blocks := by
  rcases Nat.eq_zero_or_pos number_of_blocks with h0 | h0
  · have h1 := h.blocks_hi
    have h2 := h.size_pos
    rw [h0, Nat.zero_mul] at h1
    omega
  · exact h0

theorem partition_launch.ipb_le
    (h : partition_launch BlockSize ItemsPerThread size number_of_blocks) :
    BlockSize * ItemsPerThread ≤ number_of_blocks * (BlockSize * ItemsPerThread) := by
  have := Nat.mul_le_mul_right (BlockSize * ItemsPerThread) h.grid_pos
  omega

theorem partition_launch.blocks_le
    (h : partition_launch BlockSize ItemsPerThread size number_of_blocks) :
    number_of_blocks ≤ number_of_blocks * (BlockSize * ItemsPerThread) := by
  have := Nat.mul_le_mul_left number_of_blocks h.tile_pos
  omega

theorem partition_launch.offset_le
    (_ : partition_launch BlockSize ItemsPerThread size number_of_blocks)
    {b : Nat} (hb : b < number_of_blocks) :
    b * (BlockSize * ItemsPerThread) + BlockSize * ItemsPerThread
      ≤ number_of_blocks * (BlockSize * ItemsPerThread) := by
  have : (b + 1) * (BlockSize * ItemsPerThread)
      ≤ number_of_blocks * (BlockSize * ItemsPerThread) := Nat.mul_le_mul_right _ hb
  rw [Nat.succ_mul] at this
  exact this

theorem partition_launch.inner_le
    (h : partition_launch BlockSize ItemsPerThread size number_of_blocks)
    {b : Nat} (hb : b + 1 < number_of_blocks) :
    b * (BlockSize * ItemsPerThread) + BlockSize * ItemsPerThread < size := by
  have : (b + 1) * (BlockSize * ItemsPerThread)
      ≤ (number_of_blocks - 1) * (BlockSize * ItemsPerThread) :=
    Nat.mul_le_mul_right _ (by omega)
  rw [Nat.succ_mul] at this
  have := h.blocks_lo
  omega

theorem partition_launch.last_offset
    (h : partition_launch BlockSize ItemsPerThread size number_of_blocks) :
    (number_of_blocks - 1) * (BlockSize * ItemsPerThread) + BlockSize * ItemsPerThread
      = number_of_blocks * (BlockSize * ItemsPerThread) := by
  have hp := h.grid_pos
  have : number_of_blocks = (number_of_blocks - 1) + 1 := by omega
  conv_rhs => rw [this, Nat.succ_mul]

theorem partition_launch.blocks_le_size
    (h : partition_launch BlockSize ItemsPerThread size number_of_blocks) :
    number_of_blocks ≤ size := by
  have h1 := Nat.mul_le_mul_left (number_of_blocks - 1) h.tile_pos
  have h2 := h.blocks_lo
  omega

theorem partition_launch.tile_offset_lt
    (h : partition_launch BlockSize ItemsPerThread size number_of_blocks)
    {b : Nat} (hb : b < number_of_blocks) :
    b * (BlockSize * ItemsPerThread) < size := by
  have h1 : b * (BlockSize * ItemsPerThread)
      ≤ (number_of_blocks - 1) * (BlockSize * ItemsPerThread) :=
    Nat.mul_le_mul_right _ (by omega)
  have h2 := h.blocks_lo
  omega

theorem valid_in_last_block_eq
    (h : partition_launch BlockSize ItemsPerThread size number_of_blocks)
    (hn32 : BlockSize * ItemsPerThread < 4294967296) (hN32 : size < 4294967296) :
    valid_in_last_block BlockSize ItemsPerThread size number_of_blocks
      = size - (number_of_blocks - 1) * (BlockSize * ItemsPerThread) := by
  have h1 := h.ipb_le
  have h2 := h.blocks_le_size
  have h3 := h.grid_pos
  have h4 := h.last_offset
  have h5 := h.blocks_lo
  have h6 := h.blocks_hi
  unfold valid_in_last_block
  rw [wrap32_of_lt (show BlockSize * ItemsPerThread < 4294967296 by omega),
    sub32_of_le (show 1 ≤ number_of_blocks by omega) (by omega),
    Nat.mul_comm (BlockSize * ItemsPerThread),
    wrap32_of_lt (show (number_of_blocks - 1) * (BlockSize * ItemsPerThread) < 4294967296
      by omega),
    sub64_of_le (by omega) (by omega)]

/-- The flags a block loads are the flags of the input, `false` after its end. -/
theorem partition_is_selected_eq
    (h : partition_launch BlockSize ItemsPerThread size number_of_blocks)
    (hn32 : BlockSize * ItemsPerThread < 4294967296) (hN32 : size < 4294967296)
    (flags : Nat → Bool) {b j : Nat} (hb : b < number_of_blocks)
    (hj : j < BlockSize * ItemsPerThread) :
    partition_is_selected BlockSize ItemsPerThread flags size number_of_blocks b j
      = valid_flag flags size (b * (BlockSize * ItemsPerThread) + j) := by
  have h1 := h.ipb_le
  have h2 := h.blocks_le_size
  have h3 := h.grid_pos
  have h5 := h.blocks_lo
  have h7 := h.offset_le hb
  have holt := h.tile_offset_lt hb
  unfold partition_is_selected valid_flag
  rw [wrap32_of_lt (show BlockSize * ItemsPerThread < 4294967296 by omega),
    wrap32_of_lt (show b * (BlockSize * ItemsPerThread) < 4294967296 by omega),
    sub32_of_le (by omega) (by omega), valid_in_last_block_eq h hn32 hN32]
  split
  · rename_i hlast
    unfold block_load_default
    subst hlast
    by_cases hv : j < size - (number_of_blocks - 1) * (BlockSize * ItemsPerThread)
    · rw [if_pos hv]
      have : decide ((number_of_blocks - 1) * (BlockSize * ItemsPerThread) + j < size) = true :=
        decide_eq_true (by omega)
      rw [this]; rfl
    · rw [if_neg hv]
      have : decide ((number_of_blocks - 1) * (BlockSize * ItemsPerThread) + j < size) = false :=
        decide_eq_false (by omega)
      rw [this]; rfl
  · rename_i hlast
    have := h.inner_le (b := b) (by omega)
    unfold block_load
    have : decide (b * (BlockSize * ItemsPerThread) + j < size) = true :=
      decide_eq_true (by omega)
    rw [this]; rfl

theorem count_valid_flag_le (flags : Nat → Bool) (N n : Nat) :
    Nat.count (fun q => valid_flag flags N q = true) n ≤ N := by
  rcases Nat.le_total n N with h | h
  · exact le_trans (Nat.count_le _) h
  · obtain ⟨d, rfl⟩ : ∃ d, n = N + d := ⟨n - N, by omega⟩
    rw [Nat.count_add]
    have : Nat.count (fun k => valid_flag flags N (N + k) = true) d = 0 := by
      rw [Nat.count_iff_forall_not]
      intro m _
      unfold valid_flag
      have : decide (N + m < N) = false := decide_eq_false (by omega)
      rw [this]; simp
    have := Nat.count_le (p := fun q => valid_flag flags N q = true) (n := N)
    omega

theorem count_valid_flag_of_le (flags : Nat → Bool) {N n : Nat} (h : n ≤ N) :
    Nat.count (fun q => valid_flag flags N q = true) n
      = Nat.count (fun q => flags q = true) n := by
  rw [count_eq_sum, count_eq_sum]
  apply sum_congr rfl
  intro q hq
  rw [mem_range] at hq
  unfold valid_flag
  have : decide (q < N) = true := decide_eq_true (by omega)
  rw [this]; simp

/-- The block reduction of the flags: the number of selected items of the tile. -/
theorem partition_selected_in_block_eq
    (h : partition_launch BlockSize ItemsPerThread size number_of_blocks)
    (hn32 : BlockSize * ItemsPerThread < 4294967296) (hN32 : size < 4294967296)
    (flags : Nat → Bool) {b : Nat} (hb : b < number_of_blocks) :
    partition_selected_in_block BlockSize ItemsPerThread flags size number_of_blocks b
      = Nat.count (fun j => valid_flag flags size
          (b * (BlockSize * ItemsPerThread) + j) = true) (BlockSize * ItemsPerThread) := by
  have hI := h.tile_pos
  have hle := h.ipb_le
  have hsum : ∑ i ∈ range (BlockSize * ItemsPerThread),
      (if partition_is_selected BlockSize ItemsPerThread flags size number_of_blocks b i
        then 1 else 0)
      = Nat.count (fun j => valid_flag flags size
          (b * (BlockSize * ItemsPerThread) + j) = true) (BlockSize * ItemsPerThread) := by
    rw [count_eq_sum]
    apply sum_congr rfl
    intro i hi
    rw [mem_range] at hi
    rw [partition_is_selected_eq h hn32 hN32 flags hb hi]
  unfold partition_selected_in_block
  rw [last_item_eq h.block_pos h.items_pos, block_inclusive_scan_plus32]
  · rw [Nat.sub_add_cancel hI, hsum]
  · rw [Nat.sub_add_cancel hI, hsum]
    have := Nat.count_le (p := fun j => valid_flag flags size
          (b * (BlockSize * ItemsPerThread) + j) = true) (n := BlockSize * ItemsPerThread)
    omega

/-- The look-back prefix of a block: the number of selected items before its tile. -/
theorem partition_lookback_eq
    (h : partition_launch BlockSize ItemsPerThread size number_of_blocks)
    (hn32 : BlockSize * ItemsPerThread < 4294967296) (hN32 : size < 4294967296)
    (flags : Nat → Bool) {b : Nat} (hb : b ≤ number_of_blocks) :
    partition_lookback BlockSize ItemsPerThread flags size number_of_blocks b
      = Nat.count (fun q => valid_flag flags size q = true)
          (b * (BlockSize * ItemsPerThread)) := by
  unfold partition_lookback lookback_exclusive_prefix_sum
  induction b with
  | zero => simp
  | succ b ih =>
    rw [List.range_succ, List.foldl_append, ih (by omega)]
    simp only [List.foldl_cons, List.foldl_nil]
    rw [partition_selected_in_block_eq h hn32 hN32 flags (by omega), Nat.succ_mul, Nat.count_add]
    unfold plus32
    apply wrap32_of_lt
    have := count_valid_flag_le flags size
      (b * (BlockSize * ItemsPerThread) + BlockSize * ItemsPerThread)
    rw [Nat.count_add] at this
    have := h.blocks_hi
    omega

theorem block_exclusive_scan_plus32_init (values : Nat → Nat) (init j : Nat)
    (h : init + ∑ i ∈ range j, values i < 4294967296) :
    block_exclusive_scan plus32 init values j = init + ∑ i ∈ range j, values i := by
  induction j with
  | zero => simp [block_exclusive_scan]
  | succ j ih =>
    rw [sum_range_succ] at h
    rw [block_exclusive_scan, ih (by omega), sum_range_succ]
    unfold plus32
    rw [wrap32_of_lt (by omega)]
    omega

end partition_block

/-! ## Partition: the two scatter phases as permutations -/

section partition_tile

open Finset

theorem count_true_add_false (sel : Nat → Bool) (n : Nat) :
    Nat.count (fun q => sel q = true) n + Nat.count (fun q => sel q = false) n = n := by
  induction n with
  | zero => simp
  | succ n ih =>
    rw [Nat.count_succ, Nat.count_succ]
    cases hs : sel n <;> simp <;> omega

theorem tile_position_lt (sel : Nat → Bool) {n j : Nat} (hj : j < n) :
    tile_position sel (Nat.count (fun q => sel q = true) n) j < n := by
  unfold tile_position
  have h1 := count_true_add_false sel n
  have h2 := count_true_add_false sel j
  split
  · rename_i hs
    have := Nat.count_strict_mono (p := fun q => sel q = true) hs hj
    have := Nat.count_le (p := fun q => sel q = true) (n := n)
    omega
  · rename_i hs
    have hs' : sel j = false := by simpa using hs
    have := Nat.count_strict_mono (p := fun q => sel q = false) hs' hj
    omega

theorem tile_position_inj (sel : Nat → Bool) {n j j' : Nat} (hj : j < n) (hj' : j' < n)
    (h : tile_position sel (Nat.count (fun q => sel q = true) n) j
      = tile_position sel (Nat.count (fun q => sel q = true) n) j') : j = j' := by
  unfold tile_position at h
  have h2 := count_true_add_false sel j
  have h3 := count_true_add_false sel j'
  have hm := Nat.count_monotone (fun q => sel q = true) (le_of_lt hj)
  have hm' := Nat.count_monotone (fun q => sel q = true) (le_of_lt hj')
  by_cases hs : sel j = true <;> by_cases hs' : sel j' = true
  · rw [if_pos hs, if_pos hs'] at h
    exact Nat.count_injective (p := fun q => sel q = true) hs hs' h
  · rw [if_pos hs, if_neg hs'] at h
    have := Nat.count_strict_mono (p := fun q => sel q = true) hs hj
    omega
  · rw [if_neg hs, if_pos hs'] at h
    have := Nat.count_strict_mono (p := fun q => sel q = true) hs' hj'
    omega
  · rw [if_neg hs, if_neg hs'] at h
    have e : sel j = false := by simpa using hs
    have e' : sel j' = false := by simpa using hs'
    exact Nat.count_injective (p := fun q => sel q = false) e e' (by omega)

/-- An injective map of `[0, v)` into itself permutes it. -/
theorem perm_range_of_inj (σ : Nat → Nat) (v : Nat) (hlt : ∀ j, j < v → σ j < v)
    (hinj : ∀ j j', j < v → j' < v → σ j = σ j' → j = j') :
    ((List.range v).map σ).Perm (List.range v) := by
  have hnd : ((List.range v).map σ).Nodup :=
    List.Nodup.map_on (fun x hx y hy hxy =>
      hinj x y (List.mem_range.mp hx) (List.mem_range.mp hy) hxy) (List.nodup_range v)
  have hsub : (List.range v).map σ ⊆ List.range v := by
    intro x hx
    obtain ⟨j, hj, rfl⟩ := List.mem_map.mp hx
    exact List.mem_range.mpr (hlt j (List.mem_range.mp hj))
  exact (hnd.subperm hsub).perm_of_length_le (by simp)

theorem flatMap_nil_const {α β : Type} (l : List α) :
    l.flatMap (fun _ => ([] : List β)) = [] := by
  induction l with
  | nil => rfl
  | cons a l ih => simp

/-- Exchange of two nested loops, up to the order of the results. -/
theorem flatMap_map_swap {α β γ : Type} (l1 : List α) (l2 : List β) (g : β → α → γ) :
    (l1.flatMap (fun t => l2.map (fun i => g i t))).Perm
      (l2.flatMap (fun i => l1.map (fun t => g i t))) := by
  induction l1 with
  | nil =>
    simp only [List.flatMap_nil, List.map_nil]
    rw [flatMap_nil_const]
  | cons t l1 ih =>
    simp only [List.flatMap_cons, List.map_cons]
    exact ((List.Perm.append_left _ ih).trans
      (List.map_append_flatMap_perm l2 (fun i => g i t) (fun i => l1.map (fun t => g i t))))

theorem range_mul_rows (n m : Nat) :
    (List.range n).flatMap (fun i => (List.range m).map (fun t => i * m + t))
      = List.range (n * m) := by
  induction n with
  | zero => simp
  | succ n ih =>
    rw [List.range_succ, List.flatMap_append, ih, Nat.succ_mul, List.range_add]
    simp

/-- The item indices `i * BlockSize + flat_block_thread_id` of the second scatter loop
cover the tile once. -/
theorem striped_indices_perm (BlockSize ItemsPerThread : Nat) :
    ((List.range BlockSize).flatMap (fun t =>
        (List.range ItemsPerThread).map (fun i => i * BlockSize + t))).Perm
      (List.range (BlockSize * ItemsPerThread)) := by
  have h := flatMap_map_swap (List.range BlockSize) (List.range ItemsPerThread)
    (fun i t => i * BlockSize + t)
  rw [range_mul_rows, Nat.mul_comm] at h
  exact h

theorem filterMap_flatMap_map {α β γ δ : Type} (l1 : List α) (l2 : List β)
    (g : α → β → γ) (f : γ → Option δ) :
    (l1.flatMap (fun t => l2.map (g t))).filterMap f
      = l1.flatMap (fun t => l2.filterMap (fun i => f (g t i))) := by
  induction l1 with
  | nil => rfl
  | cons t l1 ih =>
    simp only [List.flatMap_cons, List.filterMap_append, ih, List.filterMap_map]
    rfl

/-- The item indices `flat_block_thread_id * ItemsPerThread + i` of the first scatter
loop are the items of the tile, in order. -/
theorem blocked_indices (BlockSize ItemsPerThread : Nat) :
    (List.range BlockSize).flatMap (fun t =>
        (List.range ItemsPerThread).map (fun i => t * ItemsPerThread + i))
      = List.range (BlockSize * ItemsPerThread) :=
  range_mul_rows BlockSize ItemsPerThread

end partition_tile

/-! ## Partition: the exchange storage after the first scatter -/

section partition_phase1

open Finset

variable {BlockSize ItemsPerThread size number_of_blocks : Nat}

theorem count_congr_lt (f g : Nat → Bool) (n : Nat) (h : ∀ q, q < n → f q = g q) :
    Nat.count (fun q => f q = true) n = Nat.count (fun q => g q = true) n := by
  rw [count_eq_sum, count_eq_sum]
  apply sum_congr rfl
  intro q hq
  rw [h q (mem_range.mp hq)]

/-- The selected prefix of a block, with or without look-back. -/
theorem partition_selected_prefix_eq
    (h : partition_launch BlockSize ItemsPerThread size number_of_blocks)
    (hn32 : BlockSize * ItemsPerThread < 4294967296) (hN32 : size < 4294967296)
    (flags : Nat → Bool) {b : Nat} (hb : b < number_of_blocks) :
    (if b = 0 then 0
      else partition_lookback BlockSize ItemsPerThread flags size number_of_blocks b)
      = Nat.count (fun q => valid_flag flags size q = true)
          (b * (BlockSize * ItemsPerThread)) := by
  split
  · rename_i h0
    rw [h0]; simp
  · exact partition_lookback_eq h hn32 hN32 flags (le_of_lt hb)

/-- The shared-memory index of the first scatter loop is the tile position. -/
theorem partition_scatter_index_eq
    (h : partition_launch BlockSize ItemsPerThread size number_of_blocks)
    (hn32 : BlockSize * ItemsPerThread < 4294967296) (hN32 : size < 4294967296)
    (flags : Nat → Bool) {b : Nat} (hb : b < number_of_blocks)
    {t i : Nat} (ht : t < BlockSize) (hi : i < ItemsPerThread) :
    partition_scatter_index ItemsPerThread
        (partition_is_selected BlockSize ItemsPerThread flags size number_of_blocks b)
        (block_exclusive_scan plus32
          (if b = 0 then 0
            else partition_lookback BlockSize ItemsPerThread flags size number_of_blocks b)
          (fun j => if partition_is_selected BlockSize ItemsPerThread flags size
            number_of_blocks b j then 1 else 0))
        (if b = 0 then 0
          else partition_lookback BlockSize ItemsPerThread flags size number_of_blocks b)
        (partition_selected_in_block BlockSize ItemsPerThread flags size number_of_blocks b)
        t i
      = tile_position (fun j => valid_flag flags size (b * (BlockSize * ItemsPerThread) + j))
          (Nat.count (fun j => valid_flag flags size
            (b * (BlockSize * ItemsPerThread) + j) = true) (BlockSize * ItemsPerThread))
          (t * ItemsPerThread + i) := by
  have hI := h.tile_pos
  have hle := h.ipb_le
  have hj : t * ItemsPerThread + i < BlockSize * ItemsPerThread := by
    have : (t + 1) * ItemsPerThread ≤ BlockSize * ItemsPerThread :=
      Nat.mul_le_mul_right _ ht
    rw [Nat.succ_mul] at this
    omega
  have hcj : Nat.count (fun q => partition_is_selected BlockSize ItemsPerThread flags size
        number_of_blocks b q = true) (t * ItemsPerThread + i)
      = Nat.count (fun q => valid_flag flags size
          (b * (BlockSize * ItemsPerThread) + q) = true) (t * ItemsPerThread + i) :=
    count_congr_lt _ _ _ (fun q hq =>
      partition_is_selected_eq h hn32 hN32 flags hb (by omega))
  have hcle := Nat.count_le (p := fun q => valid_flag flags size
          (b * (BlockSize * ItemsPerThread) + q) = true) (n := t * ItemsPerThread + i)
  have hS := Nat.count_le (p := fun q => valid_flag flags size
          (b * (BlockSize * ItemsPerThread) + q) = true) (n := BlockSize * ItemsPerThread)
  have hP := count_valid_flag_le flags size (b * (BlockSize * ItemsPerThread))
  have hsz := h.blocks_hi
  have hP' := Nat.count_le (p := fun q => valid_flag flags size q = true)
    (n := b * (BlockSize * ItemsPerThread))
  have hoff := h.offset_le hb
  have holt := h.tile_offset_lt hb
  have hsum := count_valid_flag_le flags size
    (b * (BlockSize * ItemsPerThread) + (t * ItemsPerThread + i))
  rw [Nat.count_add] at hsum
  have hsumS := count_valid_flag_le flags size
    (b * (BlockSize * ItemsPerThread) + BlockSize * ItemsPerThread)
  rw [Nat.count_add] at hsumS
  unfold partition_scatter_index tile_position
  rw [partition_selected_prefix_eq h hn32 hN32 flags hb,
    partition_selected_in_block_eq h hn32 hN32 flags hb,
    partition_is_selected_eq h hn32 hN32 flags hb hj,
    block_exclusive_scan_plus32_init]
  · rw [← count_eq_sum, hcj]
    have e0 : sub32 (Nat.count (fun q => valid_flag flags size q = true)
          (b * (BlockSize * ItemsPerThread))
        + Nat.count (fun q => valid_flag flags size
          (b * (BlockSize * ItemsPerThread) + q) = true) (t * ItemsPerThread + i))
        (Nat.count (fun q => valid_flag flags size q = true)
          (b * (BlockSize * ItemsPerThread)))
        = Nat.count (fun q => valid_flag flags size
          (b * (BlockSize * ItemsPerThread) + q) = true) (t * ItemsPerThread + i) := by
      rw [sub32_of_le (Nat.le_add_right _ _) (by omega)]; omega
    have e1 : wrap32 (t * ItemsPerThread) = t * ItemsPerThread := wrap32_of_lt (by omega)
    have e2 : wrap32 (t * ItemsPerThread + i) = t * ItemsPerThread + i :=
      wrap32_of_lt (by omega)
    have e3 : sub32 (t * ItemsPerThread + i) (Nat.count (fun q => valid_flag flags size
          (b * (BlockSize * ItemsPerThread) + q) = true) (t * ItemsPerThread + i))
        = t * ItemsPerThread + i - Nat.count (fun q => valid_flag flags size
          (b * (BlockSize * ItemsPerThread) + q) = true) (t * ItemsPerThread + i) :=
      sub32_of_le hcle (by omega)
    have hf1 := count_true_add_false
      (fun q => valid_flag flags size (b * (BlockSize * ItemsPerThread) + q))
      (t * ItemsPerThread + i)
    have hf2 := count_true_add_false
      (fun q => valid_flag flags size (b * (BlockSize * ItemsPerThread) + q))
      (BlockSize * ItemsPerThread)
    have hmono := Nat.count_monotone
      (fun q => valid_flag flags size (b * (BlockSize * ItemsPerThread) + q) = false)
      (le_of_lt hj)
    rw [e0, e1, e2]
    dsimp only
    rw [e3, wrap32_of_lt (by omega)]
    split
    · rfl
    · omega
  · rw [← count_eq_sum, hcj]
    omega

/-- Every item of the tile is found in the exchange storage at its tile position. -/
theorem apply_writes_tile {α : Type} (BlockSize ItemsPerThread : Nat)
    (σ : Nat → Nat) (values shared : Nat → α)
    (hinj : ∀ j j', j < BlockSize * ItemsPerThread → j' < BlockSize * ItemsPerThread →
      σ j = σ j' → j = j')
    {j : Nat} (hj : j < BlockSize * ItemsPerThread) :
    apply_writes shared
        ((List.range BlockSize).flatMap (fun t =>
          (List.range ItemsPerThread).map (fun i =>
            (σ (t * ItemsPerThread + i), values (t * ItemsPerThread + i)))))
        (σ j) = values j := by
  have hlist : (List.range BlockSize).flatMap (fun t =>
          (List.range ItemsPerThread).map (fun i =>
            (σ (t * ItemsPerThread + i), values (t * ItemsPerThread + i))))
      = (List.range (BlockSize * ItemsPerThread)).map (fun j => (σ j, values j)) := by
    rw [← blocked_indices, List.map_flatMap]
    simp only [List.map_map]
    rfl
  rw [hlist]
  apply apply_writes_of_unique
  · exact ⟨(σ j, values j), List.mem_map.mpr ⟨j, List.mem_range.mpr hj, rfl⟩, rfl⟩
  · intro w hw hwj
    obtain ⟨j', hj', rfl⟩ := List.mem_map.mp hw
    have := hinj j' j (List.mem_range.mp hj') hj hwj
    rw [this]

end partition_phase1

/-! ## Partition: the destinations of the second scatter -/

section partition_phase2

open Finset

variable {BlockSize ItemsPerThread size number_of_blocks : Nat}

theorem valid_flag_of_ge (flags : Nat → Bool) {N q : Nat} (h : N ≤ q) :
    valid_flag flags N q = false := by
  unfold valid_flag
  have : decide (q < N) = false := decide_eq_false (by omega)
  rw [this]; rfl

theorem valid_flag_of_lt (flags : Nat → Bool) {N q : Nat} (h : q < N) :
    valid_flag flags N q = flags q := by
  unfold valid_flag
  have : decide (q < N) = true := decide_eq_true h
  rw [this]; rfl

/-- No item is selected in the part of a tile that lies after the input. -/
theorem count_tile_ge (flags : Nat → Bool) (N off : Nat) {v n : Nat} (hv : N ≤ off + v)
    (hn : v ≤ n) :
    Nat.count (fun j => valid_flag flags N (off + j) = true) n
      = Nat.count (fun j => valid_flag flags N (off + j) = true) v := by
  obtain ⟨d, rfl⟩ : ∃ d, n = v + d := ⟨n - v, by omega⟩
  rw [Nat.count_add]
  have : Nat.count (fun k => valid_flag flags N (off + (v + k)) = true) d = 0 := by
    rw [Nat.count_iff_forall_not]
    intro m _
    rw [valid_flag_of_ge flags (by omega)]
    simp
  omega

/-- Tile positions stay inside the tile (statement with the flags of a tile). -/
theorem tile_position_flags_lt (flags : Nat → Bool) (N off : Nat) {n j : Nat} (hj : j < n) :
    tile_position (fun j => valid_flag flags N (off + j))
        (Nat.count (fun j => valid_flag flags N (off + j) = true) n) j < n :=
  tile_position_lt (fun j => valid_flag flags N (off + j)) hj

theorem tile_position_flags_inj (flags : Nat → Bool) (N off : Nat) {n j j' : Nat}
    (hj : j < n) (hj' : j' < n)
    (h : tile_position (fun j => valid_flag flags N (off + j))
        (Nat.count (fun j => valid_flag flags N (off + j) = true) n) j
      = tile_position (fun j => valid_flag flags N (off + j))
        (Nat.count (fun j => valid_flag flags N (off + j) = true) n) j') : j = j' :=
  tile_position_inj (fun j => valid_flag flags N (off + j)) hj hj' h

theorem count_flags_true_add_false (flags : Nat → Bool) (N off n : Nat) :
    Nat.count (fun j => valid_flag flags N (off + j) = true) n
      + Nat.count (fun j => valid_flag flags N (off + j) = false) n = n :=
  count_true_add_false (fun j => valid_flag flags N (off + j)) n

/-- The first scatter keeps the items of the input before the rest of the tile. -/
theorem tile_position_valid (flags : Nat → Bool) (N off I : Nat) {j : Nat} (hj : j < I) :
    off + tile_position (fun j => valid_flag flags N (off + j))
        (Nat.count (fun j => valid_flag flags N (off + j) = true) I) j < N
      ↔ off + j < N := by
  by_cases hv : off + j < N
  · simp only [hv, iff_true]
    rcases Nat.lt_or_ge (off + I) N with hI | hI
    · have := tile_position_flags_lt flags N off hj
      omega
    · have hc := count_tile_ge flags N off (v := N - off) (n := I) (by omega) (by omega)
      rw [hc]
      have := tile_position_flags_lt flags N off (show j < N - off by omega)
      omega
  · simp only [hv, iff_false]
    have hc := count_tile_ge flags N off (v := j) (n := I) (by omega) (by omega)
    have hf := valid_flag_of_ge flags (N := N) (q := off + j) (by omega)
    have hle := Nat.count_le (p := fun j => valid_flag flags N (off + j) = true) (n := j)
    unfold tile_position
    rw [hc]
    simp only [hf]
    simp only [Bool.false_eq_true, if_false]
    omega

/-- The selected items before an item of the input, split at the start of its tile. -/
theorem count_flags_split (flags : Nat → Bool) (N off j : Nat) (h : off + j ≤ N) :
    Nat.count (fun q => valid_flag flags N q = true) off
      + Nat.count (fun q => valid_flag flags N (off + q) = true) j
      = Nat.count (fun q => flags q = true) (off + j) := by
  rw [← Nat.count_add, count_valid_flag_of_le flags h]

/-- The destination the second scatter loop computes for the item that the first scatter
put at its tile position is the partition destination of the item. -/
theorem partition_output_index_eq
    (h : partition_launch BlockSize ItemsPerThread size number_of_blocks)
    (hn32 : BlockSize * ItemsPerThread < 4294967296) (hN32 : size < 4294967296)
    (flags : Nat → Bool) {b j : Nat} (hb : b < number_of_blocks)
    (hj : j < BlockSize * ItemsPerThread)
    (hg : b * (BlockSize * ItemsPerThread) + j < size) :
    partition_output_index size (wrap32 (BlockSize * ItemsPerThread)) b
        (Nat.count (fun q => valid_flag flags size q = true)
          (b * (BlockSize * ItemsPerThread)))
        (Nat.count (fun j => valid_flag flags size
          (b * (BlockSize * ItemsPerThread) + j) = true) (BlockSize * ItemsPerThread))
        (tile_position (fun j => valid_flag flags size (b * (BlockSize * ItemsPerThread) + j))
          (Nat.count (fun j => valid_flag flags size
            (b * (BlockSize * ItemsPerThread) + j) = true) (BlockSize * ItemsPerThread)) j)
      = partition_destination flags size (b * (BlockSize * ItemsPerThread) + j) := by
  have hle := h.ipb_le
  have hoff := h.offset_le hb
  have holt := h.tile_offset_lt hb
  have hsz := h.blocks_hi
  have hlt := tile_position_flags_lt flags size (b * (BlockSize * ItemsPerThread)) hj
  have hsplit := count_flags_split flags size (b * (BlockSize * ItemsPerThread)) j (by omega)
  have hP' := Nat.count_le (p := fun q => valid_flag flags size q = true)
    (n := b * (BlockSize * ItemsPerThread))
  have hcj := Nat.count_le (p := fun q => valid_flag flags size
    (b * (BlockSize * ItemsPerThread) + q) = true) (n := j)
  have hf := count_true_add_false flags (b * (BlockSize * ItemsPerThread) + j)
  have hvf := valid_flag_of_lt flags hg
  unfold partition_output_index partition_destination
  rw [wrap32_of_lt (show BlockSize * ItemsPerThread < 4294967296 by omega),
    wrap32_of_lt (show b * (BlockSize * ItemsPerThread) < 4294967296 by omega)]
  dsimp only
  by_cases hs : flags (b * (BlockSize * ItemsPerThread) + j) = true
  · have hs' : valid_flag flags size (b * (BlockSize * ItemsPerThread) + j) = true := by
      rw [hvf]; exact hs
    have htp : tile_position
        (fun j => valid_flag flags size (b * (BlockSize * ItemsPerThread) + j))
        (Nat.count (fun j => valid_flag flags size
          (b * (BlockSize * ItemsPerThread) + j) = true) (BlockSize * ItemsPerThread)) j
        = Nat.count (fun q => valid_flag flags size
          (b * (BlockSize * ItemsPerThread) + q) = true) j := by
      unfold tile_position
      rw [if_pos hs']
    have hstrict := Nat.count_strict_mono (p := fun q => valid_flag flags size
      (b * (BlockSize * ItemsPerThread) + q) = true) hs' hj
    rw [htp, if_pos hstrict, if_pos hs, hsplit, wrap32_idem, wrap32_of_lt (by omega)]
  · have hs' : ¬ valid_flag flags size (b * (BlockSize * ItemsPerThread) + j) = true := by
      rw [hvf]; exact hs
    have htp : tile_position
        (fun j => valid_flag flags size (b * (BlockSize * ItemsPerThread) + j))
        (Nat.count (fun j => valid_flag flags size
          (b * (BlockSize * ItemsPerThread) + j) = true) (BlockSize * ItemsPerThread)) j
        = Nat.count (fun j => valid_flag flags size
            (b * (BlockSize * ItemsPerThread) + j) = true) (BlockSize * ItemsPerThread)
          + (j - Nat.count (fun q => valid_flag flags size
            (b * (BlockSize * ItemsPerThread) + q) = true) j) := by
      unfold tile_position
      rw [if_neg hs']
    rw [htp] at hlt ⊢
    rw [if_neg (by omega), if_neg hs,
      sub32_of_le (Nat.le_add_right _ _) (by omega), Nat.add_sub_cancel_left,
      sub32_of_le hP' (by omega)]
    have e1 : b * (BlockSize * ItemsPerThread)
        - Nat.count (fun q => valid_flag flags size q = true)
            (b * (BlockSize * ItemsPerThread))
        + (j - Nat.count (fun q => valid_flag flags size
            (b * (BlockSize * ItemsPerThread) + q) = true) j)
        = Nat.count (fun q => flags q = false) (b * (BlockSize * ItemsPerThread) + j) := by
      omega
    have hcf := Nat.count_le (p := fun q => flags q = false)
      (n := b * (BlockSize * ItemsPerThread) + j)
    have w1 : wrap32 (Nat.count (fun q => flags q = false)
        (b * (BlockSize * ItemsPerThread) + j))
        = Nat.count (fun q => flags q = false) (b * (BlockSize * ItemsPerThread) + j) :=
      wrap32_of_lt (by omega)
    have w2 : wrap32 (Nat.count (fun q => flags q = false)
        (b * (BlockSize * ItemsPerThread) + j) + 1)
        = Nat.count (fun q => flags q = false) (b * (BlockSize * ItemsPerThread) + j) + 1 :=
      wrap32_of_lt (by omega)
    rw [e1, w1, w2, sub64_of_le (by omega) (by omega), wrap32_of_lt (by omega)]
    omega

end partition_phase2

/-! ## Partition: the stores of a block and of the grid -/

section partition_stores

open Finset

variable {BlockSize ItemsPerThread size number_of_blocks : Nat}

theorem flatMap_congr_mem {α β : Type} {l : List α} {f g : α → List β}
    (h : ∀ a, a ∈ l → f a = g a) : l.flatMap f = l.flatMap g := by
  induction l with
  | nil => rfl
  | cons a l ih =>
    simp only [List.flatMap_cons]
    rw [h a (List.mem_cons_self _ _), ih (fun x hx => h x (List.mem_cons_of_mem _ hx))]

/-- The guard of the global store: the item index lies inside the input. -/
theorem partition_guard_iff
    (h : partition_launch BlockSize ItemsPerThread size number_of_blocks)
    (hn32 : BlockSize * ItemsPerThread < 4294967296) (hN32 : size < 4294967296)
    {b m : Nat} (hb : b < number_of_blocks) (hm : m < BlockSize * ItemsPerThread) :
    (b ≠ sub32 number_of_blocks 1
        ∨ m < valid_in_last_block BlockSize ItemsPerThread size number_of_blocks)
      ↔ b * (BlockSize * ItemsPerThread) + m < size := by
  have h2 := h.blocks_le
  have hbsz := h.blocks_le_size
  have h3 := h.grid_pos
  have h5 := h.blocks_lo
  rw [valid_in_last_block_eq h hn32 hN32, sub32_of_le (by omega) (by omega)]
  by_cases hlast : b = number_of_blocks - 1
  · subst hlast
    constructor
    · rintro (h1 | h1)
      · exact absurd rfl h1
      · omega
    · intro h1
      right; omega
  · have := h.inner_le (b := b) (by omega)
    constructor
    · intro _; omega
    · intro _; left; exact hlast

/-- The stores of the second scatter loop, for any content of the exchange storage that
holds every item of the tile at its tile position. -/
theorem partition_phase2_perm {α : Type}
    (h : partition_launch BlockSize ItemsPerThread size number_of_blocks)
    (hn32 : BlockSize * ItemsPerThread < 4294967296) (hN32 : size < 4294967296)
    (flags : Nat → Bool) {b : Nat} (hb : b < number_of_blocks)
    (P S : Nat)
    (hP : P = Nat.count (fun q => valid_flag flags size q = true)
      (b * (BlockSize * ItemsPerThread)))
    (hS : S = Nat.count (fun j => valid_flag flags size
      (b * (BlockSize * ItemsPerThread) + j) = true) (BlockSize * ItemsPerThread))
    (storage vals : Nat → α)
    (hst : ∀ j, j < BlockSize * ItemsPerThread →
      storage (tile_position
        (fun j => valid_flag flags size (b * (BlockSize * ItemsPerThread) + j))
        (Nat.count (fun j => valid_flag flags size
          (b * (BlockSize * ItemsPerThread) + j) = true) (BlockSize * ItemsPerThread)) j)
      = vals j) :
    ((List.range BlockSize).flatMap (fun t =>
        (List.range ItemsPerThread).filterMap (fun i =>
          if b ≠ sub32 number_of_blocks 1 ∨ wrap32 (wrap32 (i * BlockSize) + t)
              < valid_in_last_block BlockSize ItemsPerThread size number_of_blocks then
            some (partition_output_index size (wrap32 (BlockSize * ItemsPerThread)) b P S
              (wrap32 (wrap32 (i * BlockSize) + t)),
              storage (wrap32 (wrap32 (i * BlockSize) + t)))
          else none))).Perm
      ((List.range (BlockSize * ItemsPerThread)).filterMap (fun j =>
        if b * (BlockSize * ItemsPerThread) + j < size then
          some (partition_destination flags size (b * (BlockSize * ItemsPerThread) + j),
            vals j)
        else none)) := by
  have hle := h.ipb_le
  subst hP hS
  -- the loop as a filter of the striped item indices
  have e1 : (List.range BlockSize).flatMap (fun t =>
        (List.range ItemsPerThread).filterMap (fun i =>
          if b ≠ sub32 number_of_blocks 1 ∨ wrap32 (wrap32 (i * BlockSize) + t)
              < valid_in_last_block BlockSize ItemsPerThread size number_of_blocks then
            some (partition_output_index size (wrap32 (BlockSize * ItemsPerThread)) b
              (Nat.count (fun q => valid_flag flags size q = true)
                (b * (BlockSize * ItemsPerThread)))
              (Nat.count (fun j => valid_flag flags size
                (b * (BlockSize * ItemsPerThread) + j) = true) (BlockSize * ItemsPerThread))
              (wrap32 (wrap32 (i * BlockSize) + t)),
              storage (wrap32 (wrap32 (i * BlockSize) + t)))
          else none))
      = ((List.range BlockSize).flatMap (fun t =>
          (List.range ItemsPerThread).map (fun i => i * BlockSize + t))).filterMap (fun m =>
          if b ≠ sub32 number_of_blocks 1
              ∨ m < valid_in_last_block BlockSize ItemsPerThread size number_of_blocks then
            some (partition_output_index size (wrap32 (BlockSize * ItemsPerThread)) b
              (Nat.count (fun q => valid_flag flags size q = true)
                (b * (BlockSize * ItemsPerThread)))
              (Nat.count (fun j => valid_flag flags size
                (b * (BlockSize * ItemsPerThread) + j) = true) (BlockSize * ItemsPerThread))
              m, storage m)
          else none) := by
    rw [filterMap_flatMap_map]
    apply flatMap_congr_mem
    intro t ht
    apply List.filterMap_congr
    intro i hi
    have ht' := List.mem_range.mp ht
    have hi' := List.mem_range.mp hi
    have hm : i * BlockSize + t < BlockSize * ItemsPerThread := by
      have : (i + 1) * BlockSize ≤ ItemsPerThread * BlockSize := Nat.mul_le_mul_right _ hi'
      rw [Nat.succ_mul, Nat.mul_comm ItemsPerThread] at this
      omega
    have w1 : wrap32 (i * BlockSize) = i * BlockSize := wrap32_of_lt (by omega)
    have w2 : wrap32 (i * BlockSize + t) = i * BlockSize + t := wrap32_of_lt (by omega)
    rw [w1, w2]
  rw [e1]
  refine ((striped_indices_perm BlockSize ItemsPerThread).filterMap _).trans ?_
  -- the positions of the exchange storage, read through the first scatter
  have hperm := perm_range_of_inj
    (tile_position (fun j => valid_flag flags size (b * (BlockSize * ItemsPerThread) + j))
      (Nat.count (fun j => valid_flag flags size
        (b * (BlockSize * ItemsPerThread) + j) = true) (BlockSize * ItemsPerThread)))
    (BlockSize * ItemsPerThread)
    (fun j hj => tile_position_flags_lt flags size _ hj)
    (fun j j' hj hj' hjj => tile_position_flags_inj flags size _ hj hj' hjj)
  refine (hperm.symm.filterMap _).trans ?_
  rw [List.filterMap_map]
  apply List.Perm.of_eq
  apply List.filterMap_congr
  intro j hj
  have hj' := List.mem_range.mp hj
  have hlt := tile_position_flags_lt flags size (b * (BlockSize * ItemsPerThread)) hj'
  have hvalid := tile_position_valid flags size (b * (BlockSize * ItemsPerThread))
    (BlockSize * ItemsPerThread) hj'
  simp only [Function.comp]
  by_cases hg : b * (BlockSize * ItemsPerThread) + j < size
  · rw [if_pos ((partition_guard_iff h hn32 hN32 hb hlt).mpr (hvalid.mpr hg)), if_pos hg,
      partition_output_index_eq h hn32 hN32 flags hb hj' hg, hst j hj']
  · rw [if_neg (fun hc => hg (hvalid.mp ((partition_guard_iff h hn32 hN32 hb hlt).mp hc))),
      if_neg hg]

/-- The store that the input item `g` causes in a partition of `N` items. -/
theorem partition_block_values {α : Type}
    (h : partition_launch BlockSize ItemsPerThread size number_of_blocks)
    (hn32 : BlockSize * ItemsPerThread < 4294967296) (hN32 : size < 4294967296)
    (input uninit : Nat → α) {b j : Nat} (hb : b < number_of_blocks)
    (hg : b * (BlockSize * ItemsPerThread) + j < size) :
    (if b = sub32 number_of_blocks 1 then
        block_load_valid input (wrap32 (b * wrap32 (BlockSize * ItemsPerThread)))
          (valid_in_last_block BlockSize ItemsPerThread size number_of_blocks) uninit
      else block_load input (wrap32 (b * wrap32 (BlockSize * ItemsPerThread)))) j
      = input (b * (BlockSize * ItemsPerThread) + j) := by
  have hle := h.ipb_le
  have hoff := h.offset_le hb
  have holt := h.tile_offset_lt hb
  have h3 := h.grid_pos
  have h2 := h.blocks_le
  have hbsz := h.blocks_le_size
  rw [wrap32_of_lt (show BlockSize * ItemsPerThread < 4294967296 by omega),
    wrap32_of_lt (show b * (BlockSize * ItemsPerThread) < 4294967296 by omega),
    valid_in_last_block_eq h hn32 hN32, sub32_of_le (by omega) (by omega)]
  split
  · rename_i hlast
    unfold block_load_valid
    subst hlast
    rw [if_pos (by omega)]
  · rfl

/-- The stores of a block are the stores of the input items of its tile. -/
theorem partition_block_stores {α : Type}
    (h : partition_launch BlockSize ItemsPerThread size number_of_blocks)
    (hn32 : BlockSize * ItemsPerThread < 4294967296) (hN32 : size < 4294967296)
    (input : Nat → α) (flags : Nat → Bool) (uninit shared : Nat → α)
    {b : Nat} (hb : b < number_of_blocks) :
    ((partition_flag_kernel_impl BlockSize ItemsPerThread input flags uninit shared size
        number_of_blocks (partition_lookback BlockSize ItemsPerThread flags size
          number_of_blocks b) b).output_stores).Perm
      ((List.range (BlockSize * ItemsPerThread)).filterMap (fun j =>
        partition_store input flags size (b * (BlockSize * ItemsPerThread) + j))) := by
  have hwrites : (List.range BlockSize).flatMap (fun t =>
        (List.range ItemsPerThread).map (fun i =>
          (partition_scatter_index ItemsPerThread
            (partition_is_selected BlockSize ItemsPerThread flags size number_of_blocks b)
            (block_exclusive_scan plus32
              (if b = 0 then 0
                else partition_lookback BlockSize ItemsPerThread flags size number_of_blocks b)
              (fun j => if partition_is_selected BlockSize ItemsPerThread flags size
                number_of_blocks b j then 1 else 0))
            (if b = 0 then 0
              else partition_lookback BlockSize ItemsPerThread flags size number_of_blocks b)
            (partition_selected_in_block BlockSize ItemsPerThread flags size number_of_blocks
              b) t i,
          (if b = sub32 number_of_blocks 1 then
              block_load_valid input (wrap32 (b * wrap32 (BlockSize * ItemsPerThread)))
                (valid_in_last_block BlockSize ItemsPerThread size number_of_blocks) uninit
            else block_load input (wrap32 (b * wrap32 (BlockSize * ItemsPerThread))))
            (t * ItemsPerThread + i))))
      = (List.range BlockSize).flatMap (fun t =>
        (List.range ItemsPerThread).map (fun i =>
          (tile_position
            (fun j => valid_flag flags size (b * (BlockSize * ItemsPerThread) + j))
            (Nat.count (fun j => valid_flag flags size
              (b * (BlockSize * ItemsPerThread) + j) = true) (BlockSize * ItemsPerThread))
            (t * ItemsPerThread + i),
          (if b = sub32 number_of_blocks 1 then
              block_load_valid input (wrap32 (b * wrap32 (BlockSize * ItemsPerThread)))
                (valid_in_last_block BlockSize ItemsPerThread size number_of_blocks) uninit
            else block_load input (wrap32 (b * wrap32 (BlockSize * ItemsPerThread))))
            (t * ItemsPerThread + i)))) := by
    apply flatMap_congr_mem
    intro t ht
    apply List.map_congr_left
    intro i hi
    rw [partition_scatter_index_eq h hn32 hN32 flags hb (List.mem_range.mp ht)
      (List.mem_range.mp hi)]
  unfold partition_flag_kernel_impl
  dsimp only
  rw [hwrites]
  refine (partition_phase2_perm h hn32 hN32 flags hb _ _
    (partition_selected_prefix_eq h hn32 hN32 flags hb)
    (partition_selected_in_block_eq h hn32 hN32 flags hb) _
    (if b = sub32 number_of_blocks 1 then
        block_load_valid input (wrap32 (b * wrap32 (BlockSize * ItemsPerThread)))
          (valid_in_last_block BlockSize ItemsPerThread size number_of_blocks) uninit
      else block_load input (wrap32 (b * wrap32 (BlockSize * ItemsPerThread))))
    (fun j hj => apply_writes_tile BlockSize ItemsPerThread _ _ shared
      (fun j j' hj hj' hjj => tile_position_flags_inj flags size _ hj hj' hjj) hj)).trans ?_
  apply List.Perm.of_eq
  apply List.filterMap_congr
  intro j _
  unfold partition_store
  by_cases hg : b * (BlockSize * ItemsPerThread) + j < size
  · rw [if_pos hg, if_pos hg, partition_block_values h hn32 hN32 input uninit hb hg]
  · rw [if_neg hg, if_neg hg]

end partition_stores

/-! ## Partition: the stores of the grid and the destination map -/

section partition_grid

open Finset

variable {BlockSize ItemsPerThread size number_of_blocks : Nat}

theorem filterMap_range_mul_rows {α : Type} (f : Nat → Option α) (n m : Nat) :
    (List.range n).flatMap (fun b => (List.range m).filterMap (fun j => f (b * m + j)))
      = (List.range (n * m)).filterMap f := by
  induction n with
  | zero => simp
  | succ n ih =>
    rw [List.range_succ, List.flatMap_append, ih, Nat.succ_mul, filterMap_range_add]
    simp

theorem filterMap_partition_store {α : Type} (input : Nat → α) (flags : Nat → Bool)
    (N n : Nat) (h : N ≤ n) :
    (List.range n).filterMap (partition_store input flags N)
      = (List.range N).map (fun g => (partition_destination flags N g, input g)) := by
  obtain ⟨d, rfl⟩ : ∃ d, n = N + d := ⟨n - N, by omega⟩
  rw [filterMap_range_add]
  have e1 : (List.range d).filterMap (fun k => partition_store input flags N (N + k)) = [] := by
    rw [List.filterMap_eq_nil_iff]
    intro k _
    unfold partition_store
    rw [if_neg (by omega)]
  have e2 : (List.range N).filterMap (partition_store input flags N)
      = (List.range N).filterMap
          (fun g => some (partition_destination flags N g, input g)) := by
    apply List.filterMap_congr
    intro g hg
    unfold partition_store
    rw [if_pos (List.mem_range.mp hg)]
  rw [e1, e2, List.append_nil]
  exact congrFun (List.filterMap_eq_map
    (fun g => (partition_destination flags N g, input g))) (List.range N)

/-- Up to their order, the stores of a launch of `partition_flag_kernel_impl` are the
stores of the input items: item `g` at its partition destination. -/
theorem partition_stores_perm {α : Type}
    (h : partition_launch BlockSize ItemsPerThread size number_of_blocks)
    (hn32 : BlockSize * ItemsPerThread < 4294967296) (hN32 : size < 4294967296)
    (input : Nat → α) (flags : Nat → Bool) (uninit shared : Nat → α)
    (schedule : List Nat) (hs : schedule.Perm (List.range number_of_blocks)) :
    (partition_stores BlockSize ItemsPerThread input flags uninit shared size
        number_of_blocks schedule).Perm
      ((List.range size).map (fun g => (partition_destination flags size g, input g))) := by
  unfold partition_stores
  refine (List.Perm.flatMap_right _ hs).trans ?_
  refine (List.Perm.flatMap_left _ (fun b hb =>
    partition_block_stores h hn32 hN32 input flags uninit shared (List.mem_range.mp hb))).trans ?_
  rw [filterMap_range_mul_rows (partition_store input flags size),
    filterMap_partition_store input flags size _ h.blocks_hi]

theorem partition_destination_lt (flags : Nat → Bool) {N g : Nat} (hg : g < N) :
    partition_destination flags N g < N := by
  unfold partition_destination
  have := Nat.count_le (p := fun q => flags q = true) (n := g)
  split <;> omega

theorem partition_destination_inj (flags : Nat → Bool) {N g g' : Nat} (hg : g < N)
    (hg' : g' < N)
    (h : partition_destination flags N g = partition_destination flags N g') : g = g' := by
  unfold partition_destination at h
  have hN := count_true_add_false flags N
  have h1 := count_true_add_false flags g
  have h2 := count_true_add_false flags g'
  by_cases hs : flags g = true <;> by_cases hs' : flags g' = true
  · rw [if_pos hs, if_pos hs'] at h
    exact Nat.count_injective (p := fun q => flags q = true) hs hs' h
  · rw [if_pos hs, if_neg hs'] at h
    have e' : flags g' = false := by simpa using hs'
    have := Nat.count_strict_mono (p := fun q => flags q = true) hs hg
    have := Nat.count_strict_mono (p := fun q => flags q = false) e' hg'
    omega
  · rw [if_neg hs, if_pos hs'] at h
    have e : flags g = false := by simpa using hs
    have := Nat.count_strict_mono (p := fun q => flags q = true) hs' hg'
    have := Nat.count_strict_mono (p := fun q => flags q = false) e hg
    omega
  · rw [if_neg hs, if_neg hs'] at h
    have e : flags g = false := by simpa using hs
    have e' : flags g' = false := by simpa using hs'
    have := Nat.count_strict_mono (p := fun q => flags q = false) e hg
    have := Nat.count_strict_mono (p := fun q => flags q = false) e' hg'
    exact Nat.count_injective (p := fun q => flags q = false) e e' (by omega)

/-- The destinations of the items of the input are the indices `0, …, N - 1`. -/
theorem partition_destination_perm (flags : Nat → Bool) (N : Nat) :
    ((List.range N).map (partition_destination flags N)).Perm (List.range N) :=
  perm_range_of_inj _ N (fun _ hj => partition_destination_lt flags hj)
    (fun _ _ hj hj' hjj => partition_destination_inj flags hj hj' hjj)

/-- After the launch every input item is found in `output` at its destination. -/
theorem partition_output_at {α : Type}
    (h : partition_launch BlockSize ItemsPerThread size number_of_blocks)
    (hn32 : BlockSize * ItemsPerThread < 4294967296) (hN32 : size < 4294967296)
    (input : Nat → α) (flags : Nat → Bool) (uninit shared : Nat → α)
    (schedule : List Nat) (hs : schedule.Perm (List.range number_of_blocks))
    (output0 : Nat → α) {g : Nat} (hg : g < size) :
    partition_output BlockSize ItemsPerThread input flags uninit shared size
        number_of_blocks schedule output0 (partition_destination flags size g)
      = input g := by
  have hperm := partition_stores_perm h hn32 hN32 input flags uninit shared schedule hs
  unfold partition_output
  apply apply_writes_of_unique
  · refine ⟨(partition_destination flags size g, input g), hperm.mem_iff.mpr ?_, rfl⟩
    exact List.mem_map.mpr ⟨g, List.mem_range.mpr hg, rfl⟩
  · intro w hw hwg
    obtain ⟨g', hg', rfl⟩ := List.mem_map.mp (hperm.mem_iff.mp hw)
    have := partition_destination_inj flags (List.mem_range.mp hg') hg hwg
    rw [this]

/-- Every store of a block of `partition_flag_kernel_impl` has an index below `2^32`:
`scatter_index` is an `offset_type`. -/
theorem partition_store_index_lt {α : Type} (BlockSize ItemsPerThread : Nat)
    (input : Nat → α) (flags : Nat → Bool) (uninit shared : Nat → α)
    (size number_of_blocks : Nat) (schedule : List Nat) (w : Nat × α)
    (hw : w ∈ partition_stores BlockSize ItemsPerThread input flags uninit shared size
      number_of_blocks schedule) : w.1 < 4294967296 := by
  unfold partition_stores at hw
  obtain ⟨b, _, hw⟩ := List.mem_flatMap.mp hw
  unfold partition_flag_kernel_impl at hw
  dsimp only at hw
  obtain ⟨t, _, hw⟩ := List.mem_flatMap.mp hw
  obtain ⟨i, _, hw⟩ := List.mem_filterMap.mp hw
  split at hw
  · simp only [Option.some.injEq] at hw
    rw [← hw]
    unfold partition_output_index
    dsimp only
    split <;> exact wrap32_lt _
  · simp at hw

end partition_grid

/-! ## Scans: algebra of the block scans -/

section scan_algebra

variable {α : Type}

/-- The block inclusive scan is the reference inclusive scan of the items. -/
theorem block_inclusive_scan_eq_reference (op : α → α → α) (xs : Nat → α) (j : Nat) :
    block_inclusive_scan op xs j = scan_inclusive_reference op xs j := by
  induction j with
  | zero => rfl
  | succ j ih => rw [block_inclusive_scan, scan_inclusive_reference, ih]

/-- The block exclusive scan is the reference exclusive scan of the items. -/
theorem block_exclusive_scan_eq_reference (op : α → α → α) (e : α) (xs : Nat → α) (j : Nat) :
    block_exclusive_scan op e xs j = scan_exclusive_reference op e xs j := by
  induction j with
  | zero => rfl
  | succ j ih => rw [block_exclusive_scan, scan_exclusive_reference, ih]

/-- The inclusive scan at `j` reads the items `0, …, j` only. -/
theorem scan_inclusive_reference_congr (op : α → α → α) (xs ys : Nat → α) (j : Nat)
    (h : ∀ k, k ≤ j → xs k = ys k) :
    scan_inclusive_reference op xs j = scan_inclusive_reference op ys j := by
  induction j with
  | zero => exact h 0 (le_refl 0)
  | succ j ih =>
    rw [scan_inclusive_reference, scan_inclusive_reference,
      ih (fun k hk => h k (Nat.le_succ_of_le hk)), h (j + 1) (le_refl _)]

/-- The exclusive scan at `j` reads the items `0, …, j - 1` only. -/
theorem scan_exclusive_reference_congr (op : α → α → α) (e : α) (xs ys : Nat → α) (j : Nat)
    (h : ∀ k, k < j → xs k = ys k) :
    scan_exclusive_reference op e xs j = scan_exclusive_reference op e ys j := by
  induction j with
  | zero => rfl
  | succ j ih =>
    rw [scan_exclusive_reference, scan_exclusive_reference,
      ih (fun k hk => h k (Nat.lt_succ_of_lt hk)), h j (Nat.lt_succ_self j)]

/-- Splitting an inclusive scan at a tile boundary `lo ≥ 1`: the scan up to `lo + j` is
the scan of the items before `lo` combined with the scan of the tile starting at `lo`. -/
theorem scan_inclusive_reference_split (op : α → α → α)
    (hassoc : ∀ a b c, op (op a b) c = op a (op b c)) (xs : Nat → α) (lo j : Nat) :
    scan_inclusive_reference op xs (lo + 1 + j)
      = op (scan_inclusive_reference op xs lo)
          (scan_inclusive_reference op (fun k => xs (lo + 1 + k)) j) := by
  induction j with
  | zero => rfl
  | succ j ih =>
    rw [← Nat.add_assoc, scan_inclusive_reference, ih, scan_inclusive_reference, hassoc]
    rfl

/-- An exclusive scan that starts from `e ⊕ (in[0] ⊕ … ⊕ in[lo])` over the tile that
starts at `lo + 1` continues the exclusive scan of the whole input. -/
theorem scan_exclusive_reference_split (op : α → α → α)
    (hassoc : ∀ a b c, op (op a b) c = op a (op b c)) (e : α) (xs : Nat → α) (lo j : Nat) :
    scan_exclusive_reference op (op e (scan_inclusive_reference op xs lo))
        (fun k => xs (lo + 1 + k)) j
      = scan_exclusive_reference op e xs (lo + 1 + j) := by
  induction j with
  | zero =>
    induction lo with
    | zero => rfl
    | succ lo ih =>
      show op e (scan_inclusive_reference op xs (lo + 1))
        = scan_exclusive_reference op e xs (lo + 1 + 1)
      rw [scan_exclusive_reference, scan_inclusive_reference, ← hassoc]
      exact congrArg (fun t => op t (xs (lo + 1))) ih
  | succ j ih =>
    rw [← Nat.add_assoc, scan_exclusive_reference, scan_exclusive_reference, ih]

/-- The exclusive scan from `e` of a tile that starts at `0`. -/
theorem scan_exclusive_reference_eta (op : α → α → α) (e : α) (xs : Nat → α) (j : Nat) :
    scan_exclusive_reference op e (fun k => xs (0 + k)) j
      = scan_exclusive_reference op e xs j :=
  scan_exclusive_reference_congr op e _ _ j (fun k _ => by rw [Nat.zero_add])

/-- The inclusive scan of the tile aggregates is the inclusive scan of the input at the
last item of the tile: `agg[0] ⊕ … ⊕ agg[k] = in[0] ⊕ … ⊕ in[(k + 1) * n - 1]` when
`agg[b]` is the inclusive scan of tile `b` at its last item, for every `b ≤ k`. -/
theorem scan_inclusive_reference_tiles (op : α → α → α)
    (hassoc : ∀ a b c, op (op a b) c = op a (op b c)) (xs : Nat → α) (agg : Nat → α)
    (n : Nat) (hn : 0 < n) (k : Nat)
    (hagg : ∀ b, b ≤ k →
      agg b = scan_inclusive_reference op (fun j => xs (b * n + j)) (n - 1)) :
    scan_inclusive_reference op agg k = scan_inclusive_reference op xs ((k + 1) * n - 1) := by
  induction k with
  | zero =>
    rw [scan_inclusive_reference, hagg 0 (le_refl 0), Nat.zero_add, Nat.one_mul]
    exact scan_inclusive_reference_congr op _ _ _ (fun j _ => by rw [Nat.zero_mul, Nat.zero_add])
  | succ k ih =>
    rw [scan_inclusive_reference, ih (fun b hb => hagg b (Nat.le_succ_of_le hb)),
      hagg (k + 1) (le_refl _)]
    have hpos : 0 < (k + 1) * n := Nat.mul_pos (Nat.succ_pos k) hn
    have e1 : (k + 1 + 1) * n - 1 = ((k + 1) * n - 1) + 1 + (n - 1) := by
      rw [Nat.add_mul (k + 1) 1 n, Nat.one_mul]
      omega
    have e2 : (k + 1) * n - 1 + 1 = (k + 1) * n := by omega
    rw [e1, scan_inclusive_reference_split op hassoc, e2]

end scan_algebra

/-! ## Scans: grid arithmetic and stores of the kernels -/

section scan_stores

variable {α : Type}

/-- The `size_t` rounding sum of `scan_impl` is exact when `size + n` is at most `2^64`. -/
theorem scan_number_of_blocks (n size : Nat) (hn : 0 < n)
    (hsz : size + n ≤ 18446744073709551616) :
    sub64 (wrap64 (size + n)) 1 = size + n - 1 := by
  unfold sub64 wrap64
  omega

/-- The tiles of `n` items that cover `size` items: the last tile is not empty. -/
theorem scan_blocks_lo (n size : Nat) (hn : 0 < n) (hs : 0 < size) :
    ((size + n - 1) / n - 1) * n < size := by
  have h1 := Nat.div_add_mod (size + n - 1) n
  have h2 := Nat.mod_lt (size + n - 1) hn
  have h3 : ((size + n - 1) / n - 1) * n = n * ((size + n - 1) / n) - n := by
    rw [Nat.sub_mul, Nat.one_mul, Nat.mul_comm]
  have h4 : 1 ≤ (size + n - 1) / n := by
    rw [Nat.one_le_div_iff hn]
    omega
  have h5 : n * 1 ≤ n * ((size + n - 1) / n) := Nat.mul_le_mul_left n h4
  omega

/-- The tiles of `n` items that cover `size` items: they hold every item. -/
theorem scan_blocks_hi (n size : Nat) (hn : 0 < n) :
    size ≤ (size + n - 1) / n * n := by
  have h1 := Nat.div_add_mod (size + n - 1) n
  have h2 := Nat.mod_lt (size + n - 1) hn
  rw [Nat.mul_comm]
  omega

/-- One tile is enough exactly for the sizes up to `n`. -/
theorem scan_single_block (n size : Nat) (hn : 0 < n)
    (h : ¬ 1 < (size + n - 1) / n) : size ≤ n := by
  have h1 := scan_blocks_hi n size hn
  have h2 : (size + n - 1) / n * n ≤ 1 * n := Nat.mul_le_mul_right n (by omega)
  omega

/-- The number of blocks a launch of `nb * BlockSize` threads in tiles of `BlockSize`
has, when the `size_t` product does not wrap. -/
theorem scan_grid_blocks (BlockSize nb : Nat) (hB : 0 < BlockSize)
    (h : nb * BlockSize < 18446744073709551616) :
    wrap64 (nb * BlockSize) / BlockSize = nb := by
  unfold wrap64
  rw [Nat.mod_eq_of_lt h, Nat.mul_div_cancel nb hB]

/-- Reading back the stores of one tile that starts at index `0`. -/
theorem apply_writes_single_tile (n valid : Nat) (hv : valid ≤ n) (f : Nat → α)
    (mem : Nat → α) (i : Nat) :
    apply_writes mem
        ((List.range n).filterMap (fun j => if j < valid then some (j, f j) else none)) i
      = if i < valid then f i else mem i := by
  have hmem : ∀ w : Nat × α,
      w ∈ (List.range n).filterMap (fun j => if j < valid then some (j, f j) else none)
        ↔ w.1 < valid ∧ w.2 = f w.1 := by
    intro w
    rw [List.mem_filterMap]
    constructor
    · rintro ⟨j, _, hj⟩
      by_cases hjv : j < valid
      · rw [if_pos hjv] at hj
        cases hj
        exact ⟨hjv, rfl⟩
      · rw [if_neg hjv] at hj
        cases hj
    · rintro ⟨h1, h2⟩
      refine ⟨w.1, List.mem_range.mpr (by omega), ?_⟩
      rw [if_pos h1, ← h2]
  by_cases hi : i < valid
  · rw [if_pos hi]
    apply apply_writes_of_unique
    · exact ⟨(i, f i), (hmem _).mpr ⟨hi, rfl⟩, rfl⟩
    · intro w hw hwi
      rw [((hmem w).mp hw).2, hwi]
  · rw [if_neg hi]
    apply apply_writes_of_not_mem
    intro w hw hwi
    have := ((hmem w).mp hw).1
    omega

/-- Reading back the stores of a grid of `nb` tiles of `n` items, block `b` storing its
first `valid b` items at `b * n + j`. -/
theorem apply_writes_tiles (n nb : Nat) (valid : Nat → Nat)
    (hv : ∀ b, valid b ≤ n) (f : Nat → Nat → α) (mem : Nat → α) (i : Nat) :
    apply_writes mem
        ((List.range nb).flatMap (fun b =>
          (List.range n).filterMap
            (fun j => if j < valid b then some (b * n + j, f b j) else none))) i
      = if i / n < nb ∧ i % n < valid (i / n) then f (i / n) (i % n) else mem i := by
  have hmem : ∀ w : Nat × α,
      w ∈ (List.range nb).flatMap (fun b =>
          (List.range n).filterMap
            (fun j => if j < valid b then some (b * n + j, f b j) else none))
        ↔ ∃ b j, b < nb ∧ j < valid b ∧ w = (b * n + j, f b j) := by
    intro w
    rw [List.mem_flatMap]
    constructor
    · rintro ⟨b, hb, hw⟩
      rw [List.mem_filterMap] at hw
      obtain ⟨j, _, hj⟩ := hw
      by_cases hjv : j < valid b
      · rw [if_pos hjv] at hj
        cases hj
        exact ⟨b, j, List.mem_range.mp hb, hjv, rfl⟩
      · rw [if_neg hjv] at hj
        cases hj
    · rintro ⟨b, j, hb, hj, rfl⟩
      refine ⟨b, List.mem_range.mpr hb, ?_⟩
      rw [List.mem_filterMap]
      refine ⟨j, List.mem_range.mpr (lt_of_lt_of_le hj (hv b)), ?_⟩
      rw [if_pos hj]
  have hdiv : ∀ b j, j < valid b → (b * n + j) / n = b ∧ (b * n + j) % n = j := by
    intro b j hj
    have hjn : j < n := lt_of_lt_of_le hj (hv b)
    have hn : 0 < n := by omega
    constructor
    · rw [Nat.mul_comm, Nat.mul_add_div hn, Nat.div_eq_of_lt hjn, Nat.add_zero]
    · rw [Nat.mul_comm, Nat.mul_add_mod, Nat.mod_eq_of_lt hjn]
  by_cases hi : i / n < nb ∧ i % n < valid (i / n)
  · rw [if_pos hi]
    have hin : i / n * n + i % n = i := by
      rw [Nat.mul_comm]
      exact Nat.div_add_mod i n
    apply apply_writes_of_unique
    · exact ⟨(i / n * n + i % n, f (i / n) (i % n)),
        (hmem _).mpr ⟨i / n, i % n, hi.1, hi.2, rfl⟩, hin⟩
    · intro w hw hwi
      obtain ⟨b, j, _, hj, rfl⟩ := (hmem w).mp hw
      obtain ⟨e1, e2⟩ := hdiv b j hj
      simp only at hwi
      rw [← hwi, e1, e2]
  · rw [if_neg hi]
    apply apply_writes_of_not_mem
    intro w hw hwi
    obtain ⟨b, j, hb, hj, rfl⟩ := (hmem w).mp hw
    obtain ⟨e1, e2⟩ := hdiv b j hj
    simp only at hwi
    apply hi
    rw [← hwi, e1, e2]
    exact ⟨hb, hj⟩

/-- Reading back the stores of the `block_reduce_kernel_impl` grid. -/
theorem apply_writes_block_reduce (BlockSize ItemsPerThread : Nat) (input : Nat → α)
    (scan_op : α → α → α) (blocks : Nat) (mem : Nat → α) (b : Nat) (hb : b < blocks) :
    apply_writes mem
        ((List.range blocks).map
          (block_reduce_kernel_impl BlockSize ItemsPerThread input scan_op)) b
      = scan_inclusive_reference scan_op
          (fun j => input (b * (BlockSize * ItemsPerThread) + j))
          (BlockSize * ItemsPerThread - 1) := by
  apply apply_writes_of_unique
  · exact ⟨_, List.mem_map.mpr ⟨b, List.mem_range.mpr hb, rfl⟩, rfl⟩
  · intro w hw hwb
    obtain ⟨b', _, rfl⟩ := List.mem_map.mp hw
    have : b' = b := hwb
    rw [this]
    show block_inclusive_scan scan_op _ _ = _
    rw [block_inclusive_scan_eq_reference]
    rfl

end scan_stores

/-! ## Scans: `scan_impl` -/

section scan_impl_correct

variable {α : Type}

/-- The scan of the tile of block `b` gives the value of the whole-input scan at every
valid item, when `block_prefixes[b - 1]` is the inclusive scan of the input at the last
item before the tile. -/
theorem scan_block_scan_value (Exclusive : Bool) (op : α → α → α)
    (hassoc : ∀ a b c, op (op a b) c = op a (op b c)) (e : α) (input uninit : Nat → α)
    (n valid b j : Nat) (hn : 0 < n) (hj : j < valid) (block_prefixes : Nat → α)
    (hbp : 0 < b → block_prefixes (b - 1) = scan_inclusive_reference op input (b * n - 1)) :
    scan_block_scan Exclusive op e
        (if b = 0 then none else some (block_prefixes (b - 1)))
        (block_load_valid input (b * n) valid uninit) j
      = if Exclusive = true then scan_exclusive_reference op e input (b * n + j)
        else scan_inclusive_reference op input (b * n + j) := by
  have hload : ∀ k, k ≤ j → block_load_valid input (b * n) valid uninit k = input (b * n + k) := by
    intro k hk
    unfold block_load_valid
    rw [if_pos (by omega)]
  by_cases hb : b = 0
  · subst hb
    rw [if_pos rfl, Nat.zero_mul, Nat.zero_add]
    cases Exclusive with
    | true =>
      rw [if_pos rfl]
      show block_exclusive_scan op e _ j = _
      rw [block_exclusive_scan_eq_reference]
      refine scan_exclusive_reference_congr op e _ _ j (fun k hk => ?_)
      simpa using hload k (Nat.le_of_lt hk)
    | false =>
      rw [if_neg (by simp)]
      show block_inclusive_scan op _ j = _
      rw [block_inclusive_scan_eq_reference]
      refine scan_inclusive_reference_congr op _ _ j (fun k hk => ?_)
      simpa using hload k hk
  · have hbpos : 0 < b := Nat.pos_of_ne_zero hb
    have hpos : 0 < b * n := Nat.mul_pos hbpos hn
    have elo : b * n - 1 + 1 = b * n := by omega
    rw [if_neg hb, hbp hbpos]
    cases Exclusive with
    | true =>
      rw [if_pos rfl]
      show block_exclusive_scan op _ _ j = _
      rw [block_exclusive_scan_eq_reference, ← elo,
        ← scan_exclusive_reference_split op hassoc e input (b * n - 1) j]
      refine scan_exclusive_reference_congr op _ _ _ j (fun k hk => ?_)
      rw [elo, hload k (Nat.le_of_lt hk)]
    | false =>
      rw [if_neg (by simp)]
      show op _ (block_inclusive_scan op _ j) = _
      rw [block_inclusive_scan_eq_reference, ← elo,
        scan_inclusive_reference_split op hassoc input (b * n - 1) j]
      refine congrArg (op _) ?_
      refine scan_inclusive_reference_congr op _ _ j (fun k hk => ?_)
      rw [elo, hload k hk]

/-- The call `scan_impl` returns for every tile of at least two items and every size
below the recursion budget: the first `size` cells of `output` hold the scan of the
input (exclusive from `initial_value`, or inclusive), the other cells keep their
content; neither the scratch buffer nor `result_type()` nor the uninitialised registers
have an influence. -/
theorem scan_impl_spec (BlockSize ItemsPerThread : Nat) (op : α → α → α)
    (hassoc : ∀ a b c, op (op a b) c = op a (op b c)) (dflt : α) (uninit : Nat → α)
    (h2 : 2 ≤ BlockSize * ItemsPerThread) (h32 : BlockSize * ItemsPerThread < 4294967296) :
    ∀ (fuel : Nat) (Exclusive : Bool) (temporary_storage input output : Nat → α)
      (initial_value : α) (size : Nat), size < fuel →
      size + BlockSize * ItemsPerThread ≤ 18446744073709551616 →
      ∃ out, scan_impl fuel BlockSize ItemsPerThread Exclusive temporary_storage input
          output initial_value dflt size op uninit = some out
        ∧ ∀ i, out i =
            if i < size then
              (if Exclusive = true then scan_exclusive_reference op initial_value input i
               else scan_inclusive_reference op input i)
            else output i := by
  have hn : 0 < BlockSize * ItemsPerThread := by omega
  have hB : 0 < BlockSize := Nat.pos_of_ne_zero (fun h0 => by rw [h0, Nat.zero_mul] at hn; omega)
  have hT : 0 < ItemsPerThread :=
    Nat.pos_of_ne_zero (fun h0 => by rw [h0, Nat.mul_zero] at hn; omega)
  intro fuel
  induction fuel with
  | zero => intro _ _ _ _ _ size hf; omega
  | succ fuel ih =>
    intro Exclusive temporary_storage input output initial_value size hf hsz
    rw [scan_impl]
    simp only [wrap32_of_lt h32, scan_number_of_blocks _ size hn hsz]
    by_cases hnb : 1 < (size + BlockSize * ItemsPerThread - 1) / (BlockSize * ItemsPerThread)
    · rw [if_pos hnb]
      have hs : 0 < size := by
        rcases Nat.eq_zero_or_pos size with h0 | h0
        · rw [h0, Nat.zero_add, Nat.div_eq_of_lt (by omega)] at hnb
          omega
        · exact h0
      have hlo := scan_blocks_lo (BlockSize * ItemsPerThread) size hn hs
      have hhi := scan_blocks_hi (BlockSize * ItemsPerThread) size hn
      generalize hq : (size + BlockSize * ItemsPerThread - 1) / (BlockSize * ItemsPerThread) = nb
        at hnb hlo hhi ⊢
      have hsub : (nb - 1) * (BlockSize * ItemsPerThread)
          = nb * (BlockSize * ItemsPerThread) - BlockSize * ItemsPerThread := by
        rw [Nat.sub_mul, Nat.one_mul]
      have hge : (nb - 1) * 2 ≤ (nb - 1) * (BlockSize * ItemsPerThread) :=
        Nat.mul_le_mul_left _ h2
      have hnbB : nb * BlockSize ≤ nb * (BlockSize * ItemsPerThread) :=
        Nat.mul_le_mul_left _ (Nat.le_mul_of_pos_right BlockSize hT)
      have hsubB : (nb - 1) * BlockSize ≤ nb * BlockSize :=
        Nat.mul_le_mul_right _ (Nat.sub_le nb 1)
      rw [scan_grid_blocks BlockSize (nb - 1) hB (by omega),
        scan_grid_blocks BlockSize nb hB (by omega)]
      obtain ⟨bp, hbp, hbpv⟩ := ih false (fun i => temporary_storage (nb + i))
        (apply_writes temporary_storage
          ((List.range (nb - 1)).map
            (block_reduce_kernel_impl BlockSize ItemsPerThread input op)))
        (apply_writes temporary_storage
          ((List.range (nb - 1)).map
            (block_reduce_kernel_impl BlockSize ItemsPerThread input op)))
        dflt nb (by omega) (by omega)
      rw [hbp]
      refine ⟨_, rfl, fun i => ?_⟩
      have hprefix : ∀ b, 0 < b → b < nb →
          bp (b - 1) = scan_inclusive_reference op input
            (b * (BlockSize * ItemsPerThread) - 1) := by
        intro b hb0 hb
        rw [hbpv (b - 1), if_pos (by omega), if_neg (by simp),
          scan_inclusive_reference_tiles op hassoc input _ (BlockSize * ItemsPerThread) hn
            (b - 1) (fun b' hb' =>
              apply_writes_block_reduce BlockSize ItemsPerThread input op _ _ b' (by omega)),
          Nat.sub_add_cancel hb0]
      unfold final_scan_kernel_impl
      rw [apply_writes_tiles (BlockSize * ItemsPerThread) nb
        (fun b => if b = nb - 1 then size - BlockSize * ItemsPerThread * (nb - 1)
          else BlockSize * ItemsPerThread)
        (fun b => by
          show (if b = nb - 1 then size - BlockSize * ItemsPerThread * (nb - 1)
            else BlockSize * ItemsPerThread) ≤ _
          split
          · rw [Nat.mul_comm]; omega
          · exact le_refl _)]
      have hdm := Nat.div_add_mod i (BlockSize * ItemsPerThread)
      have hml := Nat.mod_lt i hn
      generalize hb : i / (BlockSize * ItemsPerThread) = b at hdm ⊢
      generalize hj : i % (BlockSize * ItemsPerThread) = j at hdm hml ⊢
      have hcomm : BlockSize * ItemsPerThread * b = b * (BlockSize * ItemsPerThread) :=
        Nat.mul_comm _ _
      have hcomm1 : BlockSize * ItemsPerThread * (nb - 1)
          = (nb - 1) * (BlockSize * ItemsPerThread) := Nat.mul_comm _ _
      by_cases hi : i < size
      · rw [if_pos hi]
        have hbnb : b < nb := by
          by_contra hcon
          have : nb * (BlockSize * ItemsPerThread) ≤ b * (BlockSize * ItemsPerThread) :=
            Nat.mul_le_mul_right _ (by omega)
          omega
        have hvalid : j < (if b = nb - 1 then size - BlockSize * ItemsPerThread * (nb - 1)
            else BlockSize * ItemsPerThread) := by
          split
          · rename_i hlast
            subst hlast
            omega
          · exact hml
        rw [if_pos ⟨hbnb, hvalid⟩,
          scan_block_scan_value Exclusive op hassoc initial_value input uninit
            (BlockSize * ItemsPerThread) _ b j hn hvalid bp (fun hb0 => hprefix b hb0 hbnb)]
        have hidx : b * (BlockSize * ItemsPerThread) + j = i := by omega
        rw [hidx]
      · rw [if_neg hi]
        rw [if_neg]
        rintro ⟨hbnb, hvalid⟩
        by_cases hlast : b = nb - 1
        · rw [if_pos hlast] at hvalid
          subst hlast
          omega
        · have : (b + 1) * (BlockSize * ItemsPerThread)
              ≤ (nb - 1) * (BlockSize * ItemsPerThread) :=
            Nat.mul_le_mul_right _ (by omega)
          rw [Nat.add_mul, Nat.one_mul] at this
          omega
    · rw [if_neg hnb]
      have hle := scan_single_block (BlockSize * ItemsPerThread) size hn hnb
      refine ⟨_, rfl, fun i => ?_⟩
      unfold single_scan_kernel_impl
      rw [apply_writes_single_tile (BlockSize * ItemsPerThread) size hle]
      by_cases hi : i < size
      · rw [if_pos hi, if_pos hi]
        have := scan_block_scan_value Exclusive op hassoc initial_value input uninit
          (BlockSize * ItemsPerThread) size 0 i hn hi (fun _ => dflt) (fun h0 => by omega)
        rw [Nat.zero_mul, Nat.zero_add, if_pos rfl] at this
        exact this
      · rw [if_neg hi, if_neg hi]

end scan_impl_correct

/-! ## Radix sort: algebra of the digit passes -/

section radix_digit_algebra

variable {α : Type}

/-- Buckets that select one list out of a range of digits. -/
theorem flatMap_range_single (n d : Nat) (X : List α) :
    (List.range n).flatMap (fun c => if c = d then X else [])
      = if d < n then X else [] := by
  induction n with
  | zero => simp
  | succ n ih =>
    rw [List.range_succ, List.flatMap_append, ih, List.flatMap_singleton]
    by_cases h1 : d < n
    · rw [if_pos h1, if_neg (by omega), if_pos (by omega), List.append_nil]
    · rw [if_neg h1]
      by_cases h2 : n = d
      · rw [if_pos h2, if_pos (by omega), List.nil_append]
      · rw [if_neg h2, if_neg (by omega), List.append_nil]

/-- A digit pass keeps, for every digit, the items of that digit in their order. -/
theorem radix_sort_by_digit_filter (n : Nat) (digit : α → Nat) (l : List α) (d : Nat) :
    (radix_sort_by_digit n digit l).filter (fun x => decide (digit x = d))
      = if d < n then l.filter (fun x => decide (digit x = d)) else [] := by
  unfold radix_sort_by_digit
  rw [List.filter_flatMap, ← flatMap_range_single n d]
  refine flatMap_congr_mem (fun c _ => ?_)
  rw [List.filter_filter]
  by_cases hc : c = d
  · rw [if_pos hc, hc]
    refine List.filter_congr (fun x _ => ?_)
    simp
  · rw [if_neg hc, List.filter_eq_nil_iff]
    intro x _
    simp only [Bool.and_eq_true, decide_eq_true_eq, not_and]
    intro h1 h2
    exact hc (h2.symm.trans h1)

/-- The buckets of the digits below `n` hold the items whose digit is below `n`. -/
theorem radix_sort_by_digit_perm_filter (n : Nat) (digit : α → Nat) (l : List α) :
    (radix_sort_by_digit n digit l).Perm (l.filter (fun x => decide (digit x < n))) := by
  unfold radix_sort_by_digit
  induction n with
  | zero => simp
  | succ n ih =>
    rw [List.range_succ, List.flatMap_append, List.flatMap_singleton]
    have hsplit := List.filter_append_perm (fun x => decide (digit x < n))
      (l.filter (fun x => decide (digit x < n + 1)))
    rw [List.filter_filter, List.filter_filter] at hsplit
    have e1 : l.filter (fun x => decide (digit x < n) && decide (digit x < n + 1))
        = l.filter (fun x => decide (digit x < n)) :=
      List.filter_congr (fun x _ => by
        by_cases h : digit x < n
        · simp [h, Nat.lt_succ_of_lt h]
        · simp [h])
    have e2 : l.filter (fun x => (!decide (digit x < n)) && decide (digit x < n + 1))
        = l.filter (fun x => decide (digit x = n)) :=
      List.filter_congr (fun x _ => by
        by_cases h : digit x = n
        · simp [h]
        · have : ¬ (¬ digit x < n ∧ digit x < n + 1) := by omega
          simpa [h] using this)
    rw [e1, e2] at hsplit
    exact (List.Perm.append_right _ ih).trans hsplit

/-- A digit pass permutes a list whose digits are all in range. -/
theorem radix_sort_by_digit_perm (n : Nat) (digit : α → Nat) (l : List α)
    (h : ∀ x, x ∈ l → digit x < n) : (radix_sort_by_digit n digit l).Perm l := by
  have h1 := radix_sort_by_digit_perm_filter n digit l
  have h2 : l.filter (fun x => decide (digit x < n)) = l :=
    List.filter_eq_self.mpr (fun x hx => by simpa using h x hx)
  rw [h2] at h1
  exact h1

/-- A digit pass orders the list by the digit. -/
theorem radix_sort_by_digit_sorted (n : Nat) (digit : α → Nat) (l : List α) :
    (radix_sort_by_digit n digit l).Pairwise (fun a b => digit a ≤ digit b) := by
  unfold radix_sort_by_digit
  rw [List.pairwise_flatMap]
  constructor
  · intro d _
    refine List.pairwise_of_forall_mem_list (fun a ha b hb => ?_)
    have h1 := (List.mem_filter.mp ha).2
    have h2 := (List.mem_filter.mp hb).2
    simp only [decide_eq_true_eq] at h1 h2
    omega
  · refine (List.pairwise_lt_range n).imp ?_
    intro c d hcd x hx y hy
    have h1 := (List.mem_filter.mp hx).2
    have h2 := (List.mem_filter.mp hy).2
    simp only [decide_eq_true_eq] at h1 h2
    omega

/-- Two digit passes, the less significant digit `f` first, are one pass on the
two-digit number `g * n + f`. -/
theorem radix_sort_by_digit_compose (n m : Nat) (f g : α → Nat) (l : List α)
    (hf : ∀ x, x ∈ l → f x < n) :
    radix_sort_by_digit m g (radix_sort_by_digit n f l)
      = radix_sort_by_digit (m * n) (fun x => g x * n + f x) l := by
  have hrows := range_mul_rows m n
  unfold radix_sort_by_digit
  rw [← hrows, List.flatMap_assoc]
  refine flatMap_congr_mem (fun a _ => ?_)
  rw [List.filter_flatMap, List.flatMap_map]
  refine flatMap_congr_mem (fun b hb => ?_)
  have hbn : b < n := List.mem_range.mp hb
  rw [List.filter_filter]
  refine List.filter_congr (fun x hx => ?_)
  have hfx := hf x hx
  have key : (g x = a ∧ f x = b) ↔ g x * n + f x = a * n + b := by
    constructor
    · rintro ⟨h1, h2⟩
      rw [h1, h2]
    · intro h
      have hg : g x = a := by
        have h1 : (g x * n + f x) / n = (a * n + b) / n := by rw [h]
        rw [Nat.mul_comm (g x), Nat.mul_comm a, Nat.mul_add_div (by omega),
          Nat.mul_add_div (by omega), Nat.div_eq_of_lt hfx, Nat.div_eq_of_lt hbn] at h1
        omega
      rw [hg] at h
      exact ⟨hg, by omega⟩
  by_cases hk : g x * n + f x = a * n + b
  · have := key.mpr hk
    simp [hk, this.1, this.2]
  · have : ¬ (g x = a ∧ f x = b) := fun h => hk (key.mp h)
    simp only [hk, decide_False]
    by_cases hg : g x = a
    · have hfb : ¬ f x = b := fun h => this ⟨hg, h⟩
      simp [hg, hfb]
    · simp [hg]

/-- One bucket holds the whole list when every item has digit `0`. -/
theorem radix_sort_by_digit_one (digit : α → Nat) (l : List α)
    (h : ∀ x, x ∈ l → digit x = 0) : radix_sort_by_digit 1 digit l = l := by
  unfold radix_sort_by_digit
  have hrange : List.range 1 = [0] := rfl
  rw [hrange, List.flatMap_singleton]
  exact List.filter_eq_self.mpr (fun x hx => by simpa using h x hx)

/-- The digit of a key is below the radix. -/
theorem radix_digit_lt (Descending : Bool) (bit w e : Nat) :
    radix_digit Descending bit w e < 2 ^ w := by
  have hpos : 0 < 2 ^ w := Nat.two_pow_pos _
  have hlt := Nat.mod_lt (e / 2 ^ bit) hpos
  unfold radix_digit
  cases Descending with
  | true =>
    show (if true = true then _ else _) < _
    rw [if_pos rfl]
    omega
  | false =>
    show (if false = true then _ else _) < _
    rw [if_neg (by simp)]
    exact hlt

/-- The digit of `rb` bits at `bit + w` above the digit of `w` bits at `bit` is the
digit of `w + rb` bits at `bit`, for the ascending and for the complemented ranking. -/
theorem radix_digit_compose (Descending : Bool) (bit w rb e : Nat) :
    radix_digit Descending (bit + w) rb e * 2 ^ w + radix_digit Descending bit w e
      = radix_digit Descending bit (w + rb) e := by
  have hw : 0 < 2 ^ w := Nat.two_pow_pos _
  have hrb : 0 < 2 ^ rb := Nat.two_pow_pos _
  have hlo := Nat.mod_lt (e / 2 ^ bit) hw
  have hhi := Nat.mod_lt (e / 2 ^ bit / 2 ^ w) hrb
  have hdiv : e / 2 ^ (bit + w) = e / 2 ^ bit / 2 ^ w := by
    rw [Nat.pow_add, Nat.div_div_eq_div_mul]
  have hmod : e / 2 ^ bit % 2 ^ (w + rb)
      = e / 2 ^ bit % 2 ^ w + 2 ^ w * (e / 2 ^ bit / 2 ^ w % 2 ^ rb) := by
    rw [Nat.pow_add, Nat.mod_mul]
  have hcomm : 2 ^ w * (e / 2 ^ bit / 2 ^ w % 2 ^ rb)
      = e / 2 ^ bit / 2 ^ w % 2 ^ rb * 2 ^ w := Nat.mul_comm _ _
  unfold radix_digit
  rw [hdiv]
  cases Descending with
  | false =>
    simp only [Bool.false_eq_true, if_false]
    omega
  | true =>
    simp only [if_true]
    rw [hmod, hcomm]
    generalize e / 2 ^ bit % 2 ^ w = dl at hlo ⊢
    generalize e / 2 ^ bit / 2 ^ w % 2 ^ rb = dh at hhi ⊢
    have hsum : (2 ^ rb - 1 - dh) * 2 ^ w + dh * 2 ^ w + 2 ^ w = 2 ^ rb * 2 ^ w := by
      rw [← Nat.add_mul, ← Nat.succ_mul]
      congr 1
      omega
    rw [Nat.pow_add, Nat.mul_comm (2 ^ w) (2 ^ rb)]
    omega

/-- The digit of `0` bits is `0`. -/
theorem radix_digit_zero (Descending : Bool) (bit e : Nat) :
    radix_digit Descending bit 0 e = 0 := by
  have := radix_digit_lt Descending bit 0 e
  rw [Nat.pow_zero] at this
  omega

/-- The pass that ranks by all the key bits `[begin_bit, end_bit)` is the stable sort by
these bits, ascending, or descending for the complemented ranking. -/
theorem radix_sort_by_digit_stable {K V : Type} (Descending : Bool) (encode : K → Nat)
    (begin_bit end_bit : Nat) (items : List (K × V)) :
    is_stable_sort Descending (fun kv => key_bits begin_bit end_bit (encode kv.1)) items
      (radix_sort_by_digit (2 ^ (end_bit - begin_bit))
        (fun kv => radix_digit Descending begin_bit (end_bit - begin_bit) (encode kv.1))
        items) := by
  have hpos : 0 < 2 ^ (end_bit - begin_bit) := Nat.two_pow_pos _
  have hkb : ∀ e, key_bits begin_bit end_bit e < 2 ^ (end_bit - begin_bit) :=
    fun e => Nat.mod_lt _ hpos
  refine ⟨radix_sort_by_digit_perm _ _ _ (fun x _ => radix_digit_lt _ _ _ _), ?_, ?_⟩
  · refine (radix_sort_by_digit_sorted _ _ items).imp ?_
    intro a b hab
    have ha := hkb (encode a.1)
    have hb := hkb (encode b.1)
    have hab' : radix_digit Descending begin_bit (end_bit - begin_bit) (encode a.1)
        ≤ radix_digit Descending begin_bit (end_bit - begin_bit) (encode b.1) := hab
    show if Descending = true
      then key_bits begin_bit end_bit (encode b.1) ≤ key_bits begin_bit end_bit (encode a.1)
      else key_bits begin_bit end_bit (encode a.1) ≤ key_bits begin_bit end_bit (encode b.1)
    unfold radix_digit at hab'
    unfold key_bits at ha hb ⊢
    cases Descending with
    | true =>
      rw [if_pos rfl]
      simp only [if_true] at hab'
      omega
    | false =>
      rw [if_neg (by simp)]
      simpa using hab'
  · intro d
    by_cases hd : d < 2 ^ (end_bit - begin_bit)
    · have hpred : ∀ kv : K × V,
          decide (radix_digit Descending begin_bit (end_bit - begin_bit) (encode kv.1)
            = (if Descending = true then 2 ^ (end_bit - begin_bit) - 1 - d else d))
          = decide (key_bits begin_bit end_bit (encode kv.1) = d) := by
        intro kv
        have := hkb (encode kv.1)
        unfold radix_digit
        unfold key_bits at this ⊢
        rw [decide_eq_decide]
        cases Descending with
        | true =>
          simp only [if_true]
          omega
        | false =>
          simp only [Bool.false_eq_true, if_false]
      have h := radix_sort_by_digit_filter (2 ^ (end_bit - begin_bit))
        (fun kv : K × V =>
          radix_digit Descending begin_bit (end_bit - begin_bit) (encode kv.1))
        items (if Descending = true then 2 ^ (end_bit - begin_bit) - 1 - d else d)
      have hc : (if Descending = true then 2 ^ (end_bit - begin_bit) - 1 - d else d)
          < 2 ^ (end_bit - begin_bit) := by
        cases Descending with
        | true =>
          rw [if_pos rfl]
          omega
        | false =>
          rw [if_neg (by simp)]
          exact hd
      rw [if_pos hc] at h
      exact (List.filter_congr (fun x _ => (hpred x).symm)).trans
        (h.trans (List.filter_congr (fun x _ => hpred x)))
    · have hnil : ∀ l : List (K × V),
          l.filter (fun x => decide (key_bits begin_bit end_bit (encode x.1) = d)) = [] := by
        intro l
        rw [List.filter_eq_nil_iff]
        intro x _
        have := hkb (encode x.1)
        simp only [decide_eq_true_eq]
        omega
      exact (hnil _).trans (hnil _).symm

end radix_digit_algebra

/-! ## Claims on reduce-by-key -/

section claims_rbk

variable {BlockSize ItemsPerThread warp_size ScanBlockSize ScanItemsPerThread
  size blocks_per_full_batch full_batches blocks batches : Nat}

/-- C6 (reduce-by-key boundary), amended to accepted launches: blocks of whole warps,
`blocks * items_per_block < 2^32` and `batches ≤ BlockSize * ItemsPerThread` of
`scan_unique_counts`. For every such launch on `size ≥ 1` keys, any key predicate and
any content of the uninitialised registers, after `fill_unique_counts` and
`scan_unique_counts` the value stored to `unique_count_output` is the number of
positions `i < size` with `i = 0` or `¬ eq(K[i-1], K[i])`, and `unique_counts[b]` is the
number of runs that end before the first item of batch `b`, that is, in the batches
before `b`. -/
theorem reduce_by_key_boundary {K : Type}
    (h : launch_ok BlockSize ItemsPerThread warp_size ScanBlockSize ScanItemsPerThread
      size blocks_per_full_batch full_batches blocks batches)
    (keys_input uninit : Nat → K) (key_compare_op : K → K → Bool)
    (unique_counts0 : Nat → Nat) :
    (scan_unique_counts ScanBlockSize ScanItemsPerThread
        (fill_unique_counts_grid BlockSize ItemsPerThread warp_size keys_input uninit size
          key_compare_op blocks_per_full_batch full_batches blocks batches unique_counts0)
        batches).2
      = Nat.count (fun i => i = 0 ∨ key_compare_op (keys_input (i - 1)) (keys_input i) = false)
          size
    ∧ ∀ b, b < batches →
      (scan_unique_counts ScanBlockSize ScanItemsPerThread
        (fill_unique_counts_grid BlockSize ItemsPerThread warp_size keys_input uninit size
          key_compare_op blocks_per_full_batch full_batches blocks batches unique_counts0)
        batches).1 b
      = Nat.count (fun p => p < size ∧
            (p + 1 = size ∨ key_compare_op (keys_input p) (keys_input (p + 1)) = false))
          ((batch_geometry blocks_per_full_batch full_batches b).1
            * (BlockSize * ItemsPerThread)) := by
  obtain ⟨h1, h2⟩ := scan_unique_counts_eq h keys_input uninit key_compare_op unique_counts0
  constructor
  · rw [h1]
    congr 1
    funext i
    simp [is_run_start]
  · intro b hb
    rw [h2 b hb, batch_geometry_eq h hb]
    congr 1
    funext p
    simp [is_run_end]

/-- C6, witness: the scenario keys `[1,1,1,2,3,3,4,4]` in two batches of one block of
`2 * 2` items. -/
theorem reduce_by_key_boundary_witness :
    launch_ok 2 2 2 2 2 8 1 2 2 2
    ∧ (scan_unique_counts 2 2
        (fill_unique_counts_grid 2 2 2 scenario_keys (fun _ => 0) 8 (fun a b => a == b)
          1 2 2 2 (fun _ => 0)) 2).2
      = Nat.count (fun i => i = 0 ∨ (scenario_keys (i - 1) == scenario_keys i) = false) 8 :=
  ⟨(by constructor <;> decide),
    (reduce_by_key_boundary
      (by constructor <;> decide)
      scenario_keys (fun _ => 0) (fun a b => a == b) (fun _ => 0)).1⟩

/-- C6 as stated ("for every N ≥ 1, keys, predicate eq and batch decomposition") fails on
the code. Sorted keys `[1,1,1,2, 3,3,3,4, 5,5,5,5]` (five runs) in three batches of one
block of `2 * 2` items, `scan_unique_counts` being a block of `1 * 2` items: the counts
`[2, 2, 1]` of the batches are stored, the block scans two of them, `4` is stored to
`unique_count_output`, and `unique_counts[2]` keeps the count `1` of batch 2 although
four runs end before it. And `2^32 - 1` pairwise distinct keys in `2^30` batches of one
block of `2 * 2` items: in the last block `block_offset + items_per_block` wraps to `0`,
the block is loaded as a full one and `fill_unique_counts` counts four flagged tails in
the three items of the tile. -/
theorem unique_count_beyond_launch_limits :
    (3 - 1) * (2 * 2) < 12 ∧ 12 ≤ 3 * (2 * 2)
    ∧ 3 = 3 * 1 + (3 - 3) * (1 - 1)
    ∧ ¬ 3 ≤ 1 * 2
    ∧ (List.range 3).map (fill_unique_counts_grid 2 2 2 sorted_keys (fun _ => 0) 12
        (fun a b => a == b) 1 3 3 3 (fun _ => 0)) = [2, 2, 1]
    ∧ (scan_unique_counts 1 2
        (fill_unique_counts_grid 2 2 2 sorted_keys (fun _ => 0) 12 (fun a b => a == b)
          1 3 3 3 (fun _ => 0)) 3).2 = 4
    ∧ Nat.count (fun i => i = 0 ∨ (sorted_keys (i - 1) == sorted_keys i) = false) 12 = 5
    ∧ (scan_unique_counts 1 2
        (fill_unique_counts_grid 2 2 2 sorted_keys (fun _ => 0) 12 (fun a b => a == b)
          1 3 3 3 (fun _ => 0)) 3).1 2 = 1
    ∧ Nat.count (fun p => p < 12 ∧
          (p + 1 = 12 ∨ (sorted_keys p == sorted_keys (p + 1)) = false))
        ((batch_geometry 1 3 2).1 * (2 * 2)) = 4
    ∧ (1073741824 - 1) * (2 * 2) < 4294967295 ∧ 4294967295 ≤ 1073741824 * (2 * 2)
    ∧ 1073741824 = 0 * 2 + (1073741824 - 0) * (2 - 1)
    ∧ ¬ 1073741824 * (2 * 2) < 4294967296
    ∧ batch_geometry 2 0 1073741823 = (1073741823, 1)
    ∧ fill_unique_counts 2 2 2 (fun i => i) (fun _ => 0) 4294967295 (fun a b => a == b)
        2 0 1073741824 1073741823 = 4
    ∧ Nat.count (fun i => is_run_end (fun a b => a == b) (fun i => i) 4294967295
        (1073741823 * (2 * 2) + i) = true) (2 * 2) = 3 := by
  and_intros <;> decide

end claims_rbk

section claims_rbk_aggregate

/-- C1 (reduce-by-key aggregate) fails on the code. Keys `[1,1,1,2, 3,3,3,2, 4,4,4,4]`
with values `1..12`, equality and `+`, three batches of one block of `2 * 2` items (an
accepted launch): the runs start at `0, 3, 4, 7, 8`, run 3 is the single item 7 with
value 8, and `reduce_by_key` stores 8 to `aggregates_output[3]`; the carry-outs of
batches 0 and 1 both have the last key `2`, so `scan_and_scatter_carry_outs` joins them
and overwrites `aggregates_output[3]` with `4 + 8 = 12`. -/
theorem reduce_by_key_aggregate_recurring_key :
    launch_ok 2 2 2 2 2 12 1 3 3 3
    ∧ run_starts (fun a b => a == b) recurring_keys 12 = [0, 3, 4, 7, 8]
    ∧ recurring_values 7 = 8
    ∧ (reduce_by_key_launch 2 2 2 2 2 recurring_keys (fun _ => 0) recurring_values
        (fun _ => 0) 12 (fun a b => a == b) (fun a b => a + b) 1 3 3 3 [0, 1, 2]
        (fun _ => 0) (fun _ => 0) (fun _ => 0) (fun _ => ⟨0, 0, 0, 0⟩)).partial_aggregates 3 = 8
    ∧ (reduce_by_key_launch 2 2 2 2 2 recurring_keys (fun _ => 0) recurring_values
        (fun _ => 0) 12 (fun a b => a == b) (fun a b => a + b) 1 3 3 3 [0, 1, 2]
        (fun _ => 0) (fun _ => 0) (fun _ => 0) (fun _ => ⟨0, 0, 0, 0⟩)).aggregates_output 3 = 12 :=
  ⟨(by constructor <;> decide),
    by decide, by decide, by decide, by decide⟩

end claims_rbk_aggregate

/-! ## Claims on partition -/

section claims_partition

variable {BlockSize ItemsPerThread size number_of_blocks : Nat}

theorem count_valid_flag_ge (flags : Nat → Bool) {N n : Nat} (h : N ≤ n) :
    Nat.count (fun q => valid_flag flags N q = true) n
      = Nat.count (fun q => flags q = true) N := by
  have := count_tile_ge flags N 0 (v := N) (n := n) (by omega) h
  simp only [Nat.zero_add] at this
  rw [this, count_valid_flag_of_le flags (le_refl N)]

/-- The value the last block stores to `selected_count_output[0]`. -/
theorem partition_selected_count_eq
    (h : partition_launch BlockSize ItemsPerThread size number_of_blocks)
    (hn32 : BlockSize * ItemsPerThread < 4294967296) (hN32 : size < 4294967296)
    (flags : Nat → Bool) :
    partition_selected_count BlockSize ItemsPerThread flags size number_of_blocks
      = some (Nat.count (fun i => flags i = true) size) := by
  have h2 := h.blocks_le
  have hbsz := h.blocks_le_size
  have h3 := h.grid_pos
  have hlast : number_of_blocks - 1 < number_of_blocks := by omega
  have hs1 : sub32 number_of_blocks 1 = number_of_blocks - 1 :=
    sub32_of_le (by omega) (by omega)
  unfold partition_selected_count partition_flag_kernel_impl
  dsimp only
  rw [if_pos rfl, hs1, partition_selected_prefix_eq h hn32 hN32 flags hlast,
    partition_selected_in_block_eq h hn32 hN32 flags hlast, ← Nat.count_add, h.last_offset,
    count_valid_flag_ge flags h.blocks_hi]
  have := Nat.count_le (p := fun i => flags i = true) (n := size)
  have := h.blocks_hi
  rw [wrap32_of_lt (by omega)]

/-- C2 (partition stability), amended to inputs whose size fits `unsigned int`. For
every input of `1 ≤ size < 2^32` items in tiles of `items_per_block < 2^32` items (the
range of the `unsigned int` constant), every flags and every order in which the blocks
finish: a selected item `g` that has `k`
selected items before it is stored to `output[k]` (and `output[k]` holds it after the
launch), `k` is below the number of selected items, and of two selected items the
earlier one has the smaller output position. -/
theorem partition_stable {α : Type}
    (h : partition_launch BlockSize ItemsPerThread size number_of_blocks)
    (hn32 : BlockSize * ItemsPerThread < 4294967296) (hN32 : size < 4294967296)
    (input : Nat → α) (flags : Nat → Bool) (uninit shared : Nat → α)
    (schedule : List Nat) (hs : schedule.Perm (List.range number_of_blocks))
    (output0 : Nat → α) :
    (∀ g, g < size → flags g = true →
      (Nat.count (fun q => flags q = true) g, input g)
          ∈ partition_stores BlockSize ItemsPerThread input flags uninit shared size
              number_of_blocks schedule
        ∧ partition_output BlockSize ItemsPerThread input flags uninit shared size
            number_of_blocks schedule output0 (Nat.count (fun q => flags q = true) g)
          = input g
        ∧ Nat.count (fun q => flags q = true) g < Nat.count (fun q => flags q = true) size)
    ∧ ∀ i j, i < j → j < size → flags i = true → flags j = true →
        Nat.count (fun q => flags q = true) i < Nat.count (fun q => flags q = true) j := by
  constructor
  · intro g hg hf
    have hd : partition_destination flags size g = Nat.count (fun q => flags q = true) g := by
      unfold partition_destination
      rw [if_pos hf]
    refine ⟨?_, ?_, Nat.count_strict_mono (p := fun q => flags q = true) hf hg⟩
    · rw [← hd]
      exact (partition_stores_perm h hn32 hN32 input flags uninit shared schedule hs).mem_iff.mpr
        (List.mem_map.mpr ⟨g, List.mem_range.mpr hg, rfl⟩)
    · rw [← hd]
      exact partition_output_at h hn32 hN32 input flags uninit shared schedule hs output0 hg
  · intro i j hij _ hi _
    exact Nat.count_strict_mono (p := fun q => flags q = true) hi hij

/-- C2, witness: the partition scenario of the spec in two blocks of `2 * 2` items. -/
theorem partition_stable_witness :
    partition_launch 2 2 6 2 ∧ 2 * 2 < 4294967296 ∧ 6 < 4294967296
    ∧ [1, 0].Perm (List.range 2)
    ∧ partition_output 2 2 partition_scenario_input partition_scenario_flags (fun _ => 0)
        (fun _ => 0) 6 2 [1, 0] (fun _ => 0)
        (Nat.count (fun q => partition_scenario_flags q = true) 3)
      = partition_scenario_input 3 :=
  ⟨⟨by decide, by decide, by decide, by decide, by decide⟩, by decide, by decide, by decide,
    ((partition_stable ⟨by decide, by decide, by decide, by decide, by decide⟩ (by decide)
      (by decide) partition_scenario_input partition_scenario_flags (fun _ => 0) (fun _ => 0) [1, 0]
      (by decide) (fun _ => 0)).1 3 (by decide) (by decide)).2.1⟩

/-- C2 as stated ("for every input of N ≥ 1 items") fails: with `2^32 + 1` items, all
selected, in tiles of `256 * 4` items, the item at index `2^32` is the selected item
number `2^32`, but no store reaches `output[2^32]` (every `scatter_index` is an
`offset_type` value), which keeps its initial content. -/
theorem partition_stable_fails_beyond_32_bits :
    partition_launch 256 4 4294967297 4194305
    ∧ Nat.count (fun q => (fun _ => true) q = true) 4294967296 = 4294967296
    ∧ partition_output 256 4 (fun i => i + 1) (fun _ => true) (fun _ => 0) (fun _ => 0)
        4294967297 4194305 (List.range 4194305) (fun _ => 0) 4294967296
      ≠ (fun i => i + 1) 4294967296 := by
  refine ⟨⟨by decide, by decide, by decide, by decide, by decide⟩,
    Nat.count_iff_forall.mpr (fun _ _ => rfl), ?_⟩
  unfold partition_output
  rw [apply_writes_of_not_mem _ _ _ (fun w hw => Nat.ne_of_lt
    (partition_store_index_lt _ _ _ _ _ _ _ _ _ w hw))]
  decide

/-- C8 (partition rejected tail), amended to inputs whose size fits `unsigned int`.
For every input of `1 ≤ size < 2^32` items in tiles of `items_per_block < 2^32` items
(the range of the `unsigned int` constant): a
rejected item `g` that has `r` rejected items before it is stored to
`output[size - 1 - r]`, which holds it after the launch, and this index is not below
the number `S` of selected items; so `output[S, size)` is the rejected sequence
reversed. -/
theorem partition_rejected_tail {α : Type}
    (h : partition_launch BlockSize ItemsPerThread size number_of_blocks)
    (hn32 : BlockSize * ItemsPerThread < 4294967296) (hN32 : size < 4294967296)
    (input : Nat → α) (flags : Nat → Bool) (uninit shared : Nat → α)
    (schedule : List Nat) (hs : schedule.Perm (List.range number_of_blocks))
    (output0 : Nat → α) :
    ∀ g, g < size → flags g = false →
      (size - 1 - Nat.count (fun q => flags q = false) g, input g)
          ∈ partition_stores BlockSize ItemsPerThread input flags uninit shared size
              number_of_blocks schedule
        ∧ partition_output BlockSize ItemsPerThread input flags uninit shared size
            number_of_blocks schedule output0
            (size - 1 - Nat.count (fun q => flags q = false) g)
          = input g
        ∧ Nat.count (fun q => flags q = true) size
            ≤ size - 1 - Nat.count (fun q => flags q = false) g := by
  intro g hg hf
  have hd : partition_destination flags size g
      = size - 1 - Nat.count (fun q => flags q = false) g := by
    unfold partition_destination
    rw [if_neg (by simp [hf])]
  refine ⟨?_, ?_, ?_⟩
  · rw [← hd]
    exact (partition_stores_perm h hn32 hN32 input flags uninit shared schedule hs).mem_iff.mpr
      (List.mem_map.mpr ⟨g, List.mem_range.mpr hg, rfl⟩)
  · rw [← hd]
    exact partition_output_at h hn32 hN32 input flags uninit shared schedule hs output0 hg
  · have := Nat.count_strict_mono (p := fun q => flags q = false) hf hg
    have := count_true_add_false flags size
    omega

/-- C8, witness: the partition scenario of the spec, `in = [1,2,3,4,5,6]` and
`flags = [0,1,0,1,0,1]`, in two blocks of `2 * 2` items; the rejected item `3` at index 2
has one rejected item before it and is found at `output[6 - 1 - 1]`. -/
theorem partition_rejected_tail_witness :
    partition_launch 2 2 6 2 ∧ 2 * 2 < 4294967296 ∧ 6 < 4294967296
    ∧ [0, 1].Perm (List.range 2)
    ∧ partition_output 2 2 partition_scenario_input partition_scenario_flags (fun _ => 0)
        (fun _ => 0) 6 2 [0, 1] (fun _ => 0)
        (6 - 1 - Nat.count (fun q => partition_scenario_flags q = false) 2)
      = partition_scenario_input 2 :=
  ⟨⟨by decide, by decide, by decide, by decide, by decide⟩, by decide, by decide, by decide,
    ((partition_rejected_tail ⟨by decide, by decide, by decide, by decide, by decide⟩
      (by decide) (by decide) partition_scenario_input partition_scenario_flags (fun _ => 0)
      (fun _ => 0) [0, 1] (by decide) (fun _ => 0)) 2 (by decide) (by decide)).2.1⟩

/-- C8 as stated ("for every input of N items") fails: with `2^32 + 1` items, all
rejected, the first rejected item (`r = 0`) belongs at `output[N - 1] = output[2^32]`,
but no store reaches that index. -/
theorem partition_rejected_tail_fails_beyond_32_bits :
    partition_launch 256 4 4294967297 4194305
    ∧ Nat.count (fun q => (fun _ => false) q = false) 0 = 0
    ∧ partition_output 256 4 (fun i => i + 1) (fun _ => false) (fun _ => 0) (fun _ => 0)
        4294967297 4194305 (List.range 4194305) (fun _ => 0) (4294967297 - 1 - 0)
      ≠ (fun i => i + 1) 0 := by
  refine ⟨⟨by decide, by decide, by decide, by decide, by decide⟩, rfl, ?_⟩
  unfold partition_output
  rw [apply_writes_of_not_mem _ _ _ (fun w hw => Nat.ne_of_lt
    (partition_store_index_lt _ _ _ _ _ _ _ _ _ w hw))]
  decide

/-- The partition scenario of the spec: `in = [1,2,3,4,5,6]`, `flags = [0,1,0,1,0,1]`
gives `output = [2,4,6,5,3,1]` and the selected count 3. -/
theorem partition_scenario :
    (List.range 6).map (partition_output 2 2 partition_scenario_input
        partition_scenario_flags (fun _ => 0) (fun _ => 0) 6 2 [0, 1] (fun _ => 0))
      = [2, 4, 6, 5, 3, 1]
    ∧ partition_selected_count 2 2 partition_scenario_flags 6 2 = some 3 := by
  decide

/-- C9 (partition selected count), amended to inputs whose size fits `unsigned int`.
For every input of `1 ≤ size < 2^32` items in tiles of `items_per_block < 2^32` items
(the range of the `unsigned int` constant) and every flags iterator (whatever it yields
after the input), the block with the last
ticket stores to `selected_count_output[0]` the number of indices `i < size` with
`flags[i]` true. -/
theorem partition_selected_count_correct
    (h : partition_launch BlockSize ItemsPerThread size number_of_blocks)
    (hn32 : BlockSize * ItemsPerThread < 4294967296) (hN32 : size < 4294967296)
    (flags : Nat → Bool) :
    partition_selected_count BlockSize ItemsPerThread flags size number_of_blocks
      = some (Nat.count (fun i => flags i = true) size) :=
  partition_selected_count_eq h hn32 hN32 flags

/-- C9, witness: six items in two blocks of `2 * 2` items, flags true everywhere after
the input. -/
theorem partition_selected_count_correct_witness :
    partition_launch 2 2 6 2 ∧ 2 * 2 < 4294967296 ∧ 6 < 4294967296
    ∧ partition_selected_count 2 2 (fun i => decide (i % 2 = 1 ∨ 6 ≤ i)) 6 2
      = some (Nat.count (fun i => (fun i => decide (i % 2 = 1 ∨ 6 ≤ i)) i = true) 6) :=
  ⟨⟨by decide, by decide, by decide, by decide, by decide⟩, by decide, by decide,
    partition_selected_count_correct
      ⟨by decide, by decide, by decide, by decide, by decide⟩ (by decide) (by decide) _⟩

/-- C9 as stated ("for every input of N ≥ 1 items") fails: with `2^32 + 1` items, all
selected, the stored count is an `offset_type` value, below `2^32`, and not the number
`2^32 + 1` of true flags. -/
theorem partition_selected_count_fails_beyond_32_bits :
    partition_launch 256 4 4294967297 4194305
    ∧ Nat.count (fun i => (fun _ => true) i = true) 4294967297 = 4294967297
    ∧ partition_selected_count 256 4 (fun _ => true) 4294967297 4194305
      ≠ some 4294967297 := by
  refine ⟨⟨by decide, by decide, by decide, by decide, by decide⟩,
    Nat.count_iff_forall.mpr (fun _ _ => rfl), ?_⟩
  unfold partition_selected_count partition_flag_kernel_impl
  dsimp only
  rw [if_pos rfl]
  intro hc
  have h1 := wrap32_lt ((if sub32 4194305 1 = 0 then 0
      else partition_lookback 256 4 (fun _ => true) 4294967297 4194305 (sub32 4194305 1))
    + partition_selected_in_block 256 4 (fun _ => true) 4294967297 4194305
        (sub32 4194305 1))
  rw [Option.some.injEq] at hc
  omega

/-- C10 (partition conservation), amended to inputs whose size fits `unsigned int`.
For every input of `1 ≤ size < 2^32` items in tiles of `items_per_block < 2^32` items
(the range of the `unsigned int` constant): the
destination map is injective on `[0, size)` with values in `[0, size)`; the indices stored
to are, up to order, `0, …, size - 1`, each once and none at or beyond `size`; the
content of `output[0, size)` after the launch is a permutation of the input; and the
stored selected count plus the number of rejected positions is `size`. -/
theorem partition_conservation {α : Type}
    (h : partition_launch BlockSize ItemsPerThread size number_of_blocks)
    (hn32 : BlockSize * ItemsPerThread < 4294967296) (hN32 : size < 4294967296)
    (input : Nat → α) (flags : Nat → Bool) (uninit shared : Nat → α)
    (schedule : List Nat) (hs : schedule.Perm (List.range number_of_blocks))
    (output0 : Nat → α) :
    (∀ g g', g < size → g' < size →
        partition_destination flags size g = partition_destination flags size g' → g = g')
    ∧ (∀ g, g < size → partition_destination flags size g < size)
    ∧ (partition_stores BlockSize ItemsPerThread input flags uninit shared size
        number_of_blocks schedule).Perm
        ((List.range size).map (fun g => (partition_destination flags size g, input g)))
    ∧ ((partition_stores BlockSize ItemsPerThread input flags uninit shared size
        number_of_blocks schedule).map Prod.fst).Perm (List.range size)
    ∧ ((List.range size).map (partition_output BlockSize ItemsPerThread input flags uninit
        shared size number_of_blocks schedule output0)).Perm ((List.range size).map input)
    ∧ ∃ S, partition_selected_count BlockSize ItemsPerThread flags size number_of_blocks
          = some S
        ∧ S + Nat.count (fun i => flags i = false) size = size := by
  have hperm := partition_stores_perm h hn32 hN32 input flags uninit shared schedule hs
  refine ⟨fun g g' hg hg' hgg => partition_destination_inj flags hg hg' hgg,
    fun g hg => partition_destination_lt flags hg, hperm, ?_, ?_, ?_⟩
  · refine (hperm.map Prod.fst).trans ?_
    rw [List.map_map]
    exact partition_destination_perm flags size
  · have e : (List.range size).map input
        = ((List.range size).map (partition_destination flags size)).map
            (partition_output BlockSize ItemsPerThread input flags uninit shared size
              number_of_blocks schedule output0) := by
      rw [List.map_map]
      apply List.map_congr_left
      intro g hg
      exact (partition_output_at h hn32 hN32 input flags uninit shared schedule hs output0
        (List.mem_range.mp hg)).symm
    rw [e]
    exact ((partition_destination_perm flags size).map _).symm
  · exact ⟨_, partition_selected_count_eq h hn32 hN32 flags, count_true_add_false flags size⟩

/-- C10, witness: the partition scenario of the spec in two blocks of `2 * 2` items. -/
theorem partition_conservation_witness :
    partition_launch 2 2 6 2 ∧ 2 * 2 < 4294967296 ∧ 6 < 4294967296
    ∧ [0, 1].Perm (List.range 2)
    ∧ ((partition_stores 2 2 partition_scenario_input partition_scenario_flags (fun _ => 0)
        (fun _ => 0) 6 2 [0, 1]).map Prod.fst).Perm (List.range 6) :=
  ⟨⟨by decide, by decide, by decide, by decide, by decide⟩, by decide, by decide, by decide,
    (partition_conservation ⟨by decide, by decide, by decide, by decide, by decide⟩
      (by decide) (by decide) partition_scenario_input partition_scenario_flags (fun _ => 0)
      (fun _ => 0) [0, 1] (by decide) (fun _ => 0)).2.2.2.1⟩

/-- C10 as stated ("for every input of N ≥ 1 items … every output index below N is
written exactly once") fails: with `2^32 + 1` items the output index `2^32` is below `N`
and is the index of no store. -/
theorem partition_conservation_fails_beyond_32_bits :
    partition_launch 256 4 4294967297 4194305
    ∧ 4294967296 < 4294967297
    ∧ 4294967296 ∉ (partition_stores 256 4 (fun i => i) (fun i => decide (i % 2 = 0))
        (fun _ => 0) (fun _ => 0) 4294967297 4194305 (List.range 4194305)).map Prod.fst := by
  refine ⟨⟨by decide, by decide, by decide, by decide, by decide⟩, by decide, ?_⟩
  intro hc
  obtain ⟨w, hw, hw1⟩ := List.mem_map.mp hc
  have := partition_store_index_lt _ _ _ _ _ _ _ _ _ w hw
  omega

end claims_partition

/-! ## Claims on the scans -/

section claims_scan

/-- C3 (inclusive scan identity). For every associative `scan_op` (commutative or not),
every `size` (so every `size ≥ 1`) whose rounding sum `size + 1024` fits `size_t` and
every recursion budget above `size`, `inclusive_scan` returns, and there is one content `out` of the
output that it produces whatever the dummy initial value `result_type()` is, with
`out[i] = in[0] ⊕ in[1] ⊕ … ⊕ in[i]` for all `i < size`; sizes above the 1024 items of
a tile take the block-reduce, nested-scan, final-scan path. -/
theorem inclusive_scan_identity {α : Type} (scan_op : α → α → α)
    (hassoc : ∀ a b c, scan_op (scan_op a b) c = scan_op a (scan_op b c))
    (temporary_storage input output uninit : Nat → α) (size fuel : Nat)
    (hfit : size + 1024 ≤ 18446744073709551616) (hfuel : size < fuel) :
    ∃ out : Nat → α,
      (∀ dflt : α,
        inclusive_scan fuel temporary_storage input output dflt size scan_op uninit = some out)
      ∧ ∀ i, i < size → out i = scan_inclusive_reference scan_op input i := by
  refine ⟨fun i => if i < size then scan_inclusive_reference scan_op input i else output i,
    fun dflt => ?_, fun i hi => if_pos hi⟩
  obtain ⟨out, hout, hv⟩ := scan_impl_spec 256 4 scan_op hassoc dflt uninit (by decide)
    (by decide) fuel false temporary_storage input output dflt size hfuel hfit
  unfold inclusive_scan
  rw [hout]
  refine congrArg some (funext fun i => ?_)
  rw [hv i]
  simp

/-- C3, witness: the sum of `2000` items `in[i] = i`, two tiles of `1024` items. -/
theorem inclusive_scan_identity_witness :
    (∀ a b c : Nat, (a + b) + c = a + (b + c))
    ∧ 2000 + 1024 ≤ 18446744073709551616 ∧ 2000 < 2001
    ∧ ∃ out : Nat → Nat,
      (∀ dflt : Nat,
        inclusive_scan 2001 (fun _ => 0) (fun i => i) (fun _ => 0) dflt 2000
          (fun a b => a + b) (fun _ => 0) = some out)
      ∧ ∀ i, i < 2000 → out i = scan_inclusive_reference (fun a b => a + b) (fun i => i) i :=
  ⟨Nat.add_assoc, by decide, by decide,
    inclusive_scan_identity (fun a b => a + b) Nat.add_assoc (fun _ => 0) (fun i => i)
      (fun _ => 0) (fun _ => 0) 2000 2001 (by decide) (by decide)⟩

/-- C4 (exclusive scan identity). For every associative `scan_op`, every initial value
`e`, every `size ≥ 1` whose rounding sum `size + 1024` fits `size_t` and every
recursion budget above `size`, `exclusive_scan` returns a content `out` of the output
with `out[0] = e`, `out[i] = e ⊕ in[0] ⊕ … ⊕ in[i-1]` for all `i < size`, and
`out[i] ⊕ in[i] = out[i+1]` whenever `i + 1 < size`. -/
theorem exclusive_scan_identity {α : Type} (scan_op : α → α → α)
    (hassoc : ∀ a b c, scan_op (scan_op a b) c = scan_op a (scan_op b c))
    (temporary_storage input output uninit : Nat → α) (e dflt : α) (size fuel : Nat)
    (hsize : 1 ≤ size) (hfit : size + 1024 ≤ 18446744073709551616) (hfuel : size < fuel) :
    ∃ out : Nat → α,
      exclusive_scan fuel temporary_storage input output e dflt size scan_op uninit = some out
      ∧ out 0 = e
      ∧ (∀ i, i < size → out i = scan_exclusive_reference scan_op e input i)
      ∧ ∀ i, i + 1 < size → scan_op (out i) (input i) = out (i + 1) := by
  obtain ⟨out, hout, hv⟩ := scan_impl_spec 256 4 scan_op hassoc dflt uninit (by decide)
    (by decide) fuel true temporary_storage input output e size hfuel hfit
  have hval : ∀ i, i < size → out i = scan_exclusive_reference scan_op e input i := by
    intro i hi
    rw [hv i, if_pos hi, if_pos rfl]
  refine ⟨out, hout, ?_, hval, fun i hi => ?_⟩
  · rw [hval 0 hsize]
    rfl
  · rw [hval i (by omega), hval (i + 1) hi]
    rfl

/-- C4, witness: the running minimum from `9` of `2000` items `in[i] = 3000 - i`. -/
theorem exclusive_scan_identity_witness :
    (∀ a b c : Nat, min (min a b) c = min a (min b c))
    ∧ 1 ≤ 2000 ∧ 2000 + 1024 ≤ 18446744073709551616 ∧ 2000 < 2001
    ∧ ∃ out : Nat → Nat,
      exclusive_scan 2001 (fun _ => 0) (fun i => 3000 - i) (fun _ => 0) 9 0 2000
        (fun a b => min a b) (fun _ => 0) = some out
      ∧ out 0 = 9
      ∧ (∀ i, i < 2000 →
          out i = scan_exclusive_reference (fun a b => min a b) 9 (fun i => 3000 - i) i)
      ∧ ∀ i, i + 1 < 2000 → min (out i) (3000 - i) = out (i + 1) :=
  ⟨Nat.min_assoc, by decide, by decide, by decide,
    exclusive_scan_identity (fun a b => min a b) Nat.min_assoc (fun _ => 0)
      (fun i => 3000 - i) (fun _ => 0) (fun _ => 0) 9 0 2000 2001 (by decide) (by decide)
      (by decide)⟩

end claims_scan

section scan_scenarios

/-- The inclusive-sum scenario: `[1,2,3,4,5,6,7,8]` gives `[1,3,6,10,15,21,28,36]`,
and the cell after the output keeps its content. -/
theorem inclusive_sum_scenario :
    (inclusive_scan 9 (fun _ => 99) inclusive_sum_input (fun _ => 77) 66 8
        (fun a b => a + b) (fun _ => 88)).map (fun out => (List.range 9).map out)
      = some [1, 3, 6, 10, 15, 21, 28, 36, 77] := by
  obtain ⟨out, hout, hv⟩ := scan_impl_spec 256 4 (fun a b : Nat => a + b) Nat.add_assoc 66
    (fun _ => 88) (by decide) (by decide) 9 false (fun _ => 99) inclusive_sum_input
    (fun _ => 77) 66 8 (by decide) (by decide)
  unfold inclusive_scan
  rw [hout]
  simp only [Option.map_some', List.range_succ, List.range_zero, List.map_append,
    List.map_cons, List.map_nil, List.nil_append, List.cons_append, hv]
  decide

/-- The exclusive-min scenario with initial value `9`: `[4,7,6,2,5,1,3,8]` gives
`[9,4,4,4,2,2,1,1]`. -/
theorem exclusive_min_scenario :
    (exclusive_scan 9 (fun _ => 99) exclusive_min_input (fun _ => 77) 9 66 8
        (fun a b => min a b) (fun _ => 88)).map (fun out => (List.range 8).map out)
      = some [9, 4, 4, 4, 2, 2, 1, 1] := by
  obtain ⟨out, hout, hv⟩ := scan_impl_spec 256 4 (fun a b : Nat => min a b) Nat.min_assoc 66
    (fun _ => 88) (by decide) (by decide) 9 true (fun _ => 99) exclusive_min_input
    (fun _ => 77) 9 8 (by decide) (by decide)
  unfold exclusive_scan
  rw [hout]
  simp only [Option.map_some', List.range_succ, List.range_zero, List.map_append,
    List.map_cons, List.map_nil, List.nil_append, List.cons_append, hv]
  decide

/-- The recursive path evaluated: eleven one-letter words in tiles of `2 * 1` items
(six tiles, then three, then two, then one) under concatenation, inclusive and
exclusive from the word `[55]`; the cell after the output keeps its content, and a
budget of three calls is not enough. -/
theorem scan_impl_recursive_scenario :
    (scan_impl 4 2 1 false (fun _ => [99]) word_input (fun _ => [77]) [55] [66] 11
        word_append (fun _ => [88])).map (fun out => (List.range 12).map out)
      = some [[0], [0, 1], [0, 1, 2], [0, 1, 2, 3], [0, 1, 2, 3, 4], [0, 1, 2, 3, 4, 5],
          [0, 1, 2, 3, 4, 5, 6], [0, 1, 2, 3, 4, 5, 6, 7], [0, 1, 2, 3, 4, 5, 6, 7, 8],
          [0, 1, 2, 3, 4, 5, 6, 7, 8, 9], [0, 1, 2, 3, 4, 5, 6, 7, 8, 9, 10], [77]]
    ∧ (scan_impl 4 2 1 true (fun _ => [99]) word_input (fun _ => [77]) [55] [66] 11
        word_append (fun _ => [88])).map (fun out => (List.range 12).map out)
      = some [[55], [55, 0], [55, 0, 1], [55, 0, 1, 2], [55, 0, 1, 2, 3],
          [55, 0, 1, 2, 3, 4], [55, 0, 1, 2, 3, 4, 5], [55, 0, 1, 2, 3, 4, 5, 6],
          [55, 0, 1, 2, 3, 4, 5, 6, 7], [55, 0, 1, 2, 3, 4, 5, 6, 7, 8],
          [55, 0, 1, 2, 3, 4, 5, 6, 7, 8, 9], [77]]
    ∧ (scan_impl 3 2 1 false (fun _ => [99]) word_input (fun _ => [77]) [55] [66] 11
        word_append (fun _ => [88])).isSome = false := by
  decide

end scan_scenarios

/-! ## Radix sort: one digit pass over the segments -/

section radix_pass_memory

/-- Reading back the stores of a launch that writes, for every segment `t`, the list
`sorted t` to the positions `begin_offsets[t], begin_offsets[t] + 1, …`: position `j` of
segment `s` receives item `j` of `sorted s` (its component `proj`), the segments being
pairwise disjoint. -/
theorem apply_writes_segment_stores {β γ : Type} (proj : β → γ) (segments : Nat)
    (begin_offsets end_offsets : Nat → Nat) (sorted : Nat → List β)
    (hlen : ∀ t, t < segments → (sorted t).length = end_offsets t - begin_offsets t)
    (hdis : segments_disjoint segments begin_offsets end_offsets) (mem : Nat → γ)
    (s j : Nat) (hs : s < segments) (x : β) (hx : (sorted s)[j]? = some x) :
    apply_writes mem
        (((List.range segments).flatMap
          (fun t => (sorted t).enum.map (fun p => (begin_offsets t + p.1, p.2)))).map
          (fun w => (w.1, proj w.2)))
        (begin_offsets s + j) = proj x := by
  have hbound : ∀ t r (y : β), t < segments → (sorted t)[r]? = some y →
      r < end_offsets t - begin_offsets t := by
    intro t r y ht hy
    obtain ⟨h, _⟩ := List.getElem?_eq_some.mp hy
    rw [hlen t ht] at h
    exact h
  apply apply_writes_of_unique
  · refine ⟨(begin_offsets s + j, proj x), List.mem_map.mpr ⟨(begin_offsets s + j, x), ?_, rfl⟩,
      rfl⟩
    rw [List.mem_flatMap]
    exact ⟨s, List.mem_range.mpr hs,
      List.mem_map.mpr ⟨(j, x), List.mk_mem_enum_iff_getElem?.mpr hx, rfl⟩⟩
  · intro w hw hwj
    obtain ⟨w', hw', rfl⟩ := List.mem_map.mp hw
    rw [List.mem_flatMap] at hw'
    obtain ⟨t, ht, hmem⟩ := hw'
    obtain ⟨p, hq, rfl⟩ := List.mem_map.mp hmem
    have ht' : t < segments := List.mem_range.mp ht
    have hy : (sorted t)[p.1]? = some p.2 := List.mem_enum_iff_getElem?.mp hq
    have hr := hbound t p.1 p.2 ht' hy
    have hj := hbound s j x hs hx
    have hidx : begin_offsets t + p.1 = begin_offsets s + j := hwj
    have hts : t = s := by
      by_contra hne
      rcases hdis t ht' s hs hne with h | h <;> omega
    subst hts
    have hpj : p.1 = j := by omega
    rw [hpj, hx] at hy
    show proj p.2 = proj x
    rw [Option.some.inj hy]

/-- The items of a segment, by position. -/
theorem getElem?_segment_items {K V : Type} (keys : Nat → K) (values : Nat → V)
    (begin_offset end_offset j : Nat) (hj : j < end_offset - begin_offset) :
    (segment_items keys values begin_offset end_offset)[j]?
      = some (keys (begin_offset + j), values (begin_offset + j)) := by
  unfold segment_items
  rw [List.getElem?_map, List.getElem?_range hj]
  rfl

/-- The number of items of a segment. -/
theorem length_segment_items {K V : Type} (keys : Nat → K) (values : Nat → V)
    (begin_offset end_offset : Nat) :
    (segment_items keys values begin_offset end_offset).length
      = end_offset - begin_offset := by
  unfold segment_items
  rw [List.length_map, List.length_range]

/-- The grid of a digit pass has one block per segment when the `unsigned int` thread
count does not wrap. -/
theorem segmented_sort_blocks (segments : Nat) (h : segments * 256 < 4294967296) :
    wrap32 (segments * 256) / 256 = segments := by
  unfold wrap32
  omega

/-- One digit pass: after the launch every segment of the destination arrays holds the
items that the segment of the source arrays held at the launch, ordered by the digit
pass. -/
theorem segmented_sort_launch_segment {K V : Type} (Descending : Bool) (encode : K → Nat)
    (mem : radix_memory K V)
    (keys_input keys_output values_input values_output segments : Nat)
    (begin_offsets end_offsets : Nat → Nat) (bit current_radix_bits : Nat)
    (hseg : segments * 256 < 4294967296)
    (hdis : segments_disjoint segments begin_offsets end_offsets)
    (s : Nat) (hs : s < segments) :
    segment_items
        ((segmented_sort_launch Descending encode 256 mem keys_input keys_output
          values_input values_output segments begin_offsets end_offsets bit
          current_radix_bits).keys keys_output)
        ((segmented_sort_launch Descending encode 256 mem keys_input keys_output
          values_input values_output segments begin_offsets end_offsets bit
          current_radix_bits).values values_output)
        (begin_offsets s) (end_offsets s)
      = radix_sort_by_digit (2 ^ current_radix_bits)
          (fun kv => radix_digit Descending bit current_radix_bits (encode kv.1))
          (segment_items (mem.keys keys_input) (mem.values values_input)
            (begin_offsets s) (end_offsets s)) := by
  have hlen : ∀ t, t < segments →
      (radix_sort_by_digit (2 ^ current_radix_bits)
        (fun kv : K × V => radix_digit Descending bit current_radix_bits (encode kv.1))
        (segment_items (mem.keys keys_input) (mem.values values_input)
          (begin_offsets t) (end_offsets t))).length
        = end_offsets t - begin_offsets t := by
    intro t _
    rw [(radix_sort_by_digit_perm _ _ _ (fun x _ => radix_digit_lt _ _ _ _)).length_eq,
      length_segment_items]
  refine List.ext_getElem? (fun j => ?_)
  by_cases hj : j < end_offsets s - begin_offsets s
  · have hjl : j < (radix_sort_by_digit (2 ^ current_radix_bits)
        (fun kv : K × V => radix_digit Descending bit current_radix_bits (encode kv.1))
        (segment_items (mem.keys keys_input) (mem.values values_input)
          (begin_offsets s) (end_offsets s))).length := by
      rw [hlen s hs]
      exact hj
    rw [getElem?_segment_items _ _ _ _ _ hj, List.getElem?_eq_getElem hjl]
    have hx := List.getElem?_eq_getElem hjl
    unfold segmented_sort_launch
    simp only [Function.update_same, segmented_sort_blocks segments hseg]
    have hk := apply_writes_segment_stores (fun kv : K × V => kv.1) segments begin_offsets
      end_offsets _ hlen hdis (mem.keys keys_output) s j hs _ hx
    have hv := apply_writes_segment_stores (fun kv : K × V => kv.2) segments begin_offsets
      end_offsets _ hlen hdis (mem.values values_output) s j hs _ hx
    exact congrArg some (Prod.ext hk hv)
  · have h1 : (segment_items
        ((segmented_sort_launch Descending encode 256 mem keys_input keys_output
          values_input values_output segments begin_offsets end_offsets bit
          current_radix_bits).keys keys_output)
        ((segmented_sort_launch Descending encode 256 mem keys_input keys_output
          values_input values_output segments begin_offsets end_offsets bit
          current_radix_bits).values values_output)
        (begin_offsets s) (end_offsets s))[j]? = none := by
      rw [List.getElem?_eq_none]
      rw [length_segment_items]
      omega
    rw [h1]
    symm
    rw [List.getElem?_eq_none]
    rw [hlen s hs]
    omega

end radix_pass_memory

/-! ## Radix sort: the loop of `segmented_radix_sort_impl` -/

section radix_loop

/-- The pointers and the digit of the launch of one loop iteration: it reads the input
in the first iteration and `keys_tmp` or `keys_output` later, and it writes
`keys_output` when `to_output` is set and `keys_tmp` otherwise. -/
theorem radix_loop_pass_fields (keys_input keys_tmp keys_output values_input values_tmp
    values_output begin_bit bit current_radix_bits : Nat) (to_output : Bool) :
    (radix_loop_pass keys_input keys_tmp keys_output values_input values_tmp values_output
        begin_bit bit current_radix_bits to_output).keys_input
      = (if bit = begin_bit then keys_input
          else if to_output = true then keys_tmp else keys_output)
    ∧ (radix_loop_pass keys_input keys_tmp keys_output values_input values_tmp values_output
        begin_bit bit current_radix_bits to_output).values_input
      = (if bit = begin_bit then values_input
          else if to_output = true then values_tmp else values_output)
    ∧ (radix_loop_pass keys_input keys_tmp keys_output values_input values_tmp values_output
        begin_bit bit current_radix_bits to_output).keys_output
      = (if to_output = true then keys_output else keys_tmp)
    ∧ (radix_loop_pass keys_input keys_tmp keys_output values_input values_tmp values_output
        begin_bit bit current_radix_bits to_output).values_output
      = (if to_output = true then values_output else values_tmp)
    ∧ (radix_loop_pass keys_input keys_tmp keys_output values_input values_tmp values_output
        begin_bit bit current_radix_bits to_output).bit = bit
    ∧ (radix_loop_pass keys_input keys_tmp keys_output values_input values_tmp values_output
        begin_bit bit current_radix_bits to_output).current_radix_bits
      = current_radix_bits := by
  unfold radix_loop_pass
  by_cases h : bit = begin_bit <;> cases to_output <;> simp [h]

/-- The parity of the number of iterations that are left flips with every iteration. -/
theorem radix_parity_step (b : Bool) (m : Nat) :
    xor (!b) (decide (m % 2 = 1)) = xor b (decide ((m + 1) % 2 = 1)) := by
  rcases Nat.mod_two_eq_zero_or_one m with h | h
  · have h' : (m + 1) % 2 = 1 := by omega
    rw [h, h']
    cases b <;> rfl
  · have h' : (m + 1) % 2 = 0 := by omega
    rw [h, h']
    cases b <;> rfl

/-- The loop of `segmented_radix_sort_impl` from the counter value `bit`: given enough
fuel it returns; `to_output` has flipped once per iteration; and if the arrays that the
next iteration reads hold, in every segment, the items `keys0`, `values0` of the segment
ordered by the digit of the bits `[begin_bit, bit)`, then the arrays selected by the
final `to_output` hold them ordered by the digit of the bits `[begin_bit, end_bit)`. -/
theorem segmented_radix_sort_loop_spec {K V : Type} (Descending : Bool) (encode : K → Nat)
    (keys_input keys_tmp keys_output values_input values_tmp values_output segments : Nat)
    (begin_offsets end_offsets : Nat → Nat) (begin_bit end_bit : Nat)
    (keys0 : Nat → K) (values0 : Nat → V)
    (hseg : segments * 256 < 4294967296)
    (hdis : segments_disjoint segments begin_offsets end_offsets)
    (hend : end_bit + 8 ≤ 4294967296) :
    ∀ (fuel bit : Nat) (st : radix_sort_state K V),
      begin_bit ≤ bit → end_bit ≤ bit + 8 * fuel →
      (bit ≠ begin_bit → st.is_result_in_output = !st.to_output) →
      (∀ s, s < segments →
        segment_items
            (st.memory.keys (if bit = begin_bit then keys_input
              else if st.to_output = true then keys_tmp else keys_output))
            (st.memory.values (if bit = begin_bit then values_input
              else if st.to_output = true then values_tmp else values_output))
            (begin_offsets s) (end_offsets s)
          = radix_sort_by_digit (2 ^ (min bit end_bit - begin_bit))
              (fun kv => radix_digit Descending begin_bit (min bit end_bit - begin_bit)
                (encode kv.1))
              (segment_items keys0 values0 (begin_offsets s) (end_offsets s))) →
      ∃ st', segmented_radix_sort_loop Descending encode keys_input keys_tmp keys_output
            values_input values_tmp values_output segments begin_offsets end_offsets
            begin_bit end_bit fuel bit st = some st'
        ∧ st'.to_output = xor st.to_output (decide ((end_bit - bit + 7) / 8 % 2 = 1))
        ∧ ((bit ≠ begin_bit ∨ bit < end_bit) →
            st'.is_result_in_output = !st'.to_output)
        ∧ ((bit ≠ begin_bit ∨ bit < end_bit) → ∀ s, s < segments →
            segment_items
                (st'.memory.keys (if st'.to_output = true then keys_tmp else keys_output))
                (st'.memory.values
                  (if st'.to_output = true then values_tmp else values_output))
                (begin_offsets s) (end_offsets s)
              = radix_sort_by_digit (2 ^ (end_bit - begin_bit))
                  (fun kv => radix_digit Descending begin_bit (end_bit - begin_bit)
                    (encode kv.1))
                  (segment_items keys0 values0 (begin_offsets s) (end_offsets s))) := by
  intro fuel
  induction fuel with
  | zero =>
    intro bit st hb hfuel hflag hinv
    have hge : ¬ bit < end_bit := by omega
    rw [segmented_radix_sort_loop, if_neg hge]
    refine ⟨st, rfl, ?_, ?_, ?_⟩
    · have h0 : (end_bit - bit + 7) / 8 % 2 = 0 := by omega
      rw [h0]
      cases st.to_output <;> rfl
    · intro h
      exact hflag (by omega)
    · intro h s hs
      have hne : bit ≠ begin_bit := by omega
      have := hinv s hs
      rw [if_neg hne, if_neg hne, Nat.min_eq_right (by omega)] at this
      exact this
  | succ fuel ih =>
    intro bit st hb hfuel hflag hinv
    by_cases hlt : bit < end_bit
    · rw [segmented_radix_sort_loop, if_pos hlt]
      simp only []
      have hsub : sub32 end_bit bit = end_bit - bit :=
        sub32_of_le (Nat.le_of_lt hlt) (by omega)
      have hwrap : wrap32 (bit + 8) = bit + 8 := wrap32_of_lt (by omega)
      rw [hsub, hwrap]
      obtain ⟨f1, f2, f3, f4, f5, f6⟩ := radix_loop_pass_fields keys_input keys_tmp
        keys_output values_input values_tmp values_output begin_bit bit
        (min 8 (end_bit - bit)) st.to_output
      rw [f1, f2, f3, f4, f5, f6]
      have hne : bit + 8 ≠ begin_bit := by omega
      have hw : min (bit + 8) end_bit - begin_bit
          = (bit - begin_bit) + min 8 (end_bit - bit) := by omega
      have hbit : begin_bit + (bit - begin_bit) = bit := by omega
      obtain ⟨st', hrun, hpar, hres, hsorted⟩ := ih (bit + 8)
        { memory := segmented_sort_launch Descending encode 256 st.memory
            (if bit = begin_bit then keys_input
              else if st.to_output = true then keys_tmp else keys_output)
            (if st.to_output = true then keys_output else keys_tmp)
            (if bit = begin_bit then values_input
              else if st.to_output = true then values_tmp else values_output)
            (if st.to_output = true then values_output else values_tmp)
            segments begin_offsets end_offsets bit (min 8 (end_bit - bit))
          to_output := !st.to_output
          is_result_in_output := st.to_output
          passes := st.passes ++ [radix_loop_pass keys_input keys_tmp keys_output
            values_input values_tmp values_output begin_bit bit (min 8 (end_bit - bit))
            st.to_output] }
        (by omega) (by omega)
        (fun _ => by
          show st.to_output = !(!st.to_output)
          rw [Bool.not_not])
        (fun s hs => by
          have hdst_k : (if bit + 8 = begin_bit then keys_input
              else if (!st.to_output) = true then keys_tmp else keys_output)
              = (if st.to_output = true then keys_output else keys_tmp) := by
            rw [if_neg hne]
            cases st.to_output <;> rfl
          have hdst_v : (if bit + 8 = begin_bit then values_input
              else if (!st.to_output) = true then values_tmp else values_output)
              = (if st.to_output = true then values_output else values_tmp) := by
            rw [if_neg hne]
            cases st.to_output <;> rfl
          show segment_items
              ((segmented_sort_launch Descending encode 256 st.memory _ _ _ _ segments
                begin_offsets end_offsets bit (min 8 (end_bit - bit))).keys
                (if bit + 8 = begin_bit then keys_input
                  else if (!st.to_output) = true then keys_tmp else keys_output))
              ((segmented_sort_launch Descending encode 256 st.memory _ _ _ _ segments
                begin_offsets end_offsets bit (min 8 (end_bit - bit))).values
                (if bit + 8 = begin_bit then values_input
                  else if (!st.to_output) = true then values_tmp else values_output))
              (begin_offsets s) (end_offsets s) = _
          rw [hdst_k, hdst_v,
            segmented_sort_launch_segment Descending encode st.memory _ _ _ _ segments
              begin_offsets end_offsets bit (min 8 (end_bit - bit)) hseg hdis s hs,
            hinv s hs, Nat.min_eq_left (Nat.le_of_lt hlt),
            radix_sort_by_digit_compose _ _ _ _ _ (fun x _ => radix_digit_lt _ _ _ _),
            hw, ← Nat.pow_add, Nat.add_comm (min 8 (end_bit - bit)) (bit - begin_bit)]
          congr 1
          funext kv
          have hc := radix_digit_compose Descending begin_bit (bit - begin_bit)
            (min 8 (end_bit - bit)) (encode kv.1)
          rw [hbit] at hc
          exact hc)
      refine ⟨st', hrun, ?_, fun _ => hres (Or.inl hne), fun _ => hsorted (Or.inl hne)⟩
      rw [hpar]
      have hn : (end_bit - bit + 7) / 8 = (end_bit - (bit + 8) + 7) / 8 + 1 := by omega
      rw [hn]
      exact radix_parity_step st.to_output _
    · rw [segmented_radix_sort_loop, if_neg hlt]
      refine ⟨st, rfl, ?_, ?_, ?_⟩
      · have h0 : (end_bit - bit + 7) / 8 % 2 = 0 := by omega
        rw [h0]
        cases st.to_output <;> rfl
      · intro h
        exact hflag (by omega)
      · intro h s hs
        have hne : bit ≠ begin_bit := by omega
        have := hinv s hs
        rw [if_neg hne, if_neg hne, Nat.min_eq_right (by omega)] at this
        exact this

end radix_loop

/-! ## Claims on the segmented radix sort -/

section radix_impl

/-- The number of iterations `segmented_radix_sort_impl` computes for a bit range. -/
theorem radix_iterations (begin_bit end_bit : Nat) (hbits : begin_bit < end_bit)
    (hend : end_bit + 8 ≤ 4294967296) :
    ceiling_div (sub32 end_bit begin_bit) 8 = (end_bit - begin_bit + 7) / 8 := by
  rw [sub32_of_le (Nat.le_of_lt hbits) (by omega)]
  unfold ceiling_div sub32 wrap32
  omega

/-- The work call of `segmented_radix_sort_impl` returns for every bit range
`begin_bit < end_bit` (given enough fuel for its passes), fewer than `2^24` pairwise
disjoint segments: in the pointer-pair mode (`keys_tmp = nullptr`) the flag
`is_result_in_output` is set, and in both modes the arrays that the flag designates
(`keys_output`, or else `keys_tmp`) hold in every segment the input items of the
segment ordered by the digit of the bits `[begin_bit, end_bit)`. -/
theorem segmented_radix_sort_impl_spec {K V : Type} (Descending with_values : Bool)
    (encode : K → Nat)
    (mem : radix_memory K V) (temporary_storage keys_input keys_tmp keys_output
      values_input values_tmp values_output size : Nat) (flag : Bool)
    (segments : Nat) (begin_offsets end_offsets : Nat → Nat) (begin_bit end_bit fuel : Nat)
    (hbits : begin_bit < end_bit) (hend : end_bit + 8 ≤ 4294967296)
    (hseg : segments * 256 < 4294967296)
    (hdis : segments_disjoint segments begin_offsets end_offsets)
    (hfuel : end_bit ≤ begin_bit + 8 * fuel) :
    ∃ st, segmented_radix_sort_impl fuel Descending with_values encode mem
          temporary_storage keys_input keys_tmp keys_output values_input values_tmp values_output size flag segments
          begin_offsets end_offsets begin_bit end_bit = some st
      ∧ (keys_tmp = 0 → st.is_result_in_output = true)
      ∧ ∀ s, s < segments →
          segment_items
              (st.memory.keys (if st.is_result_in_output = true then keys_output
                else if keys_tmp = 0 then temporary_storage else keys_tmp))
              (st.memory.values (if st.is_result_in_output = true then values_output
                else if keys_tmp = 0 then (if with_values = true then temporary_storage else 0)
                else values_tmp))
              (begin_offsets s) (end_offsets s)
            = radix_sort_by_digit (2 ^ (end_bit - begin_bit))
                (fun kv => radix_digit Descending begin_bit (end_bit - begin_bit)
                  (encode kv.1))
                (segment_items (mem.keys keys_input) (mem.values values_input)
                  (begin_offsets s) (end_offsets s)) := by
  unfold segmented_radix_sort_impl
  simp only [radix_iterations begin_bit end_bit hbits hend]
  obtain ⟨st, hrun, hpar, hres, hsorted⟩ := segmented_radix_sort_loop_spec Descending encode
    keys_input (if decide (keys_tmp ≠ 0) = true then keys_tmp else temporary_storage)
    keys_output values_input
    (if decide (keys_tmp ≠ 0) = true then values_tmp
      else if with_values = true then temporary_storage else 0) values_output
    segments begin_offsets end_offsets begin_bit end_bit (mem.keys keys_input)
    (mem.values values_input) hseg hdis hend fuel begin_bit
    { memory := mem
      to_output := decide (keys_tmp ≠ 0)
        || decide (sub32 ((end_bit - begin_bit + 7) / 8) 1 % 2 = 0)
      is_result_in_output := flag
      passes := [] }
    (le_refl _) hfuel (fun h => absurd rfl h)
    (fun s _ => by
      simp only [if_true, Nat.min_eq_left (Nat.le_of_lt hbits), Nat.sub_self]
      exact (radix_sort_by_digit_one _ _ (fun x _ => radix_digit_zero _ _ _)).symm)
  have hflag := hres (Or.inr hbits)
  have hs := hsorted (Or.inr hbits)
  refine ⟨st, hrun, ?_, fun s hs' => ?_⟩
  · intro h0
    rw [hflag, hpar]
    have hn : 1 ≤ (end_bit - begin_bit + 7) / 8 := by omega
    have hlt : (end_bit - begin_bit + 7) / 8 < 4294967296 := by omega
    rw [sub32_of_le hn hlt]
    rcases Nat.mod_two_eq_zero_or_one ((end_bit - begin_bit + 7) / 8) with h | h
    · have h' : ((end_bit - begin_bit + 7) / 8 - 1) % 2 = 1 := by omega
      simp [h0, h, h']
    · have h' : ((end_bit - begin_bit + 7) / 8 - 1) % 2 = 0 := by omega
      simp [h0, h, h']
  · have := hs s hs'
    rw [hflag]
    by_cases h0 : keys_tmp = 0
    · have hd : decide (keys_tmp ≠ 0) = false := by simp [h0]
      rw [hd] at this
      cases hto : st.to_output <;> rw [hto] at this <;> simpa [h0] using this
    · have hd : decide (keys_tmp ≠ 0) = true := by simp [h0]
      rw [hd] at this
      cases hto : st.to_output <;> rw [hto] at this <;> simpa [h0] using this

end radix_impl

section claims_radix

/-- C5 (segmented radix sort result), in the range of the launch arithmetic. For every
bit range `begin_bit < end_bit` (with `end_bit + 8 ≤ 2^32`, which every bit range of a
key type satisfies), every set of fewer than `2^24` pairwise disjoint segments
(`segments * 256 < 2^32`, the grid extent being an `unsigned int` product) and enough
fuel for the digit passes, the four work calls return: the pointer-pair overloads of
`segmented_radix_sort_pairs` and `segmented_radix_sort_pairs_desc` leave in
`keys_output`, `values_output`, and the `double_buffer` overloads leave in
`keys.current()`, `values.current()` as they are after the call, in every segment, a
permutation of the `(key, value)` pairs the input holds in that segment, ordered
ascending (descending for `_desc`) by the key bits `[begin_bit, end_bit)`, the pairs
with equal key bits in their input order. -/
theorem segmented_radix_sort_result {K V : Type} (encode : K → Nat)
    (mem : radix_memory K V) (temporary_storage keys_input keys_output values_input
      values_output size : Nat) (keys values : double_buffer) (ignored uninit : Bool)
    (segments : Nat) (begin_offsets end_offsets : Nat → Nat) (begin_bit end_bit fuel : Nat)
    (hbits : begin_bit < end_bit) (hend : end_bit + 8 ≤ 4294967296)
    (hseg : segments * 256 < 4294967296)
    (hdis : segments_disjoint segments begin_offsets end_offsets)
    (hfuel : end_bit ≤ begin_bit + 8 * fuel) (hcur : keys.current ≠ 0) :
    (∃ m, segmented_radix_sort_pairs fuel encode mem temporary_storage keys_input
        keys_output values_input values_output size ignored segments begin_offsets
        end_offsets begin_bit end_bit = some m
      ∧ segments_sorted false encode begin_bit end_bit (mem.keys keys_input)
          (mem.values values_input) (m.keys keys_output) (m.values values_output)
          segments begin_offsets end_offsets)
    ∧ (∃ m, segmented_radix_sort_pairs_desc fuel encode mem temporary_storage keys_input
        keys_output values_input values_output size ignored segments begin_offsets
        end_offsets begin_bit end_bit = some m
      ∧ segments_sorted true encode begin_bit end_bit (mem.keys keys_input)
          (mem.values values_input) (m.keys keys_output) (m.values values_output)
          segments begin_offsets end_offsets)
    ∧ (∃ r, segmented_radix_sort_pairs_double_buffer fuel encode mem temporary_storage
        keys values size uninit segments begin_offsets end_offsets begin_bit end_bit
          = some r
      ∧ segments_sorted false encode begin_bit end_bit (mem.keys keys.current)
          (mem.values values.current) (r.memory.keys r.keys.current)
          (r.memory.values r.values.current) segments begin_offsets end_offsets)
    ∧ (∃ r, segmented_radix_sort_pairs_desc_double_buffer fuel encode mem
        temporary_storage keys values size uninit segments begin_offsets end_offsets
        begin_bit end_bit = some r
      ∧ segments_sorted true encode begin_bit end_bit (mem.keys keys.current)
          (mem.values values.current) (r.memory.keys r.keys.current)
          (r.memory.values r.values.current) segments begin_offsets end_offsets) := by
  have hptr : ∀ Descending : Bool, ∃ st,
      segmented_radix_sort_impl fuel Descending true encode mem temporary_storage keys_input 0
        keys_output values_input 0 values_output size ignored segments begin_offsets
        end_offsets begin_bit end_bit = some st
      ∧ segments_sorted Descending encode begin_bit end_bit (mem.keys keys_input)
          (mem.values values_input) (st.memory.keys keys_output)
          (st.memory.values values_output) segments begin_offsets end_offsets := by
    intro Descending
    obtain ⟨st, hrun, hflag, hsorted⟩ := segmented_radix_sort_impl_spec Descending true
      encode
      mem temporary_storage keys_input 0 keys_output values_input 0 values_output size
      ignored segments begin_offsets end_offsets begin_bit end_bit fuel hbits hend hseg
      hdis hfuel
    refine ⟨st, hrun, fun s hs => ?_⟩
    have h := hsorted s hs
    rw [hflag rfl, if_pos rfl, if_pos rfl] at h
    rw [h]
    exact radix_sort_by_digit_stable Descending encode begin_bit end_bit _
  have hdb : ∀ Descending : Bool, ∃ st,
      segmented_radix_sort_impl fuel Descending true encode mem temporary_storage keys.current
        keys.current keys.alternate values.current values.current values.alternate size
        uninit segments begin_offsets end_offsets begin_bit end_bit = some st
      ∧ segments_sorted Descending encode begin_bit end_bit (mem.keys keys.current)
          (mem.values values.current)
          (st.memory.keys
            (if st.is_result_in_output = true then keys.swap else keys).current)
          (st.memory.values
            (if st.is_result_in_output = true then values.swap else values).current)
          segments begin_offsets end_offsets := by
    intro Descending
    obtain ⟨st, hrun, _, hsorted⟩ := segmented_radix_sort_impl_spec Descending true
      encode
      mem temporary_storage keys.current keys.current keys.alternate values.current
      values.current values.alternate size uninit segments begin_offsets end_offsets
      begin_bit end_bit fuel hbits hend hseg hdis hfuel
    refine ⟨st, hrun, fun s hs => ?_⟩
    have h := hsorted s hs
    rw [if_neg hcur, if_neg hcur] at h
    have hk : (if st.is_result_in_output = true then keys.swap else keys).current
        = (if st.is_result_in_output = true then keys.alternate else keys.current) := by
      cases st.is_result_in_output <;> rfl
    have hv : (if st.is_result_in_output = true then values.swap else values).current
        = (if st.is_result_in_output = true then values.alternate else values.current) := by
      cases st.is_result_in_output <;> rfl
    rw [hk, hv, h]
    exact radix_sort_by_digit_stable Descending encode begin_bit end_bit _
  refine ⟨?_, ?_, ?_, ?_⟩
  · obtain ⟨st, hrun, hs⟩ := hptr false
    exact ⟨st.memory, by unfold segmented_radix_sort_pairs; rw [hrun]; rfl, hs⟩
  · obtain ⟨st, hrun, hs⟩ := hptr true
    exact ⟨st.memory, by unfold segmented_radix_sort_pairs_desc; rw [hrun]; rfl, hs⟩
  · obtain ⟨st, hrun, hs⟩ := hdb false
    refine ⟨_, by unfold segmented_radix_sort_pairs_double_buffer; rw [hrun]; rfl, ?_⟩
    cases hflag : st.is_result_in_output <;> rw [hflag] at hs <;> simpa [hflag] using hs
  · obtain ⟨st, hrun, hs⟩ := hdb true
    refine ⟨_, by unfold segmented_radix_sort_pairs_desc_double_buffer; rw [hrun]; rfl, ?_⟩
    cases hflag : st.is_result_in_output <;> rw [hflag] at hs <;> simpa [hflag] using hs

/-- C5, witness: the documented example, keys `[6,3,5,4,1,8,1,7]` with values
`[-5,2,-4,3,-1,-8,-2,7]`, offsets `[0,2,3,8]`, bits `0..5`, input arrays at pointer `1`,
output (or alternate) arrays at pointer `2`, scratch at pointer `3`. -/
theorem segmented_radix_sort_result_witness :
    0 < 5 ∧ 5 + 8 ≤ 4294967296 ∧ 3 * 256 < 4294967296
    ∧ segments_disjoint 3 sort_example_offsets (fun s => sort_example_offsets (s + 1))
    ∧ 5 ≤ 0 + 8 * 1 ∧ (double_buffer.mk 1 2).current ≠ 0
    ∧ (∃ m, segmented_radix_sort_pairs 1 id sort_example_memory 3 1 2 1 2 8 false 3
        sort_example_offsets (fun s => sort_example_offsets (s + 1)) 0 5 = some m
      ∧ segments_sorted false id 0 5 (sort_example_memory.keys 1)
          (sort_example_memory.values 1) (m.keys 2) (m.values 2) 3 sort_example_offsets
          (fun s => sort_example_offsets (s + 1)))
    ∧ (∃ m, segmented_radix_sort_pairs_desc 1 id sort_example_memory 3 1 2 1 2 8 false 3
        sort_example_offsets (fun s => sort_example_offsets (s + 1)) 0 5 = some m
      ∧ segments_sorted true id 0 5 (sort_example_memory.keys 1)
          (sort_example_memory.values 1) (m.keys 2) (m.values 2) 3 sort_example_offsets
          (fun s => sort_example_offsets (s + 1)))
    ∧ (∃ r, segmented_radix_sort_pairs_double_buffer 1 id sort_example_memory 3
        (double_buffer.mk 1 2) (double_buffer.mk 1 2) 8 false 3 sort_example_offsets
        (fun s => sort_example_offsets (s + 1)) 0 5 = some r
      ∧ segments_sorted false id 0 5
          (sort_example_memory.keys (double_buffer.mk 1 2).current)
          (sort_example_memory.values (double_buffer.mk 1 2).current)
          (r.memory.keys r.keys.current) (r.memory.values r.values.current) 3
          sort_example_offsets (fun s => sort_example_offsets (s + 1)))
    ∧ (∃ r, segmented_radix_sort_pairs_desc_double_buffer 1 id sort_example_memory 3
        (double_buffer.mk 1 2) (double_buffer.mk 1 2) 8 false 3 sort_example_offsets
        (fun s => sort_example_offsets (s + 1)) 0 5 = some r
      ∧ segments_sorted true id 0 5
          (sort_example_memory.keys (double_buffer.mk 1 2).current)
          (sort_example_memory.values (double_buffer.mk 1 2).current)
          (r.memory.keys r.keys.current) (r.memory.values r.values.current) 3
          sort_example_offsets (fun s => sort_example_offsets (s + 1))) :=
  ⟨by decide, by decide, by decide, by unfold segments_disjoint; decide, by decide,
    by decide,
    segmented_radix_sort_result id sort_example_memory 3 1 2 1 2 8 (double_buffer.mk 1 2)
      (double_buffer.mk 1 2) false false 3 sort_example_offsets
      (fun s => sort_example_offsets (s + 1)) 0 5 1 (by decide) (by decide) (by decide)
      (by unfold segments_disjoint; decide) (by decide) (by decide)⟩

/-- C5 fails on the code beyond `2^24` segments. With `2^24 + 1` segments of two keys
(`[2s, 2s + 2)`, input keys `1, 0` in every segment, bits `0..1`, pointer-pair mode) the
grid extent `segments * block_size` wraps to `256` threads, one block: only segment `0`
is sorted, and segment `1` of `keys_output` still holds the keys `7, 7` it held before
the call, which is no permutation of the input keys `1, 0` of the segment. -/
theorem segmented_radix_sort_fails_beyond_24_bits :
    0 < 1 ∧ 1 + 8 ≤ 4294967296
    ∧ segments_disjoint 16777217 (fun s => 2 * s) (fun s => 2 * s + 2)
    ∧ 1 ≤ 0 + 8 * 1
    ∧ ¬ ∃ m, segmented_radix_sort_pairs 1 id many_segments_memory 3 1 2 1 2 33554434 false
          16777217 (fun s => 2 * s) (fun s => 2 * s + 2) 0 1 = some m
        ∧ segments_sorted false id 0 1 (many_segments_memory.keys 1)
            (many_segments_memory.values 1) (m.keys 2) (m.values 2) 16777217
            (fun s => 2 * s) (fun s => 2 * s + 2) := by
  refine ⟨by decide, by decide, ?_, by decide, ?_⟩
  · intro s _ t _ hne
    show 2 * s + 2 ≤ 2 * t ∨ 2 * t + 2 ≤ 2 * s
    omega
  · rintro ⟨m, hm, hsorted⟩
    have hval : (segmented_radix_sort_pairs 1 id many_segments_memory 3 1 2 1 2 33554434
        false 16777217 (fun s => 2 * s) (fun s => 2 * s + 2) 0 1).map
          (fun m => m.keys 2 2) = some 7 := by
      decide
    rw [hm] at hval
    have hkey : m.keys 2 2 = 7 := Option.some.inj hval
    have hperm := (hsorted 1 (by decide)).1
    have hin : (m.keys 2 2, m.values 2 2)
        ∈ segment_items (m.keys 2) (m.values 2) (2 * 1) (2 * 1 + 2) := by
      simp [segment_items, List.range_succ]
    have hout := hperm.mem_iff.mp hin
    rw [hkey] at hout
    simp [segment_items, List.range_succ, many_segments_memory] at hout

/-- The documented example evaluated: the pointer-pair overloads give the keys
`[3,6,5,1,1,4,7,8]` with the values `[2,-5,-4,-1,-2,3,7,-8]`, and for the descending
sort the keys `[6,3,5,8,7,4,1,1]` with the values `[-5,2,-4,-8,7,3,-1,-2]`; the
`double_buffer` overload selects the alternate buffer `2` after its single pass. -/
theorem segmented_radix_sort_example :
    (segmented_radix_sort_pairs 1 id sort_example_memory 3 1 2 1 2 8 false 3
        sort_example_offsets (fun s => sort_example_offsets (s + 1)) 0 5).map
        (fun m => ((List.range 8).map (m.keys 2), (List.range 8).map (m.values 2)))
      = some ([3, 6, 5, 1, 1, 4, 7, 8], [2, -5, -4, -1, -2, 3, 7, -8])
    ∧ (segmented_radix_sort_pairs_desc 1 id sort_example_memory 3 1 2 1 2 8 false 3
        sort_example_offsets (fun s => sort_example_offsets (s + 1)) 0 5).map
        (fun m => ((List.range 8).map (m.keys 2), (List.range 8).map (m.values 2)))
      = some ([6, 3, 5, 8, 7, 4, 1, 1], [-5, 2, -4, -8, 7, 3, -1, -2])
    ∧ (segmented_radix_sort_pairs_double_buffer 1 id sort_example_memory 3
        (double_buffer.mk 1 2) (double_buffer.mk 1 2) 8 false 3 sort_example_offsets
        (fun s => sort_example_offsets (s + 1)) 0 5).map
        (fun r => (r.keys.current, r.values.current,
          (List.range 8).map (r.memory.keys r.keys.current),
          (List.range 8).map (r.memory.values r.values.current)))
      = some (2, 2, [3, 6, 5, 1, 1, 4, 7, 8], [2, -5, -4, -1, -2, 3, 7, -8]) := by
  decide

end claims_radix

/-! ## Radix sort: the digit passes in closed form -/

section radix_trace

/-- The first pass of the closed form and the passes after it. -/
theorem radix_pass_list_step (keys_input keys_tmp keys_output values_input values_tmp
    values_output begin_bit end_bit bit : Nat) (to_output : Bool) (hlt : bit < end_bit) :
    radix_pass_list keys_input keys_tmp keys_output values_input values_tmp values_output
        begin_bit end_bit bit to_output
      = radix_loop_pass keys_input keys_tmp keys_output values_input values_tmp
          values_output begin_bit bit (min 8 (end_bit - bit)) to_output
        :: radix_pass_list keys_input keys_tmp keys_output values_input values_tmp
            values_output begin_bit end_bit (bit + 8) (!to_output) := by
  unfold radix_pass_list
  have hm : (end_bit - bit + 7) / 8 = (end_bit - (bit + 8) + 7) / 8 + 1 := by omega
  rw [hm, List.range_succ_eq_map, List.map_cons, List.map_map]
  have h0 : xor to_output (decide (0 % 2 = 1)) = to_output := by cases to_output <;> rfl
  rw [Nat.mul_zero, Nat.add_zero, h0]
  refine congrArg _ (List.map_congr_left (fun k _ => ?_))
  have e1 : bit + 8 * (k + 1) = bit + 8 + 8 * k := by omega
  show radix_loop_pass _ _ _ _ _ _ _ (bit + 8 * (k + 1)) (min 8 (end_bit - (bit + 8 * (k + 1))))
      (xor to_output (decide ((k + 1) % 2 = 1))) = _
  rw [e1, ← radix_parity_step to_output k]

/-- No pass is left at or after `end_bit`. -/
theorem radix_pass_list_done (keys_input keys_tmp keys_output values_input values_tmp
    values_output begin_bit end_bit bit : Nat) (to_output : Bool) (hge : ¬ bit < end_bit) :
    radix_pass_list keys_input keys_tmp keys_output values_input values_tmp values_output
        begin_bit end_bit bit to_output = [] := by
  unfold radix_pass_list
  have hm : (end_bit - bit + 7) / 8 = 0 := by omega
  rw [hm]
  rfl

/-- The number of passes of the closed form. -/
theorem length_radix_pass_list (keys_input keys_tmp keys_output values_input values_tmp
    values_output begin_bit end_bit bit : Nat) (to_output : Bool) :
    (radix_pass_list keys_input keys_tmp keys_output values_input values_tmp values_output
        begin_bit end_bit bit to_output).length = (end_bit - bit + 7) / 8 := by
  unfold radix_pass_list
  rw [List.length_map, List.length_range]

/-- Pass `k` of the closed form. -/
theorem getElem?_radix_pass_list (keys_input keys_tmp keys_output values_input values_tmp
    values_output begin_bit end_bit bit : Nat) (to_output : Bool) (k : Nat)
    (hk : k < (end_bit - bit + 7) / 8) :
    (radix_pass_list keys_input keys_tmp keys_output values_input values_tmp values_output
        begin_bit end_bit bit to_output)[k]?
      = some (radix_loop_pass keys_input keys_tmp keys_output values_input values_tmp
          values_output begin_bit (bit + 8 * k) (min 8 (end_bit - (bit + 8 * k)))
          (xor to_output (decide (k % 2 = 1)))) := by
  unfold radix_pass_list
  rw [List.getElem?_map, List.getElem?_range hk]
  rfl

/-- The loop of `segmented_radix_sort_impl` in closed form, for a counter that does not
wrap: it returns, having launched the passes of `radix_pass_list` in their order;
`to_output` has flipped once per pass and `is_result_in_output` holds the value
`to_output` had in the last pass, or its old content when no pass ran. -/
theorem segmented_radix_sort_loop_closed {K V : Type} (Descending : Bool) (encode : K → Nat)
    (keys_input keys_tmp keys_output values_input values_tmp values_output segments : Nat)
    (begin_offsets end_offsets : Nat → Nat) (begin_bit end_bit : Nat)
    (hend : end_bit + 8 ≤ 4294967296) :
    ∀ (fuel bit : Nat) (st : radix_sort_state K V), end_bit ≤ bit + 8 * fuel →
      segmented_radix_sort_loop Descending encode keys_input keys_tmp keys_output
          values_input values_tmp values_output segments begin_offsets end_offsets
          begin_bit end_bit fuel bit st
        = some
          { memory := run_passes Descending encode segments begin_offsets end_offsets
              (radix_pass_list keys_input keys_tmp keys_output values_input values_tmp
                values_output begin_bit end_bit bit st.to_output) st.memory
            to_output := xor st.to_output (decide ((end_bit - bit + 7) / 8 % 2 = 1))
            is_result_in_output :=
              if (end_bit - bit + 7) / 8 = 0 then st.is_result_in_output
              else xor st.to_output (decide ((end_bit - bit + 7) / 8 % 2 = 0))
            passes := st.passes ++ radix_pass_list keys_input keys_tmp keys_output
              values_input values_tmp values_output begin_bit end_bit bit st.to_output } := by
  have hdone : ∀ (fuel bit : Nat) (st : radix_sort_state K V), ¬ bit < end_bit →
      segmented_radix_sort_loop Descending encode keys_input keys_tmp keys_output
          values_input values_tmp values_output segments begin_offsets end_offsets
          begin_bit end_bit fuel bit st
        = some
          { memory := run_passes Descending encode segments begin_offsets end_offsets
              (radix_pass_list keys_input keys_tmp keys_output values_input values_tmp
                values_output begin_bit end_bit bit st.to_output) st.memory
            to_output := xor st.to_output (decide ((end_bit - bit + 7) / 8 % 2 = 1))
            is_result_in_output :=
              if (end_bit - bit + 7) / 8 = 0 then st.is_result_in_output
              else xor st.to_output (decide ((end_bit - bit + 7) / 8 % 2 = 0))
            passes := st.passes ++ radix_pass_list keys_input keys_tmp keys_output
              values_input values_tmp values_output begin_bit end_bit bit st.to_output } := by
    intro fuel bit st hge
    have hm : (end_bit - bit + 7) / 8 = 0 := by omega
    have hrun : segmented_radix_sort_loop Descending encode keys_input keys_tmp keys_output
        values_input values_tmp values_output segments begin_offsets end_offsets
        begin_bit end_bit fuel bit st = some st := by
      cases fuel <;> rw [segmented_radix_sort_loop, if_neg hge]
    rw [hrun, radix_pass_list_done _ _ _ _ _ _ _ _ _ _ hge, hm, if_pos rfl,
      List.append_nil]
    have hx : xor st.to_output (decide (0 % 2 = 1)) = st.to_output := by
      cases st.to_output <;> rfl
    rw [hx]
    rfl
  intro fuel
  induction fuel with
  | zero =>
    intro bit st hfuel
    exact hdone 0 bit st (by omega)
  | succ fuel ih =>
    intro bit st hfuel
    by_cases hlt : bit < end_bit
    · rw [segmented_radix_sort_loop, if_pos hlt]
      simp only []
      have hsub : sub32 end_bit bit = end_bit - bit :=
        sub32_of_le (Nat.le_of_lt hlt) (by omega)
      have hwrap : wrap32 (bit + 8) = bit + 8 := wrap32_of_lt (by omega)
      rw [hsub, hwrap, ih (bit + 8) _ (by omega),
        radix_pass_list_step _ _ _ _ _ _ _ _ _ _ hlt]
      have hm : (end_bit - bit + 7) / 8 = (end_bit - (bit + 8) + 7) / 8 + 1 := by omega
      rw [hm, if_neg (Nat.succ_ne_zero _)]
      simp only [List.append_assoc, List.singleton_append]
      refine congrArg some ?_
      have h1 := radix_parity_step st.to_output ((end_bit - (bit + 8) + 7) / 8)
      have h2 : (if (end_bit - (bit + 8) + 7) / 8 = 0 then st.to_output
          else xor (!st.to_output) (decide ((end_bit - (bit + 8) + 7) / 8 % 2 = 0)))
          = xor st.to_output (decide (((end_bit - (bit + 8) + 7) / 8 + 1) % 2 = 0)) := by
        generalize (end_bit - (bit + 8) + 7) / 8 = m
        by_cases h0 : m = 0
        · rw [if_pos h0, h0]
          cases st.to_output <;> rfl
        · rw [if_neg h0]
          rcases Nat.mod_two_eq_zero_or_one m with h | h
          · have h' : (m + 1) % 2 = 1 := by omega
            rw [h, h']
            cases st.to_output <;> rfl
          · have h' : (m + 1) % 2 = 0 := by omega
            rw [h, h']
            cases st.to_output <;> rfl
      rw [h1, h2]
      rfl
    · exact hdone (fuel + 1) bit st hlt

end radix_trace

/-! ## Radix sort: the work call in closed form, frames of the passes -/

section radix_frame

/-- The work call of `segmented_radix_sort_impl` in closed form, for `end_bit` at most
`2^32 - 8`: it returns, having launched the passes of `radix_pass_list` from `begin_bit`
with the scratch pointers and the initial `to_output` it computes. -/
theorem segmented_radix_sort_impl_closed {K V : Type} (fuel : Nat)
    (Descending with_values : Bool) (encode : K → Nat) (mem : radix_memory K V)
    (temporary_storage keys_input keys_tmp keys_output values_input values_tmp
      values_output size : Nat) (flag : Bool) (segments : Nat)
    (begin_offsets end_offsets : Nat → Nat) (begin_bit end_bit : Nat)
    (hend : end_bit + 8 ≤ 4294967296) (hfuel : end_bit ≤ begin_bit + 8 * fuel) :
    segmented_radix_sort_impl fuel Descending with_values encode mem temporary_storage
        keys_input keys_tmp keys_output values_input values_tmp values_output size flag
        segments begin_offsets end_offsets begin_bit end_bit
      = some
        { memory := run_passes Descending encode segments begin_offsets end_offsets
            (radix_pass_list keys_input
              (if keys_tmp ≠ 0 then keys_tmp else temporary_storage) keys_output
              values_input
              (if keys_tmp ≠ 0 then values_tmp
                else if with_values = true then temporary_storage else 0)
              values_output begin_bit end_bit begin_bit
              (decide (keys_tmp ≠ 0)
                || decide (sub32 (ceiling_div (sub32 end_bit begin_bit) 8) 1 % 2 = 0)))
            mem
          to_output :=
            xor (decide (keys_tmp ≠ 0)
                || decide (sub32 (ceiling_div (sub32 end_bit begin_bit) 8) 1 % 2 = 0))
              (decide ((end_bit - begin_bit + 7) / 8 % 2 = 1))
          is_result_in_output :=
            if (end_bit - begin_bit + 7) / 8 = 0 then flag
            else xor (decide (keys_tmp ≠ 0)
                || decide (sub32 (ceiling_div (sub32 end_bit begin_bit) 8) 1 % 2 = 0))
              (decide ((end_bit - begin_bit + 7) / 8 % 2 = 0))
          passes := radix_pass_list keys_input
            (if keys_tmp ≠ 0 then keys_tmp else temporary_storage) keys_output
            values_input
            (if keys_tmp ≠ 0 then values_tmp
              else if with_values = true then temporary_storage else 0)
            values_output begin_bit end_bit begin_bit
            (decide (keys_tmp ≠ 0)
              || decide (sub32 (ceiling_div (sub32 end_bit begin_bit) 8) 1 % 2 = 0)) } := by
  unfold segmented_radix_sort_impl
  simp only []
  rw [segmented_radix_sort_loop_closed Descending encode _ _ _ _ _ _ segments begin_offsets
    end_offsets begin_bit end_bit hend fuel begin_bit _ hfuel]
  simp only [List.nil_append, decide_eq_true_eq]

/-- The initial `to_output` of the pointer-pair mode for a bit range
`begin_bit < end_bit`: set exactly when the number of passes is odd. -/
theorem radix_pointer_to_output (begin_bit end_bit : Nat) (hbits : begin_bit < end_bit)
    (hend : end_bit + 8 ≤ 4294967296) :
    (decide ((0 : Nat) ≠ 0)
        || decide (sub32 (ceiling_div (sub32 end_bit begin_bit) 8) 1 % 2 = 0))
      = decide ((end_bit - begin_bit + 7) / 8 % 2 = 1) := by
  rw [radix_iterations begin_bit end_bit hbits hend,
    sub32_of_le (show 1 ≤ (end_bit - begin_bit + 7) / 8 by omega) (by omega)]
  have h0 : decide ((0 : Nat) ≠ 0) = false := by decide
  rw [h0, Bool.false_or, decide_eq_decide]
  omega

/-- A launch of `segmented_sort` leaves every key array other than its destination as it
is. -/
theorem segmented_sort_launch_keys_frame {K V : Type} (Descending : Bool) (encode : K → Nat)
    (mem : radix_memory K V) (keys_input keys_output values_input values_output
      segments : Nat) (begin_offsets end_offsets : Nat → Nat) (bit current_radix_bits : Nat)
    (q : Nat) (hq : q ≠ keys_output) :
    (segmented_sort_launch Descending encode 256 mem keys_input keys_output values_input
      values_output segments begin_offsets end_offsets bit current_radix_bits).keys q
      = mem.keys q := by
  unfold segmented_sort_launch
  exact Function.update_noteq hq _ _

/-- A launch of `segmented_sort` leaves every value array other than its destination as
it is. -/
theorem segmented_sort_launch_values_frame {K V : Type} (Descending : Bool)
    (encode : K → Nat) (mem : radix_memory K V) (keys_input keys_output values_input
      values_output segments : Nat) (begin_offsets end_offsets : Nat → Nat)
    (bit current_radix_bits : Nat) (q : Nat) (hq : q ≠ values_output) :
    (segmented_sort_launch Descending encode 256 mem keys_input keys_output values_input
      values_output segments begin_offsets end_offsets bit current_radix_bits).values q
      = mem.values q := by
  unfold segmented_sort_launch
  exact Function.update_noteq hq _ _

/-- A key array that is the destination of no pass of a list is left as it is. -/
theorem run_passes_keys_frame {K V : Type} (Descending : Bool) (encode : K → Nat)
    (segments : Nat) (begin_offsets end_offsets : Nat → Nat) (q : Nat) :
    ∀ (passes : List radix_pass) (mem : radix_memory K V),
      (∀ p, p ∈ passes → p.keys_output ≠ q) →
      (run_passes Descending encode segments begin_offsets end_offsets passes mem).keys q
        = mem.keys q := by
  intro passes
  induction passes with
  | nil => intro mem _; rfl
  | cons p passes ih =>
    intro mem h
    show (run_passes Descending encode segments begin_offsets end_offsets passes _).keys q = _
    rw [ih _ (fun p' hp' => h p' (List.mem_cons_of_mem _ hp'))]
    exact segmented_sort_launch_keys_frame _ _ _ _ _ _ _ _ _ _ _ _ q
      (fun e => h p (List.mem_cons_self _ _) e.symm)

/-- A value array that is the destination of no pass of a list is left as it is. -/
theorem run_passes_values_frame {K V : Type} (Descending : Bool) (encode : K → Nat)
    (segments : Nat) (begin_offsets end_offsets : Nat → Nat) (q : Nat) :
    ∀ (passes : List radix_pass) (mem : radix_memory K V),
      (∀ p, p ∈ passes → p.values_output ≠ q) →
      (run_passes Descending encode segments begin_offsets end_offsets passes mem).values q
        = mem.values q := by
  intro passes
  induction passes with
  | nil => intro mem _; rfl
  | cons p passes ih =>
    intro mem h
    show (run_passes Descending encode segments begin_offsets end_offsets passes _).values q
      = _
    rw [ih _ (fun p' hp' => h p' (List.mem_cons_of_mem _ hp'))]
    exact segmented_sort_launch_values_frame _ _ _ _ _ _ _ _ _ _ _ _ q
      (fun e => h p (List.mem_cons_self _ _) e.symm)

/-- A digit pass over no item gives no item. -/
theorem radix_sort_by_digit_nil {α : Type} (radix : Nat) (digit : α → Nat) :
    radix_sort_by_digit radix digit [] = [] := by
  unfold radix_sort_by_digit
  exact flatMap_nil_const _

/-- A launch of `segmented_sort` over empty segments stores nothing. -/
theorem segmented_sort_launch_empty {K V : Type} (Descending : Bool) (encode : K → Nat)
    (mem : radix_memory K V) (keys_input keys_output values_input values_output
      segments : Nat) (begin_offsets end_offsets : Nat → Nat) (bit current_radix_bits : Nat)
    (hempty : ∀ s, s < segments → end_offsets s ≤ begin_offsets s) :
    segmented_sort_launch Descending encode 256 mem keys_input keys_output values_input
      values_output segments begin_offsets end_offsets bit current_radix_bits = mem := by
  have hblocks : wrap32 (segments * 256) / 256 ≤ segments := by
    unfold wrap32
    omega
  have hstores : (List.range (wrap32 (segments * 256) / 256)).flatMap
      (segmented_sort Descending encode (mem.keys keys_input) (mem.values values_input)
        begin_offsets end_offsets bit current_radix_bits) = [] := by
    rw [← flatMap_nil_const (List.range (wrap32 (segments * 256) / 256))]
    refine flatMap_congr_mem (fun t ht => ?_)
    have hts : t < segments := lt_of_lt_of_le (List.mem_range.mp ht) hblocks
    unfold segmented_sort
    simp only []
    rw [Nat.sub_eq_zero_of_le (hempty t hts)]
    show List.map _ (radix_sort_by_digit _ _ []).enum = []
    rw [radix_sort_by_digit_nil]
    rfl
  unfold segmented_sort_launch
  simp only []
  rw [hstores]
  cases mem with
  | mk keys values =>
    simp only [List.map_nil, apply_writes, Function.update_eq_self]

/-- Passes over empty segments leave the memory as it is. -/
theorem run_passes_empty {K V : Type} (Descending : Bool) (encode : K → Nat)
    (segments : Nat) (begin_offsets end_offsets : Nat → Nat)
    (hempty : ∀ s, s < segments → end_offsets s ≤ begin_offsets s) :
    ∀ (passes : List radix_pass) (mem : radix_memory K V),
      run_passes Descending encode segments begin_offsets end_offsets passes mem = mem := by
  intro passes
  induction passes with
  | nil => intro mem; rfl
  | cons p passes ih =>
    intro mem
    show run_passes Descending encode segments begin_offsets end_offsets passes _ = _
    rw [ih]
    exact segmented_sort_launch_empty _ _ _ _ _ _ _ _ _ _ _ _ hempty

end radix_frame

/-! ## Radix sort: the last pass of a work call -/

section radix_last

/-- The work call of `segmented_radix_sort_impl` for a bit range `begin_bit < end_bit`:
it returns after `ceil((end_bit - begin_bit) / 8)` passes, the memory is the one the
passes leave, the last pass writes the arrays that `is_result_in_output` designates on
return (`keys_output`, `values_output` when set, the scratch arrays otherwise), and
`is_result_in_output` is set in the pointer-pair mode and, in the double-buffer mode,
exactly when the number of passes is odd. -/
theorem segmented_radix_sort_impl_last_pass {K V : Type} (fuel : Nat)
    (Descending with_values : Bool) (encode : K → Nat) (mem : radix_memory K V)
    (temporary_storage keys_input keys_tmp keys_output values_input values_tmp
      values_output size : Nat) (flag : Bool) (segments : Nat)
    (begin_offsets end_offsets : Nat → Nat) (begin_bit end_bit : Nat)
    (hbits : begin_bit < end_bit) (hend : end_bit + 8 ≤ 4294967296)
    (hfuel : end_bit ≤ begin_bit + 8 * fuel) :
    ∃ st p, segmented_radix_sort_impl fuel Descending with_values encode mem
          temporary_storage keys_input keys_tmp keys_output values_input values_tmp
          values_output size flag segments begin_offsets end_offsets begin_bit end_bit
        = some st
      ∧ st.passes.getLast? = some p
      ∧ st.passes.length = (end_bit - begin_bit + 7) / 8
      ∧ st.memory
        = run_passes Descending encode segments begin_offsets end_offsets st.passes mem
      ∧ p.keys_output = (if st.is_result_in_output = true then keys_output
          else if keys_tmp ≠ 0 then keys_tmp else temporary_storage)
      ∧ p.values_output = (if st.is_result_in_output = true then values_output
          else if keys_tmp ≠ 0 then values_tmp
          else if with_values = true then temporary_storage else 0)
      ∧ (keys_tmp = 0 → st.is_result_in_output = true)
      ∧ (keys_tmp ≠ 0 →
          st.is_result_in_output = decide ((end_bit - begin_bit + 7) / 8 % 2 = 1)) := by
  have hm : 1 ≤ (end_bit - begin_bit + 7) / 8 := by omega
  have hpar : ∀ t0 : Bool,
      (if (end_bit - begin_bit + 7) / 8 = 0 then flag
        else xor t0 (decide ((end_bit - begin_bit + 7) / 8 % 2 = 0)))
      = xor t0 (decide (((end_bit - begin_bit + 7) / 8 - 1) % 2 = 1)) := by
    intro t0
    rw [if_neg (by omega)]
    congr 1
    rw [decide_eq_decide]
    omega
  refine ⟨_,
    radix_loop_pass keys_input (if keys_tmp ≠ 0 then keys_tmp else temporary_storage)
      keys_output values_input
      (if keys_tmp ≠ 0 then values_tmp
        else if with_values = true then temporary_storage else 0)
      values_output begin_bit (begin_bit + 8 * ((end_bit - begin_bit + 7) / 8 - 1))
      (min 8 (end_bit - (begin_bit + 8 * ((end_bit - begin_bit + 7) / 8 - 1))))
      (xor (decide (keys_tmp ≠ 0)
          || decide (sub32 (ceiling_div (sub32 end_bit begin_bit) 8) 1 % 2 = 0))
        (decide (((end_bit - begin_bit + 7) / 8 - 1) % 2 = 1))),
    segmented_radix_sort_impl_closed fuel Descending with_values encode mem
    temporary_storage keys_input keys_tmp keys_output values_input values_tmp values_output
    size flag segments begin_offsets end_offsets begin_bit end_bit hend hfuel, ?_, ?_, rfl,
    ?_, ?_, ?_, ?_⟩
  · dsimp only
    rw [List.getLast?_eq_getElem?, length_radix_pass_list,
      getElem?_radix_pass_list _ _ _ _ _ _ _ _ _ _ _ (by omega)]
  · exact length_radix_pass_list _ _ _ _ _ _ _ _ _ _
  · dsimp only
    rw [hpar, (radix_loop_pass_fields _ _ _ _ _ _ _ _ _ _).2.2.1]
  · dsimp only
    rw [hpar, (radix_loop_pass_fields _ _ _ _ _ _ _ _ _ _).2.2.2.1]
  · intro h0
    dsimp only
    rw [h0, radix_pointer_to_output begin_bit end_bit hbits hend, if_neg (by omega)]
    rcases Nat.mod_two_eq_zero_or_one ((end_bit - begin_bit + 7) / 8) with h | h <;>
      rw [h] <;> rfl
  · intro h0
    dsimp only
    rw [if_neg (by omega), decide_eq_true h0, Bool.true_or, Bool.true_xor]
    rcases Nat.mod_two_eq_zero_or_one ((end_bit - begin_bit + 7) / 8) with h | h <;>
      rw [h] <;> rfl

/-- Every pass of the closed form is the launch of one counter value. -/
theorem mem_radix_pass_list (keys_input keys_tmp keys_output values_input values_tmp
    values_output begin_bit end_bit bit : Nat) (to_output : Bool) (p : radix_pass)
    (hp : p ∈ radix_pass_list keys_input keys_tmp keys_output values_input values_tmp
      values_output begin_bit end_bit bit to_output) :
    ∃ k, k < (end_bit - bit + 7) / 8
      ∧ p = radix_loop_pass keys_input keys_tmp keys_output values_input values_tmp
          values_output begin_bit (bit + 8 * k) (min 8 (end_bit - (bit + 8 * k)))
          (xor to_output (decide (k % 2 = 1))) := by
  unfold radix_pass_list at hp
  obtain ⟨k, hk, rfl⟩ := List.mem_map.mp hp
  exact ⟨k, List.mem_range.mp hk, rfl⟩

/-- A call of `segmented_radix_sort_impl` with a scratch buffer is the work call. -/
theorem segmented_radix_sort_impl_full_work {K V : Type} (fuel : Nat)
    (Descending with_values : Bool) (encode : K → Nat) (align_size : Nat → Nat)
    (sizeof_key sizeof_value : Nat) (mem : radix_memory K V)
    (temporary_storage storage_size keys_input keys_tmp keys_output values_input values_tmp
      values_output size : Nat) (flag : Bool) (segments : Nat)
    (begin_offsets end_offsets : Nat → Nat) (begin_bit end_bit : Nat)
    (hts : temporary_storage ≠ 0) :
    segmented_radix_sort_impl_full fuel Descending with_values encode align_size sizeof_key
        sizeof_value mem temporary_storage storage_size keys_input keys_tmp keys_output
        values_input values_tmp values_output size flag segments begin_offsets end_offsets
        begin_bit end_bit
      = (segmented_radix_sort_impl fuel Descending with_values encode mem temporary_storage
          keys_input keys_tmp keys_output values_input values_tmp values_output size flag
          segments begin_offsets end_offsets begin_bit end_bit).map
          (fun st =>
            { storage_size := storage_size
              memory := st.memory
              is_result_in_output := st.is_result_in_output
              passes := st.passes }) := by
  unfold segmented_radix_sort_impl_full
  simp only []
  rw [if_neg hts]

/-- A call of `segmented_radix_sort_impl` without a scratch buffer is the sizing call:
it assigns `storage_size` and nothing else. -/
theorem segmented_radix_sort_impl_full_sizing {K V : Type} (fuel : Nat)
    (Descending with_values : Bool) (encode : K → Nat) (align_size : Nat → Nat)
    (sizeof_key sizeof_value : Nat) (mem : radix_memory K V)
    (storage_size keys_input keys_tmp keys_output values_input values_tmp
      values_output size : Nat) (flag : Bool) (segments : Nat)
    (begin_offsets end_offsets : Nat → Nat) (begin_bit end_bit : Nat) :
    segmented_radix_sort_impl_full fuel Descending with_values encode align_size sizeof_key
        sizeof_value mem 0 storage_size keys_input keys_tmp keys_output
        values_input values_tmp values_output size flag segments begin_offsets end_offsets
        begin_bit end_bit
      = some
        { storage_size :=
            if keys_tmp = 0 then
              wrap64 (align_size (wrap64 (size * sizeof_key))
                + (if with_values = true then align_size (wrap64 (size * sizeof_value))
                    else 0))
            else 4
          memory := mem
          is_result_in_output := flag
          passes := [] } := by
  unfold segmented_radix_sort_impl_full
  simp only []
  rw [if_pos trivial]
  by_cases h0 : keys_tmp = 0
  · simp [h0]
  · simp [h0]

/-- The work call of `segmented_radix_sort_impl` as the `double_buffer` overloads make
it, on `(current, current, alternate)`: the last pass writes the alternate arrays when
`is_result_in_output` is set on return and the current arrays otherwise. -/
theorem double_buffer_last_pass {K V : Type} (fuel : Nat)
    (Descending with_values : Bool) (encode : K → Nat) (align_size : Nat → Nat)
    (sizeof_key sizeof_value : Nat) (mem : radix_memory K V)
    (temporary_storage storage_size keys_current keys_alternate values_current
      values_alternate size : Nat) (flag : Bool) (segments : Nat)
    (begin_offsets end_offsets : Nat → Nat) (begin_bit end_bit : Nat)
    (hbits : begin_bit < end_bit) (hend : end_bit + 8 ≤ 4294967296)
    (hfuel : end_bit ≤ begin_bit + 8 * fuel) (hts : temporary_storage ≠ 0) :
    ∃ o p, segmented_radix_sort_impl_full fuel Descending with_values encode align_size
          sizeof_key sizeof_value mem temporary_storage storage_size keys_current
          keys_current keys_alternate values_current values_current values_alternate size
          flag segments begin_offsets end_offsets begin_bit end_bit = some o
      ∧ o.passes.getLast? = some p
      ∧ o.passes.length = (end_bit - begin_bit + 7) / 8
      ∧ p.keys_output
        = (if o.is_result_in_output = true then keys_alternate else keys_current)
      ∧ p.values_output
        = (if o.is_result_in_output = true then values_alternate else values_current) := by
  obtain ⟨st, p, hrun, hlast, hlen, _, hk, hv, hptr, _⟩ :=
    segmented_radix_sort_impl_last_pass fuel Descending with_values encode mem
      temporary_storage keys_current keys_current keys_alternate values_current
      values_current values_alternate size flag segments begin_offsets end_offsets
      begin_bit end_bit hbits hend hfuel
  have hfull := segmented_radix_sort_impl_full_work fuel Descending with_values encode
    align_size sizeof_key sizeof_value mem temporary_storage storage_size keys_current
    keys_current keys_alternate values_current values_current values_alternate size flag
    segments begin_offsets end_offsets begin_bit end_bit hts
  rw [hrun, Option.map_some'] at hfull
  refine ⟨_, p, hfull, hlast, hlen, ?_, ?_⟩
  · show p.keys_output = if st.is_result_in_output = true then keys_alternate
      else keys_current
    rw [hk]
    by_cases h0 : keys_current = 0
    · rw [hptr h0, if_pos rfl, if_pos rfl]
    · rw [if_pos h0]
  · show p.values_output = if st.is_result_in_output = true then values_alternate
      else values_current
    rw [hv]
    by_cases h0 : keys_current = 0
    · rw [hptr h0, if_pos rfl, if_pos rfl]
    · rw [if_pos h0]

/-- The work call of `segmented_radix_sort_impl` in the pointer-pair mode, for input
arrays that are neither the output arrays nor the scratch arrays: it returns, no pass
has an input array as its destination, no pass after the first reads an input array, and
the input arrays hold after the call what they held before. -/
theorem segmented_radix_sort_impl_input_frame {K V : Type} (fuel : Nat)
    (Descending with_values : Bool) (encode : K → Nat) (mem : radix_memory K V)
    (temporary_storage keys_input keys_output values_input values_output size : Nat)
    (flag : Bool) (segments : Nat) (begin_offsets end_offsets : Nat → Nat)
    (begin_bit end_bit : Nat) (hend : end_bit + 8 ≤ 4294967296)
    (hfuel : end_bit ≤ begin_bit + 8 * fuel)
    (hko : keys_input ≠ keys_output) (hkt : keys_input ≠ temporary_storage) :
    ∃ st, segmented_radix_sort_impl fuel Descending with_values encode mem
          temporary_storage keys_input 0 keys_output values_input 0 values_output size
          flag segments begin_offsets end_offsets begin_bit end_bit = some st
      ∧ (∀ p, p ∈ st.passes → p.keys_output ≠ keys_input)
      ∧ (∀ k p, st.passes[k]? = some p → 0 < k → p.keys_input ≠ keys_input)
      ∧ st.memory.keys keys_input = mem.keys keys_input
      ∧ (values_input ≠ values_output →
          values_input ≠ (if with_values = true then temporary_storage else 0) →
          (∀ p, p ∈ st.passes → p.values_output ≠ values_input)
          ∧ (∀ k p, st.passes[k]? = some p → 0 < k → p.values_input ≠ values_input)
          ∧ st.memory.values values_input = mem.values values_input) := by
  have h00 : ¬ (0 : Nat) ≠ 0 := fun h => h rfl
  have hrun := segmented_radix_sort_impl_closed fuel Descending with_values encode mem
    temporary_storage keys_input 0 keys_output values_input 0 values_output size flag
    segments begin_offsets end_offsets begin_bit end_bit hend hfuel
  rw [if_neg h00, if_neg h00] at hrun
  have hkout : ∀ p, p ∈ radix_pass_list keys_input temporary_storage keys_output
      values_input (if with_values = true then temporary_storage else 0) values_output
      begin_bit end_bit begin_bit
      (decide ((0 : Nat) ≠ 0)
        || decide (sub32 (ceiling_div (sub32 end_bit begin_bit) 8) 1 % 2 = 0)) →
      p.keys_output ≠ keys_input := by
    intro p hp
    obtain ⟨k, _, rfl⟩ := mem_radix_pass_list _ _ _ _ _ _ _ _ _ _ p hp
    rw [(radix_loop_pass_fields _ _ _ _ _ _ _ _ _ _).2.2.1]
    split
    · exact fun e => hko e.symm
    · exact fun e => hkt e.symm
  have hkin : ∀ k p, (radix_pass_list keys_input temporary_storage keys_output
      values_input (if with_values = true then temporary_storage else 0) values_output
      begin_bit end_bit begin_bit
      (decide ((0 : Nat) ≠ 0)
        || decide (sub32 (ceiling_div (sub32 end_bit begin_bit) 8) 1 % 2 = 0)))[k]?
        = some p → 0 < k → p.keys_input ≠ keys_input := by
    intro k p hp hk
    have hlt : k < (end_bit - begin_bit + 7) / 8 := by
      have := (List.getElem?_eq_some.mp hp).1
      rw [length_radix_pass_list] at this
      exact this
    rw [getElem?_radix_pass_list _ _ _ _ _ _ _ _ _ _ k hlt] at hp
    rw [← Option.some.inj hp, (radix_loop_pass_fields _ _ _ _ _ _ _ _ _ _).1,
      if_neg (by omega)]
    split
    · exact fun e => hkt e.symm
    · exact fun e => hko e.symm
  refine ⟨_, hrun, hkout, hkin, ?_, ?_⟩
  · exact run_passes_keys_frame Descending encode segments begin_offsets end_offsets
      keys_input _ mem hkout
  · intro hvo hvt
    have hvout : ∀ p, p ∈ radix_pass_list keys_input temporary_storage keys_output
        values_input (if with_values = true then temporary_storage else 0) values_output
        begin_bit end_bit begin_bit
        (decide ((0 : Nat) ≠ 0)
          || decide (sub32 (ceiling_div (sub32 end_bit begin_bit) 8) 1 % 2 = 0)) →
        p.values_output ≠ values_input := by
      intro p hp
      obtain ⟨k, _, rfl⟩ := mem_radix_pass_list _ _ _ _ _ _ _ _ _ _ p hp
      rw [(radix_loop_pass_fields _ _ _ _ _ _ _ _ _ _).2.2.2.1]
      split
      · exact fun e => hvo e.symm
      · exact fun e => hvt e.symm
    refine ⟨hvout, ?_, ?_⟩
    · intro k p hp hk
      have hlt : k < (end_bit - begin_bit + 7) / 8 := by
        have := (List.getElem?_eq_some.mp hp).1
        rw [length_radix_pass_list] at this
        exact this
      rw [getElem?_radix_pass_list _ _ _ _ _ _ _ _ _ _ k hlt] at hp
      rw [← Option.some.inj hp, (radix_loop_pass_fields _ _ _ _ _ _ _ _ _ _).2.1,
        if_neg (by omega)]
      split
      · exact fun e => hvt e.symm
      · exact fun e => hvo e.symm
    · exact run_passes_values_frame Descending encode segments begin_offsets end_offsets
        values_input _ mem hvout

/-- The work call of `segmented_radix_sort_impl` for a bit range with
`begin_bit >= end_bit`: the loop body never runs, so no pass is launched and the memory
and the caller's `is_result_in_output` are left as they are. -/
theorem segmented_radix_sort_impl_no_pass {K V : Type} (fuel : Nat)
    (Descending with_values : Bool) (encode : K → Nat) (mem : radix_memory K V)
    (temporary_storage keys_input keys_tmp keys_output values_input values_tmp
      values_output size : Nat) (flag : Bool) (segments : Nat)
    (begin_offsets end_offsets : Nat → Nat) (begin_bit end_bit : Nat)
    (hbits : end_bit ≤ begin_bit) :
    ∃ st, segmented_radix_sort_impl fuel Descending with_values encode mem
          temporary_storage keys_input keys_tmp keys_output values_input values_tmp
          values_output size flag segments begin_offsets end_offsets begin_bit end_bit
        = some st
      ∧ st.passes = [] ∧ st.memory = mem ∧ st.is_result_in_output = flag := by
  have hge : ¬ begin_bit < end_bit := by omega
  have hdone : ∀ (a b c d e f : Nat) (st : radix_sort_state K V),
      segmented_radix_sort_loop Descending encode a b c d e f segments begin_offsets
        end_offsets begin_bit end_bit fuel begin_bit st = some st := by
    intro a b c d e f st
    cases fuel <;> rw [segmented_radix_sort_loop, if_neg hge]
  unfold segmented_radix_sort_impl
  simp only []
  rw [hdone]
  exact ⟨_, rfl, rfl, rfl, rfl⟩

end radix_last

/-! ## Scans: sizing call and work call -/

section scan_full

variable {α : Type}

/-- The output of the work call of `scan_impl` does not depend on `storage_size`, on
`scan_get_temporary_storage_bytes` or on `sizeof(result_type)`: it is the output of the
work path. -/
theorem scan_impl_full_output (scan_get_temporary_storage_bytes : Nat → Nat → Nat)
    (sizeof_result BlockSize ItemsPerThread : Nat) (scan_op : α → α → α) (dflt : α)
    (uninit : Nat → α) :
    ∀ (fuel : Nat) (Exclusive : Bool) (temporary_storage : Nat → α) (storage_size : Nat)
      (input output : Nat → α) (initial_value : α) (size : Nat),
      (scan_impl_full scan_get_temporary_storage_bytes sizeof_result BlockSize
          ItemsPerThread scan_op dflt uninit fuel Exclusive (some temporary_storage)
          storage_size input output initial_value size).map (fun o => o.output)
        = scan_impl fuel BlockSize ItemsPerThread Exclusive temporary_storage input output
            initial_value dflt size scan_op uninit := by
  intro fuel
  induction fuel with
  | zero =>
    intro Exclusive temporary_storage storage_size input output initial_value size
    rw [scan_impl_full, scan_impl]
    rfl
  | succ fuel ih =>
    intro Exclusive temporary_storage storage_size input output initial_value size
    rw [scan_impl_full, scan_impl]
    simp only []
    split
    · rw [← ih]
      cases scan_impl_full scan_get_temporary_storage_bytes sizeof_result BlockSize
        ItemsPerThread scan_op dflt uninit fuel false _ _ _ _ dflt _ <;> rfl
    · rfl

/-- The work call of `scan_impl` returns for every tile of at least two items and every
size below the recursion budget, whatever the operator. -/
theorem scan_impl_returns (BlockSize ItemsPerThread : Nat) (scan_op : α → α → α) (dflt : α)
    (uninit : Nat → α) (h2 : 2 ≤ BlockSize * ItemsPerThread)
    (h32 : BlockSize * ItemsPerThread < 4294967296) :
    ∀ (fuel : Nat) (Exclusive : Bool) (temporary_storage input output : Nat → α)
      (initial_value : α) (size : Nat), size < fuel →
      size + BlockSize * ItemsPerThread ≤ 18446744073709551616 →
      ∃ out, scan_impl fuel BlockSize ItemsPerThread Exclusive temporary_storage input
          output initial_value dflt size scan_op uninit = some out := by
  have hn : 0 < BlockSize * ItemsPerThread := by omega
  intro fuel
  induction fuel with
  | zero => intro _ _ _ _ _ size hf; omega
  | succ fuel ih =>
    intro Exclusive temporary_storage input output initial_value size hf hsz
    rw [scan_impl]
    simp only [wrap32_of_lt h32, scan_number_of_blocks _ size hn hsz]
    by_cases hnb : 1 < (size + BlockSize * ItemsPerThread - 1) / (BlockSize * ItemsPerThread)
    · rw [if_pos hnb]
      have hs : 0 < size := by
        rcases Nat.eq_zero_or_pos size with h0 | h0
        · rw [h0, Nat.zero_add, Nat.div_eq_of_lt (by omega)] at hnb
          omega
        · exact h0
      have hlo := scan_blocks_lo (BlockSize * ItemsPerThread) size hn hs
      generalize (size + BlockSize * ItemsPerThread - 1) / (BlockSize * ItemsPerThread) = nb
        at hnb hlo ⊢
      have hge : (nb - 1) * 2 ≤ (nb - 1) * (BlockSize * ItemsPerThread) :=
        Nat.mul_le_mul_left _ h2
      obtain ⟨bp, hbp⟩ := ih false (fun i => temporary_storage (nb + i))
        (apply_writes temporary_storage
          ((List.range (wrap64 ((nb - 1) * BlockSize) / BlockSize)).map
            (block_reduce_kernel_impl BlockSize ItemsPerThread input scan_op)))
        (apply_writes temporary_storage
          ((List.range (wrap64 ((nb - 1) * BlockSize) / BlockSize)).map
            (block_reduce_kernel_impl BlockSize ItemsPerThread input scan_op)))
        dflt nb (by omega) (by omega)
      rw [hbp]
      exact ⟨_, rfl⟩
    · rw [if_neg hnb]
      exact ⟨_, rfl⟩

/-- A call of `scan_impl` without a scratch buffer is the sizing call: it assigns
`storage_size`, with `4` in the place of `0`, and nothing else. -/
theorem scan_impl_full_sizing (scan_get_temporary_storage_bytes : Nat → Nat → Nat)
    (sizeof_result BlockSize ItemsPerThread : Nat) (scan_op : α → α → α) (dflt : α)
    (uninit : Nat → α) (fuel : Nat) (Exclusive : Bool) (storage_size : Nat)
    (input output : Nat → α) (initial_value : α) (size : Nat) :
    scan_impl_full scan_get_temporary_storage_bytes sizeof_result BlockSize ItemsPerThread
        scan_op dflt uninit fuel Exclusive none storage_size input output initial_value
        size
      = some
        { storage_size :=
            if scan_get_temporary_storage_bytes size (wrap32 (BlockSize * ItemsPerThread))
                = 0 then 4
            else scan_get_temporary_storage_bytes size
              (wrap32 (BlockSize * ItemsPerThread))
          output := output
          kernels := 0 } := by
  rw [scan_impl_full]

end scan_full

/-! ## Claims on the calls of the segmented radix sort -/

section claims_radix_calls

/-- C13 (pointer-pair result placement). For every bit range `begin_bit < end_bit` (with
`end_bit + 8 ≤ 2^32`) and enough fuel for the digit passes, the work call of
`segmented_radix_sort_impl` in the pointer-pair mode (`keys_tmp == nullptr`), ascending
or descending, with or without values, returns after `ceil((end_bit - begin_bit) / 8)`
digit passes; the last pass writes to `keys_output` and `values_output`, and
`is_result_in_output` is `true` on return, whatever the parity of the number of passes
and whatever the variable held before. -/
theorem pointer_pair_result_in_output {K V : Type} (fuel : Nat)
    (Descending with_values : Bool) (encode : K → Nat) (mem : radix_memory K V)
    (temporary_storage keys_input keys_output values_input values_output size : Nat)
    (flag : Bool) (segments : Nat) (begin_offsets end_offsets : Nat → Nat)
    (begin_bit end_bit : Nat)
    (hbits : begin_bit < end_bit) (hend : end_bit + 8 ≤ 4294967296)
    (hfuel : end_bit ≤ begin_bit + 8 * fuel) :
    ∃ st p, segmented_radix_sort_impl fuel Descending with_values encode mem
          temporary_storage keys_input 0 keys_output values_input 0 values_output size
          flag segments begin_offsets end_offsets begin_bit end_bit = some st
      ∧ st.passes.length = (end_bit - begin_bit + 7) / 8
      ∧ st.passes.getLast? = some p
      ∧ p.keys_output = keys_output
      ∧ p.values_output = values_output
      ∧ st.is_result_in_output = true := by
  obtain ⟨st, p, hrun, hlast, hlen, _, hk, hv, hptr, _⟩ :=
    segmented_radix_sort_impl_last_pass fuel Descending with_values encode mem
      temporary_storage keys_input 0 keys_output values_input 0 values_output size flag
      segments begin_offsets end_offsets begin_bit end_bit hbits hend hfuel
  have hres := hptr rfl
  rw [hres, if_pos rfl] at hk hv
  exact ⟨st, p, hrun, hlen, hlast, hk, hv, hres⟩

/-- C13, witness: the documented example on the bits `0..16`, two digit passes, the
caller's variable holding `false` before the call. -/
theorem pointer_pair_result_in_output_witness :
    0 < 16 ∧ 16 + 8 ≤ 4294967296 ∧ 16 ≤ 0 + 8 * 2
    ∧ ∃ st p, segmented_radix_sort_impl 2 false true id sort_example_memory 3 1 0 2 1 0 2 8
          false 3 sort_example_offsets (fun s => sort_example_offsets (s + 1)) 0 16
          = some st
      ∧ st.passes.length = (16 - 0 + 7) / 8
      ∧ st.passes.getLast? = some p
      ∧ p.keys_output = 2
      ∧ p.values_output = 2
      ∧ st.is_result_in_output = true :=
  ⟨by decide, by decide, by decide,
    pointer_pair_result_in_output 2 false true id sort_example_memory 3 1 2 1 2 8 false 3
      sort_example_offsets (fun s => sort_example_offsets (s + 1)) 0 16 (by decide)
      (by decide) (by decide)⟩

/-- C12 (double-buffer selector). For every bit range `begin_bit < end_bit` (with
`end_bit + 8 ≤ 2^32`, any number of digit passes) and enough fuel, the work call
(`temporary_storage` not null) of the `double_buffer` overloads of
`segmented_radix_sort_keys`, `segmented_radix_sort_keys_desc`,
`segmented_radix_sort_pairs` and `segmented_radix_sort_pairs_desc` returns, and
`keys.current()` after the call is the buffer the last digit pass wrote: either the last
pass wrote the buffer that was `alternate()` at entry and the selector is swapped, or it
wrote the buffer that was `current()` at entry and the selector is as it was; in the
pairs overloads the same holds for `values`, which is swapped together with `keys`. -/
theorem double_buffer_selector {K V : Type} (fuel : Nat) (encode : K → Nat)
    (align_size : Nat → Nat) (sizeof_key sizeof_value : Nat)
    (keys_memory : radix_memory K Unit) (mem : radix_memory K V)
    (temporary_storage storage_size : Nat) (keys values : double_buffer) (size : Nat)
    (uninit : Bool) (segments : Nat) (begin_offsets end_offsets : Nat → Nat)
    (begin_bit end_bit : Nat)
    (hbits : begin_bit < end_bit) (hend : end_bit + 8 ≤ 4294967296)
    (hfuel : end_bit ≤ begin_bit + 8 * fuel) (hts : temporary_storage ≠ 0) :
    (∃ r p, segmented_radix_sort_keys_double_buffer fuel encode align_size sizeof_key
          keys_memory temporary_storage storage_size keys size uninit segments
          begin_offsets end_offsets begin_bit end_bit = some r
      ∧ r.outcome.passes.getLast? = some p
      ∧ r.keys.current = p.keys_output
      ∧ ((p.keys_output = keys.alternate ∧ r.keys = keys.swap)
        ∨ (p.keys_output = keys.current ∧ r.keys = keys)))
    ∧ (∃ r p, segmented_radix_sort_keys_desc_double_buffer fuel encode align_size
          sizeof_key keys_memory temporary_storage storage_size keys size uninit segments
          begin_offsets end_offsets begin_bit end_bit = some r
      ∧ r.outcome.passes.getLast? = some p
      ∧ r.keys.current = p.keys_output
      ∧ ((p.keys_output = keys.alternate ∧ r.keys = keys.swap)
        ∨ (p.keys_output = keys.current ∧ r.keys = keys)))
    ∧ (∃ r p, segmented_radix_sort_pairs_double_buffer_full fuel encode align_size
          sizeof_key sizeof_value mem temporary_storage storage_size keys values size
          uninit segments begin_offsets end_offsets begin_bit end_bit = some r
      ∧ r.outcome.passes.getLast? = some p
      ∧ r.keys.current = p.keys_output
      ∧ r.values.current = p.values_output
      ∧ ((p.keys_output = keys.alternate ∧ p.values_output = values.alternate
            ∧ r.keys = keys.swap ∧ r.values = values.swap)
        ∨ (p.keys_output = keys.current ∧ p.values_output = values.current
            ∧ r.keys = keys ∧ r.values = values)))
    ∧ (∃ r p, segmented_radix_sort_pairs_desc_double_buffer_full fuel encode align_size
          sizeof_key sizeof_value mem temporary_storage storage_size keys values size
          uninit segments begin_offsets end_offsets begin_bit end_bit = some r
      ∧ r.outcome.passes.getLast? = some p
      ∧ r.keys.current = p.keys_output
      ∧ r.values.current = p.values_output
      ∧ ((p.keys_output = keys.alternate ∧ p.values_output = values.alternate
            ∧ r.keys = keys.swap ∧ r.values = values.swap)
        ∨ (p.keys_output = keys.current ∧ p.values_output = values.current
            ∧ r.keys = keys ∧ r.values = values))) := by
  have hkeys : ∀ Descending : Bool, ∃ o p,
      segmented_radix_sort_impl_full fuel Descending false encode align_size sizeof_key 1
        keys_memory temporary_storage storage_size keys.current keys.current
        keys.alternate 0 0 0 size uninit segments begin_offsets end_offsets begin_bit
        end_bit = some o
      ∧ o.passes.getLast? = some p
      ∧ p.keys_output
        = (if o.is_result_in_output = true then keys.alternate else keys.current) := by
    intro Descending
    obtain ⟨o, p, hrun, hlast, _, hk, _⟩ := double_buffer_last_pass fuel Descending false
      encode align_size sizeof_key 1 keys_memory temporary_storage storage_size
      keys.current keys.alternate 0 0 size uninit segments begin_offsets end_offsets
      begin_bit end_bit hbits hend hfuel hts
    exact ⟨o, p, hrun, hlast, hk⟩
  have hpairs : ∀ Descending : Bool, ∃ o p,
      segmented_radix_sort_impl_full fuel Descending true encode align_size sizeof_key
        sizeof_value mem temporary_storage storage_size keys.current keys.current
        keys.alternate values.current values.current values.alternate size uninit segments
        begin_offsets end_offsets begin_bit end_bit = some o
      ∧ o.passes.getLast? = some p
      ∧ p.keys_output
        = (if o.is_result_in_output = true then keys.alternate else keys.current)
      ∧ p.values_output
        = (if o.is_result_in_output = true then values.alternate else values.current) := by
    intro Descending
    obtain ⟨o, p, hrun, hlast, _, hk, hv⟩ := double_buffer_last_pass fuel Descending true
      encode align_size sizeof_key sizeof_value mem temporary_storage storage_size
      keys.current keys.alternate values.current values.alternate size uninit segments
      begin_offsets end_offsets begin_bit end_bit hbits hend hfuel hts
    exact ⟨o, p, hrun, hlast, hk, hv⟩
  refine ⟨?_, ?_, ?_, ?_⟩
  · obtain ⟨o, p, hrun, hlast, hk⟩ := hkeys false
    unfold segmented_radix_sort_keys_double_buffer
    rw [hrun, Option.map_some']
    cases hflag : o.is_result_in_output
    · rw [hflag, if_neg (by simp)] at hk
      rw [if_neg (by simp)]
      exact ⟨_, p, rfl, hlast, hk.symm, Or.inr ⟨hk, rfl⟩⟩
    · rw [hflag, if_pos rfl] at hk
      rw [if_pos ⟨hts, rfl⟩]
      exact ⟨_, p, rfl, hlast, hk.symm, Or.inl ⟨hk, rfl⟩⟩
  · obtain ⟨o, p, hrun, hlast, hk⟩ := hkeys true
    unfold segmented_radix_sort_keys_desc_double_buffer
    rw [hrun, Option.map_some']
    cases hflag : o.is_result_in_output
    · rw [hflag, if_neg (by simp)] at hk
      rw [if_neg (by simp)]
      exact ⟨_, p, rfl, hlast, hk.symm, Or.inr ⟨hk, rfl⟩⟩
    · rw [hflag, if_pos rfl] at hk
      rw [if_pos ⟨hts, rfl⟩]
      exact ⟨_, p, rfl, hlast, hk.symm, Or.inl ⟨hk, rfl⟩⟩
  · obtain ⟨o, p, hrun, hlast, hk, hv⟩ := hpairs false
    unfold segmented_radix_sort_pairs_double_buffer_full
    rw [hrun, Option.map_some']
    cases hflag : o.is_result_in_output
    · rw [hflag, if_neg (by simp)] at hk hv
      rw [if_neg (by simp)]
      exact ⟨_, p, rfl, hlast, hk.symm, hv.symm, Or.inr ⟨hk, hv, rfl, rfl⟩⟩
    · rw [hflag, if_pos rfl] at hk hv
      rw [if_pos ⟨hts, rfl⟩]
      exact ⟨_, p, rfl, hlast, hk.symm, hv.symm, Or.inl ⟨hk, hv, rfl, rfl⟩⟩
  · obtain ⟨o, p, hrun, hlast, hk, hv⟩ := hpairs true
    unfold segmented_radix_sort_pairs_desc_double_buffer_full
    rw [hrun, Option.map_some']
    cases hflag : o.is_result_in_output
    · rw [hflag, if_neg (by simp)] at hk hv
      rw [if_neg (by simp)]
      exact ⟨_, p, rfl, hlast, hk.symm, hv.symm, Or.inr ⟨hk, hv, rfl, rfl⟩⟩
    · rw [hflag, if_pos rfl] at hk hv
      rw [if_pos ⟨hts, rfl⟩]
      exact ⟨_, p, rfl, hlast, hk.symm, hv.symm, Or.inl ⟨hk, hv, rfl, rfl⟩⟩

/-- C12, witness: the documented example on the bits `0..16` (two digit passes), the
buffers `1` (current) and `2` (alternate), scratch at pointer `3`. -/
theorem double_buffer_selector_witness :
    0 < 16 ∧ 16 + 8 ≤ 4294967296 ∧ 16 ≤ 0 + 8 * 2 ∧ 3 ≠ 0
    ∧ (∃ r p, segmented_radix_sort_keys_double_buffer 2 id align_size_256 4
          keys_example_memory 3 2048 (double_buffer.mk 1 2) 8 true 3 sort_example_offsets
          (fun s => sort_example_offsets (s + 1)) 0 16 = some r
      ∧ r.outcome.passes.getLast? = some p
      ∧ r.keys.current = p.keys_output
      ∧ ((p.keys_output = (double_buffer.mk 1 2).alternate
            ∧ r.keys = (double_buffer.mk 1 2).swap)
        ∨ (p.keys_output = (double_buffer.mk 1 2).current
            ∧ r.keys = double_buffer.mk 1 2)))
    ∧ (∃ r p, segmented_radix_sort_keys_desc_double_buffer 2 id align_size_256 4
          keys_example_memory 3 2048 (double_buffer.mk 1 2) 8 true 3 sort_example_offsets
          (fun s => sort_example_offsets (s + 1)) 0 16 = some r
      ∧ r.outcome.passes.getLast? = some p
      ∧ r.keys.current = p.keys_output
      ∧ ((p.keys_output = (double_buffer.mk 1 2).alternate
            ∧ r.keys = (double_buffer.mk 1 2).swap)
        ∨ (p.keys_output = (double_buffer.mk 1 2).current
            ∧ r.keys = double_buffer.mk 1 2)))
    ∧ (∃ r p, segmented_radix_sort_pairs_double_buffer_full 2 id align_size_256 4 4
          sort_example_memory 3 2048 (double_buffer.mk 1 2) (double_buffer.mk 1 2) 8 true
          3 sort_example_offsets (fun s => sort_example_offsets (s + 1)) 0 16 = some r
      ∧ r.outcome.passes.getLast? = some p
      ∧ r.keys.current = p.keys_output
      ∧ r.values.current = p.values_output
      ∧ ((p.keys_output = (double_buffer.mk 1 2).alternate
            ∧ p.values_output = (double_buffer.mk 1 2).alternate
            ∧ r.keys = (double_buffer.mk 1 2).swap
            ∧ r.values = (double_buffer.mk 1 2).swap)
        ∨ (p.keys_output = (double_buffer.mk 1 2).current
            ∧ p.values_output = (double_buffer.mk 1 2).current
            ∧ r.keys = double_buffer.mk 1 2 ∧ r.values = double_buffer.mk 1 2)))
    ∧ (∃ r p, segmented_radix_sort_pairs_desc_double_buffer_full 2 id align_size_256 4 4
          sort_example_memory 3 2048 (double_buffer.mk 1 2) (double_buffer.mk 1 2) 8 true
          3 sort_example_offsets (fun s => sort_example_offsets (s + 1)) 0 16 = some r
      ∧ r.outcome.passes.getLast? = some p
      ∧ r.keys.current = p.keys_output
      ∧ r.values.current = p.values_output
      ∧ ((p.keys_output = (double_buffer.mk 1 2).alternate
            ∧ p.values_output = (double_buffer.mk 1 2).alternate
            ∧ r.keys = (double_buffer.mk 1 2).swap
            ∧ r.values = (double_buffer.mk 1 2).swap)
        ∨ (p.keys_output = (double_buffer.mk 1 2).current
            ∧ p.values_output = (double_buffer.mk 1 2).current
            ∧ r.keys = double_buffer.mk 1 2 ∧ r.values = double_buffer.mk 1 2))) :=
  ⟨by decide, by decide, by decide, by decide,
    double_buffer_selector 2 id align_size_256 4 4 keys_example_memory sort_example_memory
      3 2048 (double_buffer.mk 1 2) (double_buffer.mk 1 2) 8 true 3 sort_example_offsets
      (fun s => sort_example_offsets (s + 1)) 0 16 (by decide) (by decide) (by decide)
      (by decide)⟩

/-- The double-buffer selector evaluated on the documented example: after one digit pass
(bits `0..5`) the selector is swapped to the buffer `2`, after two digit passes (bits
`0..16`) it is the buffer `1` it was at entry, and after three (bits `0..24`) it is
swapped again; the last pass wrote the selected buffer each time. -/
theorem selector_after_passes_example :
    (segmented_radix_sort_keys_double_buffer 1 id align_size_256 4 keys_example_memory 3
        2048 (double_buffer.mk 1 2) 8 false 3 sort_example_offsets
        (fun s => sort_example_offsets (s + 1)) 0 5).map
        (fun r => (r.keys.current, r.outcome.passes.map (fun p => p.keys_output)))
      = some (2, [2])
    ∧ (segmented_radix_sort_keys_double_buffer 2 id align_size_256 4 keys_example_memory 3
        2048 (double_buffer.mk 1 2) 8 false 3 sort_example_offsets
        (fun s => sort_example_offsets (s + 1)) 0 16).map
        (fun r => (r.keys.current, r.outcome.passes.map (fun p => p.keys_output)))
      = some (1, [2, 1])
    ∧ (segmented_radix_sort_keys_double_buffer 3 id align_size_256 4 keys_example_memory 3
        2048 (double_buffer.mk 1 2) 8 false 3 sort_example_offsets
        (fun s => sort_example_offsets (s + 1)) 0 24).map
        (fun r => (r.keys.current, r.outcome.passes.map (fun p => p.keys_output)))
      = some (2, [2, 1, 2]) := by
  decide

/-- C14 (inputs are not altered). For every bit range (with `end_bit + 8 ≤ 2^32`) and
enough fuel for its digit passes, with the input arrays different from the output arrays
and from the scratch buffer: the work call that the pointer-pair overloads make
(`segmented_radix_sort_impl` with `keys_tmp == nullptr`, ascending or descending)
returns, no digit pass has `keys_input` or `values_input` as its destination, no pass
after the first reads them, and they hold after the call what they held before; so do
the keys after the pointer-pair overloads of `segmented_radix_sort_keys` and
`segmented_radix_sort_keys_desc`, and the keys and the values after those of
`segmented_radix_sort_pairs` and `segmented_radix_sort_pairs_desc`. -/
theorem sort_inputs_unaltered {K V : Type} (fuel : Nat) (encode : K → Nat)
    (align_size : Nat → Nat) (sizeof_key : Nat) (keys_memory : radix_memory K Unit)
    (mem : radix_memory K V)
    (temporary_storage storage_size keys_input keys_output values_input values_output
      size : Nat) (ignored : Bool) (segments : Nat) (begin_offsets end_offsets : Nat → Nat)
    (begin_bit end_bit : Nat) (hend : end_bit + 8 ≤ 4294967296)
    (hfuel : end_bit ≤ begin_bit + 8 * fuel) (hts : temporary_storage ≠ 0)
    (hko : keys_input ≠ keys_output) (hkt : keys_input ≠ temporary_storage)
    (hvo : values_input ≠ values_output) (hvt : values_input ≠ temporary_storage) :
    (∀ Descending : Bool, ∃ st,
        segmented_radix_sort_impl fuel Descending true encode mem temporary_storage
          keys_input 0 keys_output values_input 0 values_output size ignored segments
          begin_offsets end_offsets begin_bit end_bit = some st
        ∧ (∀ p, p ∈ st.passes →
            p.keys_output ≠ keys_input ∧ p.values_output ≠ values_input)
        ∧ (∀ k p, st.passes[k]? = some p → 0 < k →
            p.keys_input ≠ keys_input ∧ p.values_input ≠ values_input)
        ∧ st.memory.keys keys_input = mem.keys keys_input
        ∧ st.memory.values values_input = mem.values values_input)
    ∧ (∃ o, segmented_radix_sort_keys fuel encode align_size sizeof_key keys_memory
          temporary_storage storage_size keys_input keys_output size ignored segments
          begin_offsets end_offsets begin_bit end_bit = some o
        ∧ (∀ p, p ∈ o.passes → p.keys_output ≠ keys_input)
        ∧ (∀ k p, o.passes[k]? = some p → 0 < k → p.keys_input ≠ keys_input)
        ∧ o.memory.keys keys_input = keys_memory.keys keys_input)
    ∧ (∃ o, segmented_radix_sort_keys_desc fuel encode align_size sizeof_key keys_memory
          temporary_storage storage_size keys_input keys_output size ignored segments
          begin_offsets end_offsets begin_bit end_bit = some o
        ∧ (∀ p, p ∈ o.passes → p.keys_output ≠ keys_input)
        ∧ (∀ k p, o.passes[k]? = some p → 0 < k → p.keys_input ≠ keys_input)
        ∧ o.memory.keys keys_input = keys_memory.keys keys_input)
    ∧ (∃ m, segmented_radix_sort_pairs fuel encode mem temporary_storage keys_input
          keys_output values_input values_output size ignored segments begin_offsets
          end_offsets begin_bit end_bit = some m
        ∧ m.keys keys_input = mem.keys keys_input
        ∧ m.values values_input = mem.values values_input)
    ∧ (∃ m, segmented_radix_sort_pairs_desc fuel encode mem temporary_storage keys_input
          keys_output values_input values_output size ignored segments begin_offsets
          end_offsets begin_bit end_bit = some m
        ∧ m.keys keys_input = mem.keys keys_input
        ∧ m.values values_input = mem.values values_input) := by
  have hpairs : ∀ Descending : Bool, ∃ st,
      segmented_radix_sort_impl fuel Descending true encode mem temporary_storage
        keys_input 0 keys_output values_input 0 values_output size ignored segments
        begin_offsets end_offsets begin_bit end_bit = some st
      ∧ (∀ p, p ∈ st.passes →
          p.keys_output ≠ keys_input ∧ p.values_output ≠ values_input)
      ∧ (∀ k p, st.passes[k]? = some p → 0 < k →
          p.keys_input ≠ keys_input ∧ p.values_input ≠ values_input)
      ∧ st.memory.keys keys_input = mem.keys keys_input
      ∧ st.memory.values values_input = mem.values values_input := by
    intro Descending
    obtain ⟨st, hrun, h1, h2, h3, h4⟩ := segmented_radix_sort_impl_input_frame fuel
      Descending true encode mem temporary_storage keys_input keys_output values_input
      values_output size ignored segments begin_offsets end_offsets begin_bit end_bit
      hend hfuel hko hkt
    obtain ⟨h5, h6, h7⟩ := h4 hvo (by rw [if_pos rfl]; exact hvt)
    exact ⟨st, hrun, fun p hp => ⟨h1 p hp, h5 p hp⟩,
      fun k p hp hk => ⟨h2 k p hp hk, h6 k p hp hk⟩, h3, h7⟩
  have hkeys : ∀ Descending : Bool, ∃ o,
      segmented_radix_sort_impl_full fuel Descending false encode align_size sizeof_key 1
        keys_memory temporary_storage storage_size keys_input 0 keys_output 0 0 0 size
        ignored segments begin_offsets end_offsets begin_bit end_bit = some o
      ∧ (∀ p, p ∈ o.passes → p.keys_output ≠ keys_input)
      ∧ (∀ k p, o.passes[k]? = some p → 0 < k → p.keys_input ≠ keys_input)
      ∧ o.memory.keys keys_input = keys_memory.keys keys_input := by
    intro Descending
    obtain ⟨st, hrun, h1, h2, h3, _⟩ := segmented_radix_sort_impl_input_frame fuel
      Descending false encode keys_memory temporary_storage keys_input keys_output 0 0
      size ignored segments begin_offsets end_offsets begin_bit end_bit hend hfuel hko hkt
    have hfull := segmented_radix_sort_impl_full_work fuel Descending false encode
      align_size sizeof_key 1 keys_memory temporary_storage storage_size keys_input 0
      keys_output 0 0 0 size ignored segments begin_offsets end_offsets begin_bit end_bit
      hts
    rw [hrun, Option.map_some'] at hfull
    exact ⟨_, hfull, h1, h2, h3⟩
  refine ⟨hpairs, hkeys false, hkeys true, ?_, ?_⟩
  · obtain ⟨st, hrun, _, _, h3, h4⟩ := hpairs false
    exact ⟨st.memory, by unfold segmented_radix_sort_pairs; rw [hrun]; rfl, h3, h4⟩
  · obtain ⟨st, hrun, _, _, h3, h4⟩ := hpairs true
    exact ⟨st.memory, by unfold segmented_radix_sort_pairs_desc; rw [hrun]; rfl, h3, h4⟩

/-- C14, witness: the documented example on the bits `0..16`, input arrays at pointer
`1`, output arrays at pointer `2`, scratch at pointer `3`. -/
theorem sort_inputs_unaltered_witness :
    16 + 8 ≤ 4294967296 ∧ 16 ≤ 0 + 8 * 2 ∧ 3 ≠ 0 ∧ 1 ≠ 2 ∧ 1 ≠ 3
    ∧ (∃ o, segmented_radix_sort_keys 2 id align_size_256 4 keys_example_memory 3 2048 1 2
          8 false 3 sort_example_offsets (fun s => sort_example_offsets (s + 1)) 0 16
          = some o
        ∧ (∀ p, p ∈ o.passes → p.keys_output ≠ 1)
        ∧ (∀ k p, o.passes[k]? = some p → 0 < k → p.keys_input ≠ 1)
        ∧ o.memory.keys 1 = keys_example_memory.keys 1)
    ∧ (∃ m, segmented_radix_sort_pairs 2 id sort_example_memory 3 1 2 1 2 8 false 3
          sort_example_offsets (fun s => sort_example_offsets (s + 1)) 0 16 = some m
        ∧ m.keys 1 = sort_example_memory.keys 1
        ∧ m.values 1 = sort_example_memory.values 1) :=
  ⟨by decide, by decide, by decide, by decide, by decide,
    (sort_inputs_unaltered 2 id align_size_256 4 keys_example_memory sort_example_memory
      3 2048 1 2 1 2 8 false 3 sort_example_offsets
      (fun s => sort_example_offsets (s + 1)) 0 16 (by decide) (by decide) (by decide)
      (by decide) (by decide) (by decide) (by decide)).2.1,
    (sort_inputs_unaltered 2 id align_size_256 4 keys_example_memory sort_example_memory
      3 2048 1 2 1 2 8 false 3 sort_example_offsets
      (fun s => sort_example_offsets (s + 1)) 0 16 (by decide) (by decide) (by decide)
      (by decide) (by decide) (by decide) (by decide)).2.2.2.1⟩

/-- C19 (empty radix sort), as the code has it. For every work call of
`segmented_radix_sort_impl` with `size = 0` (every segment inside `[0, size)`, so
empty), either API mode, every bit range `begin_bit < end_bit` (with
`end_bit + 8 ≤ 2^32`) and enough fuel: the call returns and no data is moved, the memory
being what it was; `is_result_in_output` is `true` on return in the pointer-pair mode,
and in the double-buffer mode it is `true` exactly when the number of digit passes
`ceil((end_bit - begin_bit) / 8)` is odd. -/
theorem empty_sort_moves_no_data {K V : Type} (fuel : Nat)
    (Descending with_values : Bool) (encode : K → Nat) (mem : radix_memory K V)
    (temporary_storage keys_input keys_tmp keys_output values_input values_tmp
      values_output size : Nat) (flag : Bool) (segments : Nat)
    (begin_offsets end_offsets : Nat → Nat) (begin_bit end_bit : Nat)
    (hbits : begin_bit < end_bit) (hend : end_bit + 8 ≤ 4294967296)
    (hfuel : end_bit ≤ begin_bit + 8 * fuel) (hsize : size = 0)
    (hsegs : ∀ s, s < segments → end_offsets s ≤ size) :
    ∃ st, segmented_radix_sort_impl fuel Descending with_values encode mem
          temporary_storage keys_input keys_tmp keys_output values_input values_tmp
          values_output size flag segments begin_offsets end_offsets begin_bit end_bit
        = some st
      ∧ st.memory = mem
      ∧ (keys_tmp = 0 → st.is_result_in_output = true)
      ∧ (keys_tmp ≠ 0 →
          st.is_result_in_output = decide ((end_bit - begin_bit + 7) / 8 % 2 = 1)) := by
  obtain ⟨st, _, hrun, _, _, hmem, _, _, hptr, hdb⟩ :=
    segmented_radix_sort_impl_last_pass fuel Descending with_values encode mem
      temporary_storage keys_input keys_tmp keys_output values_input values_tmp
      values_output size flag segments begin_offsets end_offsets begin_bit end_bit hbits
      hend hfuel
  refine ⟨st, hrun, ?_, hptr, hdb⟩
  rw [hmem]
  exact run_passes_empty Descending encode segments begin_offsets end_offsets
    (fun s hs => by have := hsegs s hs; omega) _ mem

/-- C19, witness: an empty sort of one empty segment on the bits `0..16` in the
double-buffer mode (buffers `1` and `2`). -/
theorem empty_sort_moves_no_data_witness :
    0 < 16 ∧ 16 + 8 ≤ 4294967296 ∧ 16 ≤ 0 + 8 * 2 ∧ 0 = 0
    ∧ (∀ s, s < 1 → (fun _ : Nat => 0) s ≤ 0)
    ∧ ∃ st, segmented_radix_sort_impl 2 false true id sort_example_memory 3 1 1 2 1 1 2 0
          true 1 (fun _ => 0) (fun _ => 0) 0 16 = some st
      ∧ st.memory = sort_example_memory
      ∧ (1 = 0 → st.is_result_in_output = true)
      ∧ (1 ≠ 0 → st.is_result_in_output = decide ((16 - 0 + 7) / 8 % 2 = 1)) :=
  ⟨by decide, by decide, by decide, rfl, fun _ _ => Nat.le_refl 0,
    empty_sort_moves_no_data 2 false true id sort_example_memory 3 1 1 2 1 1 2 0 true 1
      (fun _ => 0) (fun _ => 0) 0 16 (by decide) (by decide) (by decide) rfl
      (fun _ _ => Nat.le_refl 0)⟩

/-- C19 fails on the code in the double-buffer mode. A work call with `size = 0`, one
empty segment, the bits `0..16` (a valid range, two digit passes) and the buffers `1`
and `2` as `keys_tmp` and `keys_output` returns with `is_result_in_output = false`,
although the caller's variable held `true` before the call: the second pass sets it to
the value `to_output` has in that pass. -/
theorem empty_sort_result_not_in_output :
    0 < 16 ∧ 16 + 8 ≤ 4294967296
    ∧ ¬ ∃ st, segmented_radix_sort_impl 2 false true id sort_example_memory 3 1 1 2 1 1 2 0
          true 1 (fun _ => 0) (fun _ => 0) 0 16 = some st
        ∧ st.is_result_in_output = true := by
  refine ⟨by decide, by decide, ?_⟩
  rintro ⟨st, hst, hflag⟩
  have hval : (segmented_radix_sort_impl 2 false true id sort_example_memory 3 1 1 2 1 1 2 0
      true 1 (fun _ => 0) (fun _ => 0) 0 16).map (fun st => st.is_result_in_output)
      = some false := by
    decide
  rw [hst] at hval
  have hfalse : st.is_result_in_output = false := Option.some.inj hval
  rw [hflag] at hfalse
  exact Bool.noConfusion hfalse

/-- C20 (bit range), as the code has it: `segmented_radix_sort_impl` does not validate
the bit range. For every work call with `begin_bit >= end_bit` no digit pass is launched
and the memory is unchanged, but `is_result_in_output` is left as the caller's variable
was, and the `double_buffer` overload of `segmented_radix_sort_keys` swaps the selector
according to that uninitialised variable; for every work call with
`begin_bit < end_bit` (and `end_bit + 8 ≤ 2^32`, enough fuel), whatever `sizeof(Key)`
is, so also when `end_bit > 8 * sizeof(Key)`, the `ceil((end_bit - begin_bit) / 8)`
digit passes are launched. -/
theorem bit_range_not_validated {K V : Type} (fuel : Nat) (Descending with_values : Bool)
    (encode : K → Nat) (align_size : Nat → Nat) (sizeof_key sizeof_value : Nat)
    (keys_memory : radix_memory K Unit) (mem : radix_memory K V)
    (temporary_storage storage_size keys_input keys_tmp keys_output values_input values_tmp
      values_output size : Nat) (keys : double_buffer) (flag : Bool) (segments : Nat)
    (begin_offsets end_offsets : Nat → Nat) (begin_bit end_bit : Nat)
    (hts : temporary_storage ≠ 0) :
    (end_bit ≤ begin_bit →
      (∃ o, segmented_radix_sort_impl_full fuel Descending with_values encode align_size
          sizeof_key sizeof_value mem temporary_storage storage_size keys_input keys_tmp
          keys_output values_input values_tmp values_output size flag segments
          begin_offsets end_offsets begin_bit end_bit = some o
        ∧ o.passes = [] ∧ o.memory = mem ∧ o.is_result_in_output = flag)
      ∧ (∃ r, segmented_radix_sort_keys_double_buffer fuel encode align_size sizeof_key
          keys_memory temporary_storage storage_size keys size flag segments begin_offsets
          end_offsets begin_bit end_bit = some r
        ∧ r.outcome.passes = []
        ∧ r.keys = (if flag = true then keys.swap else keys)))
    ∧ (begin_bit < end_bit → end_bit + 8 ≤ 4294967296 → end_bit ≤ begin_bit + 8 * fuel →
      ∃ o, segmented_radix_sort_impl_full fuel Descending with_values encode align_size
          sizeof_key sizeof_value mem temporary_storage storage_size keys_input keys_tmp
          keys_output values_input values_tmp values_output size flag segments
          begin_offsets end_offsets begin_bit end_bit = some o
        ∧ o.passes.length = (end_bit - begin_bit + 7) / 8
        ∧ 0 < o.passes.length) := by
  refine ⟨fun hbits => ⟨?_, ?_⟩, fun hbits hend hfuel => ?_⟩
  · obtain ⟨st, hrun, h1, h2, h3⟩ := segmented_radix_sort_impl_no_pass fuel Descending
      with_values encode mem temporary_storage keys_input keys_tmp keys_output values_input
      values_tmp values_output size flag segments begin_offsets end_offsets begin_bit
      end_bit hbits
    have hfull := segmented_radix_sort_impl_full_work fuel Descending with_values encode
      align_size sizeof_key sizeof_value mem temporary_storage storage_size keys_input
      keys_tmp keys_output values_input values_tmp values_output size flag segments
      begin_offsets end_offsets begin_bit end_bit hts
    rw [hrun, Option.map_some'] at hfull
    exact ⟨_, hfull, h1, h2, h3⟩
  · obtain ⟨st, hrun, h1, _, h3⟩ := segmented_radix_sort_impl_no_pass fuel false false
      encode keys_memory temporary_storage keys.current keys.current keys.alternate 0 0 0
      size flag segments begin_offsets end_offsets begin_bit end_bit hbits
    have hfull := segmented_radix_sort_impl_full_work fuel false false encode align_size
      sizeof_key 1 keys_memory temporary_storage storage_size keys.current keys.current
      keys.alternate 0 0 0 size flag segments begin_offsets end_offsets begin_bit end_bit
      hts
    rw [hrun, Option.map_some'] at hfull
    unfold segmented_radix_sort_keys_double_buffer
    rw [hfull, Option.map_some']
    cases hflag : flag
    · rw [hflag] at h3
      rw [if_neg (by simp [h3])]
      exact ⟨_, rfl, h1, by simp⟩
    · rw [hflag] at h3
      rw [if_pos ⟨hts, h3⟩]
      exact ⟨_, rfl, h1, by simp⟩
  · obtain ⟨st, _, hrun, _, hlen, _⟩ := segmented_radix_sort_impl_last_pass fuel Descending
      with_values encode mem temporary_storage keys_input keys_tmp keys_output values_input
      values_tmp values_output size flag segments begin_offsets end_offsets begin_bit
      end_bit hbits hend hfuel
    have hfull := segmented_radix_sort_impl_full_work fuel Descending with_values encode
      align_size sizeof_key sizeof_value mem temporary_storage storage_size keys_input
      keys_tmp keys_output values_input values_tmp values_output size flag segments
      begin_offsets end_offsets begin_bit end_bit hts
    rw [hrun, Option.map_some'] at hfull
    refine ⟨_, hfull, hlen, ?_⟩
    show 0 < st.passes.length
    rw [hlen]
    omega

/-- C20, witness: the keys of the documented example, 4-byte keys, scratch at pointer
`3`: the empty bit range `8..8`, and the bit range `0..40` beyond the 32 bits of the
key. -/
theorem bit_range_not_validated_witness :
    3 ≠ 0 ∧ 8 ≤ 8 ∧ 0 < 40 ∧ 40 + 8 ≤ 4294967296 ∧ 40 ≤ 0 + 8 * 5
    ∧ ((∃ o, segmented_radix_sort_impl_full 1 false false id align_size_256 4 1
          keys_example_memory 3 2048 1 0 2 0 0 0 8 true 3 sort_example_offsets
          (fun s => sort_example_offsets (s + 1)) 8 8 = some o
        ∧ o.passes = [] ∧ o.memory = keys_example_memory ∧ o.is_result_in_output = true)
      ∧ (∃ r, segmented_radix_sort_keys_double_buffer 1 id align_size_256 4
          keys_example_memory 3 2048 (double_buffer.mk 1 2) 8 true 3 sort_example_offsets
          (fun s => sort_example_offsets (s + 1)) 8 8 = some r
        ∧ r.outcome.passes = []
        ∧ r.keys = (if true = true then (double_buffer.mk 1 2).swap
            else double_buffer.mk 1 2)))
    ∧ (∃ o, segmented_radix_sort_impl_full 5 false false id align_size_256 4 1
          keys_example_memory 3 2048 1 0 2 0 0 0 8 true 3 sort_example_offsets
          (fun s => sort_example_offsets (s + 1)) 0 40 = some o
        ∧ o.passes.length = (40 - 0 + 7) / 8
        ∧ 0 < o.passes.length) :=
  ⟨by decide, by decide, by decide, by decide, by decide,
    (bit_range_not_validated 1 false false id align_size_256 4 1 keys_example_memory
      keys_example_memory 3 2048 1 0 2 0 0 0 8 (double_buffer.mk 1 2) true 3
      sort_example_offsets (fun s => sort_example_offsets (s + 1)) 8 8 (by decide)).1
      (by decide),
    (bit_range_not_validated 5 false false id align_size_256 4 1 keys_example_memory
      keys_example_memory 3 2048 1 0 2 0 0 0 8 (double_buffer.mk 1 2) true 3
      sort_example_offsets (fun s => sort_example_offsets (s + 1)) 0 40 (by decide)).2
      (by decide) (by decide) (by decide)⟩

/-- C20 fails on the code. With 4-byte keys and the bit range `0..40`
(`end_bit > 8 * sizeof(Key) = 32`) the pointer-pair overload of
`segmented_radix_sort_keys` launches five digit passes; with the empty bit range `8..8`
the `double_buffer` overload launches no pass and returns the selector swapped when its
uninitialised local variable held `true`, not swapped when it held `false`. -/
theorem bit_range_invalid_accepted :
    8 * 4 < 40 ∧ 8 ≤ 8
    ∧ (segmented_radix_sort_keys 5 id align_size_256 4 keys_example_memory 3 2048 1 2 8
        false 3 sort_example_offsets (fun s => sort_example_offsets (s + 1)) 0 40).map
        (fun o => o.passes.map (fun p => (p.bit, p.current_radix_bits)))
      = some [(0, 8), (8, 8), (16, 8), (24, 8), (32, 8)]
    ∧ (segmented_radix_sort_keys_double_buffer 1 id align_size_256 4 keys_example_memory 3
        2048 (double_buffer.mk 1 2) 8 true 3 sort_example_offsets
        (fun s => sort_example_offsets (s + 1)) 8 8).map
        (fun r => (r.outcome.passes.length, r.keys.current))
      = some (0, 2)
    ∧ (segmented_radix_sort_keys_double_buffer 1 id align_size_256 4 keys_example_memory 3
        2048 (double_buffer.mk 1 2) 8 false 3 sort_example_offsets
        (fun s => sort_example_offsets (s + 1)) 8 8).map
        (fun r => (r.outcome.passes.length, r.keys.current))
      = some (0, 1) := by
  decide

/-- C15 (non-zero scratch size of the segmented radix sort) fails on the code for
`size = 0` in the pointer-pair mode. With an `align_size` that maps `0` to `0` (no byte
needs no rounding), the sizing call (`temporary_storage == nullptr`) of
`segmented_radix_sort_impl` with `keys_tmp == nullptr` and `size = 0` sets
`storage_size` to `0`, with or without values; in the double-buffer mode it sets
`storage_size` to `4` for every size. -/
theorem radix_storage_size_zero {K V : Type} (fuel : Nat) (Descending with_values : Bool)
    (encode : K → Nat) (align_size : Nat → Nat) (sizeof_key sizeof_value : Nat)
    (mem : radix_memory K V)
    (storage_size keys_input keys_tmp keys_output values_input values_tmp values_output
      size : Nat) (flag : Bool) (segments : Nat) (begin_offsets end_offsets : Nat → Nat)
    (begin_bit end_bit : Nat) (halign : align_size 0 = 0) :
    (∃ o, segmented_radix_sort_impl_full fuel Descending with_values encode align_size
        sizeof_key sizeof_value mem 0 storage_size keys_input 0 keys_output values_input 0
        values_output 0 flag segments begin_offsets end_offsets begin_bit end_bit = some o
      ∧ o.storage_size = 0)
    ∧ (keys_tmp ≠ 0 →
      ∃ o, segmented_radix_sort_impl_full fuel Descending with_values encode align_size
        sizeof_key sizeof_value mem 0 storage_size keys_input keys_tmp keys_output
        values_input values_tmp values_output size flag segments begin_offsets end_offsets
        begin_bit end_bit = some o
      ∧ o.storage_size = 4) := by
  refine ⟨⟨_, segmented_radix_sort_impl_full_sizing _ _ _ _ _ _ _ _ _ _ _ _ _ _ _ _ _ _ _
    _ _ _, ?_⟩, fun hdb => ⟨_, segmented_radix_sort_impl_full_sizing _ _ _ _ _ _ _ _ _ _ _
    _ _ _ _ _ _ _ _ _ _ _, ?_⟩⟩
  · have h0 : wrap64 0 = 0 := rfl
    show (if (0 : Nat) = 0 then
        wrap64 (align_size (wrap64 (0 * sizeof_key))
          + (if with_values = true then align_size (wrap64 (0 * sizeof_value)) else 0))
      else 4) = 0
    rw [if_pos rfl, Nat.zero_mul, Nat.zero_mul, h0, halign, ite_self]
    rfl
  · show (if keys_tmp = 0 then _ else 4) = 4
    rw [if_neg hdb]

/-- C15, witness: 4-byte keys and values, `align_size` the rounding up to a multiple of
`256`, the pointers of the documented example; the double-buffer sizing call is the one
for 8 items. -/
theorem radix_storage_size_zero_witness :
    align_size_256 0 = 0 ∧ 1 ≠ 0
    ∧ (∃ o, segmented_radix_sort_impl_full 1 false true id align_size_256 4 4
        sort_example_memory 0 12345 1 0 2 1 0 2 0 false 3 sort_example_offsets
        (fun s => sort_example_offsets (s + 1)) 0 32 = some o
      ∧ o.storage_size = 0)
    ∧ (∃ o, segmented_radix_sort_impl_full 1 false true id align_size_256 4 4
        sort_example_memory 0 12345 1 1 2 1 1 2 8 false 3 sort_example_offsets
        (fun s => sort_example_offsets (s + 1)) 0 32 = some o
      ∧ o.storage_size = 4) :=
  ⟨by decide, by decide,
    (radix_storage_size_zero 1 false true id align_size_256 4 4 sort_example_memory 12345 1
      1 2 1 1 2 8 false 3 sort_example_offsets (fun s => sort_example_offsets (s + 1)) 0 32
      (by decide)).1,
    (radix_storage_size_zero 1 false true id align_size_256 4 4 sort_example_memory 12345 1
      1 2 1 1 2 8 false 3 sort_example_offsets (fun s => sort_example_offsets (s + 1)) 0 32
      (by decide)).2 (by decide)⟩

/-- The sizing call of the pointer-pair overload of `segmented_radix_sort_keys`
evaluated with `align_size` the rounding up to a multiple of `256`: 4-byte keys need
`256` bytes for 8 keys and `0` bytes for no key. -/
theorem radix_storage_size_example :
    (segmented_radix_sort_keys 1 id align_size_256 4 keys_example_memory 0 12345 1 2 8
        false 3 sort_example_offsets (fun s => sort_example_offsets (s + 1)) 0 32).map
        (fun o => o.storage_size) = some 256
    ∧ (segmented_radix_sort_keys 1 id align_size_256 4 keys_example_memory 0 12345 1 2 0
        false 0 sort_example_offsets (fun s => sort_example_offsets (s + 1)) 0 32).map
        (fun o => o.storage_size) = some 0 := by
  decide

end claims_radix_calls

/-! ## Claims on the two-call protocol -/

section claims_two_calls

/-- C16 (non-zero scratch size of the scans). For every size (also `0` and the sizes
that fit one tile), every tile shape and every other argument, the call of `scan_impl`
with `temporary_storage == nullptr` returns and sets `storage_size` to
`scan_get_temporary_storage_bytes(size, items_per_block)` when that is not zero and to
`4` otherwise, so never to zero; the same holds for the sizing calls of
`inclusive_scan` and `exclusive_scan`, whose tile has `256 * 4` items. -/
theorem scan_storage_size_nonzero {α : Type}
    (scan_get_temporary_storage_bytes : Nat → Nat → Nat)
    (sizeof_result BlockSize ItemsPerThread : Nat) (scan_op : α → α → α) (dflt : α)
    (uninit : Nat → α) (fuel : Nat) (Exclusive : Bool) (storage_size : Nat)
    (input output : Nat → α) (initial_value : α) (size : Nat) :
    (∃ o, scan_impl_full scan_get_temporary_storage_bytes sizeof_result BlockSize
          ItemsPerThread scan_op dflt uninit fuel Exclusive none storage_size input output
          initial_value size = some o
      ∧ o.storage_size
        = (if scan_get_temporary_storage_bytes size (wrap32 (BlockSize * ItemsPerThread))
              = 0 then 4
            else scan_get_temporary_storage_bytes size
              (wrap32 (BlockSize * ItemsPerThread)))
      ∧ o.storage_size ≠ 0)
    ∧ (∃ o, inclusive_scan_full scan_get_temporary_storage_bytes sizeof_result fuel none
          storage_size input output dflt size scan_op uninit = some o
      ∧ o.storage_size
        = (if scan_get_temporary_storage_bytes size 1024 = 0 then 4
            else scan_get_temporary_storage_bytes size 1024)
      ∧ o.storage_size ≠ 0)
    ∧ (∃ o, exclusive_scan_full scan_get_temporary_storage_bytes sizeof_result fuel none
          storage_size input output initial_value dflt size scan_op uninit = some o
      ∧ o.storage_size
        = (if scan_get_temporary_storage_bytes size 1024 = 0 then 4
            else scan_get_temporary_storage_bytes size 1024)
      ∧ o.storage_size ≠ 0) := by
  have hne : ∀ b : Nat, (if b = 0 then 4 else b) ≠ 0 := by
    intro b
    split <;> omega
  exact ⟨⟨_, scan_impl_full_sizing _ _ _ _ _ _ _ _ _ _ _ _ _ _, rfl, hne _⟩,
    ⟨_, scan_impl_full_sizing _ _ 256 4 _ _ _ _ _ _ _ _ _ _, rfl, hne _⟩,
    ⟨_, scan_impl_full_sizing _ _ 256 4 _ _ _ _ _ _ _ _ _ _, rfl, hne _⟩⟩

/-- C17 (the sizing call is free of side effects). For every argument combination with
`temporary_storage == nullptr`: `scan_impl` (and `inclusive_scan`, `exclusive_scan`)
returns without launching a kernel and leaves `output` as it is;
`segmented_radix_sort_impl` returns without launching a digit pass and leaves the
device memory and the caller's `is_result_in_output` as they are; the `double_buffer`
overloads of `segmented_radix_sort_keys`, `segmented_radix_sort_keys_desc`,
`segmented_radix_sort_pairs` and `segmented_radix_sort_pairs_desc` leave the memory and
the selectors of `keys` (and `values`) as they are, whatever their uninitialised local
variable holds. -/
theorem sizing_call_no_side_effect {α K V : Type}
    (scan_get_temporary_storage_bytes : Nat → Nat → Nat)
    (sizeof_result BlockSize ItemsPerThread : Nat) (scan_op : α → α → α) (dflt : α)
    (uninit : Nat → α) (fuel : Nat) (Exclusive : Bool) (storage_size : Nat)
    (input output : Nat → α) (initial_value : α) (size : Nat)
    (Descending with_values : Bool) (encode : K → Nat) (align_size : Nat → Nat)
    (sizeof_key sizeof_value : Nat) (keys_memory : radix_memory K Unit)
    (mem : radix_memory K V)
    (keys_input keys_tmp keys_output values_input values_tmp values_output items : Nat)
    (keys values : double_buffer) (flag : Bool) (segments : Nat)
    (begin_offsets end_offsets : Nat → Nat) (begin_bit end_bit : Nat) :
    (∃ o, scan_impl_full scan_get_temporary_storage_bytes sizeof_result BlockSize
          ItemsPerThread scan_op dflt uninit fuel Exclusive none storage_size input output
          initial_value size = some o
      ∧ o.kernels = 0 ∧ o.output = output)
    ∧ (∃ o, inclusive_scan_full scan_get_temporary_storage_bytes sizeof_result fuel none
          storage_size input output dflt size scan_op uninit = some o
      ∧ o.kernels = 0 ∧ o.output = output)
    ∧ (∃ o, exclusive_scan_full scan_get_temporary_storage_bytes sizeof_result fuel none
          storage_size input output initial_value dflt size scan_op uninit = some o
      ∧ o.kernels = 0 ∧ o.output = output)
    ∧ (∃ o, segmented_radix_sort_impl_full fuel Descending with_values encode align_size
          sizeof_key sizeof_value mem 0 storage_size keys_input keys_tmp keys_output
          values_input values_tmp values_output items flag segments begin_offsets
          end_offsets begin_bit end_bit = some o
      ∧ o.passes = [] ∧ o.memory = mem ∧ o.is_result_in_output = flag)
    ∧ (∃ r, segmented_radix_sort_keys_double_buffer fuel encode align_size sizeof_key
          keys_memory 0 storage_size keys items flag segments begin_offsets end_offsets
          begin_bit end_bit = some r
      ∧ r.outcome.passes = [] ∧ r.outcome.memory = keys_memory ∧ r.keys = keys)
    ∧ (∃ r, segmented_radix_sort_keys_desc_double_buffer fuel encode align_size sizeof_key
          keys_memory 0 storage_size keys items flag segments begin_offsets end_offsets
          begin_bit end_bit = some r
      ∧ r.outcome.passes = [] ∧ r.outcome.memory = keys_memory ∧ r.keys = keys)
    ∧ (∃ r, segmented_radix_sort_pairs_double_buffer_full fuel encode align_size
          sizeof_key sizeof_value mem 0 storage_size keys values items flag segments
          begin_offsets end_offsets begin_bit end_bit = some r
      ∧ r.outcome.passes = [] ∧ r.outcome.memory = mem ∧ r.keys = keys
      ∧ r.values = values)
    ∧ (∃ r, segmented_radix_sort_pairs_desc_double_buffer_full fuel encode align_size
          sizeof_key sizeof_value mem 0 storage_size keys values items flag segments
          begin_offsets end_offsets begin_bit end_bit = some r
      ∧ r.outcome.passes = [] ∧ r.outcome.memory = mem ∧ r.keys = keys
      ∧ r.values = values) := by
  have hcond : ∀ b : Bool, ¬ ((0 : Nat) ≠ 0 ∧ b = true) := fun _ h => h.1 rfl
  refine ⟨⟨_, scan_impl_full_sizing _ _ _ _ _ _ _ _ _ _ _ _ _ _, rfl, rfl⟩,
    ⟨_, scan_impl_full_sizing _ _ 256 4 _ _ _ _ _ _ _ _ _ _, rfl, rfl⟩,
    ⟨_, scan_impl_full_sizing _ _ 256 4 _ _ _ _ _ _ _ _ _ _, rfl, rfl⟩,
    ⟨_, segmented_radix_sort_impl_full_sizing _ _ _ _ _ _ _ _ _ _ _ _ _ _ _ _ _ _ _ _ _ _,
      rfl, rfl, rfl⟩, ?_, ?_, ?_, ?_⟩
  · unfold segmented_radix_sort_keys_double_buffer
    rw [segmented_radix_sort_impl_full_sizing, Option.map_some', if_neg (hcond _)]
    exact ⟨_, rfl, rfl, rfl, rfl⟩
  · unfold segmented_radix_sort_keys_desc_double_buffer
    rw [segmented_radix_sort_impl_full_sizing, Option.map_some', if_neg (hcond _)]
    exact ⟨_, rfl, rfl, rfl, rfl⟩
  · unfold segmented_radix_sort_pairs_double_buffer_full
    rw [segmented_radix_sort_impl_full_sizing, Option.map_some', if_neg (hcond _)]
    exact ⟨_, rfl, rfl, rfl, rfl, rfl⟩
  · unfold segmented_radix_sort_pairs_desc_double_buffer_full
    rw [segmented_radix_sort_impl_full_sizing, Option.map_some', if_neg (hcond _)]
    exact ⟨_, rfl, rfl, rfl, rfl, rfl⟩

/-- C18 (scratch size independence). For every input, operator and size below the
recursion budget (with `size + 1024 ≤ 2^64`), two work calls of `inclusive_scan`, or of
`exclusive_scan`, that differ only in the value of `storage_size` both return and write
the same output; no bound on the two values is needed. -/
theorem scan_storage_size_independent {α : Type}
    (scan_get_temporary_storage_bytes : Nat → Nat → Nat) (sizeof_result fuel : Nat)
    (temporary_storage : Nat → α) (storage_size storage_size2 : Nat)
    (input output : Nat → α) (initial_value dflt : α) (size : Nat) (scan_op : α → α → α)
    (uninit : Nat → α) (hfuel : size < fuel)
    (hfit : size + 1024 ≤ 18446744073709551616) :
    (∃ out, (inclusive_scan_full scan_get_temporary_storage_bytes sizeof_result fuel
          (some temporary_storage) storage_size input output dflt size scan_op
          uninit).map (fun o => o.output) = some out
      ∧ (inclusive_scan_full scan_get_temporary_storage_bytes sizeof_result fuel
          (some temporary_storage) storage_size2 input output dflt size scan_op
          uninit).map (fun o => o.output) = some out)
    ∧ (∃ out, (exclusive_scan_full scan_get_temporary_storage_bytes sizeof_result fuel
          (some temporary_storage) storage_size input output initial_value dflt size
          scan_op uninit).map (fun o => o.output) = some out
      ∧ (exclusive_scan_full scan_get_temporary_storage_bytes sizeof_result fuel
          (some temporary_storage) storage_size2 input output initial_value dflt size
          scan_op uninit).map (fun o => o.output) = some out) := by
  obtain ⟨out_i, hi⟩ := scan_impl_returns 256 4 scan_op dflt uninit (by decide) (by decide)
    fuel false temporary_storage input output dflt size hfuel hfit
  obtain ⟨out_e, he⟩ := scan_impl_returns 256 4 scan_op dflt uninit (by decide) (by decide)
    fuel true temporary_storage input output initial_value size hfuel hfit
  refine ⟨⟨out_i, ?_, ?_⟩, ⟨out_e, ?_, ?_⟩⟩
  · unfold inclusive_scan_full
    rw [scan_impl_full_output, hi]
  · unfold inclusive_scan_full
    rw [scan_impl_full_output, hi]
  · unfold exclusive_scan_full
    rw [scan_impl_full_output, he]
  · unfold exclusive_scan_full
    rw [scan_impl_full_output, he]

/-- C18, witness: the inclusive and the exclusive sum of `1, 2, …, 8` with the scratch
sizes `4` and `4096`. -/
theorem scan_storage_size_independent_witness :
    8 < 9 ∧ 8 + 1024 ≤ 18446744073709551616
    ∧ (∃ out, (inclusive_scan_full (fun _ _ => 0) 4 9 (some (fun _ => 0)) 4
          inclusive_sum_input (fun _ => 0) 0 8 (fun a b => a + b)
          (fun _ => 0)).map (fun o => o.output) = some out
      ∧ (inclusive_scan_full (fun _ _ => 0) 4 9 (some (fun _ => 0)) 4096
          inclusive_sum_input (fun _ => 0) 0 8 (fun a b => a + b)
          (fun _ => 0)).map (fun o => o.output) = some out)
    ∧ (∃ out, (exclusive_scan_full (fun _ _ => 0) 4 9 (some (fun _ => 0)) 4
          inclusive_sum_input (fun _ => 0) 0 0 8 (fun a b => a + b)
          (fun _ => 0)).map (fun o => o.output) = some out
      ∧ (exclusive_scan_full (fun _ _ => 0) 4 9 (some (fun _ => 0)) 4096
          inclusive_sum_input (fun _ => 0) 0 0 8 (fun a b => a + b)
          (fun _ => 0)).map (fun o => o.output) = some out) :=
  ⟨by decide, by decide,
    scan_storage_size_independent (fun _ _ => 0) 4 9 (fun _ => 0) 4 4096
      inclusive_sum_input (fun _ => 0) 0 0 8 (fun a b => a + b) (fun _ => 0) (by decide)
      (by decide)⟩

end claims_two_calls

/-! ## Radix sort: the reference of the test -/

section reference_sort

variable {α : Type}

/-- Insertion skips a front part of items that are all less than the new item. -/
theorem stable_insert_append_left (comp : α → α → Bool) (a : α) (X Y : List α)
    (h : ∀ b, b ∈ X → comp b a = true) :
    stable_insert comp a (X ++ Y) = X ++ stable_insert comp a Y := by
  induction X with
  | nil => rfl
  | cons b X ih =>
    rw [List.cons_append, stable_insert, if_pos (h b (List.mem_cons_self _ _)),
      ih (fun c hc => h c (List.mem_cons_of_mem _ hc))]
    rfl

/-- Insertion in front of items none of which is less than the new item. -/
theorem stable_insert_front (comp : α → α → Bool) (a : α) (Y : List α)
    (h : ∀ b, b ∈ Y → comp b a = false) : stable_insert comp a Y = a :: Y := by
  cases Y with
  | nil => rfl
  | cons b Y =>
    rw [stable_insert, if_neg]
    rw [h b (List.mem_cons_self _ _)]
    exact Bool.false_ne_true

/-- Insertion does not reach a back part of items none of which is less than the new
item. -/
theorem stable_insert_append_right (comp : α → α → Bool) (a : α) (X Y : List α)
    (h : ∀ b, b ∈ Y → comp b a = false) :
    stable_insert comp a (X ++ Y) = stable_insert comp a X ++ Y := by
  induction X with
  | nil =>
    rw [List.nil_append, stable_insert_front comp a Y h]
    rfl
  | cons b X ih =>
    rw [List.cons_append, stable_insert, stable_insert]
    split
    · rw [ih]
      rfl
    · rfl

/-- The buckets of the digits up to `n`: those below `n`, then the bucket of `n`. -/
theorem radix_sort_by_digit_succ (n : Nat) (digit : α → Nat) (l : List α) :
    radix_sort_by_digit (n + 1) digit l
      = radix_sort_by_digit n digit l ++ l.filter (fun x => decide (digit x = n)) := by
  unfold radix_sort_by_digit
  rw [List.range_succ, List.flatMap_append, List.flatMap_singleton]

/-- The items of the buckets below `n` have a digit below `n`. -/
theorem digit_lt_of_mem_radix_sort_by_digit (n : Nat) (digit : α → Nat) (l : List α)
    (b : α) (hb : b ∈ radix_sort_by_digit n digit l) : digit b < n ∧ b ∈ l := by
  unfold radix_sort_by_digit at hb
  rw [List.mem_flatMap] at hb
  obtain ⟨d, hd, hmem⟩ := hb
  have h1 := List.mem_filter.mp hmem
  have h2 : digit b = d := by simpa using h1.2
  exact ⟨by rw [h2]; exact List.mem_range.mp hd, h1.1⟩

/-- A digit pass over a list with one more item in front: the item is inserted, as the
insertion sort of the reference does it, when its digit is below `n`. -/
theorem radix_sort_by_digit_cons (comp : α → α → Bool) (digit : α → Nat) (a : α)
    (l : List α) (hcomp : ∀ b, b ∈ l → comp b a = decide (digit b < digit a)) :
    ∀ n, radix_sort_by_digit n digit (a :: l)
      = if digit a < n then stable_insert comp a (radix_sort_by_digit n digit l)
        else radix_sort_by_digit n digit l := by
  intro n
  induction n with
  | zero =>
    rw [if_neg (Nat.not_lt_zero _)]
    rfl
  | succ n ih =>
    rw [radix_sort_by_digit_succ, radix_sort_by_digit_succ, ih, List.filter_cons]
    have hbucket : ∀ b, b ∈ l.filter (fun x => decide (digit x = n)) →
        digit b = n ∧ b ∈ l := by
      intro b hb
      have h1 := List.mem_filter.mp hb
      exact ⟨by simpa using h1.2, h1.1⟩
    by_cases hlt : digit a < n
    · have hne : ¬ decide (digit a = n) = true := by
        simp only [decide_eq_true_eq]
        omega
      rw [if_pos hlt, if_neg hne, if_pos (Nat.lt_succ_of_lt hlt)]
      refine (stable_insert_append_right comp a _ _ (fun b hb => ?_)).symm
      obtain ⟨h1, h2⟩ := hbucket b hb
      rw [hcomp b h2, decide_eq_false_iff_not]
      omega
    · rw [if_neg hlt]
      by_cases heq : digit a = n
      · have hd : decide (digit a = n) = true := by simpa using heq
        rw [if_pos hd, if_pos (by omega)]
        rw [stable_insert_append_left comp a _ _ (fun b hb => by
          obtain ⟨h1, h2⟩ := digit_lt_of_mem_radix_sort_by_digit n digit l b hb
          rw [hcomp b h2, decide_eq_true_iff]
          omega)]
        rw [stable_insert_front comp a _ (fun b hb => by
          obtain ⟨h1, h2⟩ := hbucket b hb
          rw [hcomp b h2, decide_eq_false_iff_not]
          omega)]
      · have hd : ¬ decide (digit a = n) = true := by simpa using heq
        rw [if_neg hd, if_neg (by omega)]

/-- The reference sort with a comparator that compares digits below `n` is the digit
pass. -/
theorem stable_sort_eq_radix_sort_by_digit (comp : α → α → Bool) (digit : α → Nat)
    (n : Nat) (l : List α)
    (hcomp : ∀ x, x ∈ l → ∀ y, y ∈ l → comp x y = decide (digit x < digit y))
    (hlt : ∀ x, x ∈ l → digit x < n) :
    stable_sort comp l = radix_sort_by_digit n digit l := by
  induction l with
  | nil =>
    rw [radix_sort_by_digit_nil]
    rfl
  | cons a l ih =>
    rw [stable_sort,
      ih (fun x hx y hy => hcomp x (List.mem_cons_of_mem _ hx) y (List.mem_cons_of_mem _ hy))
        (fun x hx => hlt x (List.mem_cons_of_mem _ hx)),
      radix_sort_by_digit_cons comp digit a l
        (fun b hb => hcomp b (List.mem_cons_of_mem _ hb) a (List.mem_cons_self _ _)) n,
      if_pos (hlt a (List.mem_cons_self _ _))]

/-- The comparator of the test on two keys of `sizeof_key ≤ 8` bytes and a bit range
inside the key compares the digits of the bits `[StartBit, EndBit)` as the digit pass
ranks them (complemented for the descending sort). -/
theorem key_comparator_eq_digit (Descending : Bool) (sizeof_key StartBit EndBit lhs rhs : Nat)
    (hsk : sizeof_key ≤ 8) (hbits : StartBit < EndBit) (hrange : EndBit ≤ 8 * sizeof_key)
    (hl : lhs < 2 ^ (8 * sizeof_key)) (hr : rhs < 2 ^ (8 * sizeof_key)) :
    key_comparator Descending sizeof_key StartBit EndBit lhs rhs
      = decide (radix_digit Descending StartBit (EndBit - StartBit) lhs
          < radix_digit Descending StartBit (EndBit - StartBit) rhs) := by
  have h64 : (2 : Nat) ^ 64 = 18446744073709551616 := by norm_num
  have hkey : (2 : Nat) ^ (8 * sizeof_key) ≤ 2 ^ 64 :=
    Nat.pow_le_pow_right (by decide) (by omega)
  have hpos : 0 < 2 ^ (EndBit - StartBit) := Nat.two_pow_pos _
  have hdl : lhs / 2 ^ StartBit % 2 ^ (EndBit - StartBit) < 2 ^ (EndBit - StartBit) :=
    Nat.mod_lt _ hpos
  have hdr : rhs / 2 ^ StartBit % 2 ^ (EndBit - StartBit) < 2 ^ (EndBit - StartBit) :=
    Nat.mod_lt _ hpos
  unfold key_comparator radix_digit
  simp only []
  by_cases hspec : StartBit = 0 ∧ EndBit = sizeof_key * 8
  · rw [if_pos hspec]
    obtain ⟨h0, h1⟩ := hspec
    subst h0
    have hw : EndBit - 0 = 8 * sizeof_key := by omega
    rw [hw, Nat.pow_zero, Nat.div_one, Nat.div_one, Nat.mod_eq_of_lt hl,
      Nat.mod_eq_of_lt hr]
    cases Descending with
    | false => rfl
    | true =>
      simp only [if_true]
      rw [decide_eq_decide]
      omega
  · rw [if_neg hspec]
    have hw : EndBit - StartBit < 64 := by omega
    have hpw : 2 ^ (EndBit - StartBit) < 18446744073709551616 := by
      rw [← h64]
      exact Nat.pow_lt_pow_right (by decide) hw
    have hsub : sub32 EndBit StartBit = EndBit - StartBit :=
      sub32_of_le (Nat.le_of_lt hbits) (by omega)
    have hmask : sub64 (wrap64 (1 <<< (EndBit - StartBit))) 1
        = 2 ^ (EndBit - StartBit) - 1 := by
      rw [Nat.one_shiftLeft]
      unfold sub64 wrap64
      omega
    have hwl : wrap64 lhs = lhs := by
      unfold wrap64
      omega
    have hwr : wrap64 rhs = rhs := by
      unfold wrap64
      omega
    rw [hsub, hmask, hwl, hwr, Nat.shiftRight_eq_div_pow, Nat.shiftRight_eq_div_pow,
      Nat.and_pow_two_sub_one_eq_mod, Nat.and_pow_two_sub_one_eq_mod]
    cases Descending with
    | false => rfl
    | true =>
      simp only [if_true]
      rw [decide_eq_decide]
      omega

/-- The members of a segment are pairs of the arrays. -/
theorem mem_segment_items {K V : Type} (keys : Nat → K) (values : Nat → V)
    (begin_offset end_offset : Nat) (x : K × V)
    (hx : x ∈ segment_items keys values begin_offset end_offset) :
    ∃ j, x = (keys (begin_offset + j), values (begin_offset + j)) := by
  unfold segment_items at hx
  obtain ⟨j, _, rfl⟩ := List.mem_map.mp hx
  exact ⟨j, rfl⟩

/-- The work call of `segmented_radix_sort_impl` in the pointer-pair mode on unsigned
keys of `sizeof_key ≤ 8` bytes, for a bit range inside the key and fewer than `2^24`
pairwise disjoint segments: it returns, and every segment of the output arrays holds
what the reference of the test gives for the segment of the input arrays. -/
theorem segmented_radix_sort_impl_reference {V : Type} (Descending with_values : Bool)
    (sizeof_key : Nat) (mem : radix_memory Nat V)
    (temporary_storage keys_input keys_output values_input values_output size : Nat)
    (flag : Bool) (segments : Nat) (begin_offsets end_offsets : Nat → Nat)
    (begin_bit end_bit fuel : Nat)
    (hbits : begin_bit < end_bit) (hrange : end_bit ≤ 8 * sizeof_key)
    (hsk : sizeof_key ≤ 8) (hseg : segments * 256 < 4294967296)
    (hdis : segments_disjoint segments begin_offsets end_offsets)
    (hfuel : end_bit ≤ begin_bit + 8 * fuel)
    (hkeys : ∀ i, mem.keys keys_input i < 2 ^ (8 * sizeof_key)) :
    ∃ st, segmented_radix_sort_impl fuel Descending with_values id mem temporary_storage
          keys_input 0 keys_output values_input 0 values_output size flag segments
          begin_offsets end_offsets begin_bit end_bit = some st
      ∧ segments_reference_sorted Descending sizeof_key begin_bit end_bit
          (mem.keys keys_input) (mem.values values_input) (st.memory.keys keys_output)
          (st.memory.values values_output) segments begin_offsets end_offsets := by
  obtain ⟨st, hrun, hflag, hsorted⟩ := segmented_radix_sort_impl_spec Descending
    with_values id mem temporary_storage keys_input 0 keys_output values_input 0
    values_output size flag segments begin_offsets end_offsets begin_bit end_bit fuel hbits
    (by omega) hseg hdis hfuel
  refine ⟨st, hrun, fun s hs => ?_⟩
  have h := hsorted s hs
  rw [hflag rfl, if_pos rfl, if_pos rfl] at h
  rw [h]
  refine ⟨?_, ?_⟩
  · symm
    refine stable_sort_eq_radix_sort_by_digit _ _ _ _ (fun x hx y hy => ?_)
      (fun x _ => radix_digit_lt _ _ _ _)
    obtain ⟨j, rfl⟩ := mem_segment_items _ _ _ _ x hx
    obtain ⟨k, rfl⟩ := mem_segment_items _ _ _ _ y hy
    exact key_comparator_eq_digit Descending sizeof_key begin_bit end_bit _ _ hsk hbits
      hrange (hkeys _) (hkeys _)
  · exact (radix_sort_by_digit_stable Descending id begin_bit end_bit _).2.2

/-- The keys of the documented example are 32-bit values. -/
theorem sort_example_keys_lt (i : Nat) : sort_example_memory.keys 1 i < 2 ^ (8 * 4) := by
  show (if (1 : Nat) = 1 then [6, 3, 5, 4, 1, 8, 1, 7].getD i 99 else 99) < 2 ^ (8 * 4)
  rw [if_pos rfl]
  rcases Nat.lt_or_ge i 8 with h | h
  · interval_cases i <;> decide
  · rw [List.getD_eq_default _ _ (by simpa using h)]
    decide

/-- The keys of the documented example without values are 32-bit values. -/
theorem keys_example_keys_lt (i : Nat) : keys_example_memory.keys 1 i < 2 ^ (8 * 4) := by
  show (if (1 : Nat) = 1 then [6, 3, 5, 4, 1, 8, 1, 7].getD i 99 else 99) < 2 ^ (8 * 4)
  rw [if_pos rfl]
  rcases Nat.lt_or_ge i 8 with h | h
  · interval_cases i <;> decide
  · rw [List.getD_eq_default _ _ (by simpa using h)]
    decide

end reference_sort

/-! ## Claim on the bit subrange of the radix sort -/

section claims_radix_reference

/-- C11 (radix bit subrange), in the range of the launch arithmetic. For unsigned keys
of `sizeof(Key) ≤ 8` bytes, every bit range `begin_bit < end_bit ≤ 8 * sizeof(Key)`,
every set of fewer than `2^24` pairwise disjoint segments (`segments * 256 < 2^32`) and
enough fuel for the digit passes, the work calls of the pointer-pair overloads of
`segmented_radix_sort_keys`, `segmented_radix_sort_keys_desc`,
`segmented_radix_sort_pairs` and `segmented_radix_sort_pairs_desc` return, and every
segment of the output is the `std::stable_sort` of the segment of the input with the
comparator of the radix sort test (on `(key >> begin_bit) & (2^(end_bit - begin_bit) - 1)`,
reversed for `_desc`); the keys of a segment whose bits `[begin_bit, end_bit)` are
equal, whatever their other bits, are in their input relative order. -/
theorem radix_subrange_order {V : Type} (fuel : Nat) (align_size : Nat → Nat)
    (sizeof_key : Nat) (keys_memory : radix_memory Nat Unit) (mem : radix_memory Nat V)
    (temporary_storage storage_size keys_input keys_output values_input values_output
      size : Nat) (ignored : Bool) (segments : Nat) (begin_offsets end_offsets : Nat → Nat)
    (begin_bit end_bit : Nat)
    (hbits : begin_bit < end_bit) (hrange : end_bit ≤ 8 * sizeof_key)
    (hsk : sizeof_key ≤ 8) (hseg : segments * 256 < 4294967296)
    (hdis : segments_disjoint segments begin_offsets end_offsets)
    (hfuel : end_bit ≤ begin_bit + 8 * fuel) (hts : temporary_storage ≠ 0)
    (hkeys : ∀ i, mem.keys keys_input i < 2 ^ (8 * sizeof_key))
    (hkeys_only : ∀ i, keys_memory.keys keys_input i < 2 ^ (8 * sizeof_key)) :
    (∃ o, segmented_radix_sort_keys fuel id align_size sizeof_key keys_memory
          temporary_storage storage_size keys_input keys_output size ignored segments
          begin_offsets end_offsets begin_bit end_bit = some o
      ∧ segments_reference_sorted false sizeof_key begin_bit end_bit
          (keys_memory.keys keys_input) (keys_memory.values 0) (o.memory.keys keys_output)
          (o.memory.values 0) segments begin_offsets end_offsets)
    ∧ (∃ o, segmented_radix_sort_keys_desc fuel id align_size sizeof_key keys_memory
          temporary_storage storage_size keys_input keys_output size ignored segments
          begin_offsets end_offsets begin_bit end_bit = some o
      ∧ segments_reference_sorted true sizeof_key begin_bit end_bit
          (keys_memory.keys keys_input) (keys_memory.values 0) (o.memory.keys keys_output)
          (o.memory.values 0) segments begin_offsets end_offsets)
    ∧ (∃ m, segmented_radix_sort_pairs fuel id mem temporary_storage keys_input
          keys_output values_input values_output size ignored segments begin_offsets
          end_offsets begin_bit end_bit = some m
      ∧ segments_reference_sorted false sizeof_key begin_bit end_bit
          (mem.keys keys_input) (mem.values values_input) (m.keys keys_output)
          (m.values values_output) segments begin_offsets end_offsets)
    ∧ (∃ m, segmented_radix_sort_pairs_desc fuel id mem temporary_storage keys_input
          keys_output values_input values_output size ignored segments begin_offsets
          end_offsets begin_bit end_bit = some m
      ∧ segments_reference_sorted true sizeof_key begin_bit end_bit
          (mem.keys keys_input) (mem.values values_input) (m.keys keys_output)
          (m.values values_output) segments begin_offsets end_offsets) := by
  have hkeys_call : ∀ Descending : Bool, ∃ o,
      segmented_radix_sort_impl_full fuel Descending false id align_size sizeof_key 1
        keys_memory temporary_storage storage_size keys_input 0 keys_output 0 0 0 size
        ignored segments begin_offsets end_offsets begin_bit end_bit = some o
      ∧ segments_reference_sorted Descending sizeof_key begin_bit end_bit
          (keys_memory.keys keys_input) (keys_memory.values 0) (o.memory.keys keys_output)
          (o.memory.values 0) segments begin_offsets end_offsets := by
    intro Descending
    obtain ⟨st, hrun, href⟩ := segmented_radix_sort_impl_reference Descending false
      sizeof_key keys_memory temporary_storage keys_input keys_output 0 0 size ignored
      segments begin_offsets end_offsets begin_bit end_bit fuel hbits hrange hsk hseg hdis
      hfuel hkeys_only
    have hfull := segmented_radix_sort_impl_full_work fuel Descending false id align_size
      sizeof_key 1 keys_memory temporary_storage storage_size keys_input 0 keys_output 0 0
      0 size ignored segments begin_offsets end_offsets begin_bit end_bit hts
    rw [hrun, Option.map_some'] at hfull
    exact ⟨_, hfull, href⟩
  have hpairs_call : ∀ Descending : Bool, ∃ st,
      segmented_radix_sort_impl fuel Descending true id mem temporary_storage keys_input 0
        keys_output values_input 0 values_output size ignored segments begin_offsets
        end_offsets begin_bit end_bit = some st
      ∧ segments_reference_sorted Descending sizeof_key begin_bit end_bit
          (mem.keys keys_input) (mem.values values_input) (st.memory.keys keys_output)
          (st.memory.values values_output) segments begin_offsets end_offsets :=
    fun Descending => segmented_radix_sort_impl_reference Descending true sizeof_key mem
      temporary_storage keys_input keys_output values_input values_output size ignored
      segments begin_offsets end_offsets begin_bit end_bit fuel hbits hrange hsk hseg hdis
      hfuel hkeys
  refine ⟨hkeys_call false, hkeys_call true, ?_, ?_⟩
  · obtain ⟨st, hrun, href⟩ := hpairs_call false
    exact ⟨st.memory, by unfold segmented_radix_sort_pairs; rw [hrun]; rfl, href⟩
  · obtain ⟨st, hrun, href⟩ := hpairs_call true
    exact ⟨st.memory, by unfold segmented_radix_sort_pairs_desc; rw [hrun]; rfl, href⟩

/-- C11, witness: the documented example with 4-byte keys on the bits `1..3`, input
arrays at pointer `1`, output arrays at pointer `2`, scratch at pointer `3`. -/
theorem radix_subrange_order_witness :
    1 < 3 ∧ 3 ≤ 8 * 4 ∧ 4 ≤ 8 ∧ 3 * 256 < 4294967296
    ∧ segments_disjoint 3 sort_example_offsets (fun s => sort_example_offsets (s + 1))
    ∧ 3 ≤ 1 + 8 * 1 ∧ 3 ≠ 0
    ∧ (∃ o, segmented_radix_sort_keys 1 id align_size_256 4 keys_example_memory 3 2048 1 2
          8 false 3 sort_example_offsets (fun s => sort_example_offsets (s + 1)) 1 3
          = some o
      ∧ segments_reference_sorted false 4 1 3 (keys_example_memory.keys 1)
          (keys_example_memory.values 0) (o.memory.keys 2) (o.memory.values 0) 3
          sort_example_offsets (fun s => sort_example_offsets (s + 1)))
    ∧ (∃ m, segmented_radix_sort_pairs_desc 1 id sort_example_memory 3 1 2 1 2 8 false 3
          sort_example_offsets (fun s => sort_example_offsets (s + 1)) 1 3 = some m
      ∧ segments_reference_sorted true 4 1 3 (sort_example_memory.keys 1)
          (sort_example_memory.values 1) (m.keys 2) (m.values 2) 3 sort_example_offsets
          (fun s => sort_example_offsets (s + 1))) :=
  ⟨by decide, by decide, by decide, by decide, by unfold segments_disjoint; decide,
    by decide, by decide,
    (radix_subrange_order 1 align_size_256 4 keys_example_memory sort_example_memory 3
      2048 1 2 1 2 8 false 3 sort_example_offsets (fun s => sort_example_offsets (s + 1))
      1 3 (by decide) (by decide) (by decide) (by decide)
      (by unfold segments_disjoint; decide) (by decide) (by decide) sort_example_keys_lt
      keys_example_keys_lt).1,
    (radix_subrange_order 1 align_size_256 4 keys_example_memory sort_example_memory 3
      2048 1 2 1 2 8 false 3 sort_example_offsets (fun s => sort_example_offsets (s + 1))
      1 3 (by decide) (by decide) (by decide) (by decide)
      (by unfold segments_disjoint; decide) (by decide) (by decide) sort_example_keys_lt
      keys_example_keys_lt).2.2.2⟩

/-- C11 fails on the code beyond `2^24` segments. With `2^24 + 1` segments of two pairs
(`[2s, 2s + 2)`, 4-byte input keys `3, 1` in every segment, the values being the
indices, bits `1..2`, pointer-pair mode) the grid extent `segments * block_size` wraps
to `256` threads, one block: segment `1` of `keys_output` still holds the key `0` it
held before the call, while the reference puts the key `1` (bit `1` clear) first. -/
theorem radix_subrange_fails_beyond_24_bits :
    1 < 2 ∧ 2 ≤ 8 * 4 ∧ 4 ≤ 8
    ∧ segments_disjoint 16777217 (fun s => 2 * s) (fun s => 2 * s + 2)
    ∧ 2 ≤ 1 + 8 * 1
    ∧ (∀ i, many_pairs_memory.keys 1 i < 2 ^ (8 * 4))
    ∧ ¬ ∃ m, segmented_radix_sort_pairs 1 id many_pairs_memory 3 1 2 1 2 33554434 false
          16777217 (fun s => 2 * s) (fun s => 2 * s + 2) 1 2 = some m
        ∧ segments_reference_sorted false 4 1 2 (many_pairs_memory.keys 1)
            (many_pairs_memory.values 1) (m.keys 2) (m.values 2) 16777217
            (fun s => 2 * s) (fun s => 2 * s + 2) := by
  refine ⟨by decide, by decide, by decide, ?_, by decide, ?_, ?_⟩
  · intro s _ t _ hne
    show 2 * s + 2 ≤ 2 * t ∨ 2 * t + 2 ≤ 2 * s
    omega
  · intro i
    show (if (1 : Nat) = 1 then 3 - 2 * (i % 2) else 0) < 2 ^ (8 * 4)
    rw [if_pos rfl]
    have h : 3 - 2 * (i % 2) ≤ 3 := Nat.sub_le _ _
    exact Nat.lt_of_le_of_lt h (by decide)
  · rintro ⟨m, hm, href⟩
    have hval : (segmented_radix_sort_pairs 1 id many_pairs_memory 3 1 2 1 2 33554434
        false 16777217 (fun s => 2 * s) (fun s => 2 * s + 2) 1 2).map
          (fun m => m.keys 2 2) = some 0 := by
      decide
    rw [hm] at hval
    have hkey : m.keys 2 2 = 0 := Option.some.inj hval
    have hseg := (href 1 (by decide)).1
    have hexp : stable_sort (key_value_comparator false 4 1 2)
        (segment_items (many_pairs_memory.keys 1) (many_pairs_memory.values 1) (2 * 1)
          (2 * 1 + 2)) = [(1, 3), (3, 2)] := by
      decide
    rw [hexp] at hseg
    have hhead := congrArg (fun l => l.head?.map (fun kv => kv.1)) hseg
    simp [segment_items, List.range_succ, hkey] at hhead

/-- The bit subrange evaluated on the keys `[6,3,5,4,1,8,1,7]` of the documented example,
offsets `[0,2,3,8]`, bits `1..3`: the keys `1, 8, 1` of the last segment, equal on these
bits, keep their input order, in the ascending and in the descending sort. -/
theorem radix_subrange_example :
    (segmented_radix_sort_keys 1 id align_size_256 4 keys_example_memory 3 2048 1 2 8 false
        3 sort_example_offsets (fun s => sort_example_offsets (s + 1)) 1 3).map
        (fun o => (List.range 8).map (o.memory.keys 2))
      = some [3, 6, 5, 1, 8, 1, 4, 7]
    ∧ (segmented_radix_sort_keys_desc 1 id align_size_256 4 keys_example_memory 3 2048 1 2
        8 false 3 sort_example_offsets (fun s => sort_example_offsets (s + 1)) 1 3).map
        (fun o => (List.range 8).map (o.memory.keys 2))
      = some [6, 3, 5, 7, 4, 1, 8, 1]
    ∧ stable_sort (key_value_comparator false 4 1 3)
        [(4, ()), (1, ()), (8, ()), (1, ()), (7, ())]
      = [(1, ()), (8, ()), (1, ()), (4, ()), (7, ())] := by
  decide

end claims_radix_reference

/-! ## The combinator `scan_by_key_op` -/

section scan_by_key

variable {V : Type}

/-- The last head at or before `i` is at or before `i`. -/
theorem last_head_le (heads : Nat → Bool) (i : Nat) : last_head heads i ≤ i := by
  induction i with
  | zero => exact Nat.le_refl 0
  | succ i ih =>
    rw [last_head]
    split
    · exact Nat.le_refl _
    · exact Nat.le_succ_of_le ih

/-- The left-to-right inclusive scan of pairs under `scan_by_key_op`: the value at
position `i` is the left-to-right reduction of the values from the last position at or
before `i` whose key is not `0`. -/
theorem scan_by_key_value (reduce_op : V → V → V) (xs : Nat → scan_by_key_pair V)
    (i : Nat) :
    (block_inclusive_scan (scan_by_key_op reduce_op) xs i).value
      = range_reduce reduce_op (fun q => (xs q).value)
          (last_head (fun q => (xs q).key != 0) i)
          (i - last_head (fun q => (xs q).key != 0) i) := by
  induction i with
  | zero => rfl
  | succ i ih =>
    rw [block_inclusive_scan, last_head]
    show (if ((xs (i + 1)).key != 0) = true then (xs (i + 1)).value
      else reduce_op (block_inclusive_scan (scan_by_key_op reduce_op) xs i).value
        (xs (i + 1)).value) = _
    by_cases h : ((xs (i + 1)).key != 0) = true
    · rw [if_pos h, if_pos h, Nat.sub_self]
      rfl
    · rw [if_neg h, if_neg h, ih]
      have hle := last_head_le (fun q => (xs q).key != 0) i
      have e : i + 1 - last_head (fun q => (xs q).key != 0) i
          = (i - last_head (fun q => (xs q).key != 0) i) + 1 := by omega
      rw [e, range_reduce]
      have e2 : last_head (fun q => (xs q).key != 0) i
          + (i - last_head (fun q => (xs q).key != 0) i) + 1 = i + 1 := by omega
      rw [e2]

/-- The last head at or before `i` depends on the flags up to `i` only. -/
theorem last_head_congr (heads1 heads2 : Nat → Bool) (i : Nat)
    (h : ∀ q, q ≤ i → heads1 q = heads2 q) : last_head heads1 i = last_head heads2 i := by
  induction i with
  | zero => rfl
  | succ i ih =>
    rw [last_head, last_head, h (i + 1) (Nat.le_refl _),
      ih (fun q hq => h q (Nat.le_succ_of_le hq))]

/-- The keys `0` and `1` of the pairs up to `i` add up to the number of keys `1`. -/
theorem sum_keys_eq_count (xs : Nat → scan_by_key_pair V) (i : Nat)
    (hbit : ∀ q, q < i → (xs q).key = 0 ∨ (xs q).key = 1) :
    (∑ q ∈ Finset.range i, (xs q).key) = Nat.count (fun q => (xs q).key = 1) i := by
  induction i with
  | zero => rfl
  | succ i ih =>
    rw [Finset.sum_range_succ, Nat.count_succ, ih (fun q hq => hbit q (Nat.lt_succ_of_lt hq))]
    rcases hbit i (Nat.lt_succ_self i) with h | h
    · rw [h, if_neg (by omega)]
    · rw [h, if_pos rfl]

end scan_by_key

/-! ## Scans: the work call of `exclusive_scan` on eight items -/

section scan_scenarios_full

variable {α : Type}

/-- The work call of `exclusive_scan` with an associative operator on `size < fuel`
items (`size + 1024 ≤ 2^64`) returns, and the first `size` cells of the output hold the
exclusive scan from `initial_value`. -/
theorem exclusive_scan_full_value (scan_get_temporary_storage_bytes : Nat → Nat → Nat)
    (sizeof_result fuel : Nat) (temporary_storage : Nat → α) (storage_size : Nat)
    (input output : Nat → α) (initial_value dflt : α) (size : Nat) (scan_op : α → α → α)
    (uninit : Nat → α)
    (hassoc : ∀ a b c, scan_op (scan_op a b) c = scan_op a (scan_op b c))
    (hfuel : size < fuel) (hfit : size + 1024 ≤ 18446744073709551616) :
    ∃ out, (exclusive_scan_full scan_get_temporary_storage_bytes sizeof_result fuel
          (some temporary_storage) storage_size input output initial_value dflt size
          scan_op uninit).map (fun o => o.output) = some out
      ∧ ∀ i, i < size → out i = scan_exclusive_reference scan_op initial_value input i := by
  obtain ⟨out, hout, hv⟩ := scan_impl_spec 256 4 scan_op hassoc dflt uninit (by decide)
    (by decide) fuel true temporary_storage input output initial_value size hfuel hfit
  refine ⟨out, ?_, fun i hi => ?_⟩
  · unfold exclusive_scan_full
    rw [scan_impl_full_output, hout]
  · rw [hv i, if_pos hi, if_pos rfl]

/-- The operator `min_op` is associative. -/
theorem min_op_assoc (a b c : Int) : min_op (min_op a b) c = min_op a (min_op b c) := by
  unfold min_op
  split_ifs <;> omega

/-- The single-block scan kernel on no item stores nothing. -/
theorem single_scan_kernel_impl_empty (BlockSize ItemsPerThread : Nat) (Exclusive : Bool)
    (input uninit : Nat → α) (initial_value : α) (scan_op : α → α → α) :
    single_scan_kernel_impl BlockSize ItemsPerThread Exclusive input uninit 0 initial_value
      scan_op = [] := by
  unfold single_scan_kernel_impl
  simp only []
  rw [List.filterMap_eq_nil_iff]
  intro j _
  rw [if_neg (Nat.not_lt_zero j)]

/-- The documented `exclusive_scan` example on the code: the eight output cells after
the work call, for every scratch content and every content of the uninitialised
registers. -/
theorem exclusive_scan_documented_value (scan_get_temporary_storage_bytes : Nat → Nat → Nat)
    (sizeof_result fuel : Nat) (temporary_storage : Nat → Int) (storage_size : Nat)
    (output : Nat → Int) (dflt : Int) (uninit : Nat → Int) :
    (exclusive_scan_full scan_get_temporary_storage_bytes sizeof_result (fuel + 9)
        (some temporary_storage) storage_size documented_scan_input output 9 dflt 8 min_op
        uninit).map (fun o => (List.range 8).map o.output)
      = some [9, 4, 4, 4, 2, 2, 1, 1] := by
  obtain ⟨out, hout, hv⟩ := exclusive_scan_full_value scan_get_temporary_storage_bytes
    sizeof_result (fuel + 9) temporary_storage storage_size documented_scan_input output 9
    dflt 8 min_op uninit min_op_assoc (by omega) (by decide)
  have hmap : (exclusive_scan_full scan_get_temporary_storage_bytes sizeof_result
      (fuel + 9) (some temporary_storage) storage_size documented_scan_input output 9 dflt
      8 min_op uninit).map (fun o => (List.range 8).map o.output)
      = ((exclusive_scan_full scan_get_temporary_storage_bytes sizeof_result
      (fuel + 9) (some temporary_storage) storage_size documented_scan_input output 9 dflt
      8 min_op uninit).map (fun o => o.output)).map (fun out => (List.range 8).map out) := by
    rw [Option.map_map]
    rfl
  rw [hmap, hout]
  simp only [Option.map_some', List.range_succ, List.range_zero, List.map_append,
    List.map_cons, List.map_nil, List.nil_append, List.cons_append]
  rw [hv 0 (by decide), hv 1 (by decide), hv 2 (by decide), hv 3 (by decide),
    hv 4 (by decide), hv 5 (by decide), hv 6 (by decide), hv 7 (by decide)]
  decide

end scan_scenarios_full

/-! ## The look-back scan state: single writer per cell -/

section lookback

/-- A step of block `b` changes no cell other than the cell `b`. -/
theorem lookback_step_other_cell (reduction : Nat → Nat) (b c : Nat) (st : lookback_grid)
    (hc : c ≠ b) : (lookback_step reduction b st).cells c = st.cells c := by
  unfold lookback_step
  cases st.phase b with
  | start =>
    dsimp only
    split
    · exact Function.update_noteq hc _ _
    · exact Function.update_noteq hc _ _
  | look_back predecessor aggregate =>
    dsimp only
    cases (st.cells predecessor).status <;> rfl
  | resolved exclusive => exact Function.update_noteq hc _ _
  | done exclusive => rfl

/-- A step of block `b` changes the phase of no other block. -/
theorem lookback_step_other_phase (reduction : Nat → Nat) (b c : Nat) (st : lookback_grid)
    (hc : c ≠ b) : (lookback_step reduction b st).phase c = st.phase c := by
  unfold lookback_step
  cases st.phase b with
  | start =>
    dsimp only
    split
    · exact Function.update_noteq hc _ _
    · exact Function.update_noteq hc _ _
  | look_back predecessor aggregate =>
    dsimp only
    cases (st.cells predecessor).status
    · rfl
    · exact Function.update_noteq hc _ _
    · exact Function.update_noteq hc _ _
  | resolved exclusive => exact Function.update_noteq hc _ _
  | done exclusive => rfl

/-- The cell and the phase of block `b` after its own step, by the phase before it. -/
theorem lookback_step_own (reduction : Nat → Nat) (b : Nat) (st : lookback_grid) :
    (st.phase b = lookback_phase.start → b = 0 →
      (lookback_step reduction b st).cells b = ⟨lookback_status.INCLUSIVE, reduction b⟩
      ∧ (lookback_step reduction b st).phase b = lookback_phase.done 0)
    ∧ (st.phase b = lookback_phase.start → b ≠ 0 →
      (lookback_step reduction b st).cells b = ⟨lookback_status.PARTIAL, reduction b⟩
      ∧ (lookback_step reduction b st).phase b = lookback_phase.look_back (b - 1) 0)
    ∧ (∀ predecessor aggregate, st.phase b = lookback_phase.look_back predecessor aggregate →
      (lookback_step reduction b st).cells b = st.cells b
      ∧ ((lookback_step reduction b st).phase b = st.phase b
        ∨ (∃ p a, (lookback_step reduction b st).phase b = lookback_phase.look_back p a)
        ∨ ∃ e, (lookback_step reduction b st).phase b = lookback_phase.resolved e))
    ∧ (∀ exclusive, st.phase b = lookback_phase.resolved exclusive →
      (lookback_step reduction b st).cells b
        = ⟨lookback_status.INCLUSIVE, plus32 exclusive (reduction b)⟩
      ∧ (lookback_step reduction b st).phase b = lookback_phase.done exclusive)
    ∧ (∀ exclusive, st.phase b = lookback_phase.done exclusive →
      lookback_step reduction b st = st) := by
  refine ⟨fun h h0 => ?_, fun h h0 => ?_, fun p a h => ?_, fun e h => ?_, fun e h => ?_⟩
  · unfold lookback_step
    rw [h]
    dsimp only
    rw [if_pos h0]
    exact ⟨Function.update_same _ _ _, Function.update_same _ _ _⟩
  · unfold lookback_step
    rw [h]
    dsimp only
    rw [if_neg h0]
    exact ⟨Function.update_same _ _ _, Function.update_same _ _ _⟩
  · unfold lookback_step
    rw [h]
    dsimp only
    cases (st.cells p).status
    · exact ⟨rfl, Or.inl h⟩
    · exact ⟨rfl, Or.inr (Or.inl ⟨_, _, Function.update_same _ _ _⟩)⟩
    · exact ⟨rfl, Or.inr (Or.inr ⟨_, Function.update_same _ _ _⟩)⟩
  · unfold lookback_step
    rw [h]
    exact ⟨Function.update_same _ _ _, Function.update_same _ _ _⟩
  · unfold lookback_step
    rw [h]

/-- A step keeps the protocol state consistent. -/
theorem lookback_step_consistent (reduction : Nat → Nat) (b : Nat) (st : lookback_grid)
    (h : lookback_consistent st) : lookback_consistent (lookback_step reduction b st) := by
  intro c
  by_cases hc : c = b
  · subst hc
    have hinv := h c
    obtain ⟨h1, h2, h3, h4, h5⟩ := lookback_step_own reduction c st
    cases hphase : st.phase c with
    | start =>
      by_cases h0 : c = 0
      · obtain ⟨e1, e2⟩ := h1 hphase h0
        rw [e2, e1]
      · obtain ⟨e1, e2⟩ := h2 hphase h0
        rw [e2, e1]
        exact ⟨rfl, h0⟩
    | look_back p a =>
      rw [hphase] at hinv
      obtain ⟨e1, e2⟩ := h3 p a hphase
      rcases e2 with e2 | ⟨p', a', e2⟩ | ⟨e, e2⟩
      · rw [e2, hphase, e1]
        exact hinv
      · rw [e2, e1]
        exact hinv
      · rw [e2, e1]
        exact hinv
    | resolved e =>
      obtain ⟨e1, e2⟩ := h4 e hphase
      rw [e2, e1]
    | done e =>
      rw [h5 e hphase]
      exact h c
  · have := h c
    rw [lookback_step_other_phase reduction b c st hc,
      lookback_step_other_cell reduction b c st hc]
    exact this

/-- Every state of an execution from the initial state is consistent. -/
theorem lookback_run_consistent (reduction : Nat → Nat) (schedule : List Nat) :
    lookback_consistent (lookback_run reduction schedule lookback_init) := by
  have hgen : ∀ (schedule : List Nat) (st : lookback_grid), lookback_consistent st →
      lookback_consistent (lookback_run reduction schedule st) := by
    intro schedule
    induction schedule with
    | nil => intro st h; exact h
    | cons b schedule ih =>
      intro st h
      exact ih _ (lookback_step_consistent reduction b st h)
  exact hgen schedule lookback_init (fun _ => rfl)

end lookback

/-! ## Runs: starts, ends and reductions -/

section runs

variable {K V : Type}

/-- The last head at or before `i` is a head, when position `0` is one. -/
theorem last_head_is_head (heads : Nat → Bool) (h0 : heads 0 = true) (i : Nat) :
    heads (last_head heads i) = true := by
  induction i with
  | zero => exact h0
  | succ i ih =>
    rw [last_head]
    by_cases h : heads (i + 1) = true
    · rw [if_pos h]
      exact h
    · rw [if_neg h]
      exact ih

/-- No head lies after the last head at or before `i`, up to `i`. -/
theorem last_head_ge (heads : Nat → Bool) (i q : Nat) (hq : q ≤ i) (h : heads q = true) :
    q ≤ last_head heads i := by
  induction i with
  | zero =>
    have : q = 0 := by omega
    rw [this]
    exact Nat.le_refl _
  | succ i ih =>
    rw [last_head]
    by_cases hh : heads (i + 1) = true
    · rw [if_pos hh]
      exact hq
    · rw [if_neg hh]
      rcases Nat.lt_or_ge q (i + 1) with hlt | hge
      · exact ih (by omega)
      · have : q = i + 1 := by omega
        rw [this] at h
        exact absurd h hh

/-- Without a head in `(a, i]` the last head at or before `i` is the one at or before
`a`. -/
theorem last_head_eq_of_no_head (heads : Nat → Bool) (a i : Nat) (hai : a ≤ i)
    (h : ∀ q, a < q → q ≤ i → heads q = false) : last_head heads i = last_head heads a := by
  induction i with
  | zero =>
    have : a = 0 := by omega
    rw [this]
  | succ i ih =>
    rcases Nat.lt_or_ge a (i + 1) with hlt | hge
    · rw [last_head, h (i + 1) hlt (Nat.le_refl _)]
      simp only [Bool.false_eq_true, if_false]
      exact ih (by omega) (fun q h1 h2 => h q h1 (by omega))
    · have : a = i + 1 := by omega
      rw [this]

/-- The last head is monotone. -/
theorem last_head_mono (heads : Nat → Bool) (a i : Nat) (hai : a ≤ i) :
    last_head heads a ≤ last_head heads i := by
  induction i with
  | zero =>
    have : a = 0 := by omega
    rw [this]
  | succ i ih =>
    rcases Nat.lt_or_ge a (i + 1) with hlt | hge
    · show last_head heads a ≤ (if heads (i + 1) = true then i + 1 else last_head heads i)
      split
      · exact Nat.le_trans (last_head_le heads a) (by omega)
      · exact ih (by omega)
    · have : a = i + 1 := by omega
      rw [this]

/-- The last head at or before `i` is at most `a` exactly when no head lies in
`(a, i]`. -/
theorem last_head_le_iff (heads : Nat → Bool) (a i : Nat) (hai : a ≤ i) :
    last_head heads i ≤ a ↔ ∀ q, a < q → q ≤ i → heads q = false := by
  constructor
  · intro hle q h1 h2
    by_contra hq
    have := last_head_ge heads i q h2 (by simpa using hq)
    omega
  · intro h
    rw [last_head_eq_of_no_head heads a i hai h]
    exact last_head_le heads a

/-- The reduction of a range of shifted values. -/
theorem range_reduce_shift (op : V → V → V) (values : Nat → V) (o s k : Nat) :
    range_reduce op (fun q => values (o + q)) s k = range_reduce op values (o + s) k := by
  induction k with
  | zero => rfl
  | succ k ih =>
    rw [range_reduce, range_reduce, ih]
    simp only [Nat.add_assoc]

/-- The reduction of a range depends on the values of the range only. -/
theorem range_reduce_congr (op : V → V → V) (values1 values2 : Nat → V) (s k : Nat)
    (h : ∀ q, s ≤ q → q ≤ s + k → values1 q = values2 q) :
    range_reduce op values1 s k = range_reduce op values2 s k := by
  induction k with
  | zero => exact h s (Nat.le_refl _) (Nat.le_refl _)
  | succ k ih =>
    rw [range_reduce, range_reduce, ih (fun q h1 h2 => h q h1 (by omega)),
      h (s + k + 1) (by omega) (by omega)]

/-- A range reduced with an associative operator splits at every position. -/
theorem range_reduce_split (op : V → V → V)
    (hassoc : ∀ x y z, op (op x y) z = op x (op y z)) (values : Nat → V) (s a b : Nat) :
    range_reduce op values s (a + 1 + b)
      = op (range_reduce op values s a) (range_reduce op values (s + a + 1) b) := by
  induction b with
  | zero => rfl
  | succ b ih =>
    rw [show a + 1 + (b + 1) = (a + 1 + b) + 1 from rfl, range_reduce, ih, hassoc,
      range_reduce]
    have e : s + (a + 1 + b) + 1 = s + a + 1 + b + 1 := by omega
    rw [e]

/-- The start of the run of `p` is at or before `p`. -/
theorem run_start_of_le (eq : K → K → Bool) (keys : Nat → K) (p : Nat) :
    run_start_of eq keys p ≤ p :=
  last_head_le _ p

/-- The start of the run of `p` is a run start. -/
theorem run_start_of_is_start (eq : K → K → Bool) (keys : Nat → K) (p : Nat) :
    is_run_start eq keys (run_start_of eq keys p) = true :=
  last_head_is_head _ (by simp [is_run_start]) p

/-- The keys of a run are eq to the first key of the run, for a reflexive and
transitive `eq`. -/
theorem eq_run_start_of (eq : K → K → Bool) (keys : Nat → K)
    (hrefl : ∀ a, eq a a = true)
    (htrans : ∀ a b c, eq a b = true → eq b c = true → eq a c = true) (p : Nat) :
    eq (keys (run_start_of eq keys p)) (keys p) = true := by
  induction p with
  | zero => exact hrefl _
  | succ p ih =>
    unfold run_start_of at ih ⊢
    rw [last_head]
    by_cases h : is_run_start eq keys (p + 1) = true
    · rw [if_pos h]
      exact hrefl _
    · rw [if_neg h]
      have hadj : eq (keys p) (keys (p + 1)) = true := by
        unfold is_run_start at h
        simpa using h
      exact htrans _ _ _ ih hadj

end runs

/-! ## Reduce-by-key: the scanned values of one block -/

section rbk_values

open Finset

variable {BlockSize ItemsPerThread warp_size ScanBlockSize ScanItemsPerThread
  size blocks_per_full_batch full_batches blocks batches : Nat}

/-- The last head of a block whose head flags after item `0` are the global ones: the
global last head, or the first item of the block when that one lies before the block. -/
theorem last_head_block (heads block_heads : Nat → Bool) (o j : Nat)
    (h : ∀ q, 0 < q → q ≤ j → block_heads q = heads (o + q)) :
    o + last_head block_heads j = max o (last_head heads (o + j)) := by
  induction j with
  | zero =>
    have := last_head_le heads o
    show o + 0 = max o (last_head heads (o + 0))
    simp only [Nat.add_zero]
    omega
  | succ j ih =>
    have ih' := ih (fun q h1 h2 => h q h1 (by omega))
    rw [last_head, show o + (j + 1) = (o + j) + 1 from rfl, last_head,
      h (j + 1) (by omega) (Nat.le_refl _), show o + (j + 1) = (o + j) + 1 from rfl]
    split
    · omega
    · exact ih'

/-- The head flag of an item after item `0` of a block is the run start of the input,
for an item inside the input. -/
theorem block_head_flags_eq {K : Type}
    (h : launch_ok BlockSize ItemsPerThread warp_size ScanBlockSize ScanItemsPerThread
      size blocks_per_full_batch full_batches blocks batches)
    (keys_input uninit : Nat → K) (key_compare_op : K → K → Bool)
    {block_id q : Nat} (hb : block_id < blocks) (hq0 : 0 < q)
    (hq : q < BlockSize * ItemsPerThread)
    (hv : block_id * (BlockSize * ItemsPerThread) + q < size) :
    block_head_flags BlockSize ItemsPerThread size blocks keys_input uninit key_compare_op
        block_id q
      = is_run_start key_compare_op keys_input
          (block_id * (BlockSize * ItemsPerThread) + q) := by
  obtain ⟨j, rfl⟩ : ∃ j, q = j + 1 := ⟨q - 1, by omega⟩
  rw [block_head_flags_succ h keys_input uninit key_compare_op block_id hq,
    block_tail_flags_eq h keys_input uninit key_compare_op hb (by omega),
    is_run_end_eq_start key_compare_op keys_input (by omega)]
  rfl

/-- The values a block holds in its valid items are the input values. -/
theorem block_values_eq {V : Type}
    (h : launch_ok BlockSize ItemsPerThread warp_size ScanBlockSize ScanItemsPerThread
      size blocks_per_full_batch full_batches blocks batches)
    (values_input uninit : Nat → V)
    {block_id j : Nat} (hb : block_id < blocks)
    (hj : block_id * (BlockSize * ItemsPerThread) + j < size) :
    (if wrap32 (wrap32 (block_id * wrap32 (BlockSize * ItemsPerThread))
          + wrap32 (BlockSize * ItemsPerThread)) ≤ size then
        block_load values_input (wrap32 (block_id * wrap32 (BlockSize * ItemsPerThread)))
      else block_load_valid values_input
        (wrap32 (block_id * wrap32 (BlockSize * ItemsPerThread)))
        (block_valid_count (wrap32 (BlockSize * ItemsPerThread)) size
          (wrap32 (block_id * wrap32 (BlockSize * ItemsPerThread)))) uninit) j
      = values_input (block_id * (BlockSize * ItemsPerThread) + j) := by
  have hI := h.ipb_lt
  have hle := h.block_offset_le hb
  have hfit := h.fits
  have hsz := h.size_lt
  have hB := h.offset_lt hb
  rw [block_valid_count_eq h hb, h.wrap_offset hb, wrap32_of_lt hI, wrap32_of_lt hB]
  split
  · rfl
  · unfold block_load_valid
    rw [if_pos (by omega)]

/-- The scanned value of a valid item of a block: the reduction of the part of its run
that lies in the block. -/
theorem block_pairs_value_eq {K V : Type}
    (h : launch_ok BlockSize ItemsPerThread warp_size ScanBlockSize ScanItemsPerThread
      size blocks_per_full_batch full_batches blocks batches)
    (keys_input uninit : Nat → K) (key_compare_op : K → K → Bool)
    (reduce_op : V → V → V) (values_input values : Nat → V)
    {block_id j : Nat} (hb : block_id < blocks) (hj : j < BlockSize * ItemsPerThread)
    (hv : block_id * (BlockSize * ItemsPerThread) + j < size)
    (hvalues : ∀ q, block_id * (BlockSize * ItemsPerThread) + q < size →
      values q = values_input (block_id * (BlockSize * ItemsPerThread) + q)) :
    (block_inclusive_scan (scan_by_key_op reduce_op)
        (fun j => { key := if block_head_flags BlockSize ItemsPerThread size blocks keys_input
                      uninit key_compare_op block_id j then 1 else 0,
                    value := values j }) j).value
      = segment_reduce key_compare_op keys_input reduce_op values_input
          (block_id * (BlockSize * ItemsPerThread))
          (block_id * (BlockSize * ItemsPerThread) + j) := by
  rw [scan_by_key_value]
  simp only []
  have hheads : ∀ q, 0 < q → q ≤ j →
      ((if block_head_flags BlockSize ItemsPerThread size blocks keys_input uninit
          key_compare_op block_id q = true then 1 else 0) != 0)
      = is_run_start key_compare_op keys_input
          (block_id * (BlockSize * ItemsPerThread) + q) := by
    intro q h0 hq
    rw [← block_head_flags_eq h keys_input uninit key_compare_op hb h0 (by omega)
      (by omega)]
    cases block_head_flags BlockSize ItemsPerThread size blocks keys_input uninit
      key_compare_op block_id q <;> rfl
  have hlh := last_head_block (is_run_start key_compare_op keys_input) _
    (block_id * (BlockSize * ItemsPerThread)) j hheads
  have hle := last_head_le (fun q =>
    (if block_head_flags BlockSize ItemsPerThread size blocks keys_input uninit
      key_compare_op block_id q = true then 1 else 0) != 0) j
  unfold segment_reduce run_start_of
  rw [← hlh, range_reduce_congr reduce_op _
    (fun q => values_input (block_id * (BlockSize * ItemsPerThread) + q)) _ _
    (fun q _ hq => hvalues q (by omega)), range_reduce_shift]
  congr 1
  omega

/-- The rank of a valid item in its block is `0` exactly when its run starts at or
before the first item of the block. -/
theorem block_rank_zero_iff {K : Type} (eq : K → K → Bool) (keys : Nat → K) (N o j : Nat)
    (hv : o + j < N) :
    Nat.count (fun i => is_run_end eq keys N (o + i) = true) j = 0
      ↔ run_start_of eq keys (o + j) ≤ o := by
  unfold run_start_of
  rw [last_head_le_iff _ o (o + j) (Nat.le_add_right o j), Nat.count_iff_forall_not]
  constructor
  · intro hc q h1 h2
    have := hc (q - o - 1) (by omega)
    rw [show o + (q - o - 1) = q - 1 by omega,
      is_run_end_eq_start eq keys (by omega),
      show q - 1 + 1 = q by omega] at this
    simpa using this
  · intro hs i hi
    rw [is_run_end_eq_start eq keys (by omega), hs (o + i + 1) (by omega) (by omega)]
    simp

/-- The carry-in of the previous block joins the scanned value of an item of the first
segment of a block: together they are the reduction of the part of the run that lies
in the batch. -/
theorem segment_reduce_carry {K V : Type} (eq : K → K → Bool) (keys : Nat → K)
    (op : V → V → V) (hassoc : ∀ x y z, op (op x y) z = op x (op y z)) (values : Nat → V)
    (lo o j : Nat) (hlo : lo < o) (hstart : is_run_start eq keys o = false)
    (hrun : run_start_of eq keys (o + j) ≤ o) :
    op (segment_reduce eq keys op values lo (o - 1))
        (segment_reduce eq keys op values o (o + j))
      = segment_reduce eq keys op values lo (o + j) := by
  obtain ⟨o', rfl⟩ : ∃ o', o = o' + 1 := ⟨o - 1, by omega⟩
  have h1 : run_start_of eq keys (o' + 1 + j) = run_start_of eq keys (o' + 1) := by
    unfold run_start_of at hrun ⊢
    exact last_head_eq_of_no_head _ _ _ (Nat.le_add_right _ _)
      ((last_head_le_iff _ _ _ (Nat.le_add_right _ _)).mp hrun)
  have h2 : run_start_of eq keys (o' + 1) = run_start_of eq keys o' := by
    unfold run_start_of
    rw [last_head, hstart]
    rfl
  have h3 := run_start_of_le eq keys o'
  unfold segment_reduce
  rw [h1, h2, Nat.add_sub_cancel]
  have e1 : max (o' + 1) (run_start_of eq keys o') = o' + 1 := by omega
  have e2 : o' + 1 + j - max lo (run_start_of eq keys o')
      = (o' - max lo (run_start_of eq keys o')) + 1 + j := by omega
  have e3 : max lo (run_start_of eq keys o') + (o' - max lo (run_start_of eq keys o')) + 1
      = o' + 1 := by omega
  rw [e1, e2, range_reduce_split op hassoc, e3, Nat.add_sub_cancel_left]

/-- Without a run that comes in from an earlier block of the batch, the scanned value of
an item of a block is the reduction of the part of its run that lies in the batch. -/
theorem segment_reduce_same {K V : Type} (eq : K → K → Bool) (keys : Nat → K)
    (op : V → V → V) (values : Nat → V) (lo o j : Nat) (hlo : lo ≤ o)
    (h : lo = o ∨ is_run_start eq keys o = true ∨ o < run_start_of eq keys (o + j)) :
    segment_reduce eq keys op values o (o + j)
      = segment_reduce eq keys op values lo (o + j) := by
  have hmax : max o (run_start_of eq keys (o + j)) = max lo (run_start_of eq keys (o + j)) := by
    rcases h with h | h | h
    · rw [h]
    · have := last_head_ge (is_run_start eq keys) (o + j) o (Nat.le_add_right _ _) h
      unfold run_start_of
      omega
    · omega
  unfold segment_reduce
  rw [hmax]

end rbk_values

/-! ## Reduce-by-key: the aggregates and the carry-out of one iteration of the block loop -/

section rbk_block_values

open Finset

variable {BlockSize ItemsPerThread warp_size ScanBlockSize ScanItemsPerThread
  size blocks_per_full_batch full_batches blocks batches : Nat}

/-- The value an item of a block holds after the carry-in of the previous block of the
batch is applied: the reduction of the part of its run that lies in the batch. -/
theorem carry_value_eq {K V : Type} (eq : K → K → Bool) (keys : Nat → K)
    (op : V → V → V) (hassoc : ∀ x y z, op (op x y) z = op x (op y z)) (values : Nat → V)
    (N lo o j bi n : Nat) (carry : V) (has_carry : Bool) (rank : Nat) (pv : V)
    (hlo : lo + bi * n = o) (hn : 0 < n) (hv : o + j < N)
    (hcarry : has_carry = !is_run_start eq keys o)
    (hcv : 0 < bi → has_carry = true → carry = segment_reduce eq keys op values lo (o - 1))
    (hrank : rank = Nat.count (fun i => is_run_end eq keys N (o + i) = true) j)
    (hpv : pv = segment_reduce eq keys op values o (o + j)) :
    (if 0 < bi ∧ has_carry = true ∧ rank = 0 then op carry pv else pv)
      = segment_reduce eq keys op values lo (o + j) := by
  have hiff := block_rank_zero_iff eq keys N o j hv
  rw [← hrank] at hiff
  by_cases hc : 0 < bi ∧ has_carry = true ∧ rank = 0
  · obtain ⟨h1, h2, h3⟩ := hc
    rw [if_pos ⟨h1, h2, h3⟩, hcv h1 h2, hpv]
    have hpos : 0 < bi * n := Nat.mul_pos h1 hn
    have hs : is_run_start eq keys o = false := by
      rw [hcarry] at h2
      simpa using h2
    exact segment_reduce_carry eq keys op hassoc values lo o j (by omega) hs (hiff.mp h3)
  · rw [if_neg hc, hpv]
    apply segment_reduce_same eq keys op values lo o j (by omega)
    by_cases h1 : 0 < bi
    · by_cases h2 : has_carry = true
      · right; right
        have h3 : ¬ rank = 0 := fun h3 => hc ⟨h1, h2, h3⟩
        have := mt hiff.mpr h3
        omega
      · right; left
        rw [hcarry] at h2
        simpa using h2
    · left
      have : bi = 0 := by omega
      rw [this] at hlo
      omega

/-- The effect of one iteration of the block loop of `reduce_by_key` on the stores to
`aggregates_output`, on `storage.carry_out` and on the carry-out of the batch. -/
theorem reduce_by_key_block_values {K V : Type}
    (h : launch_ok BlockSize ItemsPerThread warp_size ScanBlockSize ScanItemsPerThread
      size blocks_per_full_batch full_batches blocks batches)
    (keys_input uninitK : Nat → K) (values_input uninitV : Nat → V)
    (key_compare_op : K → K → Bool) (reduce_op : V → V → V)
    (hassoc : ∀ x y z, reduce_op (reduce_op x y) z = reduce_op x (reduce_op y z))
    (st : reduce_by_key_state K V) (bi bpb lo : Nat)
    (hb : st.block_id < blocks)
    (hstart : st.block_start
      = Nat.count (fun q => is_run_end key_compare_op keys_input size q = true)
          (st.block_id * (BlockSize * ItemsPerThread)))
    (hcarry : st.storage_has_carry_out
      = !is_run_start key_compare_op keys_input (st.block_id * (BlockSize * ItemsPerThread)))
    (hlo : lo + bi * (BlockSize * ItemsPerThread)
      = st.block_id * (BlockSize * ItemsPerThread))
    (hcv : 0 < bi → st.storage_has_carry_out = true →
      st.storage_carry_out = segment_reduce key_compare_op keys_input reduce_op values_input
        lo (st.block_id * (BlockSize * ItemsPerThread) - 1)) :
    (reduce_by_key_block BlockSize ItemsPerThread keys_input uninitK values_input uninitV
        size key_compare_op reduce_op blocks bpb st bi).aggregate_stores
      = st.aggregate_stores ++ (List.range (BlockSize * ItemsPerThread)).filterMap
          (fun j => aggregate_store key_compare_op keys_input size reduce_op values_input lo
            (st.block_id * (BlockSize * ItemsPerThread) + j))
    ∧ (bi ≠ sub32 bpb 1 → st.block_id + 1 < blocks →
        (reduce_by_key_block BlockSize ItemsPerThread keys_input uninitK values_input uninitV
          size key_compare_op reduce_op blocks bpb st bi).storage_carry_out
        = segment_reduce key_compare_op keys_input reduce_op values_input lo
            ((st.block_id + 1) * (BlockSize * ItemsPerThread) - 1))
    ∧ (bi ≠ sub32 bpb 1 →
        (reduce_by_key_block BlockSize ItemsPerThread keys_input uninitK values_input uninitV
          size key_compare_op reduce_op blocks bpb st bi).carry_outs_store
        = st.carry_outs_store)
    ∧ (bi = sub32 bpb 1 → st.block_id + 1 < blocks →
        (reduce_by_key_block BlockSize ItemsPerThread keys_input uninitK values_input uninitV
          size key_compare_op reduce_op blocks bpb st bi).carry_outs_store
        = some
            { key := keys_input ((st.block_id + 1) * (BlockSize * ItemsPerThread) - 1)
              value := segment_reduce key_compare_op keys_input reduce_op values_input lo
                ((st.block_id + 1) * (BlockSize * ItemsPerThread) - 1)
              destination := Nat.count
                (fun q => is_run_end key_compare_op keys_input size q = true)
                ((st.block_id + 1) * (BlockSize * ItemsPerThread) - 1)
              is_final_aggregate :=
                if is_run_start key_compare_op keys_input
                    ((st.block_id + 1) * (BlockSize * ItemsPerThread)) = true then 1
                else 0 }) := by
  have hI := h.ipb_lt
  have hIpos := h.ipb_pos
  have hsz := h.size_lt
  have hlast := last_item_eq h.block_pos h.items_pos
  have hsucc : (st.block_id + 1) * (BlockSize * ItemsPerThread)
      = st.block_id * (BlockSize * ItemsPerThread) + BlockSize * ItemsPerThread := by ring
  have hvals : ∀ q, st.block_id * (BlockSize * ItemsPerThread) + q < size →
      (if wrap32 (wrap32 (st.block_id * wrap32 (BlockSize * ItemsPerThread))
            + wrap32 (BlockSize * ItemsPerThread)) ≤ size then
          block_load values_input (wrap32 (st.block_id * wrap32 (BlockSize * ItemsPerThread)))
        else block_load_valid values_input
          (wrap32 (st.block_id * wrap32 (BlockSize * ItemsPerThread)))
          (block_valid_count (wrap32 (BlockSize * ItemsPerThread)) size
            (wrap32 (st.block_id * wrap32 (BlockSize * ItemsPerThread)))) uninitV) q
        = values_input (st.block_id * (BlockSize * ItemsPerThread) + q) :=
    fun q hq => block_values_eq h values_input uninitV hb hq
  have hrank : ∀ j, j < BlockSize * ItemsPerThread →
      sub32 (block_inclusive_scan (scan_by_key_op reduce_op)
        (fun j => { key := if block_head_flags BlockSize ItemsPerThread size blocks keys_input
                      uninitK key_compare_op st.block_id j then 1 else 0,
                    value := (if wrap32 (wrap32 (st.block_id * wrap32 (BlockSize * ItemsPerThread))
                          + wrap32 (BlockSize * ItemsPerThread)) ≤ size then
                        block_load values_input
                          (wrap32 (st.block_id * wrap32 (BlockSize * ItemsPerThread)))
                      else block_load_valid values_input
                          (wrap32 (st.block_id * wrap32 (BlockSize * ItemsPerThread)))
                          (block_valid_count (wrap32 (BlockSize * ItemsPerThread)) size
                            (wrap32 (st.block_id * wrap32 (BlockSize * ItemsPerThread))))
                          uninitV) j }) j).key 1
      = Nat.count (fun i => is_run_end key_compare_op keys_input size
          (st.block_id * (BlockSize * ItemsPerThread) + i) = true) j :=
    fun j hj => block_ranks_eq h keys_input uninitK key_compare_op reduce_op _ hb hj
  have hpv : ∀ j, j < BlockSize * ItemsPerThread →
      st.block_id * (BlockSize * ItemsPerThread) + j < size →
      (block_inclusive_scan (scan_by_key_op reduce_op)
        (fun j => { key := if block_head_flags BlockSize ItemsPerThread size blocks keys_input
                      uninitK key_compare_op st.block_id j then 1 else 0,
                    value := (if wrap32 (wrap32 (st.block_id * wrap32 (BlockSize * ItemsPerThread))
                          + wrap32 (BlockSize * ItemsPerThread)) ≤ size then
                        block_load values_input
                          (wrap32 (st.block_id * wrap32 (BlockSize * ItemsPerThread)))
                      else block_load_valid values_input
                          (wrap32 (st.block_id * wrap32 (BlockSize * ItemsPerThread)))
                          (block_valid_count (wrap32 (BlockSize * ItemsPerThread)) size
                            (wrap32 (st.block_id * wrap32 (BlockSize * ItemsPerThread))))
                          uninitV) j }) j).value
      = segment_reduce key_compare_op keys_input reduce_op values_input
          (st.block_id * (BlockSize * ItemsPerThread))
          (st.block_id * (BlockSize * ItemsPerThread) + j) :=
    fun j hj hv => block_pairs_value_eq h keys_input uninitK key_compare_op reduce_op
      values_input _ hb hj hv hvals
  have hglob := count_run_end_block key_compare_op keys_input size
    (st.block_id * (BlockSize * ItemsPerThread))
  have hbound := count_run_end_le_size key_compare_op keys_input size
  have hvalue : ∀ j, j < BlockSize * ItemsPerThread →
      st.block_id * (BlockSize * ItemsPerThread) + j < size →
      (if 0 < bi ∧ st.storage_has_carry_out = true ∧
          sub32 (block_inclusive_scan (scan_by_key_op reduce_op)
            (fun j => { key := if block_head_flags BlockSize ItemsPerThread size blocks
                          keys_input uninitK key_compare_op st.block_id j then 1 else 0,
                        value := (if wrap32 (wrap32 (st.block_id
                                * wrap32 (BlockSize * ItemsPerThread))
                              + wrap32 (BlockSize * ItemsPerThread)) ≤ size then
                            block_load values_input
                              (wrap32 (st.block_id * wrap32 (BlockSize * ItemsPerThread)))
                          else block_load_valid values_input
                              (wrap32 (st.block_id * wrap32 (BlockSize * ItemsPerThread)))
                              (block_valid_count (wrap32 (BlockSize * ItemsPerThread)) size
                                (wrap32 (st.block_id * wrap32 (BlockSize * ItemsPerThread))))
                              uninitV) j }) j).key 1 = 0 then
          reduce_op st.storage_carry_out
            (block_inclusive_scan (scan_by_key_op reduce_op)
              (fun j => { key := if block_head_flags BlockSize ItemsPerThread size blocks
                            keys_input uninitK key_compare_op st.block_id j then 1 else 0,
                          value := (if wrap32 (wrap32 (st.block_id
                                  * wrap32 (BlockSize * ItemsPerThread))
                                + wrap32 (BlockSize * ItemsPerThread)) ≤ size then
                              block_load values_input
                                (wrap32 (st.block_id * wrap32 (BlockSize * ItemsPerThread)))
                            else block_load_valid values_input
                                (wrap32 (st.block_id * wrap32 (BlockSize * ItemsPerThread)))
                                (block_valid_count (wrap32 (BlockSize * ItemsPerThread)) size
                                  (wrap32 (st.block_id * wrap32 (BlockSize * ItemsPerThread))))
                                uninitV) j }) j).value
        else
          (block_inclusive_scan (scan_by_key_op reduce_op)
            (fun j => { key := if block_head_flags BlockSize ItemsPerThread size blocks
                          keys_input uninitK key_compare_op st.block_id j then 1 else 0,
                        value := (if wrap32 (wrap32 (st.block_id
                                * wrap32 (BlockSize * ItemsPerThread))
                              + wrap32 (BlockSize * ItemsPerThread)) ≤ size then
                            block_load values_input
                              (wrap32 (st.block_id * wrap32 (BlockSize * ItemsPerThread)))
                          else block_load_valid values_input
                              (wrap32 (st.block_id * wrap32 (BlockSize * ItemsPerThread)))
                              (block_valid_count (wrap32 (BlockSize * ItemsPerThread)) size
                                (wrap32 (st.block_id * wrap32 (BlockSize * ItemsPerThread))))
                              uninitV) j }) j).value)
      = segment_reduce key_compare_op keys_input reduce_op values_input lo
          (st.block_id * (BlockSize * ItemsPerThread) + j) :=
    fun j hj hv => carry_value_eq key_compare_op keys_input reduce_op hassoc values_input
      size lo _ j bi (BlockSize * ItemsPerThread) _ _ _ _ hlo hIpos hv hcarry hcv
      (hrank j hj) (hpv j hj hv)
  have hdest : ∀ j, wrap32 (Nat.count
        (fun q => is_run_end key_compare_op keys_input size q = true)
          (st.block_id * (BlockSize * ItemsPerThread))
      + Nat.count (fun i => is_run_end key_compare_op keys_input size
          (st.block_id * (BlockSize * ItemsPerThread) + i) = true) j)
      = Nat.count (fun q => is_run_end key_compare_op keys_input size q = true)
          (st.block_id * (BlockSize * ItemsPerThread) + j) := by
    intro j
    rw [hglob]
    exact wrap32_of_lt (lt_of_le_of_lt (hbound _) hsz)
  refine ⟨?_, ?_, ?_, ?_⟩
  · unfold reduce_by_key_block
    dsimp only
    refine congrArg (fun l => st.aggregate_stores ++ l) ?_
    rw [show List.range (wrap32 (BlockSize * ItemsPerThread))
      = List.range (BlockSize * ItemsPerThread) from by rw [wrap32_of_lt hI]]
    apply List.filterMap_congr
    intro j hj
    rw [List.mem_range] at hj
    rw [block_tail_flags_eq h keys_input uninitK key_compare_op hb hj]
    unfold aggregate_store
    by_cases he : is_run_end key_compare_op keys_input size
        (st.block_id * (BlockSize * ItemsPerThread) + j) = true
    · have hv : st.block_id * (BlockSize * ItemsPerThread) + j < size := by
        by_contra hge
        rw [is_run_end_of_ge key_compare_op keys_input (by omega)] at he
        exact Bool.false_ne_true he
      rw [if_pos he, if_pos he, hvalue j hj hv, hrank j hj, hstart, hdest]
    · rw [if_neg he, if_neg he]
  · intro hne hnext
    have hin := h.inner_block_le hnext
    unfold reduce_by_key_block
    dsimp only
    rw [if_neg (by simpa using hne), hlast,
      hvalue _ (by omega) (by omega), hsucc]
    congr 1
    omega
  · intro hne
    unfold reduce_by_key_block
    dsimp only
    rw [if_neg (by simpa using hne)]
  · intro heq hnext
    have hin := h.inner_block_le hnext
    unfold reduce_by_key_block
    dsimp only
    rw [if_pos (by simpa using heq), hlast, hvalue _ (by omega) (by omega),
      hrank _ (by omega), hstart, hdest,
      block_tail_flags_eq h keys_input uninitK key_compare_op hb (by omega),
      block_keys_eq h keys_input uninitK hb (by omega),
      is_run_end_eq_start key_compare_op keys_input (by omega), hsucc]
    have e1 : st.block_id * (BlockSize * ItemsPerThread) + (BlockSize * ItemsPerThread - 1)
        = st.block_id * (BlockSize * ItemsPerThread) + BlockSize * ItemsPerThread - 1 := by
      omega
    have e2 : st.block_id * (BlockSize * ItemsPerThread) + (BlockSize * ItemsPerThread - 1) + 1
        = st.block_id * (BlockSize * ItemsPerThread) + BlockSize * ItemsPerThread := by
      omega
    rw [e1] at e2 ⊢
    rw [e2]

end rbk_block_values

/-! ## Claims on the pair combinator -/

section claims_scan_by_key

/-- C29 (segmented scan by pair encoding). For every sequence of pairs `(h_q, v_q)` with
`h_q` in `{0, 1}`, `h_0 = 1` and fewer than `2^32` heads up to position `i`, and every
`reduce_op`, the left-to-right inclusive scan under `scan_by_key_op` has at position `i`
the key "number of heads in `[0..i]`" and the value `v_s ⊕ … ⊕ v_i` reduced from left to
right, `s` being the last head position at or before `i`; the key is at least `1`, and
`key - 1` (an `unsigned int` difference) is the number of heads in `[1..i]`, the 0-based
rank of the segment of item `i`. -/
theorem segmented_scan_by_pairs {V : Type} (reduce_op : V → V → V)
    (xs : Nat → scan_by_key_pair V) (i : Nat)
    (hbit : ∀ q, q ≤ i → (xs q).key = 0 ∨ (xs q).key = 1) (h0 : (xs 0).key = 1)
    (hheads : Nat.count (fun q => (xs q).key = 1) (i + 1) < 4294967296) :
    (block_inclusive_scan (scan_by_key_op reduce_op) xs i).key
      = Nat.count (fun q => (xs q).key = 1) (i + 1)
    ∧ (block_inclusive_scan (scan_by_key_op reduce_op) xs i).value
      = range_reduce reduce_op (fun q => (xs q).value)
          (last_head (fun q => decide ((xs q).key = 1)) i)
          (i - last_head (fun q => decide ((xs q).key = 1)) i)
    ∧ 1 ≤ (block_inclusive_scan (scan_by_key_op reduce_op) xs i).key
    ∧ sub32 (block_inclusive_scan (scan_by_key_op reduce_op) xs i).key 1
      = Nat.count (fun q => (xs (q + 1)).key = 1) i := by
  have hsum := sum_keys_eq_count xs (i + 1) (fun q hq => hbit q (Nat.lt_succ_iff.mp hq))
  have hkey : (block_inclusive_scan (scan_by_key_op reduce_op) xs i).key
      = Nat.count (fun q => (xs q).key = 1) (i + 1) := by
    rw [scan_by_key_key reduce_op xs i (by rw [hsum]; exact hheads), hsum]
  have hcount : Nat.count (fun q => (xs q).key = 1) (i + 1)
      = Nat.count (fun q => (xs (q + 1)).key = 1) i + 1 := by
    rw [Nat.count_succ', if_pos h0]
  refine ⟨hkey, ?_, ?_, ?_⟩
  · rw [scan_by_key_value reduce_op xs i,
      last_head_congr (fun q => (xs q).key != 0) (fun q => decide ((xs q).key = 1)) i
        (fun q hq => by
          rcases hbit q hq with h | h <;> simp [h])]
  · rw [hkey, hcount]
    exact Nat.le_add_left 1 _
  · rw [hkey, hcount, sub32_of_le (Nat.le_add_left 1 _) (by omega)]
    rfl

/-- C29, witness: the pairs of the reduce-by-key scenario, heads `[1,0,0,1,1,0,1,0]`
with the values `[2,0,1,4,2,3,1,5]`, at position `5`. -/
theorem segmented_scan_by_pairs_witness :
    (∀ q, q ≤ 5 →
      (scan_by_key_pair.mk ([1, 0, 0, 1, 1, 0, 1, 0].getD q 0) (scenario_values q)).key = 0
      ∨ (scan_by_key_pair.mk ([1, 0, 0, 1, 1, 0, 1, 0].getD q 0) (scenario_values q)).key
        = 1)
    ∧ (block_inclusive_scan (scan_by_key_op (fun a b => a + b))
        (fun q => ⟨[1, 0, 0, 1, 1, 0, 1, 0].getD q 0, scenario_values q⟩) 5).key
      = Nat.count (fun q => [1, 0, 0, 1, 1, 0, 1, 0].getD q 0 = 1) (5 + 1)
    ∧ (block_inclusive_scan (scan_by_key_op (fun a b => a + b))
        (fun q => ⟨[1, 0, 0, 1, 1, 0, 1, 0].getD q 0, scenario_values q⟩) 5).value
      = range_reduce (fun a b => a + b) scenario_values
          (last_head (fun q => decide ([1, 0, 0, 1, 1, 0, 1, 0].getD q 0 = 1)) 5)
          (5 - last_head (fun q => decide ([1, 0, 0, 1, 1, 0, 1, 0].getD q 0 = 1)) 5) :=
  ⟨by decide,
    (segmented_scan_by_pairs (fun a b => a + b)
      (fun q => ⟨[1, 0, 0, 1, 1, 0, 1, 0].getD q 0, scenario_values q⟩) 5 (by decide) rfl
      (by decide)).1,
    (segmented_scan_by_pairs (fun a b => a + b)
      (fun q => ⟨[1, 0, 0, 1, 1, 0, 1, 0].getD q 0, scenario_values q⟩) 5 (by decide) rfl
      (by decide)).2.1⟩

/-- C30 (combinator associativity). For every associative `reduce_op` and all pairs
`a`, `b`, `c` whose `unsigned int` key sum `a.key + b.key + c.key` does not wrap,
`scan_by_key_op` gives `op(op(a, b), c) = op(a, op(b, c))`. -/
theorem scan_by_key_op_assoc {V : Type} (reduce_op : V → V → V)
    (hassoc : ∀ x y z, reduce_op (reduce_op x y) z = reduce_op x (reduce_op y z))
    (a b c : scan_by_key_pair V) (hsum : a.key + b.key + c.key < 4294967296) :
    scan_by_key_op reduce_op (scan_by_key_op reduce_op a b) c
      = scan_by_key_op reduce_op a (scan_by_key_op reduce_op b c) := by
  have hab : wrap32 (a.key + b.key) = a.key + b.key := wrap32_of_lt (by omega)
  have hbc : wrap32 (b.key + c.key) = b.key + c.key := wrap32_of_lt (by omega)
  unfold scan_by_key_op
  simp only [hab, hbc, scan_by_key_pair.mk.injEq]
  refine ⟨by rw [Nat.add_assoc], ?_⟩
  by_cases hc : c.key = 0
  · by_cases hb : b.key = 0
    · simp [hc, hb, hassoc]
    · simp [hc, hb]
  · have hne : b.key + c.key ≠ 0 := by omega
    simp [hc, hne]

/-- C30, witness: three pairs with the keys `1, 0, 0` under addition. -/
theorem scan_by_key_op_assoc_witness :
    (∀ x y z : Nat, x + y + z = x + (y + z))
    ∧ (scan_by_key_pair.mk 1 5).key + (scan_by_key_pair.mk 0 6).key
        + (scan_by_key_pair.mk 0 7).key < 4294967296
    ∧ scan_by_key_op (fun x y : Nat => x + y)
        (scan_by_key_op (fun x y => x + y) ⟨1, 5⟩ ⟨0, 6⟩) ⟨0, 7⟩
      = scan_by_key_op (fun x y => x + y) ⟨1, 5⟩
          (scan_by_key_op (fun x y => x + y) ⟨0, 6⟩ ⟨0, 7⟩) :=
  ⟨Nat.add_assoc, by decide,
    scan_by_key_op_assoc (fun x y : Nat => x + y) Nat.add_assoc ⟨1, 5⟩ ⟨0, 6⟩ ⟨0, 7⟩
      (by decide)⟩

end claims_scan_by_key

/-! ## Claims on the scan scenarios -/

section claims_scan_scenarios

/-- C21 (exclusive-min scenario). The work call of `exclusive_scan` with
`scan_op = min` and the initial value `9` on the input `[4,7,6,2,5,1,3,8]` returns (for
every recursion budget of at least nine calls) and writes the output
`[9,4,4,4,2,2,1,1]`, whatever the scratch buffer, `storage_size`, the previous content
of the output and the uninitialised registers hold. -/
theorem exclusive_min_scan_output (scan_get_temporary_storage_bytes : Nat → Nat → Nat)
    (sizeof_result fuel : Nat) (temporary_storage : Nat → Nat) (storage_size : Nat)
    (output : Nat → Nat) (dflt : Nat) (uninit : Nat → Nat) :
    (exclusive_scan_full scan_get_temporary_storage_bytes sizeof_result (fuel + 9)
        (some temporary_storage) storage_size exclusive_min_input output 9 dflt 8
        (fun a b => min a b) uninit).map (fun o => (List.range 8).map o.output)
      = some [9, 4, 4, 4, 2, 2, 1, 1] := by
  obtain ⟨out, hout, hv⟩ := exclusive_scan_full_value scan_get_temporary_storage_bytes
    sizeof_result (fuel + 9) temporary_storage storage_size exclusive_min_input output 9
    dflt 8 (fun a b => min a b) uninit Nat.min_assoc (by omega) (by decide)
  have hmap : (exclusive_scan_full scan_get_temporary_storage_bytes sizeof_result
      (fuel + 9) (some temporary_storage) storage_size exclusive_min_input output 9 dflt
      8 (fun a b => min a b) uninit).map (fun o => (List.range 8).map o.output)
      = ((exclusive_scan_full scan_get_temporary_storage_bytes sizeof_result
      (fuel + 9) (some temporary_storage) storage_size exclusive_min_input output 9 dflt
      8 (fun a b => min a b) uninit).map (fun o => o.output)).map
        (fun out => (List.range 8).map out) := by
    rw [Option.map_map]
    rfl
  rw [hmap, hout]
  simp only [Option.map_some', List.range_succ, List.range_zero, List.map_append,
    List.map_cons, List.map_nil, List.nil_append, List.cons_append]
  rw [hv 0 (by decide), hv 1 (by decide), hv 2 (by decide), hv 3 (by decide),
    hv 4 (by decide), hv 5 (by decide), hv 6 (by decide), hv 7 (by decide)]
  decide

/-- C22 (documented `exclusive_scan` example), as the code has it. With the custom
operator `min_op(a, b) = a < b ? a : b`, the start value `9` and the input
`[4, 7, 6, 2, 5, 1, 3, 8]`, the work call of `exclusive_scan` returns (for every
recursion budget of at least nine calls) and produces the output
`[9, 4, 4, 4, 2, 2, 1, 1]`. -/
theorem exclusive_scan_documented_example
    (scan_get_temporary_storage_bytes : Nat → Nat → Nat) (sizeof_result fuel : Nat)
    (temporary_storage : Nat → Int) (storage_size : Nat) (output : Nat → Int) (dflt : Int)
    (uninit : Nat → Int) :
    (exclusive_scan_full scan_get_temporary_storage_bytes sizeof_result (fuel + 9)
        (some temporary_storage) storage_size documented_scan_input output 9 dflt 8 min_op
        uninit).map (fun o => (List.range 8).map o.output)
      = some [9, 4, 4, 4, 2, 2, 1, 1] :=
  exclusive_scan_documented_value scan_get_temporary_storage_bytes sizeof_result fuel
    temporary_storage storage_size output dflt uninit

/-- C22 fails on the code: the output of the documented example is not the list
`[9, 4, 7, 6, 2, 2, 1, 1]` of the documentation. The cells `2` and `3` hold
`min(9, 4, 7) = 4` and `min(9, 4, 7, 6) = 4`, not the input items `7` and `6`. -/
theorem exclusive_scan_documented_output_differs :
    (exclusive_scan_full (fun _ _ => 4) 4 9 (some (fun _ => 0)) 4 documented_scan_input
        (fun _ => 0) 9 0 8 min_op (fun _ => 0)).map (fun o => (List.range 8).map o.output)
      ≠ some [9, 4, 7, 6, 2, 2, 1, 1] := by
  rw [exclusive_scan_documented_value (fun _ _ => 4) 4 0 (fun _ => 0) 4 (fun _ => 0) 0
    (fun _ => 0)]
  decide

/-- C24 (empty scan). For `size = 0` and a non-null `temporary_storage`, the work calls
of `inclusive_scan` and `exclusive_scan` return after one kernel launch, the
single-block scan (`number_of_blocks = (0 + 1024 - 1) / 1024 = 0`, so neither the
block-reduce kernel nor the nested scan runs); that kernel stores nothing, and the
output and `storage_size` are what they were. -/
theorem empty_scan_writes_nothing {α : Type}
    (scan_get_temporary_storage_bytes : Nat → Nat → Nat) (sizeof_result fuel : Nat)
    (temporary_storage : Nat → α) (storage_size : Nat) (input output : Nat → α)
    (initial_value dflt : α) (scan_op : α → α → α) (uninit : Nat → α) :
    (∃ o, inclusive_scan_full scan_get_temporary_storage_bytes sizeof_result (fuel + 1)
          (some temporary_storage) storage_size input output dflt 0 scan_op uninit = some o
      ∧ o.kernels = 1 ∧ o.output = output ∧ o.storage_size = storage_size)
    ∧ (∃ o, exclusive_scan_full scan_get_temporary_storage_bytes sizeof_result (fuel + 1)
          (some temporary_storage) storage_size input output initial_value dflt 0 scan_op
          uninit = some o
      ∧ o.kernels = 1 ∧ o.output = output ∧ o.storage_size = storage_size)
    ∧ sub64 (wrap64 (0 + wrap32 (256 * 4))) 1 / wrap32 (256 * 4) = 0
    ∧ (∀ Exclusive : Bool,
        single_scan_kernel_impl 256 4 Exclusive input uninit 0 initial_value scan_op
          = []) := by
  have hblocks : ¬ 1 < sub64 (wrap64 (0 + wrap32 (256 * 4))) 1 / wrap32 (256 * 4) := by
    decide
  have hcall : ∀ (Exclusive : Bool) (init : α),
      scan_impl_full scan_get_temporary_storage_bytes sizeof_result 256 4 scan_op dflt
          uninit (fuel + 1) Exclusive (some temporary_storage) storage_size input output
          init 0
        = some { storage_size := storage_size, output := output, kernels := 1 } := by
    intro Exclusive init
    rw [scan_impl_full]
    simp only []
    rw [if_neg hblocks, single_scan_kernel_impl_empty]
    rfl
  exact ⟨⟨_, hcall false dflt, rfl, rfl, rfl⟩, ⟨_, hcall true initial_value, rfl, rfl, rfl⟩,
    by decide, fun Exclusive => single_scan_kernel_impl_empty 256 4 Exclusive input uninit
      initial_value scan_op⟩

end claims_scan_scenarios

/-! ## Claims on reduce-by-key: the scenario of the spec -/

section claims_rbk_scenario

/-- C23 (reduce-by-key scenario). For the keys `[1,1,1,2,3,3,4,4]`, the values
`[2,0,1,4,2,3,1,5]`, equality and `+`, the four kernels write the unique keys
`[1,2,3,4]`, the aggregates `[3,4,5,6]` and the unique count `4`: in one batch of one
block of `4 * 2` items, and also in four batches of one block of `2 * 1` items (the run
of the key `1` then spans two batches) run in the order `3, 1, 0, 2`; both launches are
accepted ones. Inside `reduce_by_key`, in the block of `4 * 2` items, the scanned pairs
have the keys `[1,1,1,2,3,3,4,4]` and the values `[2,2,3,4,2,5,1,6]`, and the ranks
`key - 1` are `[0,0,0,1,2,2,3,3]`. -/
theorem reduce_by_key_scenario :
    launch_ok 4 2 2 2 2 8 1 1 1 1
    ∧ ((reduce_by_key_launch 4 2 2 2 2 scenario_keys (fun _ => 0) scenario_values
          (fun _ => 0) 8 (fun a b => a == b) (fun a b => a + b) 1 1 1 1 [0] (fun _ => 0)
          (fun _ => 0) (fun _ => 0) (fun _ => ⟨0, 0, 0, 0⟩)).unique_count_output,
        (List.range 4).map
          (reduce_by_key_launch 4 2 2 2 2 scenario_keys (fun _ => 0) scenario_values
            (fun _ => 0) 8 (fun a b => a == b) (fun a b => a + b) 1 1 1 1 [0] (fun _ => 0)
            (fun _ => 0) (fun _ => 0) (fun _ => ⟨0, 0, 0, 0⟩)).unique_output,
        (List.range 4).map
          (reduce_by_key_launch 4 2 2 2 2 scenario_keys (fun _ => 0) scenario_values
            (fun _ => 0) 8 (fun a b => a == b) (fun a b => a + b) 1 1 1 1 [0] (fun _ => 0)
            (fun _ => 0) (fun _ => 0) (fun _ => ⟨0, 0, 0, 0⟩)).aggregates_output)
      = (4, [1, 2, 3, 4], [3, 4, 5, 6])
    ∧ launch_ok 2 1 2 2 2 8 1 4 4 4
    ∧ ((reduce_by_key_launch 2 1 2 2 2 scenario_keys (fun _ => 0) scenario_values
          (fun _ => 0) 8 (fun a b => a == b) (fun a b => a + b) 1 4 4 4 [3, 1, 0, 2]
          (fun _ => 0) (fun _ => 0) (fun _ => 0) (fun _ => ⟨0, 0, 0, 0⟩)).unique_count_output,
        (List.range 4).map
          (reduce_by_key_launch 2 1 2 2 2 scenario_keys (fun _ => 0) scenario_values
            (fun _ => 0) 8 (fun a b => a == b) (fun a b => a + b) 1 4 4 4 [3, 1, 0, 2]
            (fun _ => 0) (fun _ => 0) (fun _ => 0) (fun _ => ⟨0, 0, 0, 0⟩)).unique_output,
        (List.range 4).map
          (reduce_by_key_launch 2 1 2 2 2 scenario_keys (fun _ => 0) scenario_values
            (fun _ => 0) 8 (fun a b => a == b) (fun a b => a + b) 1 4 4 4 [3, 1, 0, 2]
            (fun _ => 0) (fun _ => 0) (fun _ => 0) (fun _ => ⟨0, 0, 0, 0⟩)).aggregates_output)
      = (4, [1, 2, 3, 4], [3, 4, 5, 6])
    ∧ (List.range 8).map
        (fun j => (block_inclusive_scan (scan_by_key_op (fun a b : Nat => a + b))
          (fun j =>
            { key := if block_head_flags 4 2 8 1 scenario_keys (fun _ => 0)
                (fun a b => a == b) 0 j then 1 else 0
              value := block_load scenario_values 0 j }) j).key)
      = [1, 1, 1, 2, 3, 3, 4, 4]
    ∧ (List.range 8).map
        (fun j => (block_inclusive_scan (scan_by_key_op (fun a b : Nat => a + b))
          (fun j =>
            { key := if block_head_flags 4 2 8 1 scenario_keys (fun _ => 0)
                (fun a b => a == b) 0 j then 1 else 0
              value := block_load scenario_values 0 j }) j).value)
      = [2, 2, 3, 4, 2, 5, 1, 6]
    ∧ (List.range 8).map
        (fun j => sub32 (block_inclusive_scan (scan_by_key_op (fun a b : Nat => a + b))
          (fun j =>
            { key := if block_head_flags 4 2 8 1 scenario_keys (fun _ => 0)
                (fun a b => a == b) 0 j then 1 else 0
              value := block_load scenario_values 0 j }) j).key 1)
      = [0, 0, 0, 1, 2, 2, 3, 3] := by
  refine ⟨(by constructor <;> decide), by decide, (by constructor <;> decide), by decide,
    by decide, by decide, by decide⟩

/-- C27 (carry-out grouping) fails on the code when a key value recurs. Keys
`[1,1,1,2, 3,3,3,2, 4,4,4,4]` with the values `1..12`, equality and `+`, three batches of
one block of `2 * 2` items (an accepted launch): the runs start at `0, 3, 4, 7, 8`, so
the last item of batch `0` (item `3`) is run `1` and the last item of batch `1` (item
`7`) is run `3`. `reduce_by_key` leaves the carry-outs `(key 2, value 4, destination 1)`
and `(key 2, value 8, destination 3)`, both final aggregates; their keys being equal,
`scan_and_scatter_carry_outs` gives the carry-out of batch `1` no head flag and stores
at its destination `3` the scanned value `4 + 8 = 12`, the carry-out value of batch `0`
combined with that of batch `1`, where the reduction of the one batch whose last item
is in run `3` is `8`. -/
theorem carry_outs_of_different_runs_combined :
    launch_ok 2 2 2 2 2 12 1 3 3 3
    ∧ run_starts (fun a b => a == b) recurring_keys 12 = [0, 3, 4, 7, 8]
    ∧ (List.range 2).map
        (fun b => (reduce_by_key 2 2 recurring_keys (fun _ => 0) recurring_values
          (fun _ => 0) 12
          (scan_unique_counts 2 2
            (fill_unique_counts_grid 2 2 2 recurring_keys (fun _ => 0) 12
              (fun a b => a == b) 1 3 3 3 (fun _ => 0)) 3).1
          (fun a b => a == b) (fun a b => a + b) 1 3 3 b).carry_outs_store.map
            (fun c => (c.key, c.value, c.destination, c.is_final_aggregate)))
      = [some (2, 4, 1, 1), some (2, 8, 3, 1)]
    ∧ (List.range 5).map
        (scan_and_scatter_carry_outs 2 2
          (fun b => [(⟨2, 4, 1, 1⟩ : carry_out Nat Nat), ⟨2, 8, 3, 1⟩, ⟨4, 42, 4, 1⟩].getD b
            ⟨0, 0, 0, 0⟩)
          (fun _ => ⟨0, 0, 0, 0⟩) (fun j => [6, 4, 18, 8, 42].getD j 0) (fun a b => a == b)
          (fun a b => a + b) 3)
      = [6, 4, 18, 12, 42]
    ∧ range_reduce (fun a b => a + b) recurring_values 7 0 = 8 := by
  refine ⟨(by constructor <;> decide), by decide, by decide, by decide, by decide⟩

end claims_rbk_scenario

/-! ## Claim on the look-back status cells -/

section claims_lookback

/-- C26 (look-back status cell). In every execution of the grid (every sequence
`schedule` of block steps from the initial state, every block reduction), at the next
step, made by any block `b`, and for every cell `c`: a cell other than the cell of `b`
is not written; a cell that is INCLUSIVE does not change; a cell that is PARTIAL changes
only by a step of its owning block, and then becomes INCLUSIVE; the cell of block `0` is
never PARTIAL, block `0` publishes (INCLUSIVE, its reduction) in its first step, with
the exclusive value `0`, and is at no time in a look-back. -/
theorem lookback_cell_single_writer (reduction : Nat → Nat) (schedule : List Nat)
    (b c : Nat) :
    (c ≠ b →
      (lookback_step reduction b (lookback_run reduction schedule lookback_init)).cells c
        = (lookback_run reduction schedule lookback_init).cells c)
    ∧ (((lookback_run reduction schedule lookback_init).cells c).status
          = lookback_status.INCLUSIVE →
      (lookback_step reduction b (lookback_run reduction schedule lookback_init)).cells c
        = (lookback_run reduction schedule lookback_init).cells c)
    ∧ (((lookback_run reduction schedule lookback_init).cells c).status
          = lookback_status.PARTIAL →
      (lookback_step reduction b (lookback_run reduction schedule lookback_init)).cells c
        ≠ (lookback_run reduction schedule lookback_init).cells c →
      b = c
      ∧ ((lookback_step reduction b
          (lookback_run reduction schedule lookback_init)).cells c).status
        = lookback_status.INCLUSIVE)
    ∧ ((lookback_run reduction schedule lookback_init).cells 0).status
        ≠ lookback_status.PARTIAL
    ∧ ((lookback_run reduction schedule lookback_init).phase 0 = lookback_phase.start →
      (lookback_step reduction 0 (lookback_run reduction schedule lookback_init)).cells 0
        = ⟨lookback_status.INCLUSIVE, reduction 0⟩
      ∧ (lookback_step reduction 0 (lookback_run reduction schedule lookback_init)).phase 0
        = lookback_phase.done 0)
    ∧ (∀ predecessor aggregate,
        (lookback_run reduction schedule lookback_init).phase 0
          ≠ lookback_phase.look_back predecessor aggregate)
    ∧ (∀ exclusive,
        (lookback_run reduction schedule lookback_init).phase 0
          ≠ lookback_phase.resolved exclusive) := by
  have hinv := lookback_run_consistent reduction schedule
  generalize lookback_run reduction schedule lookback_init = st at hinv ⊢
  have hown := lookback_step_own reduction c st
  have hzero_look : ∀ p a, st.phase 0 ≠ lookback_phase.look_back p a := by
    intro p a hp
    have h0 := hinv 0
    rw [hp] at h0
    exact h0.2 rfl
  have hzero_res : ∀ e, st.phase 0 ≠ lookback_phase.resolved e := by
    intro e hp
    have h0 := hinv 0
    rw [hp] at h0
    exact h0.2 rfl
  refine ⟨fun hc => lookback_step_other_cell reduction b c st hc, fun hinc => ?_,
    fun hpart hchange => ?_, fun hpart => ?_,
    fun hstart => (lookback_step_own reduction 0 st).1 hstart rfl, hzero_look, hzero_res⟩
  · by_cases hc : c = b
    · subst hc
      have hc := hinv c
      obtain ⟨_, _, _, _, h5⟩ := hown
      cases hphase : st.phase c with
      | start =>
        rw [hphase, hinc] at hc
        exact absurd (show lookback_status.INCLUSIVE = lookback_status.EMPTY from hc)
          (by decide)
      | look_back p a =>
        rw [hphase, hinc] at hc
        exact absurd hc.1 (by decide)
      | resolved e =>
        rw [hphase, hinc] at hc
        exact absurd hc.1 (by decide)
      | done e => rw [h5 e hphase]
    · exact lookback_step_other_cell reduction b c st hc
  · by_cases hc : c = b
    · subst hc
      refine ⟨rfl, ?_⟩
      have hc := hinv c
      obtain ⟨_, _, h3, h4, h5⟩ := hown
      cases hphase : st.phase c with
      | start =>
        rw [hphase, hpart] at hc
        exact absurd (show lookback_status.PARTIAL = lookback_status.EMPTY from hc)
          (by decide)
      | look_back p a => exact absurd (h3 p a hphase).1 hchange
      | resolved e => rw [(h4 e hphase).1]
      | done e =>
        rw [hphase, hpart] at hc
        exact absurd (show lookback_status.PARTIAL = lookback_status.INCLUSIVE from hc)
          (by decide)
    · exact absurd (lookback_step_other_cell reduction b c st hc) hchange
  · have h0 := hinv 0
    cases hphase : st.phase 0 with
    | start =>
      rw [hphase, hpart] at h0
      exact absurd (show lookback_status.PARTIAL = lookback_status.EMPTY from h0)
        (by decide)
    | look_back p a => exact hzero_look p a hphase
    | resolved e => exact hzero_res e hphase
    | done e =>
      rw [hphase, hpart] at h0
      exact absurd (show lookback_status.PARTIAL = lookback_status.INCLUSIVE from h0)
        (by decide)

/-- C26, witness: a grid of two blocks with the reductions `3` and `4`. After the
steps of the blocks `1, 0, 1` (block `1` has published PARTIAL and resolved its
look-back on the INCLUSIVE cell of block `0`) a step of block `0` does not write the
cell `1`, and the step of block `1` changes its PARTIAL cell to INCLUSIVE; in the
initial state block `0` publishes INCLUSIVE with its reduction. -/
theorem lookback_cell_single_writer_witness :
    (lookback_step (fun b => b + 3) 0
        (lookback_run (fun b => b + 3) [1, 0, 1] lookback_init)).cells 1
      = (lookback_run (fun b => b + 3) [1, 0, 1] lookback_init).cells 1
    ∧ (1 = 1
      ∧ ((lookback_step (fun b => b + 3) 1
          (lookback_run (fun b => b + 3) [1, 0, 1] lookback_init)).cells 1).status
        = lookback_status.INCLUSIVE)
    ∧ ((lookback_step (fun b => b + 3) 0
          (lookback_run (fun b => b + 3) [] lookback_init)).cells 0
        = ⟨lookback_status.INCLUSIVE, (fun b => b + 3) 0⟩
      ∧ (lookback_step (fun b => b + 3) 0
          (lookback_run (fun b => b + 3) [] lookback_init)).phase 0
        = lookback_phase.done 0) :=
  ⟨(lookback_cell_single_writer (fun b => b + 3) [1, 0, 1] 0 1).1 (by decide),
    (lookback_cell_single_writer (fun b => b + 3) [1, 0, 1] 1 1).2.2.1 (by decide)
      (by decide),
    (lookback_cell_single_writer (fun b => b + 3) [] 0 0).2.2.2.2.1 rfl⟩

/-- An execution of three blocks with the reductions `3, 4, 5` evaluated: block `2`
starts first, finds the cell of block `1` EMPTY and reads it again, accumulates its
PARTIAL value and then the INCLUSIVE value of block `0`; the cells end INCLUSIVE with
the inclusive sums `3, 7, 12`, and the exclusive values of the blocks are `0, 3, 7`. -/
theorem lookback_run_example :
    (List.range 3).map
        (fun c => (lookback_run (fun b => b + 3) [2, 2, 1, 2, 0, 2, 1, 2, 1]
          lookback_init).cells c)
      = [⟨lookback_status.INCLUSIVE, 3⟩, ⟨lookback_status.INCLUSIVE, 7⟩,
          ⟨lookback_status.INCLUSIVE, 12⟩]
    ∧ (List.range 3).map
        (fun c => (lookback_run (fun b => b + 3) [2, 2, 1, 2, 0, 2, 1, 2, 1]
          lookback_init).phase c)
      = [lookback_phase.done 0, lookback_phase.done 3, lookback_phase.done 7]
    ∧ (List.range 3).map
        (fun c => (lookback_run (fun b => b + 3) [2, 2, 1, 2] lookback_init).cells c)
      = [⟨lookback_status.EMPTY, 0⟩, ⟨lookback_status.PARTIAL, 4⟩,
          ⟨lookback_status.PARTIAL, 5⟩] := by
  decide

end claims_lookback

/-! ## Reduce-by-key: the aggregates and the carry-out of a batch -/

section rbk_loop_values

open Finset

variable {BlockSize ItemsPerThread warp_size ScanBlockSize ScanItemsPerThread
  size blocks_per_full_batch full_batches blocks batches : Nat}

/-- The stores to `aggregates_output`, `storage.carry_out` and the carry-out of the batch
after `k` iterations of the block loop of `reduce_by_key`. -/
theorem reduce_by_key_loop_values {K V : Type}
    (h : launch_ok BlockSize ItemsPerThread warp_size ScanBlockSize ScanItemsPerThread
      size blocks_per_full_batch full_batches blocks batches)
    (keys_input uninitK : Nat → K) (values_input uninitV : Nat → V)
    (key_compare_op : K → K → Bool) (reduce_op : V → V → V)
    (hassoc : ∀ x y z, reduce_op (reduce_op x y) z = reduce_op x (reduce_op y z))
    (first bpb : Nat) (hfb : first + bpb ≤ blocks) (hbpb : bpb < 4294967296)
    (init : reduce_by_key_state K V)
    (hid : init.block_id = first)
    (hstart : init.block_start
      = Nat.count (fun q => is_run_end key_compare_op keys_input size q = true)
          (first * (BlockSize * ItemsPerThread)))
    (hcarry : 0 < bpb → init.storage_has_carry_out
      = !is_run_start key_compare_op keys_input (first * (BlockSize * ItemsPerThread)))
    (hstores : init.unique_stores = [])
    (hagg : init.aggregate_stores = [])
    (hco : init.carry_outs_store = none)
    (k : Nat) (hk : k ≤ bpb) :
    ((List.range k).foldl
        (reduce_by_key_block BlockSize ItemsPerThread keys_input uninitK values_input
          uninitV size key_compare_op reduce_op blocks bpb) init).aggregate_stores
      = (List.range (k * (BlockSize * ItemsPerThread))).filterMap
          (fun q => aggregate_store key_compare_op keys_input size reduce_op values_input
            (first * (BlockSize * ItemsPerThread))
            (first * (BlockSize * ItemsPerThread) + q))
    ∧ (0 < k → k < bpb → ((List.range k).foldl
        (reduce_by_key_block BlockSize ItemsPerThread keys_input uninitK values_input
          uninitV size key_compare_op reduce_op blocks bpb) init).storage_carry_out
      = segment_reduce key_compare_op keys_input reduce_op values_input
          (first * (BlockSize * ItemsPerThread))
          ((first + k) * (BlockSize * ItemsPerThread) - 1))
    ∧ (k < bpb → ((List.range k).foldl
        (reduce_by_key_block BlockSize ItemsPerThread keys_input uninitK values_input
          uninitV size key_compare_op reduce_op blocks bpb) init).carry_outs_store = none)
    ∧ (k = bpb → 0 < bpb → first + bpb < blocks → ((List.range k).foldl
        (reduce_by_key_block BlockSize ItemsPerThread keys_input uninitK values_input
          uninitV size key_compare_op reduce_op blocks bpb) init).carry_outs_store
      = some
          { key := keys_input ((first + bpb) * (BlockSize * ItemsPerThread) - 1)
            value := segment_reduce key_compare_op keys_input reduce_op values_input
              (first * (BlockSize * ItemsPerThread))
              ((first + bpb) * (BlockSize * ItemsPerThread) - 1)
            destination := Nat.count
              (fun q => is_run_end key_compare_op keys_input size q = true)
              ((first + bpb) * (BlockSize * ItemsPerThread) - 1)
            is_final_aggregate :=
              if is_run_start key_compare_op keys_input
                  ((first + bpb) * (BlockSize * ItemsPerThread)) = true then 1
              else 0 }) := by
  induction k with
  | zero =>
    simp only [List.range_zero, List.foldl_nil, Nat.zero_mul, List.filterMap_nil]
    refine ⟨hagg, fun h0 => absurd h0 (Nat.lt_irrefl 0), fun _ => hco, ?_⟩
    intro h0 h1
    omega
  | succ k ih =>
    obtain ⟨i1, i2, i3, _⟩ := ih (by omega)
    obtain ⟨l1, l2, l3, _⟩ := reduce_by_key_loop h keys_input uninitK values_input uninitV
      key_compare_op reduce_op first bpb hfb hbpb init hid hstart hcarry hstores k (by omega)
    have hsub : sub32 bpb 1 = bpb - 1 := sub32_of_le (by omega) hbpb
    rw [List.range_succ, List.foldl_append]
    simp only [List.foldl_cons, List.foldl_nil]
    have hstep := reduce_by_key_block_values h keys_input uninitK values_input uninitV
      key_compare_op reduce_op hassoc _ k bpb (first * (BlockSize * ItemsPerThread))
      (by rw [l1]; omega) (by rw [l1]; exact l2) (by rw [l1]; exact l3 (by omega))
      (by rw [l1]; ring)
      (by
        intro hk0 _
        rw [l1]
        exact i2 hk0 (by omega))
    obtain ⟨s1, s2, s3, s4⟩ := hstep
    rw [l1] at s1 s2 s4
    refine ⟨?_, ?_, ?_, ?_⟩
    · rw [s1, i1, Nat.succ_mul, filterMap_range_add]
      simp only [Nat.add_mul, Nat.add_assoc]
    · intro _ hlt
      rw [s2 (by rw [hsub]; omega) (by omega), Nat.add_assoc]
    · intro hlt
      rw [s3 (by rw [hsub]; omega)]
      exact i3 (by omega)
    · intro heq _ hlt
      rw [s4 (by rw [hsub]; omega) (by omega), Nat.add_assoc, heq]

/-- The stores to `aggregates_output` of the block `b` of the kernel `reduce_by_key`, and
the carry-out the block stores when a later block of the grid follows its batch. -/
theorem reduce_by_key_aggregate_stores {K V : Type}
    (h : launch_ok BlockSize ItemsPerThread warp_size ScanBlockSize ScanItemsPerThread
      size blocks_per_full_batch full_batches blocks batches)
    (keys_input uninitK : Nat → K) (values_input uninitV : Nat → V)
    (key_compare_op : K → K → Bool) (reduce_op : V → V → V)
    (hassoc : ∀ x y z, reduce_op (reduce_op x y) z = reduce_op x (reduce_op y z))
    (unique_starts : Nat → Nat) {b : Nat} (hb : b < batches)
    (hus : unique_starts b
      = Nat.count (fun q => is_run_end key_compare_op keys_input size q = true)
          (first_block blocks_per_full_batch full_batches b * (BlockSize * ItemsPerThread))) :
    (reduce_by_key BlockSize ItemsPerThread keys_input uninitK values_input uninitV size
        unique_starts key_compare_op reduce_op blocks_per_full_batch full_batches blocks
        b).aggregate_stores
      = (List.range (batch_blocks blocks_per_full_batch full_batches b
            * (BlockSize * ItemsPerThread))).filterMap
          (fun q => aggregate_store key_compare_op keys_input size reduce_op values_input
            (first_block blocks_per_full_batch full_batches b * (BlockSize * ItemsPerThread))
            (first_block blocks_per_full_batch full_batches b
              * (BlockSize * ItemsPerThread) + q))
    ∧ (0 < batch_blocks blocks_per_full_batch full_batches b →
        first_block blocks_per_full_batch full_batches (b + 1) < blocks →
        (reduce_by_key BlockSize ItemsPerThread keys_input uninitK values_input uninitV size
          unique_starts key_compare_op reduce_op blocks_per_full_batch full_batches blocks
          b).carry_outs_store
        = some
            { key := keys_input
                (first_block blocks_per_full_batch full_batches (b + 1)
                  * (BlockSize * ItemsPerThread) - 1)
              value := segment_reduce key_compare_op keys_input reduce_op values_input
                (first_block blocks_per_full_batch full_batches b
                  * (BlockSize * ItemsPerThread))
                (first_block blocks_per_full_batch full_batches (b + 1)
                  * (BlockSize * ItemsPerThread) - 1)
              destination := Nat.count
                (fun q => is_run_end key_compare_op keys_input size q = true)
                (first_block blocks_per_full_batch full_batches (b + 1)
                  * (BlockSize * ItemsPerThread) - 1)
              is_final_aggregate :=
                if is_run_start key_compare_op keys_input
                    (first_block blocks_per_full_batch full_batches (b + 1)
                      * (BlockSize * ItemsPerThread)) = true then 1
                else 0 }) := by
  have hsucc := first_block_succ blocks_per_full_batch full_batches b h.per_batch
  have hle := h.first_block_le (b := b + 1) (by omega)
  rw [hsucc] at hle
  have hbl := h.blocks_lt
  have hinit : 0 < batch_blocks blocks_per_full_batch full_batches b →
      ((decide (0 < first_block blocks_per_full_batch full_batches b)
          && decide (0 < batch_blocks blocks_per_full_batch full_batches b))
        && key_compare_op
          (keys_input (sub32 (wrap32 (first_block blocks_per_full_batch full_batches b
            * wrap32 (BlockSize * ItemsPerThread))) 1))
          (keys_input (wrap32 (first_block blocks_per_full_batch full_batches b
            * wrap32 (BlockSize * ItemsPerThread)))))
      = !is_run_start key_compare_op keys_input
          (first_block blocks_per_full_batch full_batches b
            * (BlockSize * ItemsPerThread)) := by
    intro hpos
    have hfirst : first_block blocks_per_full_batch full_batches b < blocks := by omega
    rw [h.wrap_offset hfirst]
    rcases Nat.eq_zero_or_pos (first_block blocks_per_full_batch full_batches b) with h0 | h0
    · rw [h0]
      simp [is_run_start]
    · have hoffpos : 0 < first_block blocks_per_full_batch full_batches b
          * (BlockSize * ItemsPerThread) := Nat.mul_pos h0 h.ipb_pos
      have := h.offset_lt hfirst
      rw [sub32_of_le (by omega) (by omega)]
      unfold is_run_start
      have e : decide (first_block blocks_per_full_batch full_batches b
          * (BlockSize * ItemsPerThread) = 0) = false := decide_eq_false (by omega)
      rw [e]
      simp [h0, hpos]
  have hloop := reduce_by_key_loop_values h keys_input uninitK values_input uninitV
    key_compare_op reduce_op hassoc (first_block blocks_per_full_batch full_batches b)
    (batch_blocks blocks_per_full_batch full_batches b) hle (by omega)
    { block_id := first_block blocks_per_full_batch full_batches b
      block_start := unique_starts b
      storage_has_carry_out :=
        (decide (0 < first_block blocks_per_full_batch full_batches b)
          && decide (0 < batch_blocks blocks_per_full_batch full_batches b))
        && key_compare_op
          (keys_input (sub32 (wrap32 (first_block blocks_per_full_batch full_batches b
            * wrap32 (BlockSize * ItemsPerThread))) 1))
          (keys_input (wrap32 (first_block blocks_per_full_batch full_batches b
            * wrap32 (BlockSize * ItemsPerThread))))
      storage_carry_out := uninitV 0
      unique_stores := []
      aggregate_stores := []
      carry_outs_store := none }
    rfl hus hinit rfl rfl rfl (batch_blocks blocks_per_full_batch full_batches b) (le_refl _)
  obtain ⟨a1, _, _, a4⟩ := hloop
  unfold reduce_by_key
  rw [batch_geometry_eq h hb]
  dsimp only
  refine ⟨a1, ?_⟩
  intro hpos hnext
  rw [hsucc] at hnext ⊢
  exact a4 rfl hpos hnext

end rbk_loop_values

/-! ## Reduce-by-key: the content of `aggregates_output` after the kernel `reduce_by_key` -/

section rbk_grid_values

open Finset

variable {BlockSize ItemsPerThread warp_size ScanBlockSize ScanItemsPerThread
  size blocks_per_full_batch full_batches blocks batches : Nat}

/-- The items between the start of a run and an item of the run belong to the run. -/
theorem run_start_of_eq_of_mem {K : Type} (eq : K → K → Bool) (keys : Nat → K) {p e : Nat}
    (h1 : run_start_of eq keys e ≤ p) (h2 : p ≤ e) :
    run_start_of eq keys p = run_start_of eq keys e := by
  unfold run_start_of at h1 ⊢
  have hno := (last_head_le_iff (is_run_start eq keys)
    (last_head (is_run_start eq keys) e) e (last_head_le _ e)).mp (Nat.le_refl _)
  exact (last_head_eq_of_no_head _ p e h2 (fun q hq1 hq2 => hno q (by omega) hq2)).symm

/-- No item after the start of the run of `e` and up to `e` is a run start. -/
theorem not_run_start_of_mem {K : Type} (eq : K → K → Bool) (keys : Nat → K) {q e : Nat}
    (h1 : run_start_of eq keys e < q) (h2 : q ≤ e) : is_run_start eq keys q = false :=
  (last_head_le_iff (is_run_start eq keys) (last_head (is_run_start eq keys) e) e
    (last_head_le _ e)).mp (Nat.le_refl _) q h1 h2

/-- No run ends between the start of the run of `e` and `e`. -/
theorem count_run_end_eq_of_mem {K : Type} (eq : K → K → Bool) (keys : Nat → K)
    {N p e : Nat} (he : e < N) (h1 : run_start_of eq keys e ≤ p) (h2 : p ≤ e) :
    Nat.count (fun q => is_run_end eq keys N q = true) p
      = Nat.count (fun q => is_run_end eq keys N q = true) e := by
  have hc := count_run_end_block eq keys N p (e - p)
  have hz : Nat.count (fun i => is_run_end eq keys N (p + i) = true) (e - p) = 0 := by
    rw [Nat.count_iff_forall_not]
    intro i hi
    rw [is_run_end_eq_start eq keys (by omega),
      not_run_start_of_mem eq keys (e := e) (by omega) (by omega)]
    simp
  rw [hz, Nat.add_zero, show p + (e - p) = e by omega] at hc
  exact hc

/-- An item that has as many run ends before it as the run end `e` lies in the run of
`e`. -/
theorem mem_run_of_count_eq {K : Type} (eq : K → K → Bool) (keys : Nat → K)
    {N p e : Nat} (he : is_run_end eq keys N e = true)
    (hc : Nat.count (fun q => is_run_end eq keys N q = true) p
      = Nat.count (fun q => is_run_end eq keys N q = true) e) :
    p ≤ e ∧ run_start_of eq keys e ≤ p := by
  have heN : e < N := by
    by_contra hge
    rw [is_run_end_of_ge eq keys (by omega)] at he
    exact Bool.false_ne_true he
  constructor
  · by_contra hgt
    have hm := Nat.count_monotone (fun q => is_run_end eq keys N q = true)
      (show e + 1 ≤ p by omega)
    rw [Nat.count_succ, if_pos he] at hm
    omega
  · by_contra hlt
    have hs := run_start_of_is_start eq keys e
    have hle := run_start_of_le eq keys e
    have hend : is_run_end eq keys N (run_start_of eq keys e - 1) = true := by
      rw [is_run_end_eq_start eq keys (by omega),
        show run_start_of eq keys e - 1 + 1 = run_start_of eq keys e by omega]
      exact hs
    have h1 := Nat.count_monotone (fun q => is_run_end eq keys N q = true)
      (show p ≤ run_start_of eq keys e - 1 by omega)
    have h2 := Nat.count_succ (fun q => is_run_end eq keys N q = true)
      (run_start_of eq keys e - 1)
    rw [if_pos hend, show run_start_of eq keys e - 1 + 1 = run_start_of eq keys e by omega]
      at h2
    have h3 := Nat.count_monotone (fun q => is_run_end eq keys N q = true) hle
    omega

/-- A run end `e` before `q` is before the run of `q`. -/
theorem run_start_of_gt_of_end {K : Type} (eq : K → K → Bool) (keys : Nat → K)
    {N e q : Nat} (he : is_run_end eq keys N e = true) (hq : e < q) (hqN : q < N) :
    e < run_start_of eq keys q := by
  have hs : is_run_start eq keys (e + 1) = true := by
    rw [← is_run_end_eq_start eq keys (show e + 1 < N by omega)]
    exact he
  have := last_head_ge (is_run_start eq keys) q (e + 1) (by omega) hs
  unfold run_start_of
  omega

/-- The stores to `aggregates_output` that the positions `lo, …, lo + m - 1` cause. -/
theorem mem_aggregate_stores {K V : Type} (eq : K → K → Bool) (keys : Nat → K)
    (op : V → V → V) (values : Nat → V) (N lo m : Nat) (w : Nat × V) :
    w ∈ (List.range m).filterMap
        (fun q => aggregate_store eq keys N op values lo (lo + q))
      ↔ ∃ e, lo ≤ e ∧ e < lo + m ∧ is_run_end eq keys N e = true
          ∧ w = (Nat.count (fun q => is_run_end eq keys N q = true) e,
                  segment_reduce eq keys op values lo e) := by
  rw [List.mem_filterMap]
  constructor
  · rintro ⟨q, hq, hw⟩
    rw [List.mem_range] at hq
    unfold aggregate_store at hw
    by_cases he : is_run_end eq keys N (lo + q) = true
    · rw [if_pos he] at hw
      exact ⟨lo + q, by omega, by omega, he, (Option.some.inj hw).symm⟩
    · rw [if_neg he] at hw
      exact absurd hw (by simp)
  · rintro ⟨e, h1, h2, he, rfl⟩
    refine ⟨e - lo, List.mem_range.mpr (by omega), ?_⟩
    unfold aggregate_store
    rw [show lo + (e - lo) = e by omega, if_pos he]

/-- A position of the grid lies in one batch. -/
theorem exists_batch (P : Nat → Nat) (hP0 : P 0 = 0) (B e : Nat) (he : e < P B) :
    ∃ b, b < B ∧ P b ≤ e ∧ e < P (b + 1) := by
  induction B with
  | zero =>
    rw [hP0] at he
    omega
  | succ B ih =>
    rcases Nat.lt_or_ge e (P B) with h | h
    · obtain ⟨b, hb, h1, h2⟩ := ih h
      exact ⟨b, by omega, h1, h2⟩
    · exact ⟨B, by omega, h, he⟩

/-- The first items of the batches increase with the batch. -/
theorem batch_start_mono (P : Nat → Nat) (B : Nat) (hP : ∀ j, j < B → P j < P (j + 1))
    {a b : Nat} (hab : a ≤ b) (hb : b ≤ B) : P a ≤ P b := by
  induction b with
  | zero =>
    have : a = 0 := by omega
    rw [this]
  | succ b ih =>
    rcases Nat.lt_or_ge a (b + 1) with h | h
    · have := ih (by omega) (by omega)
      have := hP b (by omega)
      omega
    · have : a = b + 1 := by omega
      rw [this]

/-- After the kernel `reduce_by_key`, whatever the order of its blocks, the cell of
`aggregates_output` of the run that ends at `e` holds the reduction of the part of the
run that lies in the batch of `e`. -/
theorem reduce_by_key_partial_aggregates {K V : Type}
    (h : launch_ok BlockSize ItemsPerThread warp_size ScanBlockSize ScanItemsPerThread
      size blocks_per_full_batch full_batches blocks batches)
    (keys_input uninitK : Nat → K) (values_input uninitV : Nat → V)
    (key_compare_op : K → K → Bool) (reduce_op : V → V → V)
    (hassoc : ∀ x y z, reduce_op (reduce_op x y) z = reduce_op x (reduce_op y z))
    (schedule : List Nat) (hs : schedule.Perm (List.range batches))
    (unique_starts : Nat → Nat)
    (hus : ∀ b, b < batches → unique_starts b
      = Nat.count (fun q => is_run_end key_compare_op keys_input size q = true)
          (first_block blocks_per_full_batch full_batches b * (BlockSize * ItemsPerThread)))
    (aggregates_output0 : Nat → V) {b e : Nat} (hb : b < batches)
    (h1 : first_block blocks_per_full_batch full_batches b * (BlockSize * ItemsPerThread) ≤ e)
    (h2 : e < first_block blocks_per_full_batch full_batches (b + 1)
      * (BlockSize * ItemsPerThread))
    (he : is_run_end key_compare_op keys_input size e = true) :
    apply_writes aggregates_output0
        (schedule.flatMap (fun b =>
          (reduce_by_key BlockSize ItemsPerThread keys_input uninitK values_input uninitV size
            unique_starts key_compare_op reduce_op blocks_per_full_batch full_batches blocks
            b).aggregate_stores))
        (Nat.count (fun q => is_run_end key_compare_op keys_input size q = true) e)
      = segment_reduce key_compare_op keys_input reduce_op values_input
          (first_block blocks_per_full_batch full_batches b * (BlockSize * ItemsPerThread))
          e := by
  have hmem : ∀ w, w ∈ schedule.flatMap (fun b =>
        (reduce_by_key BlockSize ItemsPerThread keys_input uninitK values_input uninitV size
          unique_starts key_compare_op reduce_op blocks_per_full_batch full_batches blocks
          b).aggregate_stores)
      ↔ ∃ c, c < batches ∧ ∃ q,
        first_block blocks_per_full_batch full_batches c * (BlockSize * ItemsPerThread) ≤ q
        ∧ q < first_block blocks_per_full_batch full_batches (c + 1)
            * (BlockSize * ItemsPerThread)
        ∧ is_run_end key_compare_op keys_input size q = true
        ∧ w = (Nat.count (fun q => is_run_end key_compare_op keys_input size q = true) q,
                segment_reduce key_compare_op keys_input reduce_op values_input
                  (first_block blocks_per_full_batch full_batches c
                    * (BlockSize * ItemsPerThread)) q) := by
    intro w
    rw [List.mem_flatMap]
    constructor
    · rintro ⟨c, hc, hw⟩
      have hcb : c < batches := List.mem_range.mp (hs.mem_iff.mp hc)
      rw [(reduce_by_key_aggregate_stores h keys_input uninitK values_input uninitV
        key_compare_op reduce_op hassoc unique_starts hcb (hus c hcb)).1,
        mem_aggregate_stores] at hw
      obtain ⟨q, q1, q2, q3, q4⟩ := hw
      refine ⟨c, hcb, q, q1, ?_, q3, q4⟩
      rw [first_block_succ _ _ _ h.per_batch, Nat.add_mul]
      exact q2
    · rintro ⟨c, hcb, q, q1, q2, q3, q4⟩
      refine ⟨c, hs.mem_iff.mpr (List.mem_range.mpr hcb), ?_⟩
      rw [(reduce_by_key_aggregate_stores h keys_input uninitK values_input uninitV
        key_compare_op reduce_op hassoc unique_starts hcb (hus c hcb)).1,
        mem_aggregate_stores]
      refine ⟨q, q1, ?_, q3, q4⟩
      rw [first_block_succ _ _ _ h.per_batch, Nat.add_mul] at q2
      exact q2
  apply apply_writes_of_unique
  · exact ⟨_, (hmem _).mpr ⟨b, hb, e, h1, h2, he, rfl⟩, rfl⟩
  · intro w hw hj
    obtain ⟨c, hcb, q, q1, q2, q3, rfl⟩ := (hmem w).mp hw
    have hq : q = e := Nat.count_injective (p := fun i =>
      is_run_end key_compare_op keys_input size i = true) q3 he (by
        simp only at hj; omega)
    subst hq
    have hcb' : c = b := by
      rcases Nat.lt_trichotomy c b with hlt | heq | hgt
      · have hm := first_block_mono blocks_per_full_batch full_batches h.per_batch
          (show c + 1 ≤ b by omega)
        have := Nat.mul_le_mul_right (BlockSize * ItemsPerThread) hm
        omega
      · exact heq
      · have hm := first_block_mono blocks_per_full_batch full_batches h.per_batch
          (show b + 1 ≤ c by omega)
        have := Nat.mul_le_mul_right (BlockSize * ItemsPerThread) hm
        omega
    rw [hcb']

end rbk_grid_values

/-! ## Reduce-by-key: the scan and the scatter of the carry-outs -/

section rbk_scatter

open Finset

/-- One step of the inclusive scan of pairs under `scan_by_key_op`. -/
theorem scan_by_key_value_succ {V : Type} (op : V → V → V)
    (xs : Nat → scan_by_key_pair V) (j : Nat) :
    (block_inclusive_scan (scan_by_key_op op) xs (j + 1)).value
      = if ((xs (j + 1)).key != 0) = true then (xs (j + 1)).value
        else op (block_inclusive_scan (scan_by_key_op op) xs j).value (xs (j + 1)).value :=
  rfl

/-- A cell that no flagged item of the scatter loop addresses keeps its content. -/
theorem scatter_of_not_mem {V : Type} (tail : Nat → Bool) (dst fin : Nat → Nat)
    (pv : Nat → V) (op : V → V → V) (agg : Nat → V) (m r : Nat)
    (h : ∀ j, j < m → tail j = true → dst j ≠ r) :
    (List.range m).foldl (fun (a : Nat → V) (j : Nat) =>
        if tail j = true then
          if fin j ≠ 0 then Function.update a (dst j) (pv j)
          else Function.update a (dst j) (op (pv j) (a (dst j)))
        else a) agg r = agg r := by
  induction m with
  | zero => rfl
  | succ m ih =>
    rw [List.range_succ, List.foldl_append]
    simp only [List.foldl_cons, List.foldl_nil]
    have ih' := ih (fun j hj => h j (by omega))
    by_cases ht : tail m = true
    · have hne : r ≠ dst m := fun hr => h m (by omega) ht hr.symm
      rw [if_pos ht]
      split
      · rw [Function.update_noteq hne, ih']
      · rw [Function.update_noteq hne, ih']
    · rw [if_neg ht, ih']

/-- A cell that one flagged item `j0` of the scatter loop addresses: the scanned value of
`j0` when the carry-out is a final aggregate, else the scanned value joined with the
content of the cell, the scanned value on the left. -/
theorem scatter_of_unique {V : Type} (tail : Nat → Bool) (dst fin : Nat → Nat)
    (pv : Nat → V) (op : V → V → V) (agg : Nat → V) (m r j0 : Nat)
    (hj0 : j0 < m) (ht0 : tail j0 = true) (hd0 : dst j0 = r)
    (hu : ∀ j, j < m → tail j = true → dst j = r → j = j0) :
    (List.range m).foldl (fun (a : Nat → V) (j : Nat) =>
        if tail j = true then
          if fin j ≠ 0 then Function.update a (dst j) (pv j)
          else Function.update a (dst j) (op (pv j) (a (dst j)))
        else a) agg r
      = if fin j0 ≠ 0 then pv j0 else op (pv j0) (agg r) := by
  induction m with
  | zero => omega
  | succ m ih =>
    rw [List.range_succ, List.foldl_append]
    simp only [List.foldl_cons, List.foldl_nil]
    rcases Nat.lt_or_ge j0 m with hlt | hge
    · have ih' := ih hlt (fun j hj => hu j (by omega))
      by_cases ht : tail m = true
      · have hne : r ≠ dst m := by
          intro hr
          have := hu m (by omega) ht hr.symm
          omega
        rw [if_pos ht]
        split
        · rw [Function.update_noteq hne, ih']
        · rw [Function.update_noteq hne, ih']
      · rw [if_neg ht, ih']
    · have hm : j0 = m := by omega
      subst hm
      have hbefore := scatter_of_not_mem tail dst fin pv op agg j0 r (fun j hj hjt hjd => by
        have := hu j (by omega) hjt hjd
        omega)
      rw [if_pos ht0, hd0]
      split
      · rw [Function.update_same]
      · rw [Function.update_same, hbefore]

/-- For an equivalence `eq` under which the keys of distinct runs differ, two keys are
eq exactly when their positions lie in the same run. -/
theorem eq_iff_same_run {K : Type} (eq : K → K → Bool) (keys : Nat → K) (N : Nat)
    (hrefl : ∀ a, eq a a = true)
    (hsymm : ∀ a b, eq a b = true → eq b a = true)
    (htrans : ∀ a b c, eq a b = true → eq b c = true → eq a c = true)
    (hdistinct : ∀ p q, p < N → q < N →
      run_start_of eq keys p ≠ run_start_of eq keys q → eq (keys p) (keys q) = false)
    {p q : Nat} (hp : p < N) (hq : q < N) :
    eq (keys p) (keys q) = true ↔ run_start_of eq keys p = run_start_of eq keys q := by
  constructor
  · intro he
    by_contra hne
    rw [hdistinct p q hp hq hne] at he
    exact Bool.false_ne_true he
  · intro hrs
    have a := eq_run_start_of eq keys hrefl htrans p
    have b := eq_run_start_of eq keys hrefl htrans q
    rw [← hrs] at b
    exact htrans _ _ _ (hsymm _ _ a) b

/-- The scanned value of the carry-out of batch `j`: the reduction of the part of the
run of the last item of the batch that lies at or before that item. -/
theorem carry_scan_value {K V : Type} (eq : K → K → Bool) (keys : Nat → K)
    (op : V → V → V) (hassoc : ∀ x y z, op (op x y) z = op x (op y z)) (values : Nat → V)
    (N : Nat)
    (hrefl : ∀ a, eq a a = true)
    (hsymm : ∀ a b, eq a b = true → eq b a = true)
    (htrans : ∀ a b c, eq a b = true → eq b c = true → eq a c = true)
    (hdistinct : ∀ p q, p < N → q < N →
      run_start_of eq keys p ≠ run_start_of eq keys q → eq (keys p) (keys q) = false)
    (P : Nat → Nat) (hP0 : P 0 = 0) (v : Nat)
    (hmono : ∀ j, j < v → P j < P (j + 1)) (hlt : ∀ j, j < v → P (j + 1) < N)
    (xs : Nat → scan_by_key_pair V)
    (hval : ∀ j, j < v →
      (xs j).value = segment_reduce eq keys op values (P j) (P (j + 1) - 1))
    (hkey : ∀ j, j + 1 < v →
      ((xs (j + 1)).key != 0) = !eq (keys (P (j + 1) - 1)) (keys (P (j + 2) - 1)))
    (j : Nat) (hj : j < v) :
    (block_inclusive_scan (scan_by_key_op op) xs j).value
      = segment_reduce eq keys op values 0 (P (j + 1) - 1) := by
  induction j with
  | zero =>
    show (xs 0).value = _
    rw [hval 0 hj, hP0]
  | succ j ih =>
    have e2 : P (j + 1 + 1) = P (j + 2) := rfl
    have h1 := hmono j (by omega)
    have h2 := hmono (j + 1) hj
    have h3 := hlt j (by omega)
    have h4 := hlt (j + 1) hj
    have e1 : P (j + 1) + (P (j + 2) - 1 - P (j + 1)) = P (j + 2) - 1 := by omega
    rw [scan_by_key_value_succ, hkey j hj, hval (j + 1) hj, ih (by omega)]
    by_cases he : eq (keys (P (j + 1) - 1)) (keys (P (j + 2) - 1)) = true
    · have hrs := (eq_iff_same_run eq keys N hrefl hsymm htrans hdistinct
        (show P (j + 1) - 1 < N by omega) (show P (j + 2) - 1 < N by omega)).mp he
      have hle := run_start_of_le eq keys (P (j + 1) - 1)
      rw [he]
      simp only [Bool.not_true, Bool.false_eq_true, if_false]
      have hc := segment_reduce_carry eq keys op hassoc values 0 (P (j + 1))
        (P (j + 2) - 1 - P (j + 1)) (by omega)
        (not_run_start_of_mem eq keys (e := P (j + 2) - 1) (by omega) (by omega))
        (by rw [e1]; omega)
      rw [e1] at hc
      exact hc
    · have hne : run_start_of eq keys (P (j + 1) - 1)
          ≠ run_start_of eq keys (P (j + 2) - 1) := fun hrs =>
        he ((eq_iff_same_run eq keys N hrefl hsymm htrans hdistinct
          (show P (j + 1) - 1 < N by omega) (show P (j + 2) - 1 < N by omega)).mpr hrs)
      have hfalse : eq (keys (P (j + 1) - 1)) (keys (P (j + 2) - 1)) = false := by
        simpa using he
      rw [hfalse]
      simp only [Bool.not_false, if_true]
      have hge : P (j + 1) ≤ run_start_of eq keys (P (j + 2) - 1) := by
        by_contra hlt'
        exact hne (run_start_of_eq_of_mem eq keys (p := P (j + 1) - 1)
          (e := P (j + 2) - 1) (by omega) (by omega))
      have hs := segment_reduce_same eq keys op values 0 (P (j + 1))
        (P (j + 2) - 1 - P (j + 1)) (Nat.zero_le _) (by
          rw [e1]
          rcases Nat.eq_or_lt_of_le hge with heq | hlt'
          · right; left
            rw [heq]
            exact run_start_of_is_start eq keys _
          · right; right
            exact hlt')
      rw [e1] at hs
      exact hs

/-- A carry-out with a tail flag whose destination is the cell of the run that ends at
`e`, `e` in batch `b`: the carry-out of batch `b` when `e` is the last item of `b`, else
the carry-out of batch `b - 1`, the run of `e` coming in from that batch. -/
theorem carry_tail_cases {K : Type} (eq : K → K → Bool) (keys : Nat → K) (N : Nat)
    (hrefl : ∀ a, eq a a = true)
    (hsymm : ∀ a b, eq a b = true → eq b a = true)
    (htrans : ∀ a b c, eq a b = true → eq b c = true → eq a c = true)
    (hdistinct : ∀ p q, p < N → q < N →
      run_start_of eq keys p ≠ run_start_of eq keys q → eq (keys p) (keys q) = false)
    (P : Nat → Nat) (batches : Nat)
    (hPmono : ∀ j, j < batches → P j < P (j + 1))
    {b e j : Nat} (hb : b < batches) (h1 : P b ≤ e) (h2 : e < P (b + 1))
    (he : is_run_end eq keys N e = true) (hj : j + 1 < batches)
    (htail : j + 2 = batches ∨ eq (keys (P (j + 1) - 1)) (keys (P (j + 2) - 1)) = false)
    (hd : Nat.count (fun q => is_run_end eq keys N q = true) (P (j + 1) - 1)
      = Nat.count (fun q => is_run_end eq keys N q = true) e) :
    (j = b ∧ e + 1 = P (b + 1))
      ∨ (j + 1 = b ∧ run_start_of eq keys e < P b
          ∧ ¬ (e + 1 = P (b + 1) ∧ b + 1 < batches)) := by
  obtain ⟨hle, hge⟩ := mem_run_of_count_eq eq keys he hd
  have heN : e < N := by
    by_contra hge'
    rw [is_run_end_of_ge eq keys (by omega)] at he
    exact Bool.false_ne_true he
  have e2 : P (j + 1 + 1) = P (j + 2) := rfl
  have hPj := hPmono j (by omega)
  have hjb : j ≤ b := by
    by_contra hgt
    have := batch_start_mono P batches hPmono (show b + 1 ≤ j by omega) (by omega)
    omega
  have hsame : ∀ q, run_start_of eq keys e ≤ q → q ≤ e →
      eq (keys (P (j + 1) - 1)) (keys q) = true := by
    intro q hq1 hq2
    apply (eq_iff_same_run eq keys N hrefl hsymm htrans hdistinct (by omega) (by omega)).mpr
    rw [run_start_of_eq_of_mem eq keys hge hle, run_start_of_eq_of_mem eq keys hq1 hq2]
  rcases Nat.eq_or_lt_of_le hjb with hjeq | hjlt
  · left
    subst hjeq
    exact ⟨rfl, by omega⟩
  · right
    have hj1 : j + 1 = b := by
      by_contra hne
      have hm := batch_start_mono P batches hPmono (show j + 2 ≤ b by omega) (by omega)
      have hP2 := hPmono (j + 1) (by omega)
      rcases htail with ht | ht
      · omega
      · rw [hsame (P (j + 2) - 1) (by omega) (by omega)] at ht
        exact Bool.noConfusion ht
    subst hj1
    refine ⟨rfl, by omega, ?_⟩
    rintro ⟨hc1, hc2⟩
    rcases htail with ht | ht
    · omega
    · rw [show P (j + 2) - 1 = e by omega,
        hsame e (run_start_of_le eq keys e) (Nat.le_refl _)] at ht
      exact Bool.noConfusion ht

end rbk_scatter

/-! ## Reduce-by-key: the content of `aggregates_output` after the carry-out fix-up -/

section rbk_fixup

open Finset

/-- The kernel `scan_and_scatter_carry_outs` completes the aggregates. `P b` is the
first item of batch `b`; the carry-out of a batch with a successor is the one the kernel
`reduce_by_key` stores, and `aggregates_output` holds, for the run that ends at `e`,
the reduction of the part of the run that lies in the batch of `e`. For an equivalence
`eq` under which the keys of distinct runs differ, the cell of the run that ends at `e`
then holds the reduction of the whole run. -/
theorem scan_and_scatter_carry_outs_value {K V : Type}
    (SB SI batches N : Nat) (P : Nat → Nat)
    (eq : K → K → Bool) (keys : Nat → K) (op : V → V → V) (values : Nat → V)
    (hassoc : ∀ x y z, op (op x y) z = op x (op y z))
    (hrefl : ∀ a, eq a a = true)
    (hsymm : ∀ a b, eq a b = true → eq b a = true)
    (htrans : ∀ a b c, eq a b = true → eq b c = true → eq a c = true)
    (hdistinct : ∀ p q, p < N → q < N →
      run_start_of eq keys p ≠ run_start_of eq keys q → eq (keys p) (keys q) = false)
    (hbat : 0 < batches) (hcap : batches ≤ SB * SI) (hfit : SB * SI < 4294967296)
    (hP0 : P 0 = 0) (hPmono : ∀ j, j < batches → P j < P (j + 1))
    (hPlt : ∀ j, j < batches → P j < N) (hPN : N ≤ P batches)
    (carry_outs uninit : Nat → carry_out K V)
    (hco : ∀ j, j + 1 < batches → carry_outs j
      = { key := keys (P (j + 1) - 1)
          value := segment_reduce eq keys op values (P j) (P (j + 1) - 1)
          destination := Nat.count (fun q => is_run_end eq keys N q = true) (P (j + 1) - 1)
          is_final_aggregate := if is_run_start eq keys (P (j + 1)) = true then 1 else 0 })
    (agg : Nat → V)
    (hagg : ∀ b e, b < batches → P b ≤ e → e < P (b + 1) →
      is_run_end eq keys N e = true →
      agg (Nat.count (fun q => is_run_end eq keys N q = true) e)
        = segment_reduce eq keys op values (P b) e)
    (e : Nat) (he : is_run_end eq keys N e = true) :
    scan_and_scatter_carry_outs SB SI carry_outs uninit agg eq op batches
        (Nat.count (fun q => is_run_end eq keys N q = true) e)
      = segment_reduce eq keys op values 0 e := by
  have hv : sub32 batches 1 = batches - 1 := sub32_of_le hbat (by omega)
  have hSB : 0 < SB := by
    rcases Nat.eq_zero_or_pos SB with h0 | h0
    · rw [h0] at hcap; omega
    · exact h0
  have hSI : 0 < SI := by
    rcases Nat.eq_zero_or_pos SI with h0 | h0
    · rw [h0] at hcap; omega
    · exact h0
  have hlast := last_item_eq hSB hSI
  have heN : e < N := by
    by_contra hge
    rw [is_run_end_of_ge eq keys (by omega)] at he
    exact Bool.false_ne_true he
  have hrse := run_start_of_le eq keys e
  unfold scan_and_scatter_carry_outs
  dsimp only
  rw [wrap32_of_lt hfit, hv, hlast]
  generalize hcs : block_load_valid carry_outs 0 (batches - 1) uninit = cs
  generalize htail : flag_tails (SB * SI) (guarded_key_flag_op eq (batches - 1))
    (cs (SB * SI - 1)).key (fun j => (cs j).key) = tail
  generalize hpairs : block_inclusive_scan (scan_by_key_op op)
    (fun j => ({ key := if flag_heads (guarded_key_flag_op eq (batches - 1))
                    (fun j => (cs j).key) j = true then 1 else 0,
                 value := (cs j).value } : scan_by_key_pair V)) = pairs
  -- the loaded carry-outs
  have hcsv : ∀ j, j + 1 < batches → cs j
      = { key := keys (P (j + 1) - 1)
          value := segment_reduce eq keys op values (P j) (P (j + 1) - 1)
          destination := Nat.count (fun q => is_run_end eq keys N q = true) (P (j + 1) - 1)
          is_final_aggregate := if is_run_start eq keys (P (j + 1)) = true then 1 else 0 } := by
    intro j hj
    rw [← hcs]
    unfold block_load_valid
    rw [if_pos (by omega), Nat.zero_add]
    exact hco j hj
  -- the tail flags
  have htl : ∀ j, tail j = true ↔ (j + 1 < batches
      ∧ (j + 2 = batches ∨ eq (keys (P (j + 1) - 1)) (keys (P (j + 2) - 1)) = false)) := by
    intro j
    have hdef : tail j = ((decide (j + 1 < batches - 1)
          && !eq (cs j).key
            (if j + 1 < SB * SI then (cs (j + 1)).key else (cs (SB * SI - 1)).key))
        || decide (j + 1 = batches - 1)) := by
      rw [← htail]
      rfl
    rw [hdef]
    rcases Nat.lt_trichotomy (j + 1) (batches - 1) with h1 | h1 | h1
    · rw [decide_eq_true h1, decide_eq_false (show ¬ (j + 1 = batches - 1) by omega),
        if_pos (by omega), hcsv j (by omega), hcsv (j + 1) (by omega)]
      simp only [Bool.true_and, Bool.or_false]
      constructor
      · intro hne
        refine ⟨by omega, Or.inr ?_⟩
        cases hq : eq (keys (P (j + 1) - 1)) (keys (P (j + 2) - 1))
        · rfl
        · have hq' : eq (keys (P (j + 1) - 1)) (keys (P (j + 1 + 1) - 1)) = true := hq
          rw [hq'] at hne
          exact Bool.noConfusion hne
      · rintro ⟨_, h2 | h2⟩
        · omega
        · have h2' : eq (keys (P (j + 1) - 1)) (keys (P (j + 1 + 1) - 1)) = false := h2
          rw [h2']
          rfl
    · rw [decide_eq_true h1]
      simp only [Bool.or_true, true_iff]
      exact ⟨by omega, Or.inl (by omega)⟩
    · rw [decide_eq_false (show ¬ (j + 1 < batches - 1) by omega),
        decide_eq_false (show ¬ (j + 1 = batches - 1) by omega)]
      simp only [Bool.false_and, Bool.or_false, Bool.false_eq_true, false_iff]
      rintro ⟨h2, _⟩
      omega
  -- the scanned values
  have hpvj : ∀ j, j + 1 < batches →
      (pairs j).value = segment_reduce eq keys op values 0 (P (j + 1) - 1) := by
    intro j hj
    rw [← hpairs]
    refine carry_scan_value eq keys op hassoc values N hrefl hsymm htrans hdistinct P hP0
      (batches - 1) (fun i hi => hPmono i (by omega)) (fun i hi => hPlt (i + 1) (by omega))
      _ ?_ ?_ j (by omega)
    · intro i hi
      show (cs i).value = _
      rw [hcsv i (by omega)]
    · intro i hi
      have hf : flag_heads (guarded_key_flag_op eq (batches - 1)) (fun j => (cs j).key)
          (i + 1) = !eq (keys (P (i + 1) - 1)) (keys (P (i + 2) - 1)) := by
        unfold flag_heads guarded_key_flag_op
        rw [if_neg (by omega), decide_eq_true hi,
          decide_eq_false (show ¬ (i + 1 = batches - 1) by omega)]
        simp only [Nat.add_sub_cancel, Bool.true_and, Bool.or_false]
        rw [hcsv i (by omega), hcsv (i + 1) (by omega)]
      show ((if flag_heads (guarded_key_flag_op eq (batches - 1)) (fun j => (cs j).key)
          (i + 1) = true then 1 else 0) != 0) = _
      rw [hf]
      cases eq (keys (P (i + 1) - 1)) (keys (P (i + 2) - 1)) <;> rfl
  -- the batch of `e`
  obtain ⟨b, hb, h1, h2⟩ := exists_batch P hP0 batches e (by omega)
  have hcases := fun j hj ht hd => carry_tail_cases eq keys N hrefl hsymm htrans hdistinct P
    batches hPmono (j := j) hb h1 h2 he hj ht hd
  by_cases c1 : e + 1 = P (b + 1) ∧ b + 1 < batches
  · -- `e` is the last item of a batch with a successor
    obtain ⟨c11, c12⟩ := c1
    have hLb : P (b + 1) - 1 = e := by omega
    have hPb1 := hPlt (b + 1) c12
    have hS : is_run_start eq keys (P (b + 1)) = true := by
      rw [← c11, ← is_run_end_eq_start eq keys (show e + 1 < N by omega)]
      exact he
    refine Eq.trans (scatter_of_unique tail (fun j => (cs j).destination)
      (fun j => (cs j).is_final_aggregate) (fun j => (pairs j).value) op agg (SB * SI) _ b
      (by omega) ?_ ?_ ?_) ?_
    · refine (htl b).mpr ⟨c12, ?_⟩
      by_cases hb2 : b + 2 = batches
      · exact Or.inl hb2
      · right
        have e2 : P (b + 1 + 1) = P (b + 2) := rfl
        have hm := hPmono (b + 1) c12
        have hlt := hPlt (b + 2) (by omega)
        have hgt := run_start_of_gt_of_end eq keys he (show e < P (b + 2) - 1 by omega)
          (by omega)
        apply hdistinct _ _ (by omega) (by omega)
        rw [hLb]
        omega
    · show (cs b).destination = _
      rw [hcsv b c12]
      show Nat.count _ (P (b + 1) - 1) = _
      rw [hLb]
    · intro j hj ht hd
      obtain ⟨ht1, ht2⟩ := (htl j).mp ht
      have hd' : Nat.count (fun q => is_run_end eq keys N q = true) (P (j + 1) - 1)
          = Nat.count (fun q => is_run_end eq keys N q = true) e := by
        have : (cs j).destination = _ := hd
        rw [hcsv j ht1] at this
        exact this
      rcases hcases j ht1 ht2 hd' with ⟨hjb, _⟩ | ⟨_, _, hn⟩
      · exact hjb
      · exact absurd ⟨c11, c12⟩ hn
    · show (if (cs b).is_final_aggregate ≠ 0 then (pairs b).value
        else op (pairs b).value (agg _)) = _
      rw [hcsv b c12]
      show (if (if is_run_start eq keys (P (b + 1)) = true then 1 else 0) ≠ 0 then
          (pairs b).value else op (pairs b).value (agg _)) = _
      rw [if_pos hS, if_pos (by decide), hpvj b c12, hLb]
  · by_cases c2 : 0 < b ∧ run_start_of eq keys e < P b
    · -- the run of `e` comes in from the batch before
      obtain ⟨c21, c22⟩ := c2
      obtain ⟨b', rfl⟩ : ∃ b', b = b' + 1 := ⟨b - 1, by omega⟩
      have hPb := hPmono b' (by omega)
      have hS : is_run_start eq keys (P (b' + 1)) = false :=
        not_run_start_of_mem eq keys (e := e) c22 h1
      refine Eq.trans (scatter_of_unique tail (fun j => (cs j).destination)
        (fun j => (cs j).is_final_aggregate) (fun j => (pairs j).value) op agg (SB * SI) _
        b' (by omega) ?_ ?_ ?_) ?_
      · refine (htl b').mpr ⟨hb, ?_⟩
        by_cases hb2 : b' + 2 = batches
        · exact Or.inl hb2
        · right
          have e2 : P (b' + 1 + 1) = P (b' + 2) := rfl
          have hlt := hPlt (b' + 2) (by omega)
          have hne : ¬ (e + 1 = P (b' + 2)) := fun hc => c1 ⟨hc, by omega⟩
          have hgt := run_start_of_gt_of_end eq keys he (show e < P (b' + 2) - 1 by omega)
            (by omega)
          have hrs := run_start_of_eq_of_mem eq keys (p := P (b' + 1) - 1) (e := e)
            (by omega) (by omega)
          apply hdistinct _ _ (by omega) (by omega)
          rw [hrs]
          omega
      · show (cs b').destination = _
        rw [hcsv b' hb]
        exact count_run_end_eq_of_mem eq keys heN (by omega) (by omega)
      · intro j hj ht hd
        obtain ⟨ht1, ht2⟩ := (htl j).mp ht
        have hd' : Nat.count (fun q => is_run_end eq keys N q = true) (P (j + 1) - 1)
            = Nat.count (fun q => is_run_end eq keys N q = true) e := by
          have : (cs j).destination = _ := hd
          rw [hcsv j ht1] at this
          exact this
        rcases hcases j ht1 ht2 hd' with ⟨hjb, hje⟩ | ⟨hjb, _, _⟩
        · exact absurd ⟨hje, by omega⟩ c1
        · omega
      · show (if (cs b').is_final_aggregate ≠ 0 then (pairs b').value
          else op (pairs b').value (agg _)) = _
        rw [hcsv b' hb]
        show (if (if is_run_start eq keys (P (b' + 1)) = true then 1 else 0) ≠ 0 then
            (pairs b').value else op (pairs b').value (agg _)) = _
        rw [hS]
        simp only [Bool.false_eq_true, if_false, ne_eq, not_true_eq_false]
        rw [hpvj b' hb, hagg (b' + 1) e hb h1 h2 he]
        have hc := segment_reduce_carry eq keys op hassoc values 0 (P (b' + 1))
          (e - P (b' + 1)) (by omega) hS
          (by rw [show P (b' + 1) + (e - P (b' + 1)) = e by omega]; omega)
        rw [show P (b' + 1) + (e - P (b' + 1)) = e by omega] at hc
        exact hc
    · -- the run of `e` lies in the batch of `e`
      refine Eq.trans (scatter_of_not_mem tail (fun j => (cs j).destination)
        (fun j => (cs j).is_final_aggregate) (fun j => (pairs j).value) op agg (SB * SI) _
        ?_) ?_
      · intro j hj ht hd
        obtain ⟨ht1, ht2⟩ := (htl j).mp ht
        have hd' : Nat.count (fun q => is_run_end eq keys N q = true) (P (j + 1) - 1)
            = Nat.count (fun q => is_run_end eq keys N q = true) e := by
          have : (cs j).destination = _ := hd
          rw [hcsv j ht1] at this
          exact this
        rcases hcases j ht1 ht2 hd' with ⟨hjb, hje⟩ | ⟨hjb, hrs, _⟩
        · exact c1 ⟨hje, by omega⟩
        · exact c2 ⟨by omega, hrs⟩
      · rw [hagg b e hb h1 h2 he]
        have hs := segment_reduce_same eq keys op values 0 (P b) (e - P b) (Nat.zero_le _)
          (by
            rw [show P b + (e - P b) = e by omega]
            rcases Nat.eq_zero_or_pos b with hb0 | hb0
            · left
              rw [hb0, hP0]
            · have hge : P b ≤ run_start_of eq keys e := by
                by_contra hlt
                exact c2 ⟨hb0, by omega⟩
              rcases Nat.eq_or_lt_of_le hge with heq | hlt
              · right; left
                rw [heq]
                exact run_start_of_is_start eq keys e
              · right; right
                exact hlt)
        rw [show P b + (e - P b) = e by omega] at hs
        exact hs

end rbk_fixup

/-! ## Reduce-by-key: the outputs of the four kernels -/

section rbk_pipeline

open Finset

variable {BlockSize ItemsPerThread warp_size ScanBlockSize ScanItemsPerThread
  size blocks_per_full_batch full_batches blocks batches : Nat}

theorem launch_ok.batches_pos
    (h : launch_ok BlockSize ItemsPerThread warp_size ScanBlockSize ScanItemsPerThread
      size blocks_per_full_batch full_batches blocks batches) : 0 < batches := by
  rcases Nat.eq_zero_or_pos batches with h0 | h0
  · have h1 := h.first_block_total
    have h2 := h.blocks_pos
    rw [h0, first_block_zero] at h1
    omega
  · exact h0

/-- The first block of a batch that holds a block is a block of the grid. -/
theorem launch_ok.first_block_lt
    (h : launch_ok BlockSize ItemsPerThread warp_size ScanBlockSize ScanItemsPerThread
      size blocks_per_full_batch full_batches blocks batches)
    {b : Nat} (hb : b < batches)
    (hpos : 0 < batch_blocks blocks_per_full_batch full_batches b) :
    first_block blocks_per_full_batch full_batches b < blocks := by
  have h1 := first_block_succ blocks_per_full_batch full_batches b h.per_batch
  have h2 := h.first_block_le (b := b + 1) (by omega)
  omega

/-- The number of run ends of an input. -/
theorem run_ends_length {K : Type} (eq : K → K → Bool) (keys : Nat → K) (N : Nat) :
    (run_ends eq keys N).length
      = Nat.count (fun i => is_run_end eq keys N i = true) N := by
  unfold run_ends
  rw [Nat.count, List.countP_eq_length_filter]
  congr 1
  apply List.filter_congr
  intro x _
  simp

/-- The start of the run that ends at the `j`-th run end is the `j`-th run start. -/
theorem run_start_of_run_end {K : Type} (eq : K → K → Bool) (keys : Nat → K) (N j s e : Nat)
    (hs : (run_starts eq keys N)[j]? = some s) (he : (run_ends eq keys N)[j]? = some e) :
    run_start_of eq keys e = s := by
  obtain ⟨_, s2, s3⟩ := getElem?_filter_range _ _ _ _ hs
  obtain ⟨e1, _, e3⟩ := getElem?_filter_range _ _ _ _ he
  have hle := run_start_of_le eq keys e
  have hst := run_start_of_is_start eq keys e
  have h1 := count_run_end_start eq keys (N := N) (p := run_start_of eq keys e) (by omega) hst
  have h2 := count_run_end_eq_of_mem eq keys (N := N) (p := run_start_of eq keys e) e1
    (Nat.le_refl _) hle
  exact Nat.count_injective (p := fun i => is_run_start eq keys i = true) hst s2 (by omega)

/-- After the four kernels `unique_output[j]` is the key at the start of the `j`-th
run. -/
theorem reduce_by_key_launch_unique_output {K V : Type}
    (h : launch_ok BlockSize ItemsPerThread warp_size ScanBlockSize ScanItemsPerThread
      size blocks_per_full_batch full_batches blocks batches)
    (keys_input uninitK : Nat → K) (values_input uninitV : Nat → V)
    (key_compare_op : K → K → Bool) (reduce_op : V → V → V)
    (schedule : List Nat) (hs : schedule.Perm (List.range batches))
    (unique_counts0 : Nat → Nat) (unique_output0 : Nat → K) (aggregates_output0 : Nat → V)
    (uninitC : Nat → carry_out K V) (j p : Nat)
    (hjp : (run_starts key_compare_op keys_input size)[j]? = some p) :
    (reduce_by_key_launch BlockSize ItemsPerThread warp_size ScanBlockSize
      ScanItemsPerThread keys_input uninitK values_input uninitV size key_compare_op
      reduce_op blocks_per_full_batch full_batches blocks batches schedule unique_counts0
      unique_output0 aggregates_output0 uninitC).unique_output j = keys_input p := by
  have hus := (scan_unique_counts_eq h keys_input uninitK key_compare_op unique_counts0).2
  have hgrid := reduce_by_key_grid_stores h keys_input uninitK values_input uninitV
    key_compare_op reduce_op _ hus
  obtain ⟨hp, hstart, hcount⟩ := getElem?_filter_range _ _ _ _ hjp
  unfold reduce_by_key_launch
  dsimp only
  have hmem : ∀ w, w ∈ schedule.flatMap (fun b =>
      (reduce_by_key BlockSize ItemsPerThread keys_input uninitK values_input uninitV size
        (scan_unique_counts ScanBlockSize ScanItemsPerThread
          (fill_unique_counts_grid BlockSize ItemsPerThread warp_size keys_input uninitK
            size key_compare_op blocks_per_full_batch full_batches blocks batches
            unique_counts0) batches).1
        key_compare_op reduce_op blocks_per_full_batch full_batches blocks
        b).unique_stores)
      ↔ ∃ q, q < size ∧ is_run_start key_compare_op keys_input q = true
        ∧ w = (Nat.count (fun i => is_run_start key_compare_op keys_input i = true) q,
                keys_input q) := by
    intro w
    rw [← mem_key_stores, ← hgrid, List.mem_flatMap, List.mem_flatMap]
    constructor
    · rintro ⟨b, hb, hw⟩
      exact ⟨b, hs.mem_iff.mp hb, hw⟩
    · rintro ⟨b, hb, hw⟩
      exact ⟨b, hs.mem_iff.mpr hb, hw⟩
  apply apply_writes_of_unique
  · exact ⟨_, (hmem _).mpr ⟨p, hp, hstart, rfl⟩, hcount⟩
  · intro w hw hj
    obtain ⟨q, hq, hqs, rfl⟩ := (hmem w).mp hw
    have : q = p := Nat.count_injective (p := fun i =>
      is_run_start key_compare_op keys_input i = true) hqs hstart (by
        simp only at hj; omega)
    rw [this]

/-- After the four kernels, for an associative `reduce_op` and an equivalence under which
the keys of distinct runs differ, the cell of `aggregates_output` of the run that ends at
`e` holds the left-to-right reduction of the values of the run. -/
theorem reduce_by_key_launch_aggregates {K V : Type}
    (h : launch_ok BlockSize ItemsPerThread warp_size ScanBlockSize ScanItemsPerThread
      size blocks_per_full_batch full_batches blocks batches)
    (hbatch : ∀ b, b < batches → 0 < batch_blocks blocks_per_full_batch full_batches b)
    (keys_input uninitK : Nat → K) (values_input uninitV : Nat → V)
    (key_compare_op : K → K → Bool) (reduce_op : V → V → V)
    (hassoc : ∀ x y z, reduce_op (reduce_op x y) z = reduce_op x (reduce_op y z))
    (hrefl : ∀ a, key_compare_op a a = true)
    (hsymm : ∀ a b, key_compare_op a b = true → key_compare_op b a = true)
    (htrans : ∀ a b c, key_compare_op a b = true → key_compare_op b c = true →
      key_compare_op a c = true)
    (hdistinct : ∀ p q, p < size → q < size →
      run_start_of key_compare_op keys_input p ≠ run_start_of key_compare_op keys_input q →
      key_compare_op (keys_input p) (keys_input q) = false)
    (schedule : List Nat) (hs : schedule.Perm (List.range batches))
    (unique_counts0 : Nat → Nat) (unique_output0 : Nat → K) (aggregates_output0 : Nat → V)
    (uninitC : Nat → carry_out K V) (e : Nat)
    (he : is_run_end key_compare_op keys_input size e = true) :
    (reduce_by_key_launch BlockSize ItemsPerThread warp_size ScanBlockSize
      ScanItemsPerThread keys_input uninitK values_input uninitV size key_compare_op
      reduce_op blocks_per_full_batch full_batches blocks batches schedule unique_counts0
      unique_output0 aggregates_output0 uninitC).aggregates_output
        (Nat.count (fun q => is_run_end key_compare_op keys_input size q = true) e)
      = range_reduce reduce_op values_input (run_start_of key_compare_op keys_input e)
          (e - run_start_of key_compare_op keys_input e) := by
  have hus := (scan_unique_counts_eq h keys_input uninitK key_compare_op unique_counts0).2
  have hIpos := h.ipb_pos
  have hfl : ∀ b, b < batches →
      first_block blocks_per_full_batch full_batches b < blocks :=
    fun b hb => h.first_block_lt hb (hbatch b hb)
  have hseg : segment_reduce key_compare_op keys_input reduce_op values_input 0 e
      = range_reduce reduce_op values_input (run_start_of key_compare_op keys_input e)
          (e - run_start_of key_compare_op keys_input e) := by
    unfold segment_reduce
    rw [Nat.zero_max]
  rw [← hseg]
  unfold reduce_by_key_launch
  dsimp only
  refine scan_and_scatter_carry_outs_value ScanBlockSize ScanItemsPerThread batches size
    (fun b => first_block blocks_per_full_batch full_batches b
      * (BlockSize * ItemsPerThread))
    key_compare_op keys_input reduce_op values_input hassoc hrefl hsymm htrans hdistinct
    h.batches_pos h.scan_fits h.scan_items ?_ ?_ ?_ ?_ _ uninitC ?_ _ ?_ e he
  · show first_block blocks_per_full_batch full_batches 0 * (BlockSize * ItemsPerThread) = 0
    rw [first_block_zero, Nat.zero_mul]
  · intro j hj
    show first_block blocks_per_full_batch full_batches j * (BlockSize * ItemsPerThread)
      < first_block blocks_per_full_batch full_batches (j + 1)
        * (BlockSize * ItemsPerThread)
    rw [first_block_succ _ _ _ h.per_batch, Nat.add_mul]
    have := Nat.mul_pos (hbatch j hj) hIpos
    omega
  · intro j hj
    show first_block blocks_per_full_batch full_batches j * (BlockSize * ItemsPerThread)
      < size
    have h1 : first_block blocks_per_full_batch full_batches j
        * (BlockSize * ItemsPerThread) ≤ (blocks - 1) * (BlockSize * ItemsPerThread) :=
      Nat.mul_le_mul_right _ (by have := hfl j hj; omega)
    have := h.blocks_lo
    omega
  · show size ≤ first_block blocks_per_full_batch full_batches batches
      * (BlockSize * ItemsPerThread)
    rw [h.first_block_total]
    exact h.blocks_hi
  · intro j hj
    have hstore := (reduce_by_key_aggregate_stores h keys_input uninitK values_input uninitV
      key_compare_op reduce_op hassoc _ (show j < batches by omega)
      (hus j (by omega))).2 (hbatch j (by omega)) (hfl (j + 1) hj)
    simp only [hstore]
  · intro b q hb q1 q2 q3
    exact reduce_by_key_partial_aggregates h keys_input uninitK values_input uninitV
      key_compare_op reduce_op hassoc schedule hs _ hus aggregates_output0 hb q1 q2 q3

end rbk_pipeline

/-! ## Claims on the reduce-by-key pipeline -/

section claims_rbk_pipeline

open Finset

variable {BlockSize ItemsPerThread warp_size ScanBlockSize ScanItemsPerThread
  size blocks_per_full_batch full_batches blocks batches : Nat}

/-- C28 (reduce-by-key with non-recurring keys), with the bound on the batches that the
code needs. For every accepted launch, which has
`batches ≤ ScanBlockSize * ScanItemsPerThread` for the single block of the two scan
kernels, and whose batches hold at least one block each: if `key_compare_op` is an
equivalence relation and the keys of two distinct runs are never eq, then for every
associative `reduce_op` and every order in which the blocks of `reduce_by_key` run, the
input has as many run ends as run starts, and for the `j`-th run, from `s` to `e`, the
four kernels leave the first key of the run in `unique_output[j]` and the left-to-right
reduction of the values `s, …, e` in `aggregates_output[j]`, whatever blocks and batches
the run spans. -/
theorem reduce_by_key_non_recurring_keys {K V : Type}
    (h : launch_ok BlockSize ItemsPerThread warp_size ScanBlockSize ScanItemsPerThread
      size blocks_per_full_batch full_batches blocks batches)
    (hbatch : ∀ b, b < batches → 0 < batch_blocks blocks_per_full_batch full_batches b)
    (keys_input uninitK : Nat → K) (values_input uninitV : Nat → V)
    (key_compare_op : K → K → Bool) (reduce_op : V → V → V)
    (hassoc : ∀ x y z, reduce_op (reduce_op x y) z = reduce_op x (reduce_op y z))
    (hrefl : ∀ a, key_compare_op a a = true)
    (hsymm : ∀ a b, key_compare_op a b = true → key_compare_op b a = true)
    (htrans : ∀ a b c, key_compare_op a b = true → key_compare_op b c = true →
      key_compare_op a c = true)
    (hdistinct : ∀ p q, p < size → q < size →
      run_start_of key_compare_op keys_input p ≠ run_start_of key_compare_op keys_input q →
      key_compare_op (keys_input p) (keys_input q) = false)
    (schedule : List Nat) (hs : schedule.Perm (List.range batches))
    (unique_counts0 : Nat → Nat) (unique_output0 : Nat → K) (aggregates_output0 : Nat → V)
    (uninitC : Nat → carry_out K V) :
    (run_ends key_compare_op keys_input size).length
      = (run_starts key_compare_op keys_input size).length
    ∧ ∀ j s e, (run_starts key_compare_op keys_input size)[j]? = some s →
      (run_ends key_compare_op keys_input size)[j]? = some e →
      (reduce_by_key_launch BlockSize ItemsPerThread warp_size ScanBlockSize
        ScanItemsPerThread keys_input uninitK values_input uninitV size key_compare_op
        reduce_op blocks_per_full_batch full_batches blocks batches schedule unique_counts0
        unique_output0 aggregates_output0 uninitC).unique_output j = keys_input s
      ∧ (reduce_by_key_launch BlockSize ItemsPerThread warp_size ScanBlockSize
        ScanItemsPerThread keys_input uninitK values_input uninitV size key_compare_op
        reduce_op blocks_per_full_batch full_batches blocks batches schedule unique_counts0
        unique_output0 aggregates_output0 uninitC).aggregates_output j
        = range_reduce reduce_op values_input s (e - s) := by
  constructor
  · rw [run_ends_length, run_starts_length, count_run_end_size _ _ h.size_pos]
  · intro j s e hjs hje
    have hrs := run_start_of_run_end key_compare_op keys_input size j s e hjs hje
    obtain ⟨_, e2, e3⟩ := getElem?_filter_range _ _ _ _ hje
    constructor
    · exact reduce_by_key_launch_unique_output h keys_input uninitK values_input uninitV
        key_compare_op reduce_op schedule hs unique_counts0 unique_output0
        aggregates_output0 uninitC j s hjs
    · have hagg := reduce_by_key_launch_aggregates h hbatch keys_input uninitK values_input
        uninitV key_compare_op reduce_op hassoc hrefl hsymm htrans hdistinct schedule hs
        unique_counts0 unique_output0 aggregates_output0 uninitC e e2
      rw [e3, hrs] at hagg
      exact hagg

/-- C28, witness: the keys `[1,1,1,2, 2,2,3,3, 3,3,3,5]` with values `1..12`, equality
and `+`, three batches of one block of `2 * 2` items that run in the order `2, 0, 1`;
run 2 spans the batches 1 and 2 and its aggregate is `7 + 8 + 9 + 10 + 11 = 45`. -/
theorem reduce_by_key_non_recurring_keys_witness :
    launch_ok 2 2 2 2 2 12 1 3 3 3
    ∧ (run_starts (fun a b => a == b) spanning_keys 12)[2]? = some 6
    ∧ (run_ends (fun a b => a == b) spanning_keys 12)[2]? = some 10
    ∧ (reduce_by_key_launch 2 2 2 2 2 spanning_keys (fun _ => 0) recurring_values
        (fun _ => 0) 12 (fun a b => a == b) (fun a b => a + b) 1 3 3 3 [2, 0, 1]
        (fun _ => 0) (fun _ => 0) (fun _ => 0) (fun _ => ⟨0, 0, 0, 0⟩)).aggregates_output 2
      = range_reduce (fun a b => a + b) recurring_values 6 (10 - 6)
    ∧ range_reduce (fun a b => a + b) recurring_values 6 (10 - 6) = 45 :=
  ⟨(by constructor <;> decide), by decide, by decide,
    ((reduce_by_key_non_recurring_keys
      (by constructor <;> decide) (by decide)
      spanning_keys (fun _ => 0) recurring_values (fun _ => 0) (fun a b => a == b)
      (fun a b => a + b) Nat.add_assoc (fun a => beq_self_eq_true a)
      (fun a b hab => by rw [beq_iff_eq] at hab ⊢; exact hab.symm)
      (fun a b c hab hbc => by rw [beq_iff_eq] at hab hbc ⊢; exact hab.trans hbc)
      (fun p q hp hq => (by decide : ∀ p, p < 12 → ∀ q, q < 12 →
        run_start_of (fun a b => a == b) spanning_keys p
          ≠ run_start_of (fun a b => a == b) spanning_keys q →
        (spanning_keys p == spanning_keys q) = false) p hp q hq)
      [2, 0, 1] (by decide) (fun _ => 0) (fun _ => 0) (fun _ => 0)
      (fun _ => ⟨0, 0, 0, 0⟩)).2 2 6 10 (by decide) (by decide)).2,
    by decide⟩

/-- C28 fails on the code with the bound `batches - 1 ≤ ScanBlockSize * ScanItemsPerThread`
of the claim. Sorted keys `[1,1,1,2, 3,3,3,4, 5,5,5,5]` with values `1..12`, equality and
`+`, three batches of one block of `2 * 2` items, and scan kernels with one block of
`1 * 2` items, so that `batches - 1 = 2` carry-outs fit the block: `scan_unique_counts`
scans two of the three counts, batch 2 starts at index `1` instead of `4`, and the kernels
leave `5` in `unique_output[1]` (the first key of run 1 is `2`) and never write
`aggregates_output[4]` (the aggregate of run 4 is `42`). -/
theorem reduce_by_key_beyond_scan_capacity :
    3 - 1 ≤ 1 * 2
    ∧ (∀ b, b < 3 → 0 < batch_blocks 1 3 b)
    ∧ (∀ p, p < 12 → ∀ q, q < 12 →
        run_start_of (fun a b => a == b) sorted_keys p
          ≠ run_start_of (fun a b => a == b) sorted_keys q →
        (sorted_keys p == sorted_keys q) = false)
    ∧ run_starts (fun a b => a == b) sorted_keys 12 = [0, 3, 4, 7, 8]
    ∧ run_ends (fun a b => a == b) sorted_keys 12 = [2, 3, 6, 7, 11]
    ∧ (reduce_by_key_launch 2 2 2 1 2 sorted_keys (fun _ => 0) recurring_values
        (fun _ => 0) 12 (fun a b => a == b) (fun a b => a + b) 1 3 3 3 [0, 1, 2]
        (fun _ => 0) (fun _ => 0) (fun _ => 0) (fun _ => ⟨0, 0, 0, 0⟩)).unique_counts 2 = 1
    ∧ (reduce_by_key_launch 2 2 2 1 2 sorted_keys (fun _ => 0) recurring_values
        (fun _ => 0) 12 (fun a b => a == b) (fun a b => a + b) 1 3 3 3 [0, 1, 2]
        (fun _ => 0) (fun _ => 0) (fun _ => 0) (fun _ => ⟨0, 0, 0, 0⟩)).unique_output 1 = 5
    ∧ sorted_keys 3 = 2
    ∧ (reduce_by_key_launch 2 2 2 1 2 sorted_keys (fun _ => 0) recurring_values
        (fun _ => 0) 12 (fun a b => a == b) (fun a b => a + b) 1 3 3 3 [0, 1, 2]
        (fun _ => 0) (fun _ => 0) (fun _ => 0) (fun _ => ⟨0, 0, 0, 0⟩)).aggregates_output 4 = 0
    ∧ range_reduce (fun a b => a + b) recurring_values 8 (11 - 8) = 42 := by
  and_intros <;> decide

/-- C25 (head/tail invariant), amended to accepted launches: blocks of whole warps,
`blocks * items_per_block < 2^32` and `batches ≤ BlockSize * ItemsPerThread` of
`scan_unique_counts`. For every such launch on `size ≥ 1` keys and every key
predicate: the tail flag of item `j` of block `b`, as `fill_unique_counts` and
`reduce_by_key` compute it, says that a run ends at `b * items_per_block + j`, and the
head flag of a valid item after the first item of its block says that a run starts
there; the first item of block 0 is a head and the first store to `unique_output` is the
key of item 0 at index 0; item `size - 1` is a tail; the number of tail flags of the
grid, the number of stores to `unique_output` (one per head flag, the first item of a
block that continues a run being no head) and the value stored to
`unique_count_output` are all the number `M` of runs. -/
theorem head_tail_invariant {K V : Type}
    (h : launch_ok BlockSize ItemsPerThread warp_size ScanBlockSize ScanItemsPerThread
      size blocks_per_full_batch full_batches blocks batches)
    (keys_input uninitK : Nat → K) (values_input uninitV : Nat → V)
    (key_compare_op : K → K → Bool) (reduce_op : V → V → V)
    (unique_counts0 : Nat → Nat) :
    (∀ b j, b < blocks → j < BlockSize * ItemsPerThread →
      block_tail_flags BlockSize ItemsPerThread size blocks keys_input uninitK
          key_compare_op b j
        = is_run_end key_compare_op keys_input size (b * (BlockSize * ItemsPerThread) + j))
    ∧ (∀ b j, b < blocks → 0 < j → j < BlockSize * ItemsPerThread →
      b * (BlockSize * ItemsPerThread) + j < size →
      block_head_flags BlockSize ItemsPerThread size blocks keys_input uninitK
          key_compare_op b j
        = is_run_start key_compare_op keys_input (b * (BlockSize * ItemsPerThread) + j))
    ∧ block_head_flags BlockSize ItemsPerThread size blocks keys_input uninitK
        key_compare_op 0 0 = true
    ∧ ((List.range batches).flatMap (fun b =>
        (reduce_by_key BlockSize ItemsPerThread keys_input uninitK values_input uninitV size
          (scan_unique_counts ScanBlockSize ScanItemsPerThread
            (fill_unique_counts_grid BlockSize ItemsPerThread warp_size keys_input uninitK
              size key_compare_op blocks_per_full_batch full_batches blocks batches
              unique_counts0) batches).1
          key_compare_op reduce_op blocks_per_full_batch full_batches blocks
          b).unique_stores))[0]? = some (0, keys_input 0)
    ∧ block_tail_flags BlockSize ItemsPerThread size blocks keys_input uninitK
        key_compare_op (blocks - 1)
        (size - 1 - (blocks - 1) * (BlockSize * ItemsPerThread)) = true
    ∧ ∑ b ∈ range blocks, Nat.count (fun j =>
        block_tail_flags BlockSize ItemsPerThread size blocks keys_input uninitK
          key_compare_op b j = true) (BlockSize * ItemsPerThread)
      = (run_starts key_compare_op keys_input size).length
    ∧ ((List.range batches).flatMap (fun b =>
        (reduce_by_key BlockSize ItemsPerThread keys_input uninitK values_input uninitV size
          (scan_unique_counts ScanBlockSize ScanItemsPerThread
            (fill_unique_counts_grid BlockSize ItemsPerThread warp_size keys_input uninitK
              size key_compare_op blocks_per_full_batch full_batches blocks batches
              unique_counts0) batches).1
          key_compare_op reduce_op blocks_per_full_batch full_batches blocks
          b).unique_stores)).length
      = (run_starts key_compare_op keys_input size).length
    ∧ (scan_unique_counts ScanBlockSize ScanItemsPerThread
        (fill_unique_counts_grid BlockSize ItemsPerThread warp_size keys_input uninitK size
          key_compare_op blocks_per_full_batch full_batches blocks batches unique_counts0)
        batches).2
      = (run_starts key_compare_op keys_input size).length := by
  have hus := (scan_unique_counts_eq h keys_input uninitK key_compare_op unique_counts0).2
  have hgrid := reduce_by_key_grid_stores h keys_input uninitK values_input uninitV
    key_compare_op reduce_op _ hus
  have hsize := h.size_pos
  have hlo := h.blocks_lo
  have hhi := h.blocks_hi
  have hbpos := h.blocks_pos
  have htails : ∀ b j, b < blocks → j < BlockSize * ItemsPerThread →
      block_tail_flags BlockSize ItemsPerThread size blocks keys_input uninitK
          key_compare_op b j
        = is_run_end key_compare_op keys_input size (b * (BlockSize * ItemsPerThread) + j) :=
    fun b j hb hj => block_tail_flags_eq h keys_input uninitK key_compare_op hb hj
  have hsplit : (blocks - 1) * (BlockSize * ItemsPerThread) + BlockSize * ItemsPerThread
      = blocks * (BlockSize * ItemsPerThread) := by
    obtain ⟨c, rfl⟩ : ∃ c, blocks = c + 1 := ⟨blocks - 1, by omega⟩
    rw [Nat.add_sub_cancel, Nat.succ_mul]
  refine ⟨htails, ?_, block_head_flags_zero keys_input uninitK key_compare_op 0, ?_, ?_, ?_,
    ?_, ?_⟩
  · intro b j hb h0 hj hv
    exact block_head_flags_eq h keys_input uninitK key_compare_op hb h0 hj hv
  · rw [hgrid]
    have hrange : List.range size = List.range (1 + (size - 1)) := by
      rw [show 1 + (size - 1) = size by omega]
    have hk : key_store key_compare_op keys_input size 0 = some (0, keys_input 0) := by
      unfold key_store
      rw [if_pos ⟨hsize, by simp [is_run_start]⟩, Nat.count_zero]
    have hfirst : (List.range 1).filterMap (key_store key_compare_op keys_input size)
        = [(0, keys_input 0)] := by
      show List.filterMap _ [0] = _
      rw [List.filterMap_cons_some hk]
      rfl
    rw [hrange, filterMap_range_add, hfirst]
    simp
  · rw [htails _ _ (by omega) (by omega),
      show (blocks - 1) * (BlockSize * ItemsPerThread)
        + (size - 1 - (blocks - 1) * (BlockSize * ItemsPerThread)) = size - 1 by omega]
    exact is_run_end_last key_compare_op keys_input hsize
  · have hblock : ∀ n, n ≤ blocks →
        ∑ b ∈ range n, Nat.count (fun j =>
          block_tail_flags BlockSize ItemsPerThread size blocks keys_input uninitK
            key_compare_op b j = true) (BlockSize * ItemsPerThread)
        = Nat.count (fun q => is_run_end key_compare_op keys_input size q = true)
            (n * (BlockSize * ItemsPerThread)) := by
      intro n hn
      induction n with
      | zero => simp
      | succ n ih =>
        rw [sum_range_succ, ih (by omega), Nat.succ_mul,
          ← count_run_end_block key_compare_op keys_input size
            (n * (BlockSize * ItemsPerThread)) (BlockSize * ItemsPerThread)]
        congr 1
        rw [count_eq_sum, count_eq_sum]
        apply sum_congr rfl
        intro j hj
        rw [mem_range] at hj
        rw [htails n j (by omega) hj]
    rw [hblock blocks (le_refl _), count_run_end_ge key_compare_op keys_input hhi,
      count_run_end_size key_compare_op keys_input hsize, run_starts_length]
  · have hlen := congrArg List.length
      (key_stores_indices key_compare_op keys_input size size (le_refl _))
    rw [List.length_map, List.length_range] at hlen
    rw [hgrid, hlen, run_starts_length]
  · rw [(scan_unique_counts_eq h keys_input uninitK key_compare_op unique_counts0).1,
      run_starts_length]

/-- C25, witness: the scenario keys `[1,1,1,2,3,3,4,4]` in two batches of one block of
`2 * 2` items have four runs; the two blocks hold four tail flags, and the last item of
the last block is a tail. -/
theorem head_tail_invariant_witness :
    launch_ok 2 2 2 2 2 8 1 2 2 2
    ∧ (run_starts (fun a b => a == b) scenario_keys 8).length = 4
    ∧ block_tail_flags 2 2 8 2 scenario_keys (fun _ => 0) (fun a b => a == b) (2 - 1)
        (8 - 1 - (2 - 1) * (2 * 2)) = true
    ∧ ∑ b ∈ range 2, Nat.count (fun j =>
        block_tail_flags 2 2 8 2 scenario_keys (fun _ => 0) (fun a b => a == b) b j = true)
          (2 * 2)
      = (run_starts (fun a b => a == b) scenario_keys 8).length :=
  ⟨(by constructor <;> decide), by decide,
    (head_tail_invariant
      (show launch_ok 2 2 2 2 2 8 1 2 2 2 from (by constructor <;> decide))
      scenario_keys (fun _ => 0) scenario_values (fun _ => 0) (fun a b => a == b)
      (fun a b => a + b) (fun _ => 0)).2.2.2.2.1,
    (head_tail_invariant
      (show launch_ok 2 2 2 2 2 8 1 2 2 2 from (by constructor <;> decide))
      scenario_keys (fun _ => 0) scenario_values (fun _ => 0) (fun a b => a == b)
      (fun a b => a + b) (fun _ => 0)).2.2.2.2.2.1⟩

/-- C25 as stated ("for every non-empty key sequence, predicate eq and block/batch
decomposition") fails on the code. `2^32 - 1` equal keys in blocks of `256 * 7` items:
in the last block `block_offset + items_per_block` wraps to `1536 ≤ size`, the block is
loaded as a full one, and item `size - 1`, item 254 of the block and the end of the only
run, is compared with the key read after it and is not flagged as a tail. And sorted
keys `[1,1,1,2, 3,3,3,4, 5,5,5,5]` in three batches of one block of `2 * 2` items,
`scan_unique_counts` being a block of `1 * 2` items: the blocks flag `2 + 2 + 1` tails
and `reduce_by_key` stores five keys, but `4` is stored to `unique_count_output`. -/
theorem head_tail_counts_beyond_limits :
    (2396746 - 1) * (256 * 7) < 4294967295 ∧ 4294967295 ≤ 2396746 * (256 * 7)
    ∧ ¬ 2396746 * (256 * 7) < 4294967296
    ∧ wrap32 (wrap32 ((2396746 - 1) * wrap32 (256 * 7)) + wrap32 (256 * 7)) = 1536
    ∧ 4294967295 - 1 - (2396746 - 1) * (256 * 7) = 254
    ∧ is_run_end (fun a b => a == b) (fun _ => 7) 4294967295 (4294967295 - 1) = true
    ∧ block_tail_flags 256 7 4294967295 2396746 (fun _ => 7) (fun _ => 0)
        (fun a b => a == b) (2396746 - 1) 254 = false
    ∧ (3 - 1) * (2 * 2) < 12 ∧ 12 ≤ 3 * (2 * 2)
    ∧ 3 = 3 * 1 + (3 - 3) * (1 - 1)
    ∧ ¬ 3 ≤ 1 * 2
    ∧ (List.range 3).map (fun b => Nat.count (fun j =>
        block_tail_flags 2 2 12 3 sorted_keys (fun _ => 0) (fun a b => a == b) b j = true)
          (2 * 2)) = [2, 2, 1]
    ∧ ((List.range 3).flatMap (fun b =>
        (reduce_by_key 2 2 sorted_keys (fun _ => 0) recurring_values (fun _ => 0) 12
          narrow_scanned_counts.1 (fun a b => a == b) (fun a b => a + b) 1 3 3
          b).unique_stores)).length = 5
    ∧ narrow_scanned_counts.2 = 4 := by
  and_intros <;> decide

end claims_rbk_pipeline

/-! ## Claims on the flag predicates and the batch tiling of reduce-by-key -/

section claims_rbk_flags

/-- C32 (guarded flag predicate). For all keys `a`, `b`, every `b_index` and
`valid_count`, `guarded_key_flag_op` is true exactly when `b_index < valid_count` and
`key_compare_op(a, b)` is false, or `b_index = valid_count`. Hence the boundary at
`valid_count` is flagged whatever the keys: as the tail of item `valid_count - 1` (for
every tile successor) and as the head of item `valid_count`; no position beyond
`valid_count` is flagged; and below `valid_count` the predicate is `key_flag_op`, the
negation of `key_compare_op`. -/
theorem guarded_flag_predicate {K : Type} (key_compare_op : K → K → Bool)
    (valid_count : Nat) (a b : K) (b_index : Nat) :
    (guarded_key_flag_op key_compare_op valid_count a b b_index = true
      ↔ (b_index < valid_count ∧ key_compare_op a b = false) ∨ b_index = valid_count)
    ∧ guarded_key_flag_op key_compare_op valid_count a b valid_count = true
    ∧ (valid_count < b_index →
        guarded_key_flag_op key_compare_op valid_count a b b_index = false)
    ∧ (b_index < valid_count →
        guarded_key_flag_op key_compare_op valid_count a b b_index
          = key_flag_op key_compare_op a b)
    ∧ key_flag_op key_compare_op a b = !key_compare_op a b
    ∧ (∀ (items_per_block : Nat) (tile_successor_item : K) (keys : Nat → K),
        0 < valid_count →
        flag_tails items_per_block (guarded_key_flag_op key_compare_op valid_count)
          tile_successor_item keys (valid_count - 1) = true)
    ∧ (∀ keys : Nat → K,
        flag_heads (guarded_key_flag_op key_compare_op valid_count) keys valid_count
          = true) := by
  refine ⟨?_, ?_, ?_, ?_, rfl, ?_, ?_⟩
  · unfold guarded_key_flag_op
    simp
  · unfold guarded_key_flag_op
    simp
  · intro h
    unfold guarded_key_flag_op
    rw [decide_eq_false (show ¬ b_index < valid_count by omega),
      decide_eq_false (show ¬ b_index = valid_count by omega)]
    rfl
  · intro h
    unfold guarded_key_flag_op key_flag_op
    rw [decide_eq_true h, decide_eq_false (show ¬ b_index = valid_count by omega)]
    simp
  · intro items_per_block tile_successor_item keys h
    unfold flag_tails guarded_key_flag_op
    rw [show valid_count - 1 + 1 = valid_count by omega]
    simp
  · intro keys
    unfold flag_heads guarded_key_flag_op
    split
    · rfl
    · simp

/-- C32, witness: four valid items, equality and the equal keys `7`, `7`: the position
`4` is flagged, the position `5` is not, the position `2` is flagged as `key_flag_op`
flags it (not at all), and item `3` is a tail in a block of `8` items. -/
theorem guarded_flag_predicate_witness :
    guarded_key_flag_op (fun x y : Nat => x == y) 4 7 7 4 = true
    ∧ (4 < 5 ∧ guarded_key_flag_op (fun x y : Nat => x == y) 4 7 7 5 = false)
    ∧ (2 < 4 ∧ guarded_key_flag_op (fun x y : Nat => x == y) 4 7 7 2
        = key_flag_op (fun x y : Nat => x == y) 7 7)
    ∧ (0 < 4 ∧ flag_tails 8 (guarded_key_flag_op (fun x y : Nat => x == y) 4) 7
        (fun _ => 7) (4 - 1) = true) :=
  ⟨(guarded_flag_predicate (fun x y : Nat => x == y) 4 7 7 4).2.1,
    ⟨by decide,
      (guarded_flag_predicate (fun x y : Nat => x == y) 4 7 7 5).2.2.1 (by decide)⟩,
    ⟨by decide,
      (guarded_flag_predicate (fun x y : Nat => x == y) 4 7 7 2).2.2.2.1 (by decide)⟩,
    ⟨by decide,
      (guarded_flag_predicate (fun x y : Nat => x == y) 4 7 7 0).2.2.2.2.2.1 8 7
        (fun _ => 7) (by decide)⟩⟩

/-- C33 (batch tiling). For `batches ≥ 1`, `full_batches ≤ batches`,
`blocks_per_full_batch ≥ 1` and `blocks = full_batches * blocks_per_full_batch
+ (batches - full_batches) * (blocks_per_full_batch - 1)`, the values being
`unsigned int` values: the pair `(block_id, blocks_per_batch)` that `fill_unique_counts`
and `reduce_by_key` compute from `batch_id` (the same statements in `unsigned int`
arithmetic) is exact, `blocks_per_full_batch` blocks for a full batch and one less for
the others; the range of batch `0` starts at block `0`, the range of batch `b + 1`
starts where the range of batch `b` ends, the range of the last batch ends at `blocks`,
and every block of `[0, blocks)` lies in the range of exactly one batch. -/
theorem batch_tiling (blocks_per_full_batch full_batches blocks batches : Nat)
    (hbatches : 1 ≤ batches) (hfull : full_batches ≤ batches)
    (hper : 1 ≤ blocks_per_full_batch)
    (htiling : blocks = full_batches * blocks_per_full_batch
      + (batches - full_batches) * (blocks_per_full_batch - 1))
    (hblocks : blocks < 4294967296) (hper32 : blocks_per_full_batch < 4294967296) :
    (∀ b, b < batches →
      batch_geometry blocks_per_full_batch full_batches b
        = (first_block blocks_per_full_batch full_batches b,
            if b < full_batches then blocks_per_full_batch else blocks_per_full_batch - 1))
    ∧ (batch_geometry blocks_per_full_batch full_batches 0).1 = 0
    ∧ (∀ b, b + 1 < batches →
      (batch_geometry blocks_per_full_batch full_batches (b + 1)).1
        = (batch_geometry blocks_per_full_batch full_batches b).1
          + (batch_geometry blocks_per_full_batch full_batches b).2)
    ∧ (batch_geometry blocks_per_full_batch full_batches (batches - 1)).1
        + (batch_geometry blocks_per_full_batch full_batches (batches - 1)).2 = blocks
    ∧ (∀ block, block < blocks →
      ∃! b, b < batches
        ∧ (batch_geometry blocks_per_full_batch full_batches b).1 ≤ block
        ∧ block < (batch_geometry blocks_per_full_batch full_batches b).1
            + (batch_geometry blocks_per_full_batch full_batches b).2) := by
  have htotal : first_block blocks_per_full_batch full_batches batches = blocks := by
    rw [first_block_batches _ _ _ hper hfull, htiling]
  have hsucc := fun b => first_block_succ blocks_per_full_batch full_batches b hper
  have hmono := fun a b (hab : a ≤ b) =>
    first_block_mono blocks_per_full_batch full_batches hper hab
  have hgeo : ∀ b, b < batches →
      batch_geometry blocks_per_full_batch full_batches b
        = (first_block blocks_per_full_batch full_batches b,
            batch_blocks blocks_per_full_batch full_batches b) := by
    intro b hb
    have h1 := hmono b batches (le_of_lt hb)
    rw [htotal] at h1
    have h3 : sub32 blocks_per_full_batch 1 = blocks_per_full_batch - 1 :=
      sub32_of_le hper hper32
    unfold batch_geometry
    unfold first_block batch_blocks at *
    by_cases hbf : b < full_batches
    · rw [if_pos hbf] at h1 ⊢
      rw [if_pos hbf, if_pos hbf, wrap32_of_lt (by omega)]
    · rw [if_neg hbf] at h1 ⊢
      rw [if_neg hbf, if_neg hbf, h3, wrap32_of_lt (by omega)]
  refine ⟨fun b hb => hgeo b hb, ?_, ?_, ?_, ?_⟩
  · rw [hgeo 0 (by omega)]
    exact first_block_zero _ _
  · intro b hb
    rw [hgeo (b + 1) hb, hgeo b (by omega)]
    exact hsucc b
  · rw [hgeo (batches - 1) (by omega)]
    have := hsucc (batches - 1)
    rw [show batches - 1 + 1 = batches by omega, htotal] at this
    exact this.symm
  · intro block hblock
    obtain ⟨b, hb, h1, h2⟩ := exists_batch
      (first_block blocks_per_full_batch full_batches) (first_block_zero _ _) batches block
      (by rw [htotal]; exact hblock)
    refine ⟨b, ⟨hb, ?_, ?_⟩, ?_⟩
    · rw [hgeo b hb]
      exact h1
    · rw [hgeo b hb, ← hsucc b]
      exact h2
    · rintro c ⟨hc, c1, c2⟩
      rw [hgeo c hc] at c1 c2
      rw [← hsucc c] at c2
      simp only at c1 c2
      rcases Nat.lt_trichotomy c b with hlt | heq | hgt
      · have := hmono (c + 1) b (by omega)
        omega
      · exact heq
      · have := hmono (b + 1) c (by omega)
        omega

/-- C33, witness: ten blocks in four batches, two full batches of three blocks and two
batches of two blocks; batch `2` owns the blocks `6` and `7`. -/
theorem batch_tiling_witness :
    (1 ≤ 4 ∧ 2 ≤ 4 ∧ 1 ≤ 3 ∧ 10 = 2 * 3 + (4 - 2) * (3 - 1))
    ∧ batch_geometry 3 2 2 = (first_block 3 2 2, if 2 < 2 then 3 else 3 - 1)
    ∧ (batch_geometry 3 2 (2 + 1)).1 = (batch_geometry 3 2 2).1 + (batch_geometry 3 2 2).2
    ∧ (∃! b, b < 4 ∧ (batch_geometry 3 2 b).1 ≤ 7
        ∧ 7 < (batch_geometry 3 2 b).1 + (batch_geometry 3 2 b).2) :=
  ⟨by decide,
    (batch_tiling 3 2 10 4 (by decide) (by decide) (by decide) (by decide) (by decide)
      (by decide)).1 2 (by decide),
    (batch_tiling 3 2 10 4 (by decide) (by decide) (by decide) (by decide) (by decide)
      (by decide)).2.2.1 2 (by decide),
    (batch_tiling 3 2 10 4 (by decide) (by decide) (by decide) (by decide) (by decide)
      (by decide)).2.2.2.2 7 (by decide)⟩

end claims_rbk_flags

/-! ## Claims on the carry-out fix-up -/

section claims_rbk_fixup

/-- The kernel `scan_and_scatter_carry_outs` as its scatter loop over the registers
`cs`, `tail_flags` and `pairs`. -/
theorem scan_and_scatter_carry_outs_loop {K V : Type} (BlockSize ItemsPerThread : Nat)
    (carry_outs uninit : Nat → carry_out K V) (aggregates_output : Nat → V)
    (key_compare_op : K → K → Bool) (reduce_op : V → V → V) (batches : Nat) :
    scan_and_scatter_carry_outs BlockSize ItemsPerThread carry_outs uninit
        aggregates_output key_compare_op reduce_op batches
      = (List.range (wrap32 (BlockSize * ItemsPerThread))).foldl
          (fun (a : Nat → V) (j : Nat) =>
            if carry_out_tail_flags BlockSize ItemsPerThread carry_outs uninit
                key_compare_op batches j = true then
              if (loaded_carry_outs carry_outs uninit batches j).is_final_aggregate ≠ 0 then
                Function.update a (loaded_carry_outs carry_outs uninit batches j).destination
                  (carry_out_pairs carry_outs uninit key_compare_op reduce_op batches j).value
              else
                Function.update a (loaded_carry_outs carry_outs uninit batches j).destination
                  (reduce_op
                    (carry_out_pairs carry_outs uninit key_compare_op reduce_op batches
                      j).value
                    (a (loaded_carry_outs carry_outs uninit batches j).destination))
            else a)
          aggregates_output :=
  rfl

/-- A tail flag of `scan_and_scatter_carry_outs` is set for loaded carry-outs only. -/
theorem carry_out_tail_flags_loaded {K V : Type} (BlockSize ItemsPerThread : Nat)
    (carry_outs uninit : Nat → carry_out K V) (key_compare_op : K → K → Bool)
    (batches j : Nat)
    (h : carry_out_tail_flags BlockSize ItemsPerThread carry_outs uninit key_compare_op
      batches j = true) : j < sub32 batches 1 := by
  unfold carry_out_tail_flags flag_tails guarded_key_flag_op at h
  simp only [Bool.or_eq_true, Bool.and_eq_true, decide_eq_true_eq] at h
  omega

/-- C31 (carry-out fix-up write). In `scan_and_scatter_carry_outs`, whose scatter loop
runs over the items of the block: a tail flag is set only for a loaded carry-out (one
of the first `batches - 1`); a cell of `aggregates_output` that is the destination of no
carry-out with a set tail flag keeps its content, so a carry-out with a clear tail flag
causes no write; and a cell `r` that is the destination of one carry-out `i` with a set
tail flag holds, after the kernel, the scanned value of `i` when `is_final_aggregate`
is not zero, and otherwise `reduce_op(scanned value, previous aggregates_output[r])`,
the scanned value on the left. -/
theorem carry_out_fixup_write {K V : Type} (BlockSize ItemsPerThread : Nat)
    (carry_outs uninit : Nat → carry_out K V) (aggregates_output : Nat → V)
    (key_compare_op : K → K → Bool) (reduce_op : V → V → V) (batches : Nat) :
    (∀ j, carry_out_tail_flags BlockSize ItemsPerThread carry_outs uninit key_compare_op
        batches j = true →
      j < sub32 batches 1
      ∧ loaded_carry_outs carry_outs uninit batches j = carry_outs j)
    ∧ (∀ r,
      (∀ j, j < wrap32 (BlockSize * ItemsPerThread) →
        carry_out_tail_flags BlockSize ItemsPerThread carry_outs uninit key_compare_op
          batches j = true →
        (loaded_carry_outs carry_outs uninit batches j).destination ≠ r) →
      scan_and_scatter_carry_outs BlockSize ItemsPerThread carry_outs uninit
        aggregates_output key_compare_op reduce_op batches r = aggregates_output r)
    ∧ (∀ r i, i < wrap32 (BlockSize * ItemsPerThread) →
      carry_out_tail_flags BlockSize ItemsPerThread carry_outs uninit key_compare_op
        batches i = true →
      (loaded_carry_outs carry_outs uninit batches i).destination = r →
      (∀ j, j < wrap32 (BlockSize * ItemsPerThread) →
        carry_out_tail_flags BlockSize ItemsPerThread carry_outs uninit key_compare_op
          batches j = true →
        (loaded_carry_outs carry_outs uninit batches j).destination = r → j = i) →
      scan_and_scatter_carry_outs BlockSize ItemsPerThread carry_outs uninit
        aggregates_output key_compare_op reduce_op batches r
        = if (loaded_carry_outs carry_outs uninit batches i).is_final_aggregate ≠ 0 then
            (carry_out_pairs carry_outs uninit key_compare_op reduce_op batches i).value
          else
            reduce_op
              (carry_out_pairs carry_outs uninit key_compare_op reduce_op batches i).value
              (aggregates_output r)) := by
  refine ⟨?_, ?_, ?_⟩
  · intro j hj
    have hlt := carry_out_tail_flags_loaded BlockSize ItemsPerThread carry_outs uninit
      key_compare_op batches j hj
    refine ⟨hlt, ?_⟩
    unfold loaded_carry_outs block_load_valid
    rw [if_pos hlt, Nat.zero_add]
  · intro r h
    rw [scan_and_scatter_carry_outs_loop]
    exact scatter_of_not_mem _ (fun j => (loaded_carry_outs carry_outs uninit batches
      j).destination) (fun j => (loaded_carry_outs carry_outs uninit batches
      j).is_final_aggregate) (fun j => (carry_out_pairs carry_outs uninit key_compare_op
      reduce_op batches j).value) reduce_op aggregates_output _ r h
  · intro r i hi ht hd hu
    rw [scan_and_scatter_carry_outs_loop]
    exact scatter_of_unique _ (fun j => (loaded_carry_outs carry_outs uninit batches
      j).destination) (fun j => (loaded_carry_outs carry_outs uninit batches
      j).is_final_aggregate) (fun j => (carry_out_pairs carry_outs uninit key_compare_op
      reduce_op batches j).value) reduce_op aggregates_output _ r i hi ht hd hu

/-- C31, witness: three batches and the carry-outs `(key 1, value 10, destination 0, not
final)` and `(key 2, value 20, destination 1, final)` over the aggregates
`100, 101, …`, in a block of `2 * 2` items: both carry-outs are tails; cell `0` becomes
`10 + 100`, cell `1` becomes `20`, cell `2` keeps `102`. -/
theorem carry_out_fixup_write_witness :
    scan_and_scatter_carry_outs 2 2 fixup_carry_outs (fun _ => ⟨0, 0, 0, 0⟩)
        fixup_aggregates (fun a b => a == b) (fun a b => a + b) 3 2 = fixup_aggregates 2
    ∧ scan_and_scatter_carry_outs 2 2 fixup_carry_outs (fun _ => ⟨0, 0, 0, 0⟩)
        fixup_aggregates (fun a b => a == b) (fun a b => a + b) 3 0
      = (if (loaded_carry_outs fixup_carry_outs (fun _ => ⟨0, 0, 0, 0⟩) 3
            0).is_final_aggregate ≠ 0 then
          (carry_out_pairs fixup_carry_outs (fun _ => ⟨0, 0, 0, 0⟩) (fun a b => a == b)
            (fun a b => a + b) 3 0).value
        else
          (carry_out_pairs fixup_carry_outs (fun _ => ⟨0, 0, 0, 0⟩) (fun a b => a == b)
            (fun a b => a + b) 3 0).value + fixup_aggregates 0)
    ∧ scan_and_scatter_carry_outs 2 2 fixup_carry_outs (fun _ => ⟨0, 0, 0, 0⟩)
        fixup_aggregates (fun a b => a == b) (fun a b => a + b) 3 0 = 110
    ∧ loaded_carry_outs fixup_carry_outs (fun _ => ⟨0, 0, 0, 0⟩) 3 1 = fixup_carry_outs 1 :=
  ⟨(carry_out_fixup_write 2 2 fixup_carry_outs (fun _ => ⟨0, 0, 0, 0⟩) fixup_aggregates
      (fun a b => a == b) (fun a b => a + b) 3).2.1 2 (by decide),
    (carry_out_fixup_write 2 2 fixup_carry_outs (fun _ => ⟨0, 0, 0, 0⟩) fixup_aggregates
      (fun a b => a == b) (fun a b => a + b) 3).2.2 0 0 (by decide) (by decide) (by decide)
      (by decide),
    by decide,
    ((carry_out_fixup_write 2 2 fixup_carry_outs (fun _ => ⟨0, 0, 0, 0⟩) fixup_aggregates
      (fun a b => a == b) (fun a b => a + b) 3).1 1 (by decide)).2⟩

end claims_rbk_fixup

/-! ## Reduce-by-key: the indices of the stores, for any `reduce_op` -/

section rbk_indices

open Finset

variable {BlockSize ItemsPerThread warp_size ScanBlockSize ScanItemsPerThread
  size blocks_per_full_batch full_batches blocks batches : Nat}

/-- The indices of the stores to `aggregates_output` and the destination of the carry-out
of one iteration of the block loop of `reduce_by_key`. -/
theorem reduce_by_key_block_indices {K V : Type}
    (h : launch_ok BlockSize ItemsPerThread warp_size ScanBlockSize ScanItemsPerThread
      size blocks_per_full_batch full_batches blocks batches)
    (keys_input uninitK : Nat → K) (values_input uninitV : Nat → V)
    (key_compare_op : K → K → Bool) (reduce_op : V → V → V)
    (st : reduce_by_key_state K V) (bi bpb : Nat)
    (hb : st.block_id < blocks)
    (hstart : st.block_start
      = Nat.count (fun q => is_run_end key_compare_op keys_input size q = true)
          (st.block_id * (BlockSize * ItemsPerThread))) :
    (reduce_by_key_block BlockSize ItemsPerThread keys_input uninitK values_input uninitV
        size key_compare_op reduce_op blocks bpb st bi).aggregate_stores.map Prod.fst
      = st.aggregate_stores.map Prod.fst
        ++ (List.range (BlockSize * ItemsPerThread)).filterMap
          (fun j => if is_run_end key_compare_op keys_input size
              (st.block_id * (BlockSize * ItemsPerThread) + j) = true then
            some (Nat.count (fun q => is_run_end key_compare_op keys_input size q = true)
              (st.block_id * (BlockSize * ItemsPerThread) + j))
          else none)
    ∧ (bi ≠ sub32 bpb 1 →
        (reduce_by_key_block BlockSize ItemsPerThread keys_input uninitK values_input uninitV
          size key_compare_op reduce_op blocks bpb st bi).carry_outs_store
        = st.carry_outs_store)
    ∧ (bi = sub32 bpb 1 → st.block_id + 1 < blocks →
        ∃ c, (reduce_by_key_block BlockSize ItemsPerThread keys_input uninitK values_input
            uninitV size key_compare_op reduce_op blocks bpb st bi).carry_outs_store
          = some c
          ∧ c.destination
            = Nat.count (fun q => is_run_end key_compare_op keys_input size q = true)
                ((st.block_id + 1) * (BlockSize * ItemsPerThread) - 1)) := by
  have hI := h.ipb_lt
  have hIpos := h.ipb_pos
  have hsz := h.size_lt
  have hlast := last_item_eq h.block_pos h.items_pos
  have hsucc : (st.block_id + 1) * (BlockSize * ItemsPerThread)
      = st.block_id * (BlockSize * ItemsPerThread) + BlockSize * ItemsPerThread := by ring
  have hrank : ∀ j, j < BlockSize * ItemsPerThread →
      sub32 (block_inclusive_scan (scan_by_key_op reduce_op)
        (fun j => { key := if block_head_flags BlockSize ItemsPerThread size blocks keys_input
                      uninitK key_compare_op st.block_id j then 1 else 0,
                    value := (if wrap32 (wrap32 (st.block_id * wrap32 (BlockSize * ItemsPerThread))
                          + wrap32 (BlockSize * ItemsPerThread)) ≤ size then
                        block_load values_input
                          (wrap32 (st.block_id * wrap32 (BlockSize * ItemsPerThread)))
                      else block_load_valid values_input
                          (wrap32 (st.block_id * wrap32 (BlockSize * ItemsPerThread)))
                          (block_valid_count (wrap32 (BlockSize * ItemsPerThread)) size
                            (wrap32 (st.block_id * wrap32 (BlockSize * ItemsPerThread))))
                          uninitV) j }) j).key 1
      = Nat.count (fun i => is_run_end key_compare_op keys_input size
          (st.block_id * (BlockSize * ItemsPerThread) + i) = true) j :=
    fun j hj => block_ranks_eq h keys_input uninitK key_compare_op reduce_op _ hb hj
  have hglob := count_run_end_block key_compare_op keys_input size
    (st.block_id * (BlockSize * ItemsPerThread))
  have hbound := count_run_end_le_size key_compare_op keys_input size
  have hdest : ∀ j, wrap32 (Nat.count
        (fun q => is_run_end key_compare_op keys_input size q = true)
          (st.block_id * (BlockSize * ItemsPerThread))
      + Nat.count (fun i => is_run_end key_compare_op keys_input size
          (st.block_id * (BlockSize * ItemsPerThread) + i) = true) j)
      = Nat.count (fun q => is_run_end key_compare_op keys_input size q = true)
          (st.block_id * (BlockSize * ItemsPerThread) + j) := by
    intro j
    rw [hglob]
    exact wrap32_of_lt (lt_of_le_of_lt (hbound _) hsz)
  refine ⟨?_, ?_, ?_⟩
  · unfold reduce_by_key_block
    dsimp only
    rw [List.map_append, List.map_filterMap]
    refine congrArg (fun l => st.aggregate_stores.map Prod.fst ++ l) ?_
    rw [show List.range (wrap32 (BlockSize * ItemsPerThread))
      = List.range (BlockSize * ItemsPerThread) from by rw [wrap32_of_lt hI]]
    apply List.filterMap_congr
    intro j hj
    rw [List.mem_range] at hj
    rw [block_tail_flags_eq h keys_input uninitK key_compare_op hb hj]
    by_cases he : is_run_end key_compare_op keys_input size
        (st.block_id * (BlockSize * ItemsPerThread) + j) = true
    · rw [if_pos he, if_pos he, Option.map_some', hrank j hj, hstart, hdest]
    · rw [if_neg he, if_neg he]
      rfl
  · intro hne
    unfold reduce_by_key_block
    dsimp only
    rw [if_neg (by simpa using hne)]
  · intro heq hnext
    unfold reduce_by_key_block
    dsimp only
    rw [if_pos (by simpa using heq)]
    refine ⟨_, rfl, ?_⟩
    dsimp only
    rw [hlast, hrank _ (by omega), hstart, hdest, hsucc]
    congr 1
    omega

/-- The indices of the stores to `aggregates_output` and the destination of the carry-out
after `k` iterations of the block loop of `reduce_by_key`. -/
theorem reduce_by_key_loop_indices {K V : Type}
    (h : launch_ok BlockSize ItemsPerThread warp_size ScanBlockSize ScanItemsPerThread
      size blocks_per_full_batch full_batches blocks batches)
    (keys_input uninitK : Nat → K) (values_input uninitV : Nat → V)
    (key_compare_op : K → K → Bool) (reduce_op : V → V → V)
    (first bpb : Nat) (hfb : first + bpb ≤ blocks) (hbpb : bpb < 4294967296)
    (init : reduce_by_key_state K V)
    (hid : init.block_id = first)
    (hstart : init.block_start
      = Nat.count (fun q => is_run_end key_compare_op keys_input size q = true)
          (first * (BlockSize * ItemsPerThread)))
    (hcarry : 0 < bpb → init.storage_has_carry_out
      = !is_run_start key_compare_op keys_input (first * (BlockSize * ItemsPerThread)))
    (hstores : init.unique_stores = [])
    (hagg : init.aggregate_stores = [])
    (hco : init.carry_outs_store = none)
    (k : Nat) (hk : k ≤ bpb) :
    ((List.range k).foldl
        (reduce_by_key_block BlockSize ItemsPerThread keys_input uninitK values_input
          uninitV size key_compare_op reduce_op blocks bpb) init).aggregate_stores.map
        Prod.fst
      = (List.range (k * (BlockSize * ItemsPerThread))).filterMap
          (fun q => if is_run_end key_compare_op keys_input size
              (first * (BlockSize * ItemsPerThread) + q) = true then
            some (Nat.count (fun q => is_run_end key_compare_op keys_input size q = true)
              (first * (BlockSize * ItemsPerThread) + q))
          else none)
    ∧ (k < bpb → ((List.range k).foldl
        (reduce_by_key_block BlockSize ItemsPerThread keys_input uninitK values_input
          uninitV size key_compare_op reduce_op blocks bpb) init).carry_outs_store = none)
    ∧ (k = bpb → 0 < bpb → first + bpb < blocks →
        ∃ c, ((List.range k).foldl
          (reduce_by_key_block BlockSize ItemsPerThread keys_input uninitK values_input
            uninitV size key_compare_op reduce_op blocks bpb) init).carry_outs_store
          = some c
          ∧ c.destination
            = Nat.count (fun q => is_run_end key_compare_op keys_input size q = true)
                ((first + bpb) * (BlockSize * ItemsPerThread) - 1)) := by
  induction k with
  | zero =>
    simp only [List.range_zero, List.foldl_nil, Nat.zero_mul, List.filterMap_nil]
    refine ⟨by rw [hagg]; rfl, fun _ => hco, ?_⟩
    intro h0 h1
    omega
  | succ k ih =>
    obtain ⟨i1, i3, _⟩ := ih (by omega)
    obtain ⟨l1, l2, _, _⟩ := reduce_by_key_loop h keys_input uninitK values_input uninitV
      key_compare_op reduce_op first bpb hfb hbpb init hid hstart hcarry hstores k (by omega)
    have hsub : sub32 bpb 1 = bpb - 1 := sub32_of_le (by omega) hbpb
    rw [List.range_succ, List.foldl_append]
    simp only [List.foldl_cons, List.foldl_nil]
    have hbi : k + 1 = bpb → k = sub32 bpb 1 := by
      intro heq
      rw [hsub]
      omega
    have hnx : first + bpb < blocks → first + k + 1 < blocks := by
      intro hlt
      omega
    have hstep := reduce_by_key_block_indices h keys_input uninitK values_input uninitV
      key_compare_op reduce_op _ k bpb (by rw [l1]; omega) (by rw [l1]; exact l2)
    obtain ⟨s1, s3, s4⟩ := hstep
    rw [l1] at s1 s4
    refine ⟨?_, ?_, ?_⟩
    · rw [s1, i1, Nat.succ_mul, filterMap_range_add]
      simp only [Nat.add_mul, Nat.add_assoc]
    · intro hlt
      rw [s3 (by rw [hsub]; omega)]
      exact i3 (by omega)
    · intro heq _ hlt
      obtain ⟨c, hc1, hc2⟩ := s4 (hbi heq) (hnx hlt)
      refine ⟨c, hc1, ?_⟩
      rw [hc2, Nat.add_assoc, heq]

/-- The indices of the stores to `aggregates_output` of the block `b` of the kernel
`reduce_by_key`, and the destination of the carry-out it stores when a later block of
the grid follows its batch. -/
theorem reduce_by_key_store_indices {K V : Type}
    (h : launch_ok BlockSize ItemsPerThread warp_size ScanBlockSize ScanItemsPerThread
      size blocks_per_full_batch full_batches blocks batches)
    (keys_input uninitK : Nat → K) (values_input uninitV : Nat → V)
    (key_compare_op : K → K → Bool) (reduce_op : V → V → V)
    (unique_starts : Nat → Nat) {b : Nat} (hb : b < batches)
    (hus : unique_starts b
      = Nat.count (fun q => is_run_end key_compare_op keys_input size q = true)
          (first_block blocks_per_full_batch full_batches b * (BlockSize * ItemsPerThread))) :
    (reduce_by_key BlockSize ItemsPerThread keys_input uninitK values_input uninitV size
        unique_starts key_compare_op reduce_op blocks_per_full_batch full_batches blocks
        b).aggregate_stores.map Prod.fst
      = (List.range (batch_blocks blocks_per_full_batch full_batches b
            * (BlockSize * ItemsPerThread))).filterMap
          (fun q => if is_run_end key_compare_op keys_input size
              (first_block blocks_per_full_batch full_batches b
                * (BlockSize * ItemsPerThread) + q) = true then
            some (Nat.count (fun q => is_run_end key_compare_op keys_input size q = true)
              (first_block blocks_per_full_batch full_batches b
                * (BlockSize * ItemsPerThread) + q))
          else none)
    ∧ (0 < batch_blocks blocks_per_full_batch full_batches b →
        first_block blocks_per_full_batch full_batches (b + 1) < blocks →
        ∃ c, (reduce_by_key BlockSize ItemsPerThread keys_input uninitK values_input uninitV
            size unique_starts key_compare_op reduce_op blocks_per_full_batch full_batches
            blocks b).carry_outs_store = some c
          ∧ c.destination
            = Nat.count (fun q => is_run_end key_compare_op keys_input size q = true)
                (first_block blocks_per_full_batch full_batches (b + 1)
                  * (BlockSize * ItemsPerThread) - 1)) := by
  have hsucc := first_block_succ blocks_per_full_batch full_batches b h.per_batch
  have hle := h.first_block_le (b := b + 1) (by omega)
  rw [hsucc] at hle
  have hbl := h.blocks_lt
  have hinit : 0 < batch_blocks blocks_per_full_batch full_batches b →
      ((decide (0 < first_block blocks_per_full_batch full_batches b)
          && decide (0 < batch_blocks blocks_per_full_batch full_batches b))
        && key_compare_op
          (keys_input (sub32 (wrap32 (first_block blocks_per_full_batch full_batches b
            * wrap32 (BlockSize * ItemsPerThread))) 1))
          (keys_input (wrap32 (first_block blocks_per_full_batch full_batches b
            * wrap32 (BlockSize * ItemsPerThread)))))
      = !is_run_start key_compare_op keys_input
          (first_block blocks_per_full_batch full_batches b
            * (BlockSize * ItemsPerThread)) := by
    intro hpos
    have hfirst : first_block blocks_per_full_batch full_batches b < blocks := by omega
    rw [h.wrap_offset hfirst]
    rcases Nat.eq_zero_or_pos (first_block blocks_per_full_batch full_batches b) with h0 | h0
    · rw [h0]
      simp [is_run_start]
    · have hoffpos : 0 < first_block blocks_per_full_batch full_batches b
          * (BlockSize * ItemsPerThread) := Nat.mul_pos h0 h.ipb_pos
      have := h.offset_lt hfirst
      rw [sub32_of_le (by omega) (by omega)]
      unfold is_run_start
      have e : decide (first_block blocks_per_full_batch full_batches b
          * (BlockSize * ItemsPerThread) = 0) = false := decide_eq_false (by omega)
      rw [e]
      simp [h0, hpos]
  have hloop := reduce_by_key_loop_indices h keys_input uninitK values_input uninitV
    key_compare_op reduce_op (first_block blocks_per_full_batch full_batches b)
    (batch_blocks blocks_per_full_batch full_batches b) hle (by omega)
    { block_id := first_block blocks_per_full_batch full_batches b
      block_start := unique_starts b
      storage_has_carry_out :=
        (decide (0 < first_block blocks_per_full_batch full_batches b)
          && decide (0 < batch_blocks blocks_per_full_batch full_batches b))
        && key_compare_op
          (keys_input (sub32 (wrap32 (first_block blocks_per_full_batch full_batches b
            * wrap32 (BlockSize * ItemsPerThread))) 1))
          (keys_input (wrap32 (first_block blocks_per_full_batch full_batches b
            * wrap32 (BlockSize * ItemsPerThread))))
      storage_carry_out := uninitV 0
      unique_stores := []
      aggregate_stores := []
      carry_outs_store := none }
    rfl hus hinit rfl rfl rfl (batch_blocks blocks_per_full_batch full_batches b) (le_refl _)
  obtain ⟨a1, _, a4⟩ := hloop
  unfold reduce_by_key
  rw [batch_geometry_eq h hb]
  dsimp only
  refine ⟨a1, ?_⟩
  intro hpos hnext
  rw [hsucc] at hnext ⊢
  exact a4 rfl hpos hnext

/-- A run end has fewer run ends before it than the input has runs. -/
theorem count_run_end_lt_runs {K : Type} (eq : K → K → Bool) (keys : Nat → K) {N p : Nat}
    (hN : 0 < N) (hp : p ≤ N - 1) :
    Nat.count (fun q => is_run_end eq keys N q = true) p
      < Nat.count (fun q => is_run_start eq keys q = true) N := by
  rw [← count_run_end_size eq keys hN]
  have h1 := Nat.count_monotone (fun q => is_run_end eq keys N q = true) hp
  have h2 := Nat.count_succ (fun q => is_run_end eq keys N q = true) (N - 1)
  rw [if_pos (is_run_end_last eq keys hN), show N - 1 + 1 = N by omega] at h2
  omega

end rbk_indices

/-! ## Reduce-by-key: the block counts of the two kernels -/

section rbk_block_start

open Finset

variable {BlockSize ItemsPerThread warp_size ScanBlockSize ScanItemsPerThread
  size blocks_per_full_batch full_batches blocks batches : Nat}

/-- The per-block count `ranks[last] + (tail_flags[last] ? 1 : 0)` of `reduce_by_key` is
the number of run ends of the tile. -/
theorem block_unique_count_eq {K V : Type}
    (h : launch_ok BlockSize ItemsPerThread warp_size ScanBlockSize ScanItemsPerThread
      size blocks_per_full_batch full_batches blocks batches)
    (keys_input uninit : Nat → K) (key_compare_op : K → K → Bool)
    (reduce_op : V → V → V) (values : Nat → V)
    {block_id : Nat} (hb : block_id < blocks) :
    wrap32 (sub32 (block_inclusive_scan (scan_by_key_op reduce_op)
          (fun j => { key := if block_head_flags BlockSize ItemsPerThread size blocks
                        keys_input uninit key_compare_op block_id j then 1 else 0,
                      value := values j }) (last_item BlockSize ItemsPerThread)).key 1
        + (if block_tail_flags BlockSize ItemsPerThread size blocks keys_input uninit
            key_compare_op block_id (last_item BlockSize ItemsPerThread) = true
          then 1 else 0))
      = Nat.count (fun i => is_run_end key_compare_op keys_input size
          (block_id * (BlockSize * ItemsPerThread) + i) = true)
          (BlockSize * ItemsPerThread) := by
  have hIpos := h.ipb_pos
  have hlast := last_item_eq h.block_pos h.items_pos
  rw [hlast, block_ranks_eq h keys_input uninit key_compare_op reduce_op values hb
    (show BlockSize * ItemsPerThread - 1 < BlockSize * ItemsPerThread by omega),
    block_tail_flags_eq h keys_input uninit key_compare_op hb (by omega)]
  have e := Nat.count_succ (fun i => is_run_end key_compare_op keys_input size
        (block_id * (BlockSize * ItemsPerThread) + i) = true)
          (BlockSize * ItemsPerThread - 1)
  rw [Nat.sub_add_cancel hIpos] at e
  rw [e]
  apply wrap32_of_lt
  have := Nat.count_le (p := fun i => is_run_end key_compare_op keys_input size
        (block_id * (BlockSize * ItemsPerThread) + i) = true)
          (n := BlockSize * ItemsPerThread - 1)
  have := h.ipb_lt
  split <;> omega

end rbk_block_start

/-! ## Claims on the counts and the output bounds of reduce-by-key -/

section claims_rbk_counts

open Finset

variable {BlockSize ItemsPerThread warp_size ScanBlockSize ScanItemsPerThread
  size blocks_per_full_batch full_batches blocks batches : Nat}

end claims_rbk_counts

/-! ## Claims on the output bounds of reduce-by-key -/

section claims_rbk_bounds

variable {BlockSize ItemsPerThread warp_size ScanBlockSize ScanItemsPerThread
  size blocks_per_full_batch full_batches blocks batches : Nat}

/-- The carry-outs that `reduce_by_key_launch` passes to `scan_and_scatter_carry_outs`
are the content of `carry_outs` after `reduce_by_key`. -/
theorem reduce_by_key_launch_carry_outs {K V : Type}
    (keys_input uninitK : Nat → K) (values_input uninitV : Nat → V)
    (key_compare_op : K → K → Bool) (reduce_op : V → V → V) (schedule : List Nat)
    (unique_counts0 : Nat → Nat) (unique_output0 : Nat → K) (aggregates_output0 : Nat → V)
    (uninitC : Nat → carry_out K V) :
    (reduce_by_key_launch BlockSize ItemsPerThread warp_size ScanBlockSize
        ScanItemsPerThread keys_input uninitK values_input uninitV size key_compare_op
        reduce_op blocks_per_full_batch full_batches blocks batches schedule unique_counts0
        unique_output0 aggregates_output0 uninitC).aggregates_output
      = scan_and_scatter_carry_outs ScanBlockSize ScanItemsPerThread
          (reduce_by_key_carry_outs BlockSize ItemsPerThread keys_input uninitK
            values_input uninitV size
            (scan_unique_counts ScanBlockSize ScanItemsPerThread
              (fill_unique_counts_grid BlockSize ItemsPerThread warp_size keys_input
                uninitK size key_compare_op blocks_per_full_batch full_batches blocks
                batches unique_counts0) batches).1
            key_compare_op reduce_op blocks_per_full_batch full_batches blocks uninitC)
          uninitC
          (reduce_by_key_launch BlockSize ItemsPerThread warp_size ScanBlockSize
            ScanItemsPerThread keys_input uninitK values_input uninitV size key_compare_op
            reduce_op blocks_per_full_batch full_batches blocks batches schedule
            unique_counts0 unique_output0 aggregates_output0 uninitC).partial_aggregates
          key_compare_op reduce_op batches :=
  rfl

/-- C35 (reduce-by-key output bounds), amended to accepted launches (blocks of whole
warps, `blocks * items_per_block < 2^32` and `batches ≤ BlockSize * ItemsPerThread` of
the scan kernels) and, for the fix-up, to batches of at least one block. In such a
launch of the reduce-by-key kernels on `size ≥ 1` items, `M` being the value stored to
`unique_count_output`: every index at
which a batch of `reduce_by_key` writes `unique_output` or `aggregates_output` is
smaller than `M`; when every batch holds at least one block, the destination of every
carry-out on which `scan_and_scatter_carry_outs` acts (its tail flag is set) is smaller
than `M`; in a partially filled last block the item after the last valid item is
flagged as a head and its rank is not below the block's unique count, which is the
condition on which the kernel clears the flag before the write; and the read
`keys_input[block_offset + items_per_block]` of a block other than the last is inside
`[0, size)`. -/
theorem reduce_by_key_output_bounds {K V : Type}
    (h : launch_ok BlockSize ItemsPerThread warp_size ScanBlockSize ScanItemsPerThread
      size blocks_per_full_batch full_batches blocks batches)
    (keys_input uninitK : Nat → K) (values_input uninitV : Nat → V)
    (key_compare_op : K → K → Bool) (reduce_op : V → V → V)
    (unique_counts0 : Nat → Nat) (uninitC : Nat → carry_out K V) :
    (∀ b, b < batches → ∀ w,
      w ∈ (reduce_by_key BlockSize ItemsPerThread keys_input uninitK values_input uninitV
        size (scan_unique_counts ScanBlockSize ScanItemsPerThread
          (fill_unique_counts_grid BlockSize ItemsPerThread warp_size keys_input uninitK
            size key_compare_op blocks_per_full_batch full_batches blocks batches
            unique_counts0) batches).1
        key_compare_op reduce_op blocks_per_full_batch full_batches blocks
        b).unique_stores →
      w.1 < (scan_unique_counts ScanBlockSize ScanItemsPerThread
          (fill_unique_counts_grid BlockSize ItemsPerThread warp_size keys_input uninitK
            size key_compare_op blocks_per_full_batch full_batches blocks batches
            unique_counts0) batches).2)
    ∧ (∀ b, b < batches → ∀ w,
      w ∈ (reduce_by_key BlockSize ItemsPerThread keys_input uninitK values_input uninitV
        size (scan_unique_counts ScanBlockSize ScanItemsPerThread
          (fill_unique_counts_grid BlockSize ItemsPerThread warp_size keys_input uninitK
            size key_compare_op blocks_per_full_batch full_batches blocks batches
            unique_counts0) batches).1
        key_compare_op reduce_op blocks_per_full_batch full_batches blocks
        b).aggregate_stores →
      w.1 < (scan_unique_counts ScanBlockSize ScanItemsPerThread
          (fill_unique_counts_grid BlockSize ItemsPerThread warp_size keys_input uninitK
            size key_compare_op blocks_per_full_batch full_batches blocks batches
            unique_counts0) batches).2)
    ∧ ((∀ b, b < batches → 0 < (batch_geometry blocks_per_full_batch full_batches b).2) →
      ∀ j, carry_out_tail_flags ScanBlockSize ScanItemsPerThread
          (reduce_by_key_carry_outs BlockSize ItemsPerThread keys_input uninitK
            values_input uninitV size
            (scan_unique_counts ScanBlockSize ScanItemsPerThread
              (fill_unique_counts_grid BlockSize ItemsPerThread warp_size keys_input
                uninitK size key_compare_op blocks_per_full_batch full_batches blocks
                batches unique_counts0) batches).1
            key_compare_op reduce_op blocks_per_full_batch full_batches blocks uninitC)
          uninitC key_compare_op batches j = true →
        (loaded_carry_outs
          (reduce_by_key_carry_outs BlockSize ItemsPerThread keys_input uninitK
            values_input uninitV size
            (scan_unique_counts ScanBlockSize ScanItemsPerThread
              (fill_unique_counts_grid BlockSize ItemsPerThread warp_size keys_input
                uninitK size key_compare_op blocks_per_full_batch full_batches blocks
                batches unique_counts0) batches).1
            key_compare_op reduce_op blocks_per_full_batch full_batches blocks uninitC)
          uninitC batches j).destination
        < (scan_unique_counts ScanBlockSize ScanItemsPerThread
          (fill_unique_counts_grid BlockSize ItemsPerThread warp_size keys_input uninitK
            size key_compare_op blocks_per_full_batch full_batches blocks batches
            unique_counts0) batches).2)
    ∧ (size < blocks * (BlockSize * ItemsPerThread) →
      block_valid_count (wrap32 (BlockSize * ItemsPerThread)) size
          (wrap32 (sub32 blocks 1 * wrap32 (BlockSize * ItemsPerThread)))
        < BlockSize * ItemsPerThread
      ∧ block_head_flags BlockSize ItemsPerThread size blocks keys_input uninitK
          key_compare_op (sub32 blocks 1)
          (block_valid_count (wrap32 (BlockSize * ItemsPerThread)) size
            (wrap32 (sub32 blocks 1 * wrap32 (BlockSize * ItemsPerThread)))) = true
      ∧ ∀ values : Nat → V,
        wrap32 (sub32 (block_inclusive_scan (scan_by_key_op reduce_op)
            (fun j => { key := if block_head_flags BlockSize ItemsPerThread size blocks
                          keys_input uninitK key_compare_op (sub32 blocks 1) j
                          then 1 else 0,
                        value := values j }) (last_item BlockSize ItemsPerThread)).key 1
          + (if block_tail_flags BlockSize ItemsPerThread size blocks keys_input uninitK
              key_compare_op (sub32 blocks 1) (last_item BlockSize ItemsPerThread) = true
            then 1 else 0))
        ≤ sub32 (block_inclusive_scan (scan_by_key_op reduce_op)
            (fun j => { key := if block_head_flags BlockSize ItemsPerThread size blocks
                          keys_input uninitK key_compare_op (sub32 blocks 1) j
                          then 1 else 0,
                        value := values j })
            (block_valid_count (wrap32 (BlockSize * ItemsPerThread)) size
              (wrap32 (sub32 blocks 1 * wrap32 (BlockSize * ItemsPerThread))))).key 1)
    ∧ (∀ block_id, block_id + 1 < blocks →
      wrap32 (block_id * wrap32 (BlockSize * ItemsPerThread))
          + wrap32 (BlockSize * ItemsPerThread) < size) := by
  have hN := h.size_pos
  have hM := (scan_unique_counts_eq h keys_input uninitK key_compare_op unique_counts0).1
  have hus := (scan_unique_counts_eq h keys_input uninitK key_compare_op unique_counts0).2
  have hIpos := h.ipb_pos
  have hIlt := h.ipb_lt
  have hblocks := h.blocks_pos
  have hs1 : sub32 blocks 1 = blocks - 1 := sub32_of_le (by omega) h.blocks_lt
  refine ⟨?_, ?_, ?_, ?_, ?_⟩
  · intro b hb w hw
    rw [reduce_by_key_unique_stores h keys_input uninitK values_input uninitV
      key_compare_op reduce_op _ hb (hus b hb), List.mem_filterMap] at hw
    obtain ⟨k, _, hk⟩ := hw
    unfold key_store at hk
    split at hk
    · rename_i hc
      simp only [Option.some.injEq] at hk
      rw [hM, ← hk]
      exact count_run_end_lt_runs key_compare_op keys_input hN (by omega)
    · simp at hk
  · intro b hb w hw
    have hmem : w.1 ∈ (reduce_by_key BlockSize ItemsPerThread keys_input uninitK
        values_input uninitV size (scan_unique_counts ScanBlockSize ScanItemsPerThread
          (fill_unique_counts_grid BlockSize ItemsPerThread warp_size keys_input uninitK
            size key_compare_op blocks_per_full_batch full_batches blocks batches
            unique_counts0) batches).1
        key_compare_op reduce_op blocks_per_full_batch full_batches blocks
        b).aggregate_stores.map Prod.fst := List.mem_map_of_mem _ hw
    rw [(reduce_by_key_store_indices h keys_input uninitK values_input uninitV
      key_compare_op reduce_op _ hb (hus b hb)).1, List.mem_filterMap] at hmem
    obtain ⟨q, _, hq⟩ := hmem
    split at hq
    · rename_i he
      simp only [Option.some.injEq] at hq
      have hlt : first_block blocks_per_full_batch full_batches b
          * (BlockSize * ItemsPerThread) + q < size := by
        by_contra hge
        rw [is_run_end_of_ge key_compare_op keys_input (by omega)] at he
        exact Bool.false_ne_true he
      rw [hM, ← hq]
      exact count_run_end_lt_runs key_compare_op keys_input hN (by omega)
    · simp at hq
  · intro hbatch j hflag
    have hj := carry_out_tail_flags_loaded _ _ _ _ _ _ _ hflag
    have hbl : batches < 4294967296 := lt_of_le_of_lt h.scan_fits h.scan_items
    rw [sub32_of_le h.batches_pos hbl] at hj
    have hpos : ∀ b, b < batches →
        0 < batch_blocks blocks_per_full_batch full_batches b := by
      intro b hb
      have := hbatch b hb
      rw [batch_geometry_eq h hb] at this
      exact this
    have hnext : first_block blocks_per_full_batch full_batches (j + 1) < blocks :=
      h.first_block_lt (by omega) (hpos (j + 1) (by omega))
    obtain ⟨c, hc, hd⟩ := (reduce_by_key_store_indices h keys_input uninitK values_input
      uninitV key_compare_op reduce_op _ (show j < batches by omega)
      (hus j (by omega))).2 (hpos j (by omega)) hnext
    unfold loaded_carry_outs block_load_valid
    rw [if_pos (by rw [sub32_of_le h.batches_pos hbl]; exact hj), Nat.zero_add]
    unfold reduce_by_key_carry_outs
    simp only [hc]
    rw [hd, hM]
    refine count_run_end_lt_runs key_compare_op keys_input hN ?_
    have hmul : (first_block blocks_per_full_batch full_batches (j + 1) + 1)
        * (BlockSize * ItemsPerThread) ≤ blocks * (BlockSize * ItemsPerThread) :=
      Nat.mul_le_mul_right _ hnext
    have hlo := h.blocks_lo
    have : (first_block blocks_per_full_batch full_batches (j + 1))
        * (BlockSize * ItemsPerThread) ≤ (blocks - 1) * (BlockSize * ItemsPerThread) :=
      Nat.mul_le_mul_right _ (by omega)
    omega
  · intro hpart
    have hb : blocks - 1 < blocks := by omega
    have hlo := h.blocks_lo
    have hmul : blocks * (BlockSize * ItemsPerThread)
        = (blocks - 1) * (BlockSize * ItemsPerThread) + BlockSize * ItemsPerThread := by
      obtain ⟨m, hm⟩ : ∃ m, blocks = m + 1 := ⟨blocks - 1, by omega⟩
      rw [hm, Nat.add_sub_cancel, Nat.succ_mul]
    rw [hs1, block_valid_count_eq h hb,
      Nat.min_eq_right (by omega)]
    obtain ⟨v, hv⟩ : ∃ v, size - (blocks - 1) * (BlockSize * ItemsPerThread) = v + 1 :=
      ⟨size - (blocks - 1) * (BlockSize * ItemsPerThread) - 1, by omega⟩
    rw [hv]
    have hend : (blocks - 1) * (BlockSize * ItemsPerThread) + v = size - 1 := by omega
    refine ⟨by omega, ?_, ?_⟩
    · rw [block_head_flags_succ h keys_input uninitK key_compare_op _ (by omega),
        block_tail_flags_eq h keys_input uninitK key_compare_op hb (by omega), hend]
      exact is_run_end_last key_compare_op keys_input hN
    · intro values
      rw [block_unique_count_eq h keys_input uninitK key_compare_op reduce_op values hb,
        block_ranks_eq h keys_input uninitK key_compare_op reduce_op values hb
          (show v + 1 < BlockSize * ItemsPerThread by omega)]
      have c1 := count_run_end_block key_compare_op keys_input size
        ((blocks - 1) * (BlockSize * ItemsPerThread)) (BlockSize * ItemsPerThread)
      have c2 := count_run_end_block key_compare_op keys_input size
        ((blocks - 1) * (BlockSize * ItemsPerThread)) (v + 1)
      rw [count_run_end_ge key_compare_op keys_input (show size
        ≤ (blocks - 1) * (BlockSize * ItemsPerThread) + BlockSize * ItemsPerThread
        by omega)] at c1
      rw [show (blocks - 1) * (BlockSize * ItemsPerThread) + (v + 1) = size by omega] at c2
      omega
  · intro block_id hb
    rw [h.wrap_offset (show block_id < blocks by omega), wrap32_of_lt hIlt]
    exact h.inner_block_le hb

/-- C35, witness: the first seven keys `[1,1,1,2,3,3,4]` of the scenario (`M = 4` runs) in
two batches of one block of `2 * 2` items. Batch `1` stores the key `4` and the
aggregate `1` at index `3 < 4`; the carry-out of batch `0` has its tail flag set and
the destination `1 < 4`; in the last block, which holds three items, item `3` is
flagged as a head and has rank `2`, the unique count of the block; block `0` reads
`keys_input[4]`. -/
theorem reduce_by_key_output_bounds_witness :
    launch_ok 2 2 2 2 2 7 1 2 2 2
    ∧ 3 < scenario_scanned_counts.2
    ∧ (reduce_by_key 2 2 scenario_keys (fun _ => 0) scenario_values (fun _ => 0) 7
        scenario_scanned_counts.1 (fun a b => a == b) (fun a b => a + b) 1 2 2
        1).aggregate_stores = [(2, 5), (3, 1)]
    ∧ 2 < scenario_scanned_counts.2
    ∧ (loaded_carry_outs scenario_carry_outs (fun _ => ⟨0, 0, 0, 0⟩) 2 0).destination
        < scenario_scanned_counts.2
    ∧ (block_valid_count (wrap32 (2 * 2)) 7 (wrap32 (sub32 2 1 * wrap32 (2 * 2))) < 2 * 2
      ∧ block_head_flags 2 2 7 2 scenario_keys (fun _ => 0) (fun a b => a == b) (sub32 2 1)
          (block_valid_count (wrap32 (2 * 2)) 7 (wrap32 (sub32 2 1 * wrap32 (2 * 2))))
        = true
      ∧ wrap32 (sub32 (block_inclusive_scan (scan_by_key_op (fun a b : Nat => a + b))
            (fun j => { key := if block_head_flags 2 2 7 2 scenario_keys (fun _ => 0)
                          (fun a b => a == b) (sub32 2 1) j then 1 else 0,
                        value := scenario_values j }) (last_item 2 2)).key 1
          + (if block_tail_flags 2 2 7 2 scenario_keys (fun _ => 0) (fun a b => a == b)
              (sub32 2 1) (last_item 2 2) = true then 1 else 0))
        ≤ sub32 (block_inclusive_scan (scan_by_key_op (fun a b : Nat => a + b))
            (fun j => { key := if block_head_flags 2 2 7 2 scenario_keys (fun _ => 0)
                          (fun a b => a == b) (sub32 2 1) j then 1 else 0,
                        value := scenario_values j })
            (block_valid_count (wrap32 (2 * 2)) 7
              (wrap32 (sub32 2 1 * wrap32 (2 * 2))))).key 1)
    ∧ wrap32 (0 * wrap32 (2 * 2)) + wrap32 (2 * 2) < 7
    ∧ scenario_scanned_counts.2 = 4 :=
  ⟨by constructor <;> decide,
    (reduce_by_key_output_bounds (show launch_ok 2 2 2 2 2 7 1 2 2 2 from
        (by constructor <;> decide)) scenario_keys (fun _ => 0) scenario_values
      (fun _ => 0) (fun a b => a == b) (fun a b => a + b) (fun _ => 0)
      (fun _ => ⟨0, 0, 0, 0⟩)).1 1 (by decide) (3, 4) (by decide),
    by decide,
    (reduce_by_key_output_bounds (show launch_ok 2 2 2 2 2 7 1 2 2 2 from
        (by constructor <;> decide)) scenario_keys (fun _ => 0) scenario_values
      (fun _ => 0) (fun a b => a == b) (fun a b => a + b) (fun _ => 0)
      (fun _ => ⟨0, 0, 0, 0⟩)).2.1 1 (by decide) (2, 5) (by decide),
    (reduce_by_key_output_bounds (show launch_ok 2 2 2 2 2 7 1 2 2 2 from
        (by constructor <;> decide)) scenario_keys (fun _ => 0) scenario_values
      (fun _ => 0) (fun a b => a == b) (fun a b => a + b) (fun _ => 0)
      (fun _ => ⟨0, 0, 0, 0⟩)).2.2.1 (by decide) 0 (by decide),
    (fun hall => ⟨(hall (by decide)).1, (hall (by decide)).2.1,
        (hall (by decide)).2.2 scenario_values⟩)
      (reduce_by_key_output_bounds (show launch_ok 2 2 2 2 2 7 1 2 2 2 from
        (by constructor <;> decide)) scenario_keys (fun _ => 0) scenario_values
      (fun _ => 0) (fun a b => a == b) (fun a b => a + b) (fun _ => 0)
      (fun _ => ⟨0, 0, 0, 0⟩)).2.2.2.1,
    (reduce_by_key_output_bounds (show launch_ok 2 2 2 2 2 7 1 2 2 2 from
        (by constructor <;> decide)) scenario_keys (fun _ => 0) scenario_values
      (fun _ => 0) (fun a b => a == b) (fun a b => a + b) (fun _ => 0)
      (fun _ => ⟨0, 0, 0, 0⟩)).2.2.2.2 0 (by decide),
    by decide⟩

/-- C35 as stated ("for every N ≥ 1 and every batch decomposition") fails on the code.
The first seven keys `[1,1,1,2,3,3,4]` of the scenario and two blocks of `2 * 2` items in
three batches, the third one without a block (`blocks_per_full_batch = 1`,
`full_batches = 2`, `batches = 3`, a tiling the kernels compute from `batch_id`, in an
accepted launch): the unique count is `M = 4`; batch `1` holds the partially filled last
block and stores a carry-out with the destination `block_start + ranks[last] = 2 + 2 = 4`;
`scan_and_scatter_carry_outs` loads `batches - 1 = 2` carry-outs, flags the second one
as a tail and reduces its value into `aggregates_output[4]`, which holds `1000` before
the kernel and `1005` after it. Keys `[1,1,1,1, 1,1,1,1, 2,3,4,5]` in three batches of
one block of `2 * 2` items, `scan_unique_counts` being a block of `1 * 2` items: the
counts are `[0, 1, 4]`, two of them are scanned, `M = 1` is stored to
`unique_count_output`, and batch 2 starts at `unique_counts[2] = 4` and writes
`unique_output` and `aggregates_output` at the indices `4, 5, 6, 7`. And `2^32 - 1`
pairwise distinct keys in `2^30` batches of one block of `2 * 2` items: in the last
block `block_offset + items_per_block` wraps to `0`, `valid_count` is `4` for a tile of
three items, no head flag is cleared and the block makes four stores to each output. -/
theorem reduce_by_key_fixup_beyond_unique_count :
    launch_ok 2 2 2 2 2 7 1 2 2 3
    ∧ batch_geometry 1 2 2 = (2, 0)
    ∧ trailing_scanned_counts.2 = 4
    ∧ carry_out_tail_flags 2 2 trailing_carry_outs (fun _ => ⟨0, 0, 0, 0⟩)
        (fun a b => a == b) 3 1 = true
    ∧ (loaded_carry_outs trailing_carry_outs (fun _ => ⟨0, 0, 0, 0⟩) 3 1).destination = 4
    ∧ (reduce_by_key_launch 2 2 2 2 2 scenario_keys (fun _ => 0) scenario_values
        (fun _ => 5) 7 (fun a b => a == b) (fun a b => a + b) 1 2 2 3 [0, 1, 2]
        (fun _ => 0) (fun _ => 0) (fun _ => 1000)
        (fun _ => ⟨0, 0, 0, 0⟩)).unique_count_output = 4
    ∧ (reduce_by_key_launch 2 2 2 2 2 scenario_keys (fun _ => 0) scenario_values
        (fun _ => 5) 7 (fun a b => a == b) (fun a b => a + b) 1 2 2 3 [0, 1, 2]
        (fun _ => 0) (fun _ => 0) (fun _ => 1000)
        (fun _ => ⟨0, 0, 0, 0⟩)).partial_aggregates 4 = 1000
    ∧ (reduce_by_key_launch 2 2 2 2 2 scenario_keys (fun _ => 0) scenario_values
        (fun _ => 5) 7 (fun a b => a == b) (fun a b => a + b) 1 2 2 3 [0, 1, 2]
        (fun _ => 0) (fun _ => 0) (fun _ => 1000)
        (fun _ => ⟨0, 0, 0, 0⟩)).aggregates_output 4 = 1005
    ∧ (3 - 1) * (2 * 2) < 12 ∧ 12 ≤ 3 * (2 * 2)
    ∧ 3 = 3 * 1 + (3 - 3) * (1 - 1)
    ∧ ¬ 3 ≤ 1 * 2
    ∧ (∀ b, b < 3 → 0 < (batch_geometry 1 3 b).2)
    ∧ (List.range 3).map (fill_unique_counts_grid 2 2 2 late_runs_keys (fun _ => 0) 12
        (fun a b => a == b) 1 3 3 3 (fun _ => 0)) = [0, 1, 4]
    ∧ late_scanned_counts.2 = 1
    ∧ late_scanned_counts.1 2 = 4
    ∧ (reduce_by_key 2 2 late_runs_keys (fun _ => 0) recurring_values (fun _ => 0) 12
        late_scanned_counts.1 (fun a b => a == b) (fun a b => a + b) 1 3 3
        2).unique_stores = [(4, 2), (5, 3), (6, 4), (7, 5)]
    ∧ (reduce_by_key 2 2 late_runs_keys (fun _ => 0) recurring_values (fun _ => 0) 12
        late_scanned_counts.1 (fun a b => a == b) (fun a b => a + b) 1 3 3
        2).aggregate_stores = [(4, 9), (5, 10), (6, 11), (7, 12)]
    ∧ (1073741824 - 1) * (2 * 2) < 4294967295 ∧ 4294967295 < 1073741824 * (2 * 2)
    ∧ ¬ 1073741824 * (2 * 2) < 4294967296
    ∧ block_valid_count (wrap32 (2 * 2)) 4294967295
        (wrap32 (sub32 1073741824 1 * wrap32 (2 * 2))) = 2 * 2
    ∧ 4294967295 - (1073741824 - 1) * (2 * 2) = 3
    ∧ (wrapped_last_batch 0).unique_stores.map Prod.fst = [0, 1, 2, 3]
    ∧ (wrapped_last_batch 0).aggregate_stores.map Prod.fst = [0, 1, 2, 3] := by
  refine ⟨by constructor <;> decide, ?_⟩
  and_intros <;> decide

end claims_rbk_bounds

/-! ## Claims on the recursion of `scan_impl` -/

section claims_scan_recursion

variable {α : Type}

/-- The `size_t` rounding `(size + items_per_block - 1)` of `scan_impl`: whenever more
than one block results, the sum has its exact value (a wrapped sum is below
`items_per_block`, or zero, in which case the difference wraps back). -/
theorem scan_rounding_exact (n size : Nat) (hn : 2 ≤ n) (hn32 : n < 4294967296)
    (hs : size < 18446744073709551616)
    (h : 1 < sub64 (wrap64 (size + n)) 1 / n) :
    sub64 (wrap64 (size + n)) 1 = size + n - 1 := by
  have h2 : 2 ≤ sub64 (wrap64 (size + n)) 1 / n := h
  rw [Nat.le_div_iff_mul_le (by omega)] at h2
  unfold sub64 wrap64 at h2 ⊢
  omega

/-- The value `sub64 … 1` is a `size_t`. -/
theorem scan_rounding_lt (n size : Nat) :
    sub64 (wrap64 (size + n)) 1 < 18446744073709551616 := by
  unfold sub64
  omega

/-- The nested call of `scan_impl` has fewer items than the call, at most half as many
(rounded up), when the tile has at least two items. -/
theorem scan_nested_size (n size : Nat) (hn : 2 ≤ n) (h : 1 < (size + n - 1) / n) :
    (size + n - 1) / n < size ∧ 2 * ((size + n - 1) / n - 1) < size := by
  have hs : 0 < size := by
    rcases Nat.eq_zero_or_pos size with h0 | h0
    · rw [h0, Nat.zero_add, Nat.div_eq_of_lt (by omega)] at h
      omega
    · exact h0
  have hlo := scan_blocks_lo n size (by omega) hs
  have hge : ((size + n - 1) / n - 1) * 2 ≤ ((size + n - 1) / n - 1) * n :=
    Nat.mul_le_mul_left _ hn
  omega

/-- The call of `scan_impl` returns within a recursion depth of `fuel` calls for every
size up to `2 ^ fuel`, whatever the operator. -/
theorem scan_impl_returns_depth (BlockSize ItemsPerThread : Nat) (scan_op : α → α → α)
    (dflt : α) (uninit : Nat → α) (h2 : 2 ≤ BlockSize * ItemsPerThread)
    (h32 : BlockSize * ItemsPerThread < 4294967296) :
    ∀ (fuel : Nat) (Exclusive : Bool) (temporary_storage input output : Nat → α)
      (initial_value : α) (size : Nat), size < 18446744073709551616 → 0 < fuel →
      size ≤ 2 ^ fuel →
      ∃ out, scan_impl fuel BlockSize ItemsPerThread Exclusive temporary_storage input
          output initial_value dflt size scan_op uninit = some out := by
  intro fuel
  induction fuel with
  | zero => intro _ _ _ _ _ size _ hf; omega
  | succ fuel ih =>
    intro Exclusive temporary_storage input output initial_value size hs _ hpow
    rw [scan_impl]
    simp only [wrap32_of_lt h32]
    by_cases hnb : 1 < sub64 (wrap64 (size + BlockSize * ItemsPerThread)) 1
        / (BlockSize * ItemsPerThread)
    · rw [if_pos hnb]
      have hx := scan_rounding_exact _ size h2 h32 hs hnb
      have hlt := scan_rounding_lt (BlockSize * ItemsPerThread) size
      rw [hx] at hnb hlt ⊢
      obtain ⟨hn1, hn2⟩ := scan_nested_size _ size h2 hnb
      have hfuel : 0 < fuel := by
        rcases Nat.eq_zero_or_pos fuel with h0 | h0
        · rw [h0] at hpow
          simp only [Nat.zero_add, Nat.pow_one] at hpow
          omega
        · exact h0
      rw [Nat.pow_succ] at hpow
      generalize (size + BlockSize * ItemsPerThread - 1) / (BlockSize * ItemsPerThread) = nb
        at hnb hn1 hn2 ⊢
      obtain ⟨bp, hbp⟩ := ih false (fun i => temporary_storage (nb + i))
        (apply_writes temporary_storage
          ((List.range (wrap64 ((nb - 1) * BlockSize) / BlockSize)).map
            (block_reduce_kernel_impl BlockSize ItemsPerThread input scan_op)))
        (apply_writes temporary_storage
          ((List.range (wrap64 ((nb - 1) * BlockSize) / BlockSize)).map
            (block_reduce_kernel_impl BlockSize ItemsPerThread input scan_op)))
        dflt nb (by omega) hfuel (by omega)
      rw [hbp]
      exact ⟨_, rfl⟩
    · rw [if_neg hnb]
      exact ⟨_, rfl⟩

/-- C38 (scan recursion terminates). For every `size_t` size and every tile of
`items_per_block ≥ 2` items (an `unsigned int`), with `number_of_blocks` as `scan_impl`
computes it: when `number_of_blocks > 1` it is `ceil(size / items_per_block)`, it is
smaller than `size`, and the call returns exactly when its one nested call, the
non-exclusive scan of the `number_of_blocks` block prefixes, returns; a size that fits
one tile gives `number_of_blocks ≤ 1`; when `number_of_blocks ≤ 1` the call returns
after the single-block kernel without a nested call; and the call returns within a
recursion depth of `fuel` calls for every size up to `2 ^ fuel`, so within 64 calls for
every size. -/
theorem scan_recursion_terminates (BlockSize ItemsPerThread : Nat) (Exclusive : Bool)
    (temporary_storage input output : Nat → α) (initial_value dflt : α) (size : Nat)
    (scan_op : α → α → α) (uninit : Nat → α)
    (h2 : 2 ≤ BlockSize * ItemsPerThread)
    (h32 : BlockSize * ItemsPerThread < 4294967296)
    (hsize : size < 18446744073709551616)
    (number_of_blocks : Nat)
    (hnb : number_of_blocks
      = sub64 (wrap64 (size + wrap32 (BlockSize * ItemsPerThread))) 1
          / wrap32 (BlockSize * ItemsPerThread)) :
    (1 < number_of_blocks →
      number_of_blocks
          = (size + BlockSize * ItemsPerThread - 1) / (BlockSize * ItemsPerThread)
      ∧ number_of_blocks < size
      ∧ ∀ fuel,
        (scan_impl (fuel + 1) BlockSize ItemsPerThread Exclusive temporary_storage input
          output initial_value dflt size scan_op uninit).isSome
        = (scan_impl fuel BlockSize ItemsPerThread false
            (fun i => temporary_storage (number_of_blocks + i))
            (apply_writes temporary_storage
              ((List.range (wrap64 ((number_of_blocks - 1) * BlockSize) / BlockSize)).map
                (block_reduce_kernel_impl BlockSize ItemsPerThread input scan_op)))
            (apply_writes temporary_storage
              ((List.range (wrap64 ((number_of_blocks - 1) * BlockSize) / BlockSize)).map
                (block_reduce_kernel_impl BlockSize ItemsPerThread input scan_op)))
            dflt dflt number_of_blocks scan_op uninit).isSome)
    ∧ (size ≤ BlockSize * ItemsPerThread → number_of_blocks ≤ 1)
    ∧ (number_of_blocks ≤ 1 → ∀ fuel,
      scan_impl (fuel + 1) BlockSize ItemsPerThread Exclusive temporary_storage input
          output initial_value dflt size scan_op uninit
        = some (apply_writes output
            (single_scan_kernel_impl BlockSize ItemsPerThread Exclusive input uninit size
              initial_value scan_op)))
    ∧ (∀ fuel, 0 < fuel → size ≤ 2 ^ fuel →
      ∃ out, scan_impl fuel BlockSize ItemsPerThread Exclusive temporary_storage input
          output initial_value dflt size scan_op uninit = some out)
    ∧ (∀ fuel, 64 ≤ fuel →
      ∃ out, scan_impl fuel BlockSize ItemsPerThread Exclusive temporary_storage input
          output initial_value dflt size scan_op uninit = some out) := by
  rw [wrap32_of_lt h32] at hnb
  have hdepth := scan_impl_returns_depth BlockSize ItemsPerThread scan_op dflt uninit h2 h32
  refine ⟨?_, ?_, ?_, ?_, ?_⟩
  · intro h1
    have h1x := h1
    rw [hnb] at h1x
    have hx := scan_rounding_exact _ size h2 h32 hsize h1x
    have hval : number_of_blocks
        = (size + BlockSize * ItemsPerThread - 1) / (BlockSize * ItemsPerThread) := by
      rw [hnb, hx]
    refine ⟨hval, ?_, ?_⟩
    · rw [hval] at h1 ⊢
      exact (scan_nested_size _ size h2 h1).1
    · intro fuel
      rw [scan_impl]
      simp only [wrap32_of_lt h32]
      rw [← hnb, if_pos h1]
      cases scan_impl fuel BlockSize ItemsPerThread false
        (fun i => temporary_storage (number_of_blocks + i))
        (apply_writes temporary_storage
          ((List.range (wrap64 ((number_of_blocks - 1) * BlockSize) / BlockSize)).map
            (block_reduce_kernel_impl BlockSize ItemsPerThread input scan_op)))
        (apply_writes temporary_storage
          ((List.range (wrap64 ((number_of_blocks - 1) * BlockSize) / BlockSize)).map
            (block_reduce_kernel_impl BlockSize ItemsPerThread input scan_op)))
        dflt dflt number_of_blocks scan_op uninit <;> rfl
  · intro hfit
    rw [hnb, scan_number_of_blocks _ size (by omega) (by omega)]
    have : (size + BlockSize * ItemsPerThread - 1) / (BlockSize * ItemsPerThread) < 2 := by
      rw [Nat.div_lt_iff_lt_mul (by omega)]
      omega
    omega
  · intro h1 fuel
    rw [scan_impl]
    simp only [wrap32_of_lt h32]
    rw [← hnb, if_neg (by omega)]
  · intro fuel hpos hpow
    exact hdepth fuel Exclusive temporary_storage input output initial_value size hsize
      hpos hpow
  · intro fuel hfuel
    refine hdepth fuel Exclusive temporary_storage input output initial_value size hsize
      (by omega) ?_
    have hp : 2 ^ 64 ≤ 2 ^ fuel := Nat.pow_le_pow_right (by omega) hfuel
    have e : (2 : Nat) ^ 64 = 18446744073709551616 := by norm_num
    omega

/-- C38, witness: eleven items in tiles of `2 * 1` items give six blocks, `6 < 11`, and
the call with a budget of four calls returns exactly when the nested call on the six
block prefixes with a budget of three returns; it returns, since `11 ≤ 2 ^ 4`, and so
does a call with a budget of 64. Two items fit one tile: one block, and the call
returns after the single-block kernel. -/
theorem scan_recursion_terminates_witness :
    (6 = (11 + 2 * 1 - 1) / (2 * 1)
      ∧ 6 < 11
      ∧ (scan_impl (3 + 1) 2 1 false (fun _ => [99]) word_input (fun _ => [77]) [55] [66]
          11 word_append (fun _ => [88])).isSome
        = (scan_impl 3 2 1 false (fun _ => [99])
            (apply_writes (fun _ => [99])
              ((List.range (wrap64 ((6 - 1) * 2) / 2)).map
                (block_reduce_kernel_impl 2 1 word_input word_append)))
            (apply_writes (fun _ => [99])
              ((List.range (wrap64 ((6 - 1) * 2) / 2)).map
                (block_reduce_kernel_impl 2 1 word_input word_append)))
            [66] [66] 6 word_append (fun _ => [88])).isSome)
    ∧ (∃ out, scan_impl 4 2 1 false (fun _ => [99]) word_input (fun _ => [77]) [55] [66]
        11 word_append (fun _ => [88]) = some out)
    ∧ (∃ out, scan_impl 64 2 1 false (fun _ => [99]) word_input (fun _ => [77]) [55] [66]
        11 word_append (fun _ => [88]) = some out)
    ∧ 1 ≤ 1
    ∧ scan_impl (0 + 1) 2 1 true (fun _ => [99]) word_input (fun _ => [77]) [55] [66]
        2 word_append (fun _ => [88])
      = some (apply_writes (fun _ => [77])
          (single_scan_kernel_impl 2 1 true word_input (fun _ => [88]) 2 [55]
            word_append)) :=
  ⟨(fun hc => ⟨hc.1, hc.2.1, hc.2.2 3⟩)
      ((scan_recursion_terminates 2 1 false (fun _ => [99]) word_input (fun _ => [77])
        [55] [66] 11 word_append (fun _ => [88]) (by decide) (by decide) (by decide) 6
        (by decide)).1 (by decide)),
    (scan_recursion_terminates 2 1 false (fun _ => [99]) word_input (fun _ => [77])
      [55] [66] 11 word_append (fun _ => [88]) (by decide) (by decide) (by decide) 6
      (by decide)).2.2.2.1 4 (by decide) (by decide),
    (scan_recursion_terminates 2 1 false (fun _ => [99]) word_input (fun _ => [77])
      [55] [66] 11 word_append (fun _ => [88]) (by decide) (by decide) (by decide) 6
      (by decide)).2.2.2.2 64 (by decide),
    (scan_recursion_terminates 2 1 true (fun _ => [99]) word_input (fun _ => [77])
      [55] [66] 2 word_append (fun _ => [88]) (by decide) (by decide) (by decide) 1
      (by decide)).2.1 (by decide),
    (scan_recursion_terminates 2 1 true (fun _ => [99]) word_input (fun _ => [77])
      [55] [66] 2 word_append (fun _ => [88]) (by decide) (by decide) (by decide) 1
      (by decide)).2.2.1 (by decide) 0⟩

end claims_scan_recursion

/-! ## Claims on the chain of digit passes of the segmented radix sort -/

section claims_radix_chain

/-- Pass `k` of the closed form, read back from the list. -/
theorem radix_pass_list_getElem (keys_input keys_tmp keys_output values_input values_tmp
    values_output begin_bit end_bit bit : Nat) (to_output : Bool) (k : Nat) (p : radix_pass)
    (h : (radix_pass_list keys_input keys_tmp keys_output values_input values_tmp
      values_output begin_bit end_bit bit to_output)[k]? = some p) :
    k < (end_bit - bit + 7) / 8
    ∧ p = radix_loop_pass keys_input keys_tmp keys_output values_input values_tmp
        values_output begin_bit (bit + 8 * k) (min 8 (end_bit - (bit + 8 * k)))
        (xor to_output (decide (k % 2 = 1))) := by
  by_cases hk : k < (end_bit - bit + 7) / 8
  · rw [getElem?_radix_pass_list _ _ _ _ _ _ _ _ _ _ _ hk] at h
    exact ⟨hk, (Option.some.inj h).symm⟩
  · rw [List.getElem?_eq_none (by rw [length_radix_pass_list]; omega)] at h
    exact absurd h (by simp)

/-- C37 (ping-pong chain). The work call of `segmented_radix_sort_impl` for a bit range
`begin_bit < end_bit` (with `end_bit ≤ 2^32 - 8`, so that the counter `bit` does not
wrap), in the pointer-pair mode (`keys_tmp = nullptr`, the scratch arrays then being at
`temporary_storage`) and in the double-buffer mode: it returns after exactly
`ceil((end_bit - begin_bit) / 8)` passes; the first pass reads `keys_input` and
`values_input`; every later pass reads the arrays the pass before it wrote; every pass
writes either `keys_output`, `values_output` or the scratch arrays, and consecutive
passes write different ones of the two; pass `k` is launched at the bit
`begin_bit + 8 k` on the bits up to `min(begin_bit + 8 k + 8, end_bit)`, at least one;
and when `keys_output` is neither the scratch keys array nor `keys_input`, and in the
pointer-pair mode `keys_input` is not the scratch array, no pass reads and writes the
same keys array, and likewise for the values arrays. -/
theorem ping_pong_chain {K V : Type} (fuel : Nat) (Descending with_values : Bool)
    (encode : K → Nat) (mem : radix_memory K V)
    (temporary_storage keys_input keys_tmp keys_output values_input values_tmp
      values_output size : Nat) (flag : Bool) (segments : Nat)
    (begin_offsets end_offsets : Nat → Nat) (begin_bit end_bit : Nat)
    (hbits : begin_bit < end_bit) (hend : end_bit + 8 ≤ 4294967296)
    (hfuel : end_bit ≤ begin_bit + 8 * fuel) :
    ∃ st, segmented_radix_sort_impl fuel Descending with_values encode mem
          temporary_storage keys_input keys_tmp keys_output values_input values_tmp
          values_output size flag segments begin_offsets end_offsets begin_bit end_bit
        = some st
      ∧ st.passes.length = (end_bit - begin_bit + 7) / 8
      ∧ (∃ p, st.passes[0]? = some p ∧ p.keys_input = keys_input
          ∧ p.values_input = values_input)
      ∧ (∀ (k : Nat) (p q : radix_pass), st.passes[k]? = some p →
          st.passes[k + 1]? = some q →
          q.keys_input = p.keys_output ∧ q.values_input = p.values_output)
      ∧ (∀ (k : Nat) (p q : radix_pass), st.passes[k]? = some p →
          st.passes[k + 1]? = some q →
          (p.keys_output = keys_output ∧ p.values_output = values_output
            ∧ q.keys_output = (if keys_tmp ≠ 0 then keys_tmp else temporary_storage)
            ∧ q.values_output = (if keys_tmp ≠ 0 then values_tmp
                else if with_values = true then temporary_storage else 0))
          ∨ (p.keys_output = (if keys_tmp ≠ 0 then keys_tmp else temporary_storage)
            ∧ p.values_output = (if keys_tmp ≠ 0 then values_tmp
                else if with_values = true then temporary_storage else 0)
            ∧ q.keys_output = keys_output ∧ q.values_output = values_output))
      ∧ (∀ (k : Nat) (p : radix_pass), st.passes[k]? = some p →
          p.bit = begin_bit + 8 * k
          ∧ p.bit + p.current_radix_bits = min (begin_bit + 8 * k + 8) end_bit
          ∧ 0 < p.current_radix_bits
          ∧ ((p.keys_output = keys_output ∧ p.values_output = values_output)
            ∨ (p.keys_output = (if keys_tmp ≠ 0 then keys_tmp else temporary_storage)
              ∧ p.values_output = (if keys_tmp ≠ 0 then values_tmp
                  else if with_values = true then temporary_storage else 0))))
      ∧ (keys_output ≠ (if keys_tmp ≠ 0 then keys_tmp else temporary_storage) →
          keys_input ≠ keys_output →
          (keys_tmp = 0 → keys_input ≠ temporary_storage) →
          ∀ (k : Nat) (p : radix_pass), st.passes[k]? = some p →
            p.keys_input ≠ p.keys_output)
      ∧ (values_output ≠ (if keys_tmp ≠ 0 then values_tmp
              else if with_values = true then temporary_storage else 0) →
          values_input ≠ values_output →
          (keys_tmp = 0 →
            values_input ≠ (if with_values = true then temporary_storage else 0)) →
          ∀ (k : Nat) (p : radix_pass), st.passes[k]? = some p →
            p.values_input ≠ p.values_output) := by
  refine ⟨_, segmented_radix_sort_impl_closed fuel Descending with_values encode mem
    temporary_storage keys_input keys_tmp keys_output values_input values_tmp values_output
    size flag segments begin_offsets end_offsets begin_bit end_bit hend hfuel,
    length_radix_pass_list _ _ _ _ _ _ _ _ _ _, ?_, ?_, ?_, ?_, ?_, ?_⟩
  · refine ⟨_, getElem?_radix_pass_list _ _ _ _ _ _ _ _ _ _ 0 (by omega), ?_, ?_⟩
    · rw [(radix_loop_pass_fields _ _ _ _ _ _ _ _ _ _).1, if_pos (by omega)]
    · rw [(radix_loop_pass_fields _ _ _ _ _ _ _ _ _ _).2.1, if_pos (by omega)]
  · intro k p q hp hq
    obtain ⟨_, rfl⟩ := radix_pass_list_getElem _ _ _ _ _ _ _ _ _ _ _ _ hp
    obtain ⟨_, rfl⟩ := radix_pass_list_getElem _ _ _ _ _ _ _ _ _ _ _ _ hq
    rw [← radix_parity_step]
    simp only [radix_loop_pass_fields]
    rw [if_neg (show ¬ begin_bit + 8 * (k + 1) = begin_bit by omega),
      if_neg (show ¬ begin_bit + 8 * (k + 1) = begin_bit by omega)]
    generalize decide (k % 2 = 1) = d
    generalize (decide (keys_tmp ≠ 0)
      || decide (sub32 (ceiling_div (sub32 end_bit begin_bit) 8) 1 % 2 = 0)) = t
    cases t <;> cases d <;> simp
  · intro k p q hp hq
    obtain ⟨_, rfl⟩ := radix_pass_list_getElem _ _ _ _ _ _ _ _ _ _ _ _ hp
    obtain ⟨_, rfl⟩ := radix_pass_list_getElem _ _ _ _ _ _ _ _ _ _ _ _ hq
    rw [← radix_parity_step]
    simp only [radix_loop_pass_fields]
    generalize decide (k % 2 = 1) = d
    generalize (decide (keys_tmp ≠ 0)
      || decide (sub32 (ceiling_div (sub32 end_bit begin_bit) 8) 1 % 2 = 0)) = t
    cases t <;> cases d <;> simp
  · intro k p hp
    obtain ⟨hk, rfl⟩ := radix_pass_list_getElem _ _ _ _ _ _ _ _ _ _ _ _ hp
    refine ⟨?_, ?_, ?_, ?_⟩
    · rw [(radix_loop_pass_fields _ _ _ _ _ _ _ _ _ _).2.2.2.2.1]
    · rw [(radix_loop_pass_fields _ _ _ _ _ _ _ _ _ _).2.2.2.2.1,
        (radix_loop_pass_fields _ _ _ _ _ _ _ _ _ _).2.2.2.2.2]
      omega
    · rw [(radix_loop_pass_fields _ _ _ _ _ _ _ _ _ _).2.2.2.2.2]
      omega
    simp only [radix_loop_pass_fields]
    generalize decide (k % 2 = 1) = d
    generalize (decide (keys_tmp ≠ 0)
      || decide (sub32 (ceiling_div (sub32 end_bit begin_bit) 8) 1 % 2 = 0)) = t
    cases t <;> cases d <;> simp
  · intro h1 h2 h3 k p hp
    obtain ⟨hk, rfl⟩ := radix_pass_list_getElem _ _ _ _ _ _ _ _ _ _ _ _ hp
    simp only [radix_loop_pass_fields]
    rcases Nat.eq_zero_or_pos k with h0 | h0
    · subst h0
      rw [if_pos (by omega)]
      by_cases hdb : keys_tmp = 0
      · subst hdb
        have h3' := h3 rfl
        simp only [ne_eq, not_true_eq_false, if_false] at h1 ⊢
        generalize (decide False
          || decide (sub32 (ceiling_div (sub32 end_bit begin_bit) 8) 1 % 2 = 0)) = t
        cases t
        · simpa using h3'
        · simpa using h2
      · have ht : (decide (keys_tmp ≠ 0)
            || decide (sub32 (ceiling_div (sub32 end_bit begin_bit) 8) 1 % 2 = 0))
            = true := by simp [hdb]
        rw [ht]
        simpa using h2
    · rw [if_neg (by omega)]
      generalize decide (k % 2 = 1) = d
      generalize (decide (keys_tmp ≠ 0)
        || decide (sub32 (ceiling_div (sub32 end_bit begin_bit) 8) 1 % 2 = 0)) = t
      generalize (if keys_tmp ≠ 0 then keys_tmp else temporary_storage) = tmp at h1 ⊢
      have h1' : tmp ≠ keys_output := fun h => h1 h.symm
      cases t <;> cases d <;> simp <;> first | exact h1 | exact h1'
  · intro h1 h2 h3 k p hp
    obtain ⟨hk, rfl⟩ := radix_pass_list_getElem _ _ _ _ _ _ _ _ _ _ _ _ hp
    simp only [radix_loop_pass_fields]
    rcases Nat.eq_zero_or_pos k with h0 | h0
    · subst h0
      rw [if_pos (by omega)]
      by_cases hdb : keys_tmp = 0
      · subst hdb
        have h3' := h3 rfl
        simp only [ne_eq, not_true_eq_false, if_false] at h1 ⊢
        generalize (decide False
          || decide (sub32 (ceiling_div (sub32 end_bit begin_bit) 8) 1 % 2 = 0)) = t
        cases t
        · simpa using h3'
        · simpa using h2
      · have ht : (decide (keys_tmp ≠ 0)
            || decide (sub32 (ceiling_div (sub32 end_bit begin_bit) 8) 1 % 2 = 0))
            = true := by simp [hdb]
        rw [ht]
        simpa using h2
    · rw [if_neg (by omega)]
      generalize decide (k % 2 = 1) = d
      generalize (decide (keys_tmp ≠ 0)
        || decide (sub32 (ceiling_div (sub32 end_bit begin_bit) 8) 1 % 2 = 0)) = t
      generalize (if keys_tmp ≠ 0 then values_tmp
          else if with_values = true then temporary_storage else 0) = tmp at h1 ⊢
      have h1' : tmp ≠ values_output := fun h => h1 h.symm
      cases t <;> cases d <;> simp <;> first | exact h1 | exact h1'

/-- C37, witness: the bits `[0, 12)` in the pointer-pair mode (keys at pointer `1`,
output at `2`, scratch at `3`): two passes, on the bits `[0, 8)` into the scratch arrays
and on the bits `[8, 12)` into the output. The bits `[0, 20)` in the double-buffer mode
(`keys_tmp = keys_input = 1`, the other buffer at `2`): three passes, into `2`, back
into `1` and into `2`. -/
theorem ping_pong_chain_witness :
    0 < 12 ∧ 12 + 8 ≤ 4294967296 ∧ 12 ≤ 0 + 8 * 2
    ∧ (∃ st, segmented_radix_sort_impl 2 false true id sort_example_memory 3 1 0 2 1 0 2
          8 false 3 sort_example_offsets (fun s => sort_example_offsets (s + 1)) 0 12
          = some st
        ∧ st.passes.length = (12 - 0 + 7) / 8
        ∧ (∃ p, st.passes[0]? = some p ∧ p.keys_input = 1 ∧ p.values_input = 1)
        ∧ (∀ (k : Nat) (p q : radix_pass), st.passes[k]? = some p →
            st.passes[k + 1]? = some q →
            q.keys_input = p.keys_output ∧ q.values_input = p.values_output)
        ∧ (∀ (k : Nat) (p : radix_pass), st.passes[k]? = some p →
            p.bit = 0 + 8 * k
            ∧ p.bit + p.current_radix_bits = min (0 + 8 * k + 8) 12
            ∧ 0 < p.current_radix_bits
            ∧ ((p.keys_output = 2 ∧ p.values_output = 2)
              ∨ (p.keys_output = 3 ∧ p.values_output = 3)))
        ∧ (∀ (k : Nat) (p : radix_pass), st.passes[k]? = some p →
            p.keys_input ≠ p.keys_output)
        ∧ (∀ (k : Nat) (p : radix_pass), st.passes[k]? = some p →
            p.values_input ≠ p.values_output))
    ∧ 0 < 20 ∧ 20 + 8 ≤ 4294967296 ∧ 20 ≤ 0 + 8 * 3
    ∧ (∃ st, segmented_radix_sort_impl 3 false true id sort_example_memory 3 1 1 2 1 1 2
          8 false 3 sort_example_offsets (fun s => sort_example_offsets (s + 1)) 0 20
          = some st
        ∧ st.passes.length = (20 - 0 + 7) / 8
        ∧ (∃ p, st.passes[0]? = some p ∧ p.keys_input = 1 ∧ p.values_input = 1)
        ∧ (∀ (k : Nat) (p q : radix_pass), st.passes[k]? = some p →
            st.passes[k + 1]? = some q →
            q.keys_input = p.keys_output ∧ q.values_input = p.values_output)
        ∧ (∀ (k : Nat) (p : radix_pass), st.passes[k]? = some p →
            p.bit = 0 + 8 * k
            ∧ p.bit + p.current_radix_bits = min (0 + 8 * k + 8) 20
            ∧ 0 < p.current_radix_bits
            ∧ ((p.keys_output = 2 ∧ p.values_output = 2)
              ∨ (p.keys_output = 1 ∧ p.values_output = 1)))
        ∧ (∀ (k : Nat) (p : radix_pass), st.passes[k]? = some p →
            p.keys_input ≠ p.keys_output)
        ∧ (∀ (k : Nat) (p : radix_pass), st.passes[k]? = some p →
            p.values_input ≠ p.values_output)) :=
  ⟨by decide, by decide, by decide,
    (ping_pong_chain 2 false true id sort_example_memory 3 1 0 2 1 0 2 8 false 3
      sort_example_offsets (fun s => sort_example_offsets (s + 1)) 0 12 (by decide)
      (by decide) (by decide)).elim
      (fun st h => ⟨st, h.1, h.2.1, h.2.2.1, h.2.2.2.1, h.2.2.2.2.2.1,
        h.2.2.2.2.2.2.1 (by decide) (by decide) (by decide),
        h.2.2.2.2.2.2.2 (by decide) (by decide) (by decide)⟩),
    by decide, by decide, by decide,
    (ping_pong_chain 3 false true id sort_example_memory 3 1 1 2 1 1 2 8 false 3
      sort_example_offsets (fun s => sort_example_offsets (s + 1)) 0 20 (by decide)
      (by decide) (by decide)).elim
      (fun st h => ⟨st, h.1, h.2.1, h.2.2.1, h.2.2.2.1, h.2.2.2.2.2.1,
        h.2.2.2.2.2.2.1 (by decide) (by decide) (by decide),
        h.2.2.2.2.2.2.2 (by decide) (by decide) (by decide)⟩)⟩

end claims_radix_chain

/-! ## Claims on the index arithmetic of `partition_flag_kernel_impl` -/

section claims_partition_index

open Finset

variable {BlockSize ItemsPerThread size number_of_blocks : Nat}

/-- The exclusive scan of the flags of a block of `partition_flag_kernel_impl` from the
selected prefix: exact sums. -/
theorem partition_output_indices_eq
    (h : partition_launch BlockSize ItemsPerThread size number_of_blocks)
    (hn32 : BlockSize * ItemsPerThread < 4294967296) (hN32 : size < 4294967296)
    (flags : Nat → Bool) {b : Nat} (hb : b < number_of_blocks)
    {j : Nat} (hj : j ≤ BlockSize * ItemsPerThread) :
    block_exclusive_scan plus32
        (if b = 0 then 0
          else partition_lookback BlockSize ItemsPerThread flags size number_of_blocks b)
        (fun j => if partition_is_selected BlockSize ItemsPerThread flags size
          number_of_blocks b j then 1 else 0) j
      = (if b = 0 then 0
          else partition_lookback BlockSize ItemsPerThread flags size number_of_blocks b)
        + Nat.count (fun q => partition_is_selected BlockSize ItemsPerThread flags size
            number_of_blocks b q = true) j
    ∧ Nat.count (fun q => partition_is_selected BlockSize ItemsPerThread flags size
          number_of_blocks b q = true) j
      = Nat.count (fun q => valid_flag flags size
          (b * (BlockSize * ItemsPerThread) + q) = true) j := by
  have hoff := h.offset_le hb
  have hsum := count_valid_flag_le flags size (b * (BlockSize * ItemsPerThread) + j)
  rw [Nat.count_add] at hsum
  have hcj : Nat.count (fun q => partition_is_selected BlockSize ItemsPerThread flags size
        number_of_blocks b q = true) j
      = Nat.count (fun q => valid_flag flags size
          (b * (BlockSize * ItemsPerThread) + q) = true) j :=
    count_congr_lt _ _ _ (fun q hq =>
      partition_is_selected_eq h hn32 hN32 flags hb (by omega))
  have hcle := Nat.count_le (p := fun q => valid_flag flags size
          (b * (BlockSize * ItemsPerThread) + q) = true) (n := j)
  have hP' := Nat.count_le (p := fun q => valid_flag flags size q = true)
    (n := b * (BlockSize * ItemsPerThread))
  refine ⟨?_, hcj⟩
  rw [block_exclusive_scan_plus32_init, ← count_eq_sum]
  rw [← count_eq_sum, hcj, partition_selected_prefix_eq h hn32 hN32 flags hb]
  omega

/-- The destination of the second scatter loop in terms of `rejected_prefix` and
`rejected_item_index`: one branch of the conditional is evaluated. -/
theorem partition_output_index_branches (size items_per_block flat_block_id
    selected_prefix_sum selected_in_block item_index : Nat) :
    partition_output_index size items_per_block flat_block_id selected_prefix_sum
        selected_in_block item_index
      = if item_index < selected_in_block then
          wrap32 (wrap32 (selected_prefix_sum + item_index))
        else
          wrap32 (sub64 size (wrap32 (wrap32
            (partition_rejected_prefix_sum items_per_block flat_block_id selected_prefix_sum
              + partition_rejected_item_index item_index selected_in_block) + 1))) :=
  rfl

/-- C39 (partition index width), for the values the kernel uses. In a launch of
`partition_flag_kernel_impl` with `number_of_blocks * items_per_block < 2^32`, for every
block, with the selected prefix, the block reduction and the scanned `output_indices` of
the block: `items_per_block`, `block_offset` and the product in `valid_in_last_block` do
not wrap, and `valid_in_last_block` does not underflow; `output_indices` are exact sums;
in the first scatter loop `item_index`,
`selected_item_index = output_indices - selected_prefix` and
`rejected_item_index = item_index - selected_item_index + selected_in_block` neither
wrap nor underflow, and the scatter index is below `items_per_block`; in the second
loop `item_index` and `rejected_prefix = block_offset - selected_prefix` are exact,
`rejected_item_index = item_index - selected_in_block` is exact for the items at or
after `selected_in_block` (the rejected ones), and the destination,
`selected_prefix + item_index` or `size - (rejected_prefix + rejected_item_index + 1)`,
is exact and below `size` for every store that passes the guard; and the stored count
`selected_prefix + selected_in_block` does not wrap, the selected prefix being the
number of selected items before the tile. -/
theorem partition_index_width
    (h : partition_launch BlockSize ItemsPerThread size number_of_blocks)
    (hfit : number_of_blocks * (BlockSize * ItemsPerThread) < 4294967296)
    (flags : Nat → Bool) (flat_block_id : Nat) (hb : flat_block_id < number_of_blocks)
    (selected_prefix_sum selected_in_block : Nat) (output_indices : Nat → Nat)
    (hselected : selected_prefix_sum
      = if flat_block_id = 0 then 0
        else partition_lookback BlockSize ItemsPerThread flags size number_of_blocks
          flat_block_id)
    (hblock : selected_in_block
      = partition_selected_in_block BlockSize ItemsPerThread flags size number_of_blocks
          flat_block_id)
    (hindices : output_indices
      = block_exclusive_scan plus32 selected_prefix_sum
          (fun j => if partition_is_selected BlockSize ItemsPerThread flags size
            number_of_blocks flat_block_id j then 1 else 0)) :
    (wrap32 (BlockSize * ItemsPerThread) = BlockSize * ItemsPerThread
      ∧ wrap32 (flat_block_id * wrap32 (BlockSize * ItemsPerThread))
        = flat_block_id * (BlockSize * ItemsPerThread)
      ∧ (number_of_blocks - 1) * (BlockSize * ItemsPerThread) < size
      ∧ valid_in_last_block BlockSize ItemsPerThread size number_of_blocks
        = size - (number_of_blocks - 1) * (BlockSize * ItemsPerThread))
    ∧ ((∀ j, j ≤ BlockSize * ItemsPerThread →
        output_indices j = selected_prefix_sum
          + Nat.count (fun q => partition_is_selected BlockSize ItemsPerThread flags size
              number_of_blocks flat_block_id q = true) j)
      ∧ selected_in_block
        = Nat.count (fun q => partition_is_selected BlockSize ItemsPerThread flags size
            number_of_blocks flat_block_id q = true) (BlockSize * ItemsPerThread)
      ∧ selected_prefix_sum + selected_in_block ≤ size
      ∧ wrap32 (selected_prefix_sum + selected_in_block)
        = selected_prefix_sum + selected_in_block
      ∧ selected_prefix_sum
        = Nat.count (fun q => valid_flag flags size q = true)
            (flat_block_id * (BlockSize * ItemsPerThread)))
    ∧ (∀ flat_block_thread_id i, flat_block_thread_id < BlockSize → i < ItemsPerThread →
      wrap32 (wrap32 (flat_block_thread_id * ItemsPerThread) + i)
        = flat_block_thread_id * ItemsPerThread + i
      ∧ selected_prefix_sum ≤ output_indices (flat_block_thread_id * ItemsPerThread + i)
      ∧ output_indices (flat_block_thread_id * ItemsPerThread + i) - selected_prefix_sum
        ≤ flat_block_thread_id * ItemsPerThread + i
      ∧ partition_scatter_index ItemsPerThread
          (partition_is_selected BlockSize ItemsPerThread flags size number_of_blocks
            flat_block_id)
          output_indices selected_prefix_sum selected_in_block flat_block_thread_id i
        = (if partition_is_selected BlockSize ItemsPerThread flags size number_of_blocks
              flat_block_id (flat_block_thread_id * ItemsPerThread + i) = true then
            output_indices (flat_block_thread_id * ItemsPerThread + i) - selected_prefix_sum
          else
            flat_block_thread_id * ItemsPerThread + i
              - (output_indices (flat_block_thread_id * ItemsPerThread + i)
                - selected_prefix_sum)
              + selected_in_block)
      ∧ partition_scatter_index ItemsPerThread
          (partition_is_selected BlockSize ItemsPerThread flags size number_of_blocks
            flat_block_id)
          output_indices selected_prefix_sum selected_in_block flat_block_thread_id i
        < BlockSize * ItemsPerThread)
    ∧ (selected_prefix_sum ≤ flat_block_id * (BlockSize * ItemsPerThread)
      ∧ partition_rejected_prefix_sum (wrap32 (BlockSize * ItemsPerThread)) flat_block_id
          selected_prefix_sum
        = flat_block_id * (BlockSize * ItemsPerThread) - selected_prefix_sum)
    ∧ (∀ flat_block_thread_id i, flat_block_thread_id < BlockSize → i < ItemsPerThread →
      wrap32 (wrap32 (i * BlockSize) + flat_block_thread_id)
        = i * BlockSize + flat_block_thread_id
      ∧ i * BlockSize + flat_block_thread_id < BlockSize * ItemsPerThread)
    ∧ (∀ item_index, item_index < BlockSize * ItemsPerThread →
      (flat_block_id ≠ sub32 number_of_blocks 1
        ∨ item_index
          < valid_in_last_block BlockSize ItemsPerThread size number_of_blocks) →
      (item_index < selected_in_block →
        partition_output_index size (wrap32 (BlockSize * ItemsPerThread)) flat_block_id
            selected_prefix_sum selected_in_block item_index
          = selected_prefix_sum + item_index)
      ∧ (selected_in_block ≤ item_index →
        partition_rejected_item_index item_index selected_in_block
          = item_index - selected_in_block
        ∧ flat_block_id * (BlockSize * ItemsPerThread) - selected_prefix_sum
            + (item_index - selected_in_block) + 1 ≤ size
        ∧ partition_output_index size (wrap32 (BlockSize * ItemsPerThread)) flat_block_id
            selected_prefix_sum selected_in_block item_index
          = size - (flat_block_id * (BlockSize * ItemsPerThread) - selected_prefix_sum
              + (item_index - selected_in_block) + 1))
      ∧ partition_output_index size (wrap32 (BlockSize * ItemsPerThread)) flat_block_id
          selected_prefix_sum selected_in_block item_index < size) := by
  have hI := h.tile_pos
  have hle := h.ipb_le
  have hoff := h.offset_le hb
  have hsz := h.blocks_hi
  have hlo := h.blocks_lo
  have hN := h.size_pos
  have hn32 : BlockSize * ItemsPerThread < 4294967296 := by omega
  have hN32 : size < 4294967296 := by omega
  have hwn : wrap32 (BlockSize * ItemsPerThread) = BlockSize * ItemsPerThread :=
    wrap32_of_lt hn32
  have hwo : wrap32 (flat_block_id * wrap32 (BlockSize * ItemsPerThread))
      = flat_block_id * (BlockSize * ItemsPerThread) := by
    rw [hwn]
    exact wrap32_of_lt (by omega)
  have hP : selected_prefix_sum
      = Nat.count (fun q => valid_flag flags size q = true)
          (flat_block_id * (BlockSize * ItemsPerThread)) :=
    hselected.trans (partition_selected_prefix_eq h hn32 hN32 flags hb)
  have hS : selected_in_block
      = Nat.count (fun j => valid_flag flags size
          (flat_block_id * (BlockSize * ItemsPerThread) + j) = true)
          (BlockSize * ItemsPerThread) :=
    hblock.trans (partition_selected_in_block_eq h hn32 hN32 flags hb)
  have hPle : selected_prefix_sum ≤ flat_block_id * (BlockSize * ItemsPerThread) := by
    rw [hP]
    exact Nat.count_le _
  have hSle : selected_in_block ≤ BlockSize * ItemsPerThread := by
    rw [hS]
    exact Nat.count_le _
  have hPS : selected_prefix_sum + selected_in_block ≤ size := by
    rw [hP, hS, ← Nat.count_add]
    exact count_valid_flag_le flags size _
  have hoi : ∀ j, j ≤ BlockSize * ItemsPerThread →
      output_indices j = selected_prefix_sum
        + Nat.count (fun q => partition_is_selected BlockSize ItemsPerThread flags size
            number_of_blocks flat_block_id q = true) j := by
    intro j hj
    rw [hindices, hselected]
    exact (partition_output_indices_eq h hn32 hN32 flags hb hj).1
  have hcnt : ∀ j, j ≤ BlockSize * ItemsPerThread →
      Nat.count (fun q => partition_is_selected BlockSize ItemsPerThread flags size
          number_of_blocks flat_block_id q = true) j
        = Nat.count (fun q => valid_flag flags size
            (flat_block_id * (BlockSize * ItemsPerThread) + q) = true) j :=
    fun j hj => (partition_output_indices_eq h hn32 hN32 flags hb hj).2
  refine ⟨⟨hwn, hwo, hlo, valid_in_last_block_eq h hn32 hN32⟩,
    ⟨hoi, by rw [hS, hcnt _ (le_refl _)], hPS, wrap32_of_lt (by omega), hP⟩, ?_,
    ⟨hPle, by
      unfold partition_rejected_prefix_sum
      rw [hwo]
      exact sub32_of_le hPle (by omega)⟩, ?_, ?_⟩
  · intro t i ht hi
    have hj : t * ItemsPerThread + i < BlockSize * ItemsPerThread := by
      have : (t + 1) * ItemsPerThread ≤ BlockSize * ItemsPerThread :=
        Nat.mul_le_mul_right _ ht
      rw [Nat.succ_mul] at this
      omega
    have hc := hcnt _ (le_of_lt hj)
    have ho := hoi _ (le_of_lt hj)
    have hcle := Nat.count_le (p := fun q => partition_is_selected BlockSize ItemsPerThread
      flags size number_of_blocks flat_block_id q = true) (n := t * ItemsPerThread + i)
    have e1 : wrap32 (wrap32 (t * ItemsPerThread) + i) = t * ItemsPerThread + i := by
      rw [wrap32_of_lt (show t * ItemsPerThread < 4294967296 by omega)]
      exact wrap32_of_lt (by omega)
    have hidx := partition_scatter_index_eq h hn32 hN32 flags hb ht hi
    rw [← hselected, ← hindices, ← hblock] at hidx
    have hlt := tile_position_flags_lt flags size
      (flat_block_id * (BlockSize * ItemsPerThread)) hj
    have hf1 := count_true_add_false
      (fun q => valid_flag flags size (flat_block_id * (BlockSize * ItemsPerThread) + q))
      (t * ItemsPerThread + i)
    have hf2 := count_true_add_false
      (fun q => valid_flag flags size (flat_block_id * (BlockSize * ItemsPerThread) + q))
      (BlockSize * ItemsPerThread)
    have hmono := Nat.count_monotone
      (fun q => valid_flag flags size
        (flat_block_id * (BlockSize * ItemsPerThread) + q) = false)
      (le_of_lt hj)
    refine ⟨e1, by omega, by omega, ?_, by rw [hidx]; exact hlt⟩
    unfold partition_scatter_index
    dsimp only
    rw [e1, sub32_of_le (show selected_prefix_sum
        ≤ output_indices (t * ItemsPerThread + i) by omega) (by omega),
      sub32_of_le (show output_indices (t * ItemsPerThread + i) - selected_prefix_sum
        ≤ t * ItemsPerThread + i by omega) (by omega),
      wrap32_of_lt (by omega)]
  · intro t i ht hi
    have hj : i * BlockSize + t < BlockSize * ItemsPerThread := by
      have : (i + 1) * BlockSize ≤ ItemsPerThread * BlockSize :=
        Nat.mul_le_mul_right _ hi
      rw [Nat.succ_mul, Nat.mul_comm ItemsPerThread] at this
      omega
    refine ⟨?_, hj⟩
    rw [wrap32_of_lt (show i * BlockSize < 4294967296 by omega)]
    exact wrap32_of_lt (by omega)
  · intro m hm hguard
    have hg := (partition_guard_iff h hn32 hN32 hb hm).mp hguard
    have hsel : m < selected_in_block →
        partition_output_index size (wrap32 (BlockSize * ItemsPerThread)) flat_block_id
            selected_prefix_sum selected_in_block m
          = selected_prefix_sum + m := by
      intro hlt
      unfold partition_output_index
      dsimp only
      rw [if_pos hlt, wrap32_idem]
      exact wrap32_of_lt (by omega)
    have hrej : selected_in_block ≤ m →
        partition_output_index size (wrap32 (BlockSize * ItemsPerThread)) flat_block_id
            selected_prefix_sum selected_in_block m
          = size - (flat_block_id * (BlockSize * ItemsPerThread) - selected_prefix_sum
              + (m - selected_in_block) + 1) := by
      intro hge
      unfold partition_output_index
      dsimp only
      rw [if_neg (by omega), hwo, sub32_of_le hPle (by omega),
        sub32_of_le hge (by omega),
        wrap32_of_lt (show flat_block_id * (BlockSize * ItemsPerThread)
          - selected_prefix_sum + (m - selected_in_block) < 4294967296 by omega),
        wrap32_of_lt (show flat_block_id * (BlockSize * ItemsPerThread)
          - selected_prefix_sum + (m - selected_in_block) + 1 < 4294967296 by omega),
        sub64_of_le (by omega) (by omega)]
      exact wrap32_of_lt (by omega)
    refine ⟨hsel, fun hge => ⟨sub32_of_le hge (by omega), by omega, hrej hge⟩, ?_⟩
    rcases Nat.lt_or_ge m selected_in_block with hlt | hge
    · rw [hsel hlt]
      omega
    · rw [hrej hge]
      omega

/-- C39, witness: block `1` of the partition scenario (`[1,2,3,4,5,6]`, flags
`[0,1,0,1,0,1]`) in two blocks of `2 * 2` items: the selected prefix is `2`, one item of
the tile is selected, the last block holds two valid items; item `1` of the exchange
storage is the rejected item `5` and goes to `output[6 - (2 + 0 + 1)] = output[3]`. -/
theorem partition_index_width_witness :
    partition_launch 2 2 6 2 ∧ 2 * (2 * 2) < 4294967296
    ∧ valid_in_last_block 2 2 6 2 = 6 - (2 - 1) * (2 * 2)
    ∧ scenario_output_indices 4
      = 2 + Nat.count
          (fun q => partition_is_selected 2 2 partition_scenario_flags 6 2 1 q = true) 4
    ∧ wrap32 (wrap32 (1 * 2) + 1) = 1 * 2 + 1
    ∧ partition_scatter_index 2 (partition_is_selected 2 2 partition_scenario_flags 6 2 1)
        scenario_output_indices 2 1 1 1
      = (if partition_is_selected 2 2 partition_scenario_flags 6 2 1 (1 * 2 + 1) = true
          then scenario_output_indices (1 * 2 + 1) - 2
        else 1 * 2 + 1 - (scenario_output_indices (1 * 2 + 1) - 2) + 1)
    ∧ partition_scatter_index 2 (partition_is_selected 2 2 partition_scenario_flags 6 2 1)
        scenario_output_indices 2 1 1 1 < 2 * 2
    ∧ wrap32 (wrap32 (1 * 2) + 1) = 1 * 2 + 1
    ∧ partition_output_index 6 (wrap32 (2 * 2)) 1 2 1 0 = 2 + 0
    ∧ 1 * (2 * 2) - 2 + (1 - 1) + 1 ≤ 6
    ∧ partition_output_index 6 (wrap32 (2 * 2)) 1 2 1 1
      = 6 - (1 * (2 * 2) - 2 + (1 - 1) + 1)
    ∧ partition_output_index 6 (wrap32 (2 * 2)) 1 2 1 1 < 6 :=
  (fun hw =>
    ⟨⟨by decide, by decide, by decide, by decide, by decide⟩, by decide,
      hw.1.2.2.2,
      hw.2.1.1 4 (by decide),
      (hw.2.2.1 1 1 (by decide) (by decide)).1,
      (hw.2.2.1 1 1 (by decide) (by decide)).2.2.2.1,
      (hw.2.2.1 1 1 (by decide) (by decide)).2.2.2.2,
      (hw.2.2.2.2.1 1 1 (by decide) (by decide)).1,
      (hw.2.2.2.2.2 0 (by decide) (by decide)).1 (by decide),
      ((hw.2.2.2.2.2 1 (by decide) (by decide)).2.1 (by decide)).2.1,
      ((hw.2.2.2.2.2 1 (by decide) (by decide)).2.1 (by decide)).2.2,
      (hw.2.2.2.2.2 1 (by decide) (by decide)).2.2⟩)
    (partition_index_width
      (show partition_launch 2 2 6 2 from
        ⟨by decide, by decide, by decide, by decide, by decide⟩)
      (by decide) partition_scenario_flags 1 (by decide) 2 1 scenario_output_indices
      (by decide) (by decide) rfl)

/-- C39 as stated ("no computation wraps modulo 2^32") fails for values the kernel
computes and does not use. In block `1` of the partition scenario (two blocks of
`2 * 2` items, `selected_in_block = 1`) the store of `item_index = 0` passes the guard
and is a selected one, and the second loop computes
`rejected_item_index = item_index - selected_in_block = 0 - 1`, which wraps to
`2^32 - 1`. With five rejected items in two blocks of `2 * 2` items, `item_index = 3` of
the last block fails the guard, and its destination `size - (4 + 3 + 1)` is computed
before the guard as `2^32 - 3`. -/
theorem partition_unused_indices_wrap :
    partition_launch 2 2 6 2 ∧ 2 * (2 * 2) < 4294967296
    ∧ partition_selected_in_block 2 2 partition_scenario_flags 6 2 1 = 1
    ∧ (1 ≠ sub32 2 1 ∨ 0 < valid_in_last_block 2 2 6 2)
    ∧ partition_rejected_item_index 0
        (partition_selected_in_block 2 2 partition_scenario_flags 6 2 1) = 4294967295
    ∧ ((partition_rejected_item_index 0
          (partition_selected_in_block 2 2 partition_scenario_flags 6 2 1) : Nat) : Int)
      ≠ (0 : Int)
        - ((partition_selected_in_block 2 2 partition_scenario_flags 6 2 1 : Nat) : Int)
    ∧ partition_launch 2 2 5 2
    ∧ ¬ (1 ≠ sub32 2 1 ∨ 3 < valid_in_last_block 2 2 5 2)
    ∧ partition_output_index 5 (wrap32 (2 * 2)) 1
        (partition_lookback 2 2 (fun _ => false) 5 2 1)
        (partition_selected_in_block 2 2 (fun _ => false) 5 2 1) 3 = 4294967293
    ∧ ((4294967293 : Nat) : Int) ≠ (5 : Int) - (4 - 0 + (3 - 0) + 1) := by
  refine ⟨by constructor <;> decide, by decide, by decide, by decide, by decide, by decide,
    by constructor <;> decide, by decide, by decide, by decide⟩

end claims_partition_index

/-! ## Partition: bounds that hold for every `size_t` size -/

section partition_general

open Finset

variable {BlockSize ItemsPerThread size number_of_blocks : Nat}

/-- The look-back prefix is an `offset_type` value. -/
theorem lookback_exclusive_prefix_sum_lt (reduction : Nat → Nat) (block_id : Nat) :
    lookback_exclusive_prefix_sum reduction block_id < 4294967296 := by
  unfold lookback_exclusive_prefix_sum
  cases block_id with
  | zero => simp
  | succ b =>
    rw [List.range_succ, List.foldl_append]
    simp only [List.foldl_cons, List.foldl_nil]
    exact wrap32_lt _

/-- The exclusive scan under `plus<offset_type>` from an `offset_type` value: the sum
modulo `2^32`. -/
theorem block_exclusive_scan_plus32_wrap (values : Nat → Nat) (init j : Nat)
    (hinit : init < 4294967296) :
    block_exclusive_scan plus32 init values j = wrap32 (init + ∑ i ∈ range j, values i) := by
  induction j with
  | zero =>
    simp only [block_exclusive_scan, range_zero, sum_empty, Nat.add_zero]
    exact (wrap32_of_lt hinit).symm
  | succ j ih =>
    rw [block_exclusive_scan, ih, sum_range_succ]
    unfold plus32 wrap32
    omega

/-- The block reduction of the flags is the number of flags the block holds, for every
size. -/
theorem partition_selected_in_block_count
    (hB : 0 < BlockSize) (hI : 0 < ItemsPerThread)
    (hn32 : BlockSize * ItemsPerThread < 4294967296)
    (flags : Nat → Bool) (size number_of_blocks b : Nat) :
    partition_selected_in_block BlockSize ItemsPerThread flags size number_of_blocks b
      = Nat.count (fun j => partition_is_selected BlockSize ItemsPerThread flags size
          number_of_blocks b j = true) (BlockSize * ItemsPerThread) := by
  have hpos : 0 < BlockSize * ItemsPerThread := Nat.mul_pos hB hI
  have hle := Nat.count_le (p := fun j => partition_is_selected BlockSize ItemsPerThread
    flags size number_of_blocks b j = true) (n := BlockSize * ItemsPerThread)
  unfold partition_selected_in_block
  rw [last_item_eq hB hI, block_inclusive_scan_plus32]
  · rw [Nat.sub_add_cancel hpos, ← count_eq_sum]
  · rw [Nat.sub_add_cancel hpos, ← count_eq_sum]
    omega

/-- The shared-memory index of the first scatter loop is the tile position, for every
`offset_type` prefix: the prefix cancels modulo `2^32`. -/
theorem partition_scatter_index_tile
    (hn32 : BlockSize * ItemsPerThread < 4294967296)
    (sel : Nat → Bool) (selected_prefix_sum : Nat) (hP : selected_prefix_sum < 4294967296)
    {t i : Nat} (ht : t < BlockSize) (hi : i < ItemsPerThread) :
    partition_scatter_index ItemsPerThread sel
        (block_exclusive_scan plus32 selected_prefix_sum
          (fun j => if sel j then 1 else 0))
        selected_prefix_sum
        (Nat.count (fun j => sel j = true) (BlockSize * ItemsPerThread)) t i
      = tile_position sel (Nat.count (fun j => sel j = true) (BlockSize * ItemsPerThread))
          (t * ItemsPerThread + i) := by
  have hj : t * ItemsPerThread + i < BlockSize * ItemsPerThread := by
    have : (t + 1) * ItemsPerThread ≤ BlockSize * ItemsPerThread :=
      Nat.mul_le_mul_right _ ht
    rw [Nat.succ_mul] at this
    omega
  have hcle := Nat.count_le (p := fun q => sel q = true) (n := t * ItemsPerThread + i)
  have hf1 := count_true_add_false sel (t * ItemsPerThread + i)
  have hf2 := count_true_add_false sel (BlockSize * ItemsPerThread)
  have hmono := Nat.count_monotone (fun q => sel q = false) (le_of_lt hj)
  have e1 : wrap32 (wrap32 (t * ItemsPerThread) + i) = t * ItemsPerThread + i := by
    rw [wrap32_of_lt (show t * ItemsPerThread < 4294967296 by omega)]
    exact wrap32_of_lt (by omega)
  have e0 : sub32 (wrap32 (selected_prefix_sum
        + Nat.count (fun q => sel q = true) (t * ItemsPerThread + i))) selected_prefix_sum
      = Nat.count (fun q => sel q = true) (t * ItemsPerThread + i) := by
    unfold sub32 wrap32
    omega
  unfold partition_scatter_index tile_position
  dsimp only
  rw [block_exclusive_scan_plus32_wrap _ _ _ hP, ← count_eq_sum, e0, e1,
    sub32_of_le hcle (by omega), wrap32_of_lt (by omega)]
  split
  · rfl
  · omega

/-- A tile whose items at or after `valid` are not selected keeps its first `valid`
items in the first `valid` positions of the exchange storage. -/
theorem tile_position_below_valid (sel : Nat → Bool) (valid n : Nat)
    (hsel : ∀ j, valid ≤ j → sel j = false) {j : Nat} (hj : j < n) :
    tile_position sel (Nat.count (fun q => sel q = true) n) j < valid ↔ j < valid := by
  rcases Nat.lt_or_ge valid n with hv | hv
  · have hcongr : ∀ m, Nat.count (fun q => sel q = true) m
        = Nat.count (fun q => valid_flag sel valid (0 + q) = true) m := by
      intro m
      apply count_congr_lt
      intro q _
      rw [Nat.zero_add]
      rcases Nat.lt_or_ge q valid with hq | hq
      · rw [valid_flag_of_lt sel hq]
      · rw [valid_flag_of_ge sel hq, hsel q hq]
    have hpos : tile_position sel (Nat.count (fun q => sel q = true) n) j
        = tile_position (fun q => valid_flag sel valid (0 + q))
            (Nat.count (fun q => valid_flag sel valid (0 + q) = true) n) j := by
      unfold tile_position
      rw [hcongr n, hcongr j]
      have hsj : sel j = valid_flag sel valid (0 + j) := by
        rw [Nat.zero_add]
        rcases Nat.lt_or_ge j valid with hq | hq
        · rw [valid_flag_of_lt sel hq]
        · rw [valid_flag_of_ge sel hq, hsel j hq]
      rw [hsj]
    have := tile_position_valid sel valid 0 n hj
    rw [hpos]
    omega
  · have := tile_position_lt sel hj
    omega

/-- The `valid_in_last_block` of a launch on fewer than `2^32` items. -/
theorem valid_in_last_block_small
    (h : partition_launch BlockSize ItemsPerThread size number_of_blocks)
    (hn32 : BlockSize * ItemsPerThread < 4294967296) (hN32 : size < 4294967296) :
    valid_in_last_block BlockSize ItemsPerThread size number_of_blocks
      = size - (number_of_blocks - 1) * (BlockSize * ItemsPerThread)
    ∧ sub32 number_of_blocks 1 = number_of_blocks - 1 := by
  have h3 := h.grid_pos
  have h5 := h.blocks_lo
  have h7 : (number_of_blocks - 1) * 1 ≤ (number_of_blocks - 1) * (BlockSize * ItemsPerThread) :=
    Nat.mul_le_mul_left _ h.tile_pos
  have hs : sub32 number_of_blocks 1 = number_of_blocks - 1 :=
    sub32_of_le (by omega) (by omega)
  refine ⟨?_, hs⟩
  unfold valid_in_last_block
  rw [wrap32_of_lt hn32, hs, Nat.mul_comm (BlockSize * ItemsPerThread),
    wrap32_of_lt (show (number_of_blocks - 1) * (BlockSize * ItemsPerThread) < 4294967296
      by omega),
    sub64_of_le (by omega) (by omega)]

/-- The offset of a block of a launch on fewer than `2^32` items. -/
theorem partition_block_offset_small
    (h : partition_launch BlockSize ItemsPerThread size number_of_blocks)
    (hn32 : BlockSize * ItemsPerThread < 4294967296) (hN32 : size < 4294967296)
    {b : Nat} (hb : b < number_of_blocks) :
    b * (BlockSize * ItemsPerThread) < size
    ∧ wrap32 (b * wrap32 (BlockSize * ItemsPerThread)) = b * (BlockSize * ItemsPerThread) := by
  have h5 := h.blocks_lo
  have h7 : b * (BlockSize * ItemsPerThread)
      ≤ (number_of_blocks - 1) * (BlockSize * ItemsPerThread) :=
    Nat.mul_le_mul_right _ (by omega)
  refine ⟨by omega, ?_⟩
  rw [wrap32_of_lt hn32]
  exact wrap32_of_lt (by omega)

/-- The flags a block loads, in a launch on fewer than `2^32` items. -/
theorem partition_is_selected_small
    (h : partition_launch BlockSize ItemsPerThread size number_of_blocks)
    (hn32 : BlockSize * ItemsPerThread < 4294967296) (hN32 : size < 4294967296)
    (flags : Nat → Bool) {b j : Nat} (hb : b < number_of_blocks)
    (hj : j < BlockSize * ItemsPerThread) :
    partition_is_selected BlockSize ItemsPerThread flags size number_of_blocks b j
      = valid_flag flags size (b * (BlockSize * ItemsPerThread) + j) := by
  have h3 := h.grid_pos
  have h5 := h.blocks_lo
  obtain ⟨hv, hs⟩ := valid_in_last_block_small h hn32 hN32
  obtain ⟨_, ho⟩ := partition_block_offset_small h hn32 hN32 hb
  unfold partition_is_selected valid_flag
  rw [ho, hs, hv]
  split
  · rename_i hlast
    unfold block_load_default
    subst hlast
    by_cases hvj : j < size - (number_of_blocks - 1) * (BlockSize * ItemsPerThread)
    · rw [if_pos hvj]
      have : decide ((number_of_blocks - 1) * (BlockSize * ItemsPerThread) + j < size)
          = true := decide_eq_true (by omega)
      rw [this]; rfl
    · rw [if_neg hvj]
      have : decide ((number_of_blocks - 1) * (BlockSize * ItemsPerThread) + j < size)
          = false := decide_eq_false (by omega)
      rw [this]; rfl
  · rename_i hlast
    have := h.inner_le (b := b) (by omega)
    unfold block_load
    have : decide (b * (BlockSize * ItemsPerThread) + j < size) = true :=
      decide_eq_true (by omega)
    rw [this]; rfl

/-- The block reduction of a launch on fewer than `2^32` items. -/
theorem partition_selected_in_block_small
    (h : partition_launch BlockSize ItemsPerThread size number_of_blocks)
    (hn32 : BlockSize * ItemsPerThread < 4294967296) (hN32 : size < 4294967296)
    (flags : Nat → Bool) {b : Nat} (hb : b < number_of_blocks) :
    partition_selected_in_block BlockSize ItemsPerThread flags size number_of_blocks b
      = Nat.count (fun j => valid_flag flags size
          (b * (BlockSize * ItemsPerThread) + j) = true) (BlockSize * ItemsPerThread) := by
  rw [partition_selected_in_block_count h.block_pos h.items_pos hn32]
  exact count_congr_lt _ _ _ (fun q hq => partition_is_selected_small h hn32 hN32 flags hb hq)

/-- The look-back prefix of a launch on fewer than `2^32` items. -/
theorem partition_lookback_small
    (h : partition_launch BlockSize ItemsPerThread size number_of_blocks)
    (hn32 : BlockSize * ItemsPerThread < 4294967296) (hN32 : size < 4294967296)
    (flags : Nat → Bool) {b : Nat} (hb : b ≤ number_of_blocks) :
    partition_lookback BlockSize ItemsPerThread flags size number_of_blocks b
      = Nat.count (fun q => valid_flag flags size q = true)
          (b * (BlockSize * ItemsPerThread)) := by
  unfold partition_lookback lookback_exclusive_prefix_sum
  induction b with
  | zero => simp
  | succ b ih =>
    rw [List.range_succ, List.foldl_append, ih (by omega)]
    simp only [List.foldl_cons, List.foldl_nil]
    rw [partition_selected_in_block_small h hn32 hN32 flags (by omega), Nat.succ_mul,
      Nat.count_add]
    unfold plus32
    apply wrap32_of_lt
    have := count_valid_flag_le flags size
      (b * (BlockSize * ItemsPerThread) + BlockSize * ItemsPerThread)
    rw [Nat.count_add] at this
    omega

/-- The guard of the global store, in a launch on fewer than `2^32` items. -/
theorem partition_guard_small
    (h : partition_launch BlockSize ItemsPerThread size number_of_blocks)
    (hn32 : BlockSize * ItemsPerThread < 4294967296) (hN32 : size < 4294967296)
    {b m : Nat} (hb : b < number_of_blocks) (hm : m < BlockSize * ItemsPerThread) :
    (b ≠ sub32 number_of_blocks 1
        ∨ m < valid_in_last_block BlockSize ItemsPerThread size number_of_blocks)
      ↔ b * (BlockSize * ItemsPerThread) + m < size := by
  have h3 := h.grid_pos
  have h5 := h.blocks_lo
  obtain ⟨hv, hs⟩ := valid_in_last_block_small h hn32 hN32
  rw [hv, hs]
  by_cases hlast : b = number_of_blocks - 1
  · subst hlast
    constructor
    · rintro (h1 | h1)
      · exact absurd rfl h1
      · omega
    · intro h1
      right; omega
  · have := h.inner_le (b := b) (by omega)
    constructor
    · intro _; omega
    · intro _; left; exact hlast

/-- The destination of a store that passes the guard is below `size`, and the
subtrahend of the rejected branch is at most `size`, for every `size_t` size. -/
theorem partition_output_index_lt
    (h : partition_launch BlockSize ItemsPerThread size number_of_blocks)
    (hn32 : BlockSize * ItemsPerThread < 4294967296)
    (flags : Nat → Bool) {b m : Nat} (hb : b < number_of_blocks)
    (hm : m < BlockSize * ItemsPerThread)
    (hguard : b ≠ sub32 number_of_blocks 1
      ∨ m < valid_in_last_block BlockSize ItemsPerThread size number_of_blocks) :
    partition_output_index size (wrap32 (BlockSize * ItemsPerThread)) b
        (if b = 0 then 0
          else partition_lookback BlockSize ItemsPerThread flags size number_of_blocks b)
        (partition_selected_in_block BlockSize ItemsPerThread flags size number_of_blocks b)
        m < size
    ∧ (partition_selected_in_block BlockSize ItemsPerThread flags size number_of_blocks b
        ≤ m →
      wrap32 (wrap32 (partition_rejected_prefix_sum (wrap32 (BlockSize * ItemsPerThread)) b
          (if b = 0 then 0
            else partition_lookback BlockSize ItemsPerThread flags size number_of_blocks b)
        + partition_rejected_item_index m
          (partition_selected_in_block BlockSize ItemsPerThread flags size number_of_blocks
            b)) + 1)
      ≤ size) := by
  rcases Nat.lt_or_ge size 4294967296 with hN32 | hN32
  · have hg := (partition_guard_small h hn32 hN32 hb hm).mp hguard
    obtain ⟨_, ho⟩ := partition_block_offset_small h hn32 hN32 hb
    have hP : (if b = 0 then 0
          else partition_lookback BlockSize ItemsPerThread flags size number_of_blocks b)
        = Nat.count (fun q => valid_flag flags size q = true)
            (b * (BlockSize * ItemsPerThread)) := by
      split
      · rename_i h0
        rw [h0]; simp
      · exact partition_lookback_small h hn32 hN32 flags (le_of_lt hb)
    have hS := partition_selected_in_block_small h hn32 hN32 flags hb
    have hPle := Nat.count_le (p := fun q => valid_flag flags size q = true)
      (n := b * (BlockSize * ItemsPerThread))
    have hPS := count_valid_flag_le flags size
      (b * (BlockSize * ItemsPerThread) + BlockSize * ItemsPerThread)
    rw [Nat.count_add] at hPS
    rw [hP, hS]
    generalize Nat.count (fun q => valid_flag flags size q = true)
      (b * (BlockSize * ItemsPerThread)) = P at hPle hPS ⊢
    generalize Nat.count (fun k => valid_flag flags size
      (b * (BlockSize * ItemsPerThread) + k) = true) (BlockSize * ItemsPerThread) = S
      at hPS ⊢
    unfold partition_rejected_prefix_sum partition_rejected_item_index
    rw [ho, sub32_of_le hPle (by omega)]
    rcases Nat.lt_or_ge m S with hlt | hge
    · refine ⟨?_, fun hge => absurd hge (by omega)⟩
      unfold partition_output_index
      dsimp only
      rw [if_pos hlt, wrap32_idem, wrap32_of_lt (by omega)]
      omega
    · rw [sub32_of_le hge (by omega),
        wrap32_of_lt (show b * (BlockSize * ItemsPerThread) - P + (m - S) < 4294967296
          by omega),
        wrap32_of_lt (show b * (BlockSize * ItemsPerThread) - P + (m - S) + 1 < 4294967296
          by omega)]
      refine ⟨?_, fun _ => by omega⟩
      unfold partition_output_index
      dsimp only
      rw [if_neg (by omega), ho, sub32_of_le hPle (by omega), sub32_of_le hge (by omega),
        wrap32_of_lt (show b * (BlockSize * ItemsPerThread) - P + (m - S) < 4294967296
          by omega),
        wrap32_of_lt (show b * (BlockSize * ItemsPerThread) - P + (m - S) + 1 < 4294967296
          by omega),
        sub64_of_le (by omega) (by omega), wrap32_of_lt (by omega)]
      omega
  · constructor
    · refine lt_of_lt_of_le ?_ hN32
      unfold partition_output_index
      dsimp only
      split <;> exact wrap32_lt _
    · exact fun _ => le_trans (le_of_lt (wrap32_lt _)) hN32

end partition_general

/-! ## Claims on the store bounds of `partition_flag_kernel_impl` -/

section claims_partition_bounds

variable {BlockSize ItemsPerThread size number_of_blocks : Nat}

/-- The selected prefix of a block is an `offset_type` value. -/
theorem partition_selected_prefix_lt (flags : Nat → Bool) (size number_of_blocks b : Nat) :
    (if b = 0 then 0
      else partition_lookback BlockSize ItemsPerThread flags size number_of_blocks b)
      < 4294967296 := by
  split
  · decide
  · exact lookback_exclusive_prefix_sum_lt _ _

/-- The shared-memory indices of the first scatter loop of a block, as tile positions. -/
theorem partition_scatter_index_position
    (hB : 0 < BlockSize) (hI : 0 < ItemsPerThread)
    (hn32 : BlockSize * ItemsPerThread < 4294967296)
    (flags : Nat → Bool) (size number_of_blocks b : Nat)
    {t i : Nat} (ht : t < BlockSize) (hi : i < ItemsPerThread) :
    partition_scatter_index ItemsPerThread
        (partition_is_selected BlockSize ItemsPerThread flags size number_of_blocks b)
        (block_exclusive_scan plus32
          (if b = 0 then 0
            else partition_lookback BlockSize ItemsPerThread flags size number_of_blocks b)
          (fun j => if partition_is_selected BlockSize ItemsPerThread flags size
            number_of_blocks b j then 1 else 0))
        (if b = 0 then 0
          else partition_lookback BlockSize ItemsPerThread flags size number_of_blocks b)
        (partition_selected_in_block BlockSize ItemsPerThread flags size number_of_blocks b)
        t i
      = tile_position
          (partition_is_selected BlockSize ItemsPerThread flags size number_of_blocks b)
          (Nat.count (fun j => partition_is_selected BlockSize ItemsPerThread flags size
            number_of_blocks b j = true) (BlockSize * ItemsPerThread))
          (t * ItemsPerThread + i) := by
  rw [partition_selected_in_block_count hB hI hn32]
  exact partition_scatter_index_tile hn32 _ _
    (partition_selected_prefix_lt flags size number_of_blocks b) ht hi

/-- C36 (partition store bounds). For every launch of `partition_flag_kernel_impl` on
`size ≥ 1` items with one block per tile of `items_per_block < 2^32` items, and every
block: every shared-memory scatter index of the first loop is below `items_per_block`;
the scatter indices of the first loop are a permutation of the positions of the tile;
an item is a valid one (in the last block: below `valid_in_last_block`) exactly when
the position it is put at passes the guard of the second loop, so the valid items lie
below the valid count; every global store of the block has a destination below `size`;
and for a store that passes the guard and takes the rejected branch
(`item_index ≥ selected_in_block`), the subtrahend
`rejected_prefix + rejected_item_index + 1` is at most `size`, so
`size - (rejected_prefix + rejected_item_index + 1)` does not underflow. -/
theorem partition_store_bounds {α : Type}
    (h : partition_launch BlockSize ItemsPerThread size number_of_blocks)
    (hn32 : BlockSize * ItemsPerThread < 4294967296)
    (input : Nat → α) (flags : Nat → Bool) (uninit shared : Nat → α)
    (flat_block_id : Nat) (hb : flat_block_id < number_of_blocks) :
    (∀ t i, t < BlockSize → i < ItemsPerThread →
      partition_scatter_index ItemsPerThread
          (partition_is_selected BlockSize ItemsPerThread flags size number_of_blocks
            flat_block_id)
          (block_exclusive_scan plus32
            (if flat_block_id = 0 then 0
              else partition_lookback BlockSize ItemsPerThread flags size number_of_blocks
                flat_block_id)
            (fun j => if partition_is_selected BlockSize ItemsPerThread flags size
              number_of_blocks flat_block_id j then 1 else 0))
          (if flat_block_id = 0 then 0
            else partition_lookback BlockSize ItemsPerThread flags size number_of_blocks
              flat_block_id)
          (partition_selected_in_block BlockSize ItemsPerThread flags size number_of_blocks
            flat_block_id)
          t i < BlockSize * ItemsPerThread
      ∧ ((flat_block_id ≠ sub32 number_of_blocks 1
          ∨ partition_scatter_index ItemsPerThread
              (partition_is_selected BlockSize ItemsPerThread flags size number_of_blocks
                flat_block_id)
              (block_exclusive_scan plus32
                (if flat_block_id = 0 then 0
                  else partition_lookback BlockSize ItemsPerThread flags size
                    number_of_blocks flat_block_id)
                (fun j => if partition_is_selected BlockSize ItemsPerThread flags size
                  number_of_blocks flat_block_id j then 1 else 0))
              (if flat_block_id = 0 then 0
                else partition_lookback BlockSize ItemsPerThread flags size number_of_blocks
                  flat_block_id)
              (partition_selected_in_block BlockSize ItemsPerThread flags size
                number_of_blocks flat_block_id)
              t i
            < valid_in_last_block BlockSize ItemsPerThread size number_of_blocks)
        ↔ (flat_block_id ≠ sub32 number_of_blocks 1
          ∨ t * ItemsPerThread + i
            < valid_in_last_block BlockSize ItemsPerThread size number_of_blocks)))
    ∧ ((List.range BlockSize).flatMap (fun t =>
        (List.range ItemsPerThread).map (fun i =>
          partition_scatter_index ItemsPerThread
            (partition_is_selected BlockSize ItemsPerThread flags size number_of_blocks
              flat_block_id)
            (block_exclusive_scan plus32
              (if flat_block_id = 0 then 0
                else partition_lookback BlockSize ItemsPerThread flags size number_of_blocks
                  flat_block_id)
              (fun j => if partition_is_selected BlockSize ItemsPerThread flags size
                number_of_blocks flat_block_id j then 1 else 0))
            (if flat_block_id = 0 then 0
              else partition_lookback BlockSize ItemsPerThread flags size number_of_blocks
                flat_block_id)
            (partition_selected_in_block BlockSize ItemsPerThread flags size
              number_of_blocks flat_block_id)
            t i))).Perm (List.range (BlockSize * ItemsPerThread))
    ∧ (∀ w, w ∈ (partition_flag_kernel_impl BlockSize ItemsPerThread input flags uninit
          shared size number_of_blocks
          (partition_lookback BlockSize ItemsPerThread flags size number_of_blocks
            flat_block_id) flat_block_id).output_stores →
        w.1 < size)
    ∧ (∀ item_index, item_index < BlockSize * ItemsPerThread →
      (flat_block_id ≠ sub32 number_of_blocks 1
        ∨ item_index
          < valid_in_last_block BlockSize ItemsPerThread size number_of_blocks) →
      partition_selected_in_block BlockSize ItemsPerThread flags size number_of_blocks
          flat_block_id ≤ item_index →
      wrap32 (wrap32 (partition_rejected_prefix_sum (wrap32 (BlockSize * ItemsPerThread))
            flat_block_id
            (if flat_block_id = 0 then 0
              else partition_lookback BlockSize ItemsPerThread flags size number_of_blocks
                flat_block_id)
          + partition_rejected_item_index item_index
            (partition_selected_in_block BlockSize ItemsPerThread flags size
              number_of_blocks flat_block_id)) + 1)
        ≤ size) := by
  have hB := h.block_pos
  have hI := h.items_pos
  have hpos : ∀ t i, t < BlockSize → i < ItemsPerThread →
      t * ItemsPerThread + i < BlockSize * ItemsPerThread := by
    intro t i ht hi
    have : (t + 1) * ItemsPerThread ≤ BlockSize * ItemsPerThread :=
      Nat.mul_le_mul_right _ ht
    rw [Nat.succ_mul] at this
    omega
  refine ⟨?_, ?_, ?_, ?_⟩
  · intro t i ht hi
    rw [partition_scatter_index_position hB hI hn32 flags size number_of_blocks
      flat_block_id ht hi]
    refine ⟨tile_position_lt _ (hpos t i ht hi), ?_⟩
    by_cases hlast : flat_block_id = sub32 number_of_blocks 1
    · have hsel : ∀ j, valid_in_last_block BlockSize ItemsPerThread size number_of_blocks
            ≤ j →
          partition_is_selected BlockSize ItemsPerThread flags size number_of_blocks
            flat_block_id j = false := by
        intro j hj
        unfold partition_is_selected
        rw [if_pos hlast]
        unfold block_load_default
        rw [if_neg (by omega)]
      have hiff := tile_position_below_valid _
        (valid_in_last_block BlockSize ItemsPerThread size number_of_blocks)
        (BlockSize * ItemsPerThread) hsel (hpos t i ht hi)
      constructor
      · rintro (h1 | h1)
        · exact absurd hlast h1
        · exact Or.inr (hiff.mp h1)
      · rintro (h1 | h1)
        · exact absurd hlast h1
        · exact Or.inr (hiff.mpr h1)
    · exact ⟨fun _ => Or.inl hlast, fun _ => Or.inl hlast⟩
  · have hlist : (List.range BlockSize).flatMap (fun t =>
        (List.range ItemsPerThread).map (fun i =>
          partition_scatter_index ItemsPerThread
            (partition_is_selected BlockSize ItemsPerThread flags size number_of_blocks
              flat_block_id)
            (block_exclusive_scan plus32
              (if flat_block_id = 0 then 0
                else partition_lookback BlockSize ItemsPerThread flags size number_of_blocks
                  flat_block_id)
              (fun j => if partition_is_selected BlockSize ItemsPerThread flags size
                number_of_blocks flat_block_id j then 1 else 0))
            (if flat_block_id = 0 then 0
              else partition_lookback BlockSize ItemsPerThread flags size number_of_blocks
                flat_block_id)
            (partition_selected_in_block BlockSize ItemsPerThread flags size
              number_of_blocks flat_block_id)
            t i))
        = (List.range (BlockSize * ItemsPerThread)).map
            (tile_position
              (partition_is_selected BlockSize ItemsPerThread flags size number_of_blocks
                flat_block_id)
              (Nat.count (fun j => partition_is_selected BlockSize ItemsPerThread flags
                size number_of_blocks flat_block_id j = true)
                (BlockSize * ItemsPerThread))) := by
      rw [← blocked_indices, List.map_flatMap]
      refine flatMap_congr_mem (fun t ht => ?_)
      rw [List.map_map]
      refine List.map_congr_left (fun i hi => ?_)
      exact partition_scatter_index_position hB hI hn32 flags size number_of_blocks
        flat_block_id (List.mem_range.mp ht) (List.mem_range.mp hi)
    rw [hlist]
    exact perm_range_of_inj _ _ (fun j hj => tile_position_lt _ hj)
      (fun j j' hj hj' he => tile_position_inj _ hj hj' he)
  · intro w hw
    unfold partition_flag_kernel_impl at hw
    dsimp only at hw
    obtain ⟨t, ht, hw⟩ := List.mem_flatMap.mp hw
    obtain ⟨i, hi, hw⟩ := List.mem_filterMap.mp hw
    have ht' := List.mem_range.mp ht
    have hi' := List.mem_range.mp hi
    have hm : i * BlockSize + t < BlockSize * ItemsPerThread := by
      have : (i + 1) * BlockSize ≤ ItemsPerThread * BlockSize :=
        Nat.mul_le_mul_right _ hi'
      rw [Nat.succ_mul, Nat.mul_comm ItemsPerThread] at this
      omega
    have e : wrap32 (wrap32 (i * BlockSize) + t) = i * BlockSize + t := by
      rw [wrap32_of_lt (show i * BlockSize < 4294967296 by omega)]
      exact wrap32_of_lt (by omega)
    rw [e] at hw
    split at hw
    · rename_i hguard
      simp only [Option.some.injEq] at hw
      rw [← hw]
      exact (partition_output_index_lt h hn32 flags hb hm hguard).1
    · simp at hw
  · intro m hm hguard hge
    exact (partition_output_index_lt h hn32 flags hb hm hguard).2 hge

/-- C36, witness: block `1` of the partition scenario (`[1,2,3,4,5,6]`, flags
`[0,1,0,1,0,1]`) in two blocks of `2 * 2` items, the last block holding two valid items:
item `3` of the tile is not a valid one and its position does not pass the guard; the
block stores the rejected item `5` at `output[3]`, below `6`, and the subtrahend of this
store, `2 + 0 + 1`, is at most `6`. -/
theorem partition_store_bounds_witness :
    partition_launch 2 2 6 2 ∧ 2 * 2 < 4294967296
    ∧ (partition_scatter_index 2
      (partition_is_selected 2 2 partition_scenario_flags 6 2 1)
      (block_exclusive_scan plus32
        (if 1 = 0 then 0 else partition_lookback 2 2 partition_scenario_flags 6 2 1)
        (fun j =>
                if partition_is_selected 2 2 partition_scenario_flags 6 2 1 j then 1 else 0))
      (if 1 = 0 then 0 else partition_lookback 2 2 partition_scenario_flags 6 2 1)
      (partition_selected_in_block 2 2 partition_scenario_flags 6 2 1) 1 1 < 2 * 2
      ∧ ((1 ≠ sub32 2 1
          ∨ partition_scatter_index 2
            (partition_is_selected 2 2 partition_scenario_flags 6 2 1)
            (block_exclusive_scan plus32
              (if 1 = 0 then 0 else partition_lookback 2 2 partition_scenario_flags 6 2 1)
              (fun j =>
                if partition_is_selected 2 2 partition_scenario_flags 6 2 1 j then 1 else 0))
            (if 1 = 0 then 0 else partition_lookback 2 2 partition_scenario_flags 6 2 1)
            (partition_selected_in_block 2 2 partition_scenario_flags 6 2 1) 1 1
            < valid_in_last_block 2 2 6 2)
        ↔ (1 ≠ sub32 2 1 ∨ 1 * 2 + 1 < valid_in_last_block 2 2 6 2)))
    ∧ ((List.range 2).flatMap (fun t => (List.range 2).map (fun i =>
        partition_scatter_index 2
          (partition_is_selected 2 2 partition_scenario_flags 6 2 1)
          (block_exclusive_scan plus32
            (if 1 = 0 then 0 else partition_lookback 2 2 partition_scenario_flags 6 2 1)
            (fun j =>
                if partition_is_selected 2 2 partition_scenario_flags 6 2 1 j then 1 else 0))
          (if 1 = 0 then 0 else partition_lookback 2 2 partition_scenario_flags 6 2 1)
          (partition_selected_in_block 2 2 partition_scenario_flags 6 2 1) t i))).Perm
        (List.range (2 * 2))
    ∧ (3, 5) ∈ (partition_flag_kernel_impl 2 2 partition_scenario_input partition_scenario_flags
        (fun _ => 0) (fun _ => 0) 6 2 (partition_lookback 2 2 partition_scenario_flags 6 2 1)
        1).output_stores
    ∧ ((3, 5) : Nat × Nat).1 < 6
    ∧ wrap32 (wrap32 (partition_rejected_prefix_sum (wrap32 (2 * 2)) 1
          (if 1 = 0 then 0 else partition_lookback 2 2 partition_scenario_flags 6 2 1)
        + partition_rejected_item_index 1
          (partition_selected_in_block 2 2 partition_scenario_flags 6 2 1)) + 1)
      ≤ 6 :=
  ⟨⟨by decide, by decide, by decide, by decide, by decide⟩, by decide,
    (partition_store_bounds
      (show partition_launch 2 2 6 2 from
        ⟨by decide, by decide, by decide, by decide, by decide⟩)
      (by decide) partition_scenario_input partition_scenario_flags (fun _ => 0) (fun _ => 0) 1
      (by decide)).1 1 1 (by decide) (by decide),
    (partition_store_bounds
      (show partition_launch 2 2 6 2 from
        ⟨by decide, by decide, by decide, by decide, by decide⟩)
      (by decide) partition_scenario_input partition_scenario_flags (fun _ => 0) (fun _ => 0) 1
      (by decide)).2.1,
    by decide,
    (partition_store_bounds
      (show partition_launch 2 2 6 2 from
        ⟨by decide, by decide, by decide, by decide, by decide⟩)
      (by decide) partition_scenario_input partition_scenario_flags (fun _ => 0) (fun _ => 0) 1
      (by decide)).2.2.1 (3, 5) (by decide),
    (partition_store_bounds
      (show partition_launch 2 2 6 2 from
        ⟨by decide, by decide, by decide, by decide, by decide⟩)
      (by decide) partition_scenario_input partition_scenario_flags (fun _ => 0) (fun _ => 0) 1
      (by decide)).2.2.2 1 (by decide) (by decide) (by decide)⟩

end claims_partition_bounds
end RocPrim
